import Mathlib

/-!
# TRIM coordinator of `module/zfs/vdev_trim.c`

A shallow embedding of the manual TRIM and autotrim code of `vdev_trim.c`, and
of the share list of `lib/libshare/smb.c`.

* `uint64_t` values are natural numbers; arithmetic that can wrap is written
  with an explicit `% 2 ^ 64`.
* One leaf vdev is followed at a time.  `spa_t` below is the part of the pool
  that the TRIM code of that leaf reads or writes: the leaf itself, its leaf
  ZAP, the sync tasks registered with `dsl_sync_task_nowait`, the sysevents
  posted, the TRIM zios submitted and the TRIM iostats.
* Other threads (zio completion, txg sync, administrative calls, device
  faults) act on the leaf only at the points where the worker sleeps or takes
  a lock; they are given to the model as explicit scripts of
  `trim_interference` steps.
* The rate gate of `vdev_trim_range` only sleeps: it changes no field of the
  leaf, so the model passes through it, and `trim_start_time` and
  `trim_bytes_done` of `trim_args_t`, which only that gate reads, are left out.
* Mutexes, condition variables and the config lock are not state of the model:
  a function that would sleep for ever in the given environment, and a
  function that panics (`VERIFY`, `panic`), has the value `none`.
* `TRIM_TYPE_MANUAL` is index 0 and `TRIM_TYPE_AUTO` index 1 of
  `vdev_trim_inflight`, as the two workers use them.
* The autotrim worker of a top-level vdev is followed on the vdev and its
  children, each with the pool state around it; what the worker hands to the
  allocator and to the scheduler (`metaslab_enable`, `delay`) and what its
  calls of `vdev_trim_ranges` return is kept as a list of events.
* The global `smb_shares` of `smb.c` is a list of shares in the order of the
  `next` pointers; the child process that `smb_retrieve_shares` reads from is
  outside the model, and the list it yields is given to the function.

The definitions come first, the lemmas and the theorems on the claims after
them.
-/

namespace VdevTrim

/-! ## Machine integers and header constants -/

/-- Value of `UINT64_MAX`. -/
def UINT64_MAX : Nat := 18446744073709551615

/-- Wrapping `uint64_t` addition. -/
def u64_add (a b : Nat) : Nat := (a + b) % 18446744073709551616

/-- Wrapping `uint64_t` subtraction of two values below `2 ^ 64`. -/
def u64_sub (a b : Nat) : Nat := (a + 18446744073709551616 - b) % 18446744073709551616

/-- Wrapping `uint64_t` multiplication. -/
def u64_mul (a b : Nat) : Nat := (a * b) % 18446744073709551616

/-- Modelled from the spec: the error `Interrupted` that `vdev_trim_range`
returns when the leaf should stop, `EINTR` of the system headers. -/
def EINTR : Nat := 4

/-- Modelled from the spec: the error `NoSuchDevice` of a TRIM zio issued to a
device that has gone away, `ENXIO` of the system headers. -/
def ENXIO : Nat := 6

/-- Modelled from the spec: the error `NotFound` of `zap_lookup` for a key that
is not in the ZAP, `ENOENT` of the system headers. -/
def ENOENT : Nat := 2

/-- Modelled from the spec: the one flag of `enum trim_flag`, which asks for a
secure TRIM. -/
def ZIO_TRIM_SECURE : Nat := 1

/-- Module parameters of `vdev_trim.c` together with the header constants the
file uses but does not define (`VDEV_LABEL_START_SIZE`, `SPA_MINBLOCKSIZE`,
`TXG_MASK`), which are taken as parameters. -/
structure zfs_params where
  zfs_trim_extent_bytes_max : Nat
  zfs_trim_extent_bytes_min : Nat
  zfs_trim_queue_limit : Nat
  zfs_trim_txg_batch : Int
  VDEV_LABEL_START_SIZE : Nat
  SPA_MINBLOCKSIZE : Nat
  TXG_MASK : Nat

/-- The initial values the module gives its four tunables, for given header
constants. -/
def zfs_params_default (label minblock mask : Nat) : zfs_params :=
  { zfs_trim_extent_bytes_max := 128 * 1024 * 1024
    zfs_trim_extent_bytes_min := 32 * 1024
    zfs_trim_queue_limit := 10
    zfs_trim_txg_batch := 32
    VDEV_LABEL_START_SIZE := label
    SPA_MINBLOCKSIZE := minblock
    TXG_MASK := mask }

/-! ## Data model -/

/-- The two kinds of TRIM job, `trim_type_t`. -/
inductive trim_type_t where
  | TRIM_TYPE_MANUAL
  | TRIM_TYPE_AUTO
  deriving DecidableEq

/-- Manual TRIM state of a leaf, `vdev_trim_state_t`. -/
inductive vdev_trim_state_t where
  | VDEV_TRIM_NONE
  | VDEV_TRIM_ACTIVE
  | VDEV_TRIM_CANCELED
  | VDEV_TRIM_SUSPENDED
  | VDEV_TRIM_COMPLETE
  deriving DecidableEq

open trim_type_t vdev_trim_state_t

/-- A segment `[rs_start, rs_end)` of a range tree. -/
structure range_seg_t where
  rs_start : Nat
  rs_end : Nat
  deriving DecidableEq

/-- The fields of `trim_args_t` that the code outside the rate gate uses.
`trim_tree` lists the segments of the range tree in AVL (ascending) order. -/
structure trim_args_t where
  trim_tree : List range_seg_t
  trim_type : trim_type_t
  trim_extent_bytes_max : Nat
  trim_extent_bytes_min : Nat
  trim_flags : Nat

/-- The TRIM fields of a leaf `vdev_t`, with the predicates the code asks of it
(`vdev_writeable`, `vdev_is_concrete`, `vdev_top->vdev_removing`, whether
`vdev_top->vdev_ops` is `vdev_raidz_ops`, `vdev_top->vdev_children`) and the
translation `vdev_xlate` of a logical range of the top-level vdev to the
physical range on this leaf. `vdev_trim_action_time` is a `time_t`, which is
signed in the source; it holds a value of `gethrestime_sec()` or a timestamp
read back from the ZAP and is taken here as not negative, so that the test
`vdev_trim_action_time > 0` is the test for a non-zero value. -/
structure vdev_t where
  vdev_guid : Nat
  vdev_leaf_zap : Nat
  vdev_trim_state : vdev_trim_state_t
  vdev_trim_action_time : Nat
  vdev_trim_last_offset : Nat
  vdev_trim_rate : Nat
  vdev_trim_partial : Nat
  vdev_trim_secure : Nat
  vdev_trim_offset : Nat → Nat
  vdev_trim_inflight : trim_type_t → Nat
  vdev_trim_exit_wanted : Bool
  vdev_trim_thread : Bool
  vdev_trim_bytes_done : Nat
  vdev_trim_bytes_est : Nat
  vs_trim_errors : Nat
  vdev_detached : Bool
  vdev_offline : Bool
  vdev_writeable : Bool
  vdev_is_concrete : Bool
  vdev_top_removing : Bool
  vdev_top_raidz : Bool
  vdev_top_children : Nat
  vdev_xlate : range_seg_t → range_seg_t

/-- The six TRIM keys of a leaf ZAP; `none` is a key that is not stored. -/
structure leaf_zap_t where
  VDEV_LEAF_ZAP_TRIM_LAST_OFFSET : Option Nat
  VDEV_LEAF_ZAP_TRIM_RATE : Option Nat
  VDEV_LEAF_ZAP_TRIM_PARTIAL : Option Nat
  VDEV_LEAF_ZAP_TRIM_SECURE : Option Nat
  VDEV_LEAF_ZAP_TRIM_STATE : Option vdev_trim_state_t
  VDEV_LEAF_ZAP_TRIM_ACTION_TIME : Option Nat
  deriving DecidableEq

/-- Sysevents posted by `vdev_trim_change_state`; the history entry it logs
next to each of them is not followed. -/
inductive trim_event_t where
  | ESC_ZFS_TRIM_START
  | ESC_ZFS_TRIM_RESUME
  | ESC_ZFS_TRIM_SUSPEND
  | ESC_ZFS_TRIM_CANCEL
  | ESC_ZFS_TRIM_FINISH
  deriving DecidableEq

/-- A TRIM zio as `zio_trim` creates it; `io_done` records that its callback
has run. -/
structure zio_t where
  io_offset : Nat
  io_orig_size : Nat
  io_txg : Nat
  io_trim_type : trim_type_t
  io_trim_flags : Nat
  io_done : Bool
  deriving DecidableEq

/-- The counters `spa_iostats_trim_add` keeps for one TRIM type. -/
structure trim_iostat_t where
  extents_written : Nat
  bytes_written : Nat
  extents_skipped : Nat
  bytes_skipped : Nat
  extents_failed : Nat
  bytes_failed : Nat
  deriving DecidableEq

/-- A sync task registered by `dsl_sync_task_nowait` with
`vdev_trim_zap_update_sync`: the txg it is bound to and the guid it carries. -/
structure sync_task_t where
  st_txg : Nat
  st_guid : Nat
  deriving DecidableEq

/-- The fields of a `metaslab_t` the TRIM code uses. `ms_sm` says that the
space map pointer is not `NULL`; `ms_allocated_space` is the value of
`metaslab_allocated_space`. The range trees list their segments in ascending
order. -/
structure metaslab_t where
  ms_start : Nat
  ms_size : Nat
  ms_sm : Bool
  ms_allocated_space : Nat
  ms_allocatable : List range_seg_t
  ms_trim : List range_seg_t
  ms_disabled : Nat
  deriving DecidableEq

/-- The keys of the leaf ZAP that `vdev_trim_load` looks up. -/
inductive zap_key_t where
  | LAST_OFFSET
  | RATE
  | PARTIAL
  | SECURE
  deriving DecidableEq

/-- The part of the pool the TRIM code of one leaf works on. `vdev_freed` says
that `spa_lookup_by_guid` no longer finds the leaf. `zap_fault` gives, for
each key, the errno with which `zap_lookup` fails on it (0: the lookup works).
`vdev_ms` is the metaslab array of the top-level vdev. `trim_calls` lists the
`(start, size)` arguments of the calls of `vdev_trim_range`, oldest first. -/
structure spa_t where
  vd : vdev_t
  vdev_freed : Bool
  zap : leaf_zap_t
  zap_fault : zap_key_t → Nat
  vdev_ms : List metaslab_t
  sync_tasks : List sync_task_t
  events : List trim_event_t
  zios : List zio_t
  iostats : trim_type_t → trim_iostat_t
  trim_calls : List (Nat × Nat)

/-! ## Progress store -/

/-- Modelled from the spec: `spa_iostats_trim_add(pool, type, ok, ok_bytes,
skipped, skipped_bytes, failed, failed_bytes)`, which lives outside
`vdev_trim.c`; it adds its six arguments to the six counters of the type. -/
def spa_iostats_trim_add (spa : spa_t) (type : trim_type_t)
    (ok ok_bytes skipped skipped_bytes failed failed_bytes : Nat) : spa_t :=
  { spa with
    iostats := Function.update spa.iostats type
      { extents_written := (spa.iostats type).extents_written + ok
        bytes_written := (spa.iostats type).bytes_written + ok_bytes
        extents_skipped := (spa.iostats type).extents_skipped + skipped
        bytes_skipped := (spa.iostats type).bytes_skipped + skipped_bytes
        extents_failed := (spa.iostats type).extents_failed + failed
        bytes_failed := (spa.iostats type).bytes_failed + failed_bytes } }

/-- The test `vdev_trim_should_stop`. -/
def vdev_trim_should_stop (vd : vdev_t) : Bool :=
  vd.vdev_trim_exit_wanted || !vd.vdev_writeable ||
    vd.vdev_detached || vd.vdev_top_removing

/-- The sync task `vdev_trim_zap_update_sync`, run for `guid` in `txg`. A guid
other than that of the leaf followed is a task of another leaf and leaves this
one alone. `none` is the failed `VERIFY3U(vd->vdev_leaf_zap, !=, 0)`. -/
def vdev_trim_zap_update_sync (P : zfs_params) (guid txg : Nat) (spa : spa_t) :
    Option spa_t :=
  if spa.vdev_freed || guid != spa.vd.vdev_guid || spa.vd.vdev_top_removing ||
      !spa.vd.vdev_is_concrete then
    some spa
  else
    let slot := Nat.land txg P.TXG_MASK
    let last_offset := spa.vd.vdev_trim_offset slot
    let vd1 : vdev_t := { spa.vd with
      vdev_trim_offset := Function.update spa.vd.vdev_trim_offset slot 0 }
    if spa.vd.vdev_leaf_zap = 0 then none
    else
      let write_offset : Bool :=
        decide (last_offset > 0) || decide (vd1.vdev_trim_last_offset = UINT64_MAX)
      let last_offset1 :=
        if vd1.vdev_trim_last_offset = UINT64_MAX then 0 else last_offset
      let vd2 :=
        if write_offset then { vd1 with vdev_trim_last_offset := last_offset1 } else vd1
      let zap1 :=
        if write_offset then
          { spa.zap with VDEV_LEAF_ZAP_TRIM_LAST_OFFSET := some last_offset1 }
        else spa.zap
      let zap2 :=
        if vd2.vdev_trim_action_time > 0 then
          { zap1 with VDEV_LEAF_ZAP_TRIM_ACTION_TIME := some vd2.vdev_trim_action_time }
        else zap1
      let zap3 :=
        if vd2.vdev_trim_rate > 0 then
          { zap2 with VDEV_LEAF_ZAP_TRIM_RATE := some vd2.vdev_trim_rate }
        else zap2
      let part := if vd2.vdev_trim_partial = UINT64_MAX then 0 else vd2.vdev_trim_partial
      let zap4 := { zap3 with VDEV_LEAF_ZAP_TRIM_PARTIAL := some part }
      let secure := if vd2.vdev_trim_secure = UINT64_MAX then 0 else vd2.vdev_trim_secure
      let zap5 := { zap4 with VDEV_LEAF_ZAP_TRIM_SECURE := some secure }
      let zap6 := { zap5 with VDEV_LEAF_ZAP_TRIM_STATE := some vd2.vdev_trim_state }
      some { spa with vd := vd2, zap := zap6 }

/-- Sysevent that `vdev_trim_change_state` posts for a new state; `none` is the
`default:` arm, which panics. -/
def vdev_trim_state_event (new_state : vdev_trim_state_t) (resumed : Bool) :
    Option trim_event_t :=
  match new_state with
  | VDEV_TRIM_ACTIVE =>
    some (if resumed then trim_event_t.ESC_ZFS_TRIM_RESUME
      else trim_event_t.ESC_ZFS_TRIM_START)
  | VDEV_TRIM_SUSPENDED => some trim_event_t.ESC_ZFS_TRIM_SUSPEND
  | VDEV_TRIM_CANCELED => some trim_event_t.ESC_ZFS_TRIM_CANCEL
  | VDEV_TRIM_COMPLETE => some trim_event_t.ESC_ZFS_TRIM_FINISH
  | VDEV_TRIM_NONE => none

/-- First assignment of `vdev_trim_change_state`: unless the leaf is leaving
`VDEV_TRIM_SUSPENDED`, `vdev_trim_action_time` becomes the clock `now`. -/
def change_state_action_time (vd : vdev_t) (now : Nat) : vdev_t :=
  if vd.vdev_trim_state ≠ VDEV_TRIM_SUSPENDED then
    { vd with vdev_trim_action_time := now }
  else vd

/-- On activation of a completed leaf the four settings become the sentinel
`UINT64_MAX`. -/
def change_state_reset (vd : vdev_t) : vdev_t :=
  if vd.vdev_trim_state = VDEV_TRIM_COMPLETE then
    { vd with
      vdev_trim_last_offset := UINT64_MAX
      vdev_trim_rate := UINT64_MAX
      vdev_trim_partial := UINT64_MAX
      vdev_trim_secure := UINT64_MAX }
  else vd

/-- On activation a non-zero `rate` is stored. -/
def change_state_rate (vd : vdev_t) (rate : Nat) : vdev_t :=
  if rate ≠ 0 then { vd with vdev_trim_rate := rate } else vd

/-- On activation a non-zero `partial` argument, here `part`, is stored. -/
def change_state_part (vd : vdev_t) (part : Nat) : vdev_t :=
  if part ≠ 0 then { vd with vdev_trim_partial := part } else vd

/-- On activation a non-zero `secure` is stored. -/
def change_state_secure (vd : vdev_t) (secure : Nat) : vdev_t :=
  if secure ≠ 0 then { vd with vdev_trim_secure := secure } else vd

/-- The assignments `vdev_trim_change_state` makes to the leaf once it has
found that the state changes, in the order of the source. `now` is the value
of `gethrestime_sec()` and `part` the argument the source calls `partial`. -/
def vdev_trim_change_state_vd (vd : vdev_t) (new_state : vdev_trim_state_t)
    (rate part secure : Nat) (now : Nat) : vdev_t :=
  let vd1 := change_state_action_time vd now
  let vd2 :=
    if new_state = VDEV_TRIM_ACTIVE then
      change_state_secure
        (change_state_part (change_state_rate (change_state_reset vd1) rate) part) secure
    else vd1
  { vd2 with vdev_trim_state := new_state }

/-- The function `vdev_trim_change_state`. `txg` is the txg that
`dmu_tx_assign` gives the tx the sync task is registered in. `none` is the
panic on an invalid state. -/
def vdev_trim_change_state (spa : spa_t) (new_state : vdev_trim_state_t)
    (rate part secure : Nat) (now txg : Nat) : Option spa_t :=
  if new_state = spa.vd.vdev_trim_state then some spa
  else
    let resumed : Bool := decide (spa.vd.vdev_trim_state = VDEV_TRIM_SUSPENDED)
    match vdev_trim_state_event new_state resumed with
    | none => none
    | some ev =>
      some { spa with
        vd := vdev_trim_change_state_vd spa.vd new_state rate part secure now
        sync_tasks := spa.sync_tasks ++ [{ st_txg := txg, st_guid := spa.vd.vdev_guid }]
        events := spa.events ++ [ev] }

/-! ## I/O governor -/

/-- The zio callback `vdev_trim_cb`, for a zio that ended with `io_error`. -/
def vdev_trim_cb (P : zfs_params) (zio : zio_t) (io_error : Nat) (spa : spa_t) : spa_t :=
  let vd := spa.vd
  let spa1 :=
    if io_error = ENXIO ∧ vd.vdev_writeable = false then
      let slot := Nat.land zio.io_txg P.TXG_MASK
      { spa with vd := { vd with
          vdev_trim_offset := Function.update vd.vdev_trim_offset slot
            (min (vd.vdev_trim_offset slot) zio.io_offset) } }
    else
      let spa2 :=
        if io_error ≠ 0 then
          spa_iostats_trim_add
            { spa with vd := { vd with vs_trim_errors := u64_add vd.vs_trim_errors 1 } }
            TRIM_TYPE_MANUAL 0 0 0 0 1 zio.io_orig_size
        else
          spa_iostats_trim_add spa TRIM_TYPE_MANUAL 1 zio.io_orig_size 0 0 0 0
      { spa2 with vd := { spa2.vd with
          vdev_trim_bytes_done := u64_add spa2.vd.vdev_trim_bytes_done zio.io_orig_size } }
  { spa1 with vd := { spa1.vd with
      vdev_trim_inflight := Function.update spa1.vd.vdev_trim_inflight TRIM_TYPE_MANUAL
        (u64_sub (spa1.vd.vdev_trim_inflight TRIM_TYPE_MANUAL) 1) } }

/-- The zio callback `vdev_autotrim_cb`. -/
def vdev_autotrim_cb (zio : zio_t) (io_error : Nat) (spa : spa_t) : spa_t :=
  let vd := spa.vd
  let spa1 :=
    if io_error ≠ 0 then
      spa_iostats_trim_add
        { spa with vd := { vd with vs_trim_errors := u64_add vd.vs_trim_errors 1 } }
        TRIM_TYPE_AUTO 0 0 0 0 1 zio.io_orig_size
    else
      spa_iostats_trim_add spa TRIM_TYPE_AUTO 1 zio.io_orig_size 0 0 0 0
  { spa1 with vd := { spa1.vd with
      vdev_trim_inflight := Function.update spa1.vd.vdev_trim_inflight TRIM_TYPE_AUTO
        (u64_sub (spa1.vd.vdev_trim_inflight TRIM_TYPE_AUTO) 1) } }

/-! ## Other threads -/

/-- The first part of `vdev_trim_stop`, up to the point where it waits for the
worker or queues the leaf: the guard, the state change and the raising of
`vdev_trim_exit_wanted`. -/
def vdev_trim_stop_request (spa : spa_t) (tgt_state : vdev_trim_state_t)
    (now txg : Nat) : Option spa_t :=
  if spa.vd.vdev_trim_thread = false ∧ tgt_state ≠ VDEV_TRIM_CANCELED then some spa
  else
    match vdev_trim_change_state spa tgt_state 0 0 0 now txg with
    | none => none
    | some spa1 => some { spa1 with vd := { spa1.vd with vdev_trim_exit_wanted := true } }

/-- Modelled from the spec: the issue path, which on completion of a TRIM zio
runs the callback the zio was created with, once. Here the `i`-th zio
submitted completes with error `io_error`. -/
def zio_done (P : zfs_params) (i io_error : Nat) (spa : spa_t) : spa_t :=
  match spa.zios[i]? with
  | none => spa
  | some zio =>
    if zio.io_done then spa
    else
      let spa1 := { spa with zios := spa.zios.set i { zio with io_done := true } }
      match zio.io_trim_type with
      | TRIM_TYPE_MANUAL => vdev_trim_cb P zio io_error spa1
      | TRIM_TYPE_AUTO => vdev_autotrim_cb zio io_error spa1

/-- Modelled from the spec: the txg engine. "Sync task: a closure scheduled to
run in the context of a specific future txg commit": when `txg` syncs, the
tasks registered for it run in the order they were registered and are gone. -/
def spa_sync (P : zfs_params) (txg : Nat) (spa : spa_t) : Option spa_t :=
  (spa.sync_tasks.filter (fun t => decide (t.st_txg = txg))).foldlM
    (fun s t => vdev_trim_zap_update_sync P t.st_guid t.st_txg s)
    { spa with sync_tasks := spa.sync_tasks.filter (fun t => !decide (t.st_txg = txg)) }

/-- What another thread can do to the leaf while the TRIM worker sleeps or is
between two locks. -/
inductive trim_interference where
  | io_done (i io_error : Nat)
  | txg_sync (txg : Nat)
  | set_writeable (b : Bool)
  | detach
  | top_removing
  | stop (tgt_state : vdev_trim_state_t) (now txg : Nat)

/-- Effect of one step of another thread. -/
def trim_interference.apply (P : zfs_params) (spa : spa_t) :
    trim_interference → Option spa_t
  | .io_done i io_error => some (zio_done P i io_error spa)
  | .txg_sync txg => spa_sync P txg spa
  | .set_writeable b => some { spa with vd := { spa.vd with vdev_writeable := b } }
  | .detach => some { spa with vd := { spa.vd with vdev_detached := true } }
  | .top_removing => some { spa with vd := { spa.vd with vdev_top_removing := true } }
  | .stop tgt_state now txg => vdev_trim_stop_request spa tgt_state now txg

/-- Effect of a script of steps of other threads, in order. -/
def trim_interfere (P : zfs_params) (script : List trim_interference) (spa : spa_t) :
    Option spa_t :=
  script.foldlM (fun s a => a.apply P s) spa

/-- What the rest of the system does during one call of `vdev_trim_range`:
`before` runs while the caller waits in the rate gate and the queue gate,
`txg` is the txg `dmu_tx_assign` gives the caller, and `during` runs between
the release of `vdev_trim_io_lock` and the taking of `vdev_trim_lock`. -/
structure trim_call_env where
  before : List trim_interference
  txg : Nat
  during : List trim_interference

/-- The part of `vdev_trim_range` that runs under `vdev_trim_lock`, from the
registration of the sync task to the return, for the txg `txg` of the call. -/
def vdev_trim_range_issue (P : zfs_params) (ta : trim_args_t) (start size txg : Nat)
    (spa : spa_t) : Nat × spa_t :=
  let slot := Nat.land txg P.TXG_MASK
  let spa1 :=
    if ta.trim_type = TRIM_TYPE_MANUAL ∧ spa.vd.vdev_trim_offset slot = 0 then
      { spa with sync_tasks :=
          spa.sync_tasks ++ [{ st_txg := txg, st_guid := spa.vd.vdev_guid }] }
    else spa
  if vdev_trim_should_stop spa1.vd then
    (EINTR, { spa1 with vd := { spa1.vd with
      vdev_trim_inflight := Function.update spa1.vd.vdev_trim_inflight ta.trim_type
        (u64_sub (spa1.vd.vdev_trim_inflight ta.trim_type) 1) } })
  else
    let spa2 :=
      if ta.trim_type = TRIM_TYPE_MANUAL then
        { spa1 with vd := { spa1.vd with
          vdev_trim_offset := Function.update spa1.vd.vdev_trim_offset slot
            (u64_add start size) } }
      else spa1
    (0, { spa2 with zios := spa2.zios ++
      [{ io_offset := start, io_orig_size := size, io_txg := txg,
         io_trim_type := ta.trim_type, io_trim_flags := ta.trim_flags,
         io_done := false }] })

/-- The queue gate of `vdev_trim_range` and the increment behind it, under
`vdev_trim_io_lock`. `none` is a caller that stays asleep in `cv_wait`. -/
def vdev_trim_range_gate (P : zfs_params) (ta : trim_args_t) (spa : spa_t) : Option spa_t :=
  if u64_add (spa.vd.vdev_trim_inflight TRIM_TYPE_MANUAL)
      (spa.vd.vdev_trim_inflight TRIM_TYPE_AUTO) ≥ P.zfs_trim_queue_limit then none
  else
    some { spa with vd := { spa.vd with
      vdev_trim_inflight := Function.update spa.vd.vdev_trim_inflight ta.trim_type
        (u64_add (spa.vd.vdev_trim_inflight ta.trim_type) 1) } }

/-- The function `vdev_trim_range`. The environment of the call is
`env n`, where `n` counts the calls made so far. The result is the errno and
the new state; `none` is a caller that is still asleep in the queue gate when
the script `before` is used up, or a panic of a step of another thread. -/
def vdev_trim_range (P : zfs_params) (env : Nat → trim_call_env) (ta : trim_args_t)
    (start size : Nat) (spa : spa_t) : Option (Nat × spa_t) :=
  let e := env spa.trim_calls.length
  match trim_interfere P e.before
      { spa with trim_calls := spa.trim_calls ++ [(start, size)] } with
  | none => none
  | some spa1 =>
    match vdev_trim_range_gate P ta spa1 with
    | none => none
    | some spa2 =>
      match trim_interfere P e.during spa2 with
      | none => none
      | some spa3 => some (vdev_trim_range_issue P ta start size e.txg spa3)

/-- The inner loop of `vdev_trim_ranges` over `w`, for a segment that starts at
`rs_start` and has `size` bytes, with `n` iterations left. -/
def vdev_trim_ranges_writes (P : zfs_params) (env : Nat → trim_call_env)
    (ta : trim_args_t) (rs_start size : Nat) : Nat → Nat → spa_t → Option (Nat × spa_t)
  | 0, _, spa => some (0, spa)
  | n + 1, w, spa =>
    match vdev_trim_range P env ta
        (u64_add (u64_add P.VDEV_LABEL_START_SIZE rs_start)
          (u64_mul w ta.trim_extent_bytes_max))
        (min (u64_sub size (u64_mul w ta.trim_extent_bytes_max)) ta.trim_extent_bytes_max)
        spa with
    | none => none
    | some (error, spa1) =>
      if error ≠ 0 then some (error, spa1)
      else vdev_trim_ranges_writes P env ta rs_start size n (w + 1) spa1

/-- The body of the outer loop of `vdev_trim_ranges` for one segment: either
the segment is skipped and counted (`continue`, errno 0) or it is split and
handed over chunk by chunk. `none` is also the division by an
`extent_bytes_max` of zero. -/
def vdev_trim_ranges_seg (P : zfs_params) (env : Nat → trim_call_env)
    (ta : trim_args_t) (rs : range_seg_t) (spa : spa_t) : Option (Nat × spa_t) :=
  let size := u64_sub rs.rs_end rs.rs_start
  if ta.trim_extent_bytes_min ≠ 0 ∧ size < ta.trim_extent_bytes_min then
    some (0, spa_iostats_trim_add spa ta.trim_type 0 0 1 size 0 0)
  else if ta.trim_extent_bytes_max = 0 then none
  else
    let writes_required := u64_add (u64_sub size 1 / ta.trim_extent_bytes_max) 1
    vdev_trim_ranges_writes P env ta rs.rs_start size writes_required 0 spa

/-- The outer loop of `vdev_trim_ranges` over the segments of the tree; it
returns at the first error. -/
def vdev_trim_ranges_segs (P : zfs_params) (env : Nat → trim_call_env)
    (ta : trim_args_t) : List range_seg_t → spa_t → Option (Nat × spa_t)
  | [], spa => some (0, spa)
  | rs :: rest, spa =>
    match vdev_trim_ranges_seg P env ta rs spa with
    | none => none
    | some (error, spa1) =>
      if error ≠ 0 then some (error, spa1)
      else vdev_trim_ranges_segs P env ta rest spa1

/-- The function `vdev_trim_ranges`. -/
def vdev_trim_ranges (P : zfs_params) (env : Nat → trim_call_env) (ta : trim_args_t)
    (spa : spa_t) : Option (Nat × spa_t) :=
  vdev_trim_ranges_segs P env ta ta.trim_tree spa

/-! ## The splitting rule in the words of the specification -/

/-- The part of the state that only the TRIM worker itself writes: the calls of
`vdev_trim_range` made so far and the skipped counters of both TRIM types. -/
def issue_view (spa : spa_t) : List (Nat × Nat) × (Nat × Nat) × (Nat × Nat) :=
  (spa.trim_calls,
    ((spa.iostats TRIM_TYPE_MANUAL).extents_skipped,
      (spa.iostats TRIM_TYPE_MANUAL).bytes_skipped),
    ((spa.iostats TRIM_TYPE_AUTO).extents_skipped,
      (spa.iostats TRIM_TYPE_AUTO).bytes_skipped))

/-- Size of a segment in plain arithmetic. -/
def seg_size (rs : range_seg_t) : Nat := rs.rs_end - rs.rs_start

/-- The skip test in the words of the specification: the minimum is non-zero
and the segment is smaller than it. -/
def seg_skipped (extent_bytes_min : Nat) (rs : range_seg_t) : Bool :=
  decide (extent_bytes_min ≠ 0) && decide (seg_size rs < extent_bytes_min)

/-- The number `ceil(size / max)` of the splitting rule. -/
def chunk_count (size extent_bytes_max : Nat) : Nat :=
  (size + extent_bytes_max - 1) / extent_bytes_max

/-- Chunk `i` of a segment in the words of the splitting rule: offset
`LABEL_START_SIZE + rs.start + i * max` and length `min(size - i * max, max)`. -/
def seg_chunk (label extent_bytes_max : Nat) (rs : range_seg_t) (i : Nat) : Nat × Nat :=
  (label + rs.rs_start + i * extent_bytes_max,
    min (seg_size rs - i * extent_bytes_max) extent_bytes_max)

/-- The chunks of a segment in the words of the splitting rule. -/
def seg_chunks (label extent_bytes_max : Nat) (rs : range_seg_t) : List (Nat × Nat) :=
  (List.range (chunk_count (seg_size rs) extent_bytes_max)).map
    (seg_chunk label extent_bytes_max rs)

/-- The chunks of a whole tree in the words of the specification: the chunks of
the segments that are not skipped, in tree order. -/
def tree_chunks (label extent_bytes_max extent_bytes_min : Nat)
    (tree : List range_seg_t) : List (Nat × Nat) :=
  (tree.filter (fun rs => !seg_skipped extent_bytes_min rs)).flatMap
    (seg_chunks label extent_bytes_max)

/-! ## Jobs as the workers build them -/

/-- The job `vdev_trim_thread` builds for a leaf after `vdev_trim_load`, with an
empty working tree. -/
def vdev_trim_thread_args (P : zfs_params) (vd : vdev_t) : trim_args_t :=
  let ta : trim_args_t :=
    { trim_tree := []
      trim_type := TRIM_TYPE_MANUAL
      trim_extent_bytes_max := P.zfs_trim_extent_bytes_max
      trim_extent_bytes_min := P.zfs_trim_extent_bytes_min
      trim_flags := 0 }
  if vd.vdev_trim_secure ≠ 0 then
    { ta with
      trim_flags := Nat.lor ta.trim_flags ZIO_TRIM_SECURE
      trim_extent_bytes_min := P.SPA_MINBLOCKSIZE }
  else ta

/-- The job `vdev_autotrim_thread` builds for a child, with an empty tree. -/
def vdev_autotrim_thread_args (P : zfs_params) : trim_args_t :=
  { trim_tree := []
    trim_type := TRIM_TYPE_AUTO
    trim_extent_bytes_max := P.zfs_trim_extent_bytes_max
    trim_extent_bytes_min := P.zfs_trim_extent_bytes_min
    trim_flags := 0 }

/-! ## Range translator and progress estimator -/

/-- Modelled from the spec: `range_tree_add` of the range tree library, which
is outside `vdev_trim.c`. A range tree is a set of disjoint segments; adding
`[start, start + size)` puts the bytes in and joins them with a segment they
touch. `none` is the panic of the library when the bytes overlap the tree. -/
def range_tree_add : List range_seg_t → Nat → Nat → Option (List range_seg_t)
  | [], start, size => some [⟨start, start + size⟩]
  | rs :: rest, start, size =>
    if start + size < rs.rs_start then some (⟨start, start + size⟩ :: rs :: rest)
    else if start + size = rs.rs_start then some (⟨start, rs.rs_end⟩ :: rest)
    else if rs.rs_end < start then
      match range_tree_add rest start size with
      | none => none
      | some t => some (rs :: t)
    else if rs.rs_end = start then
      range_tree_add rest rs.rs_start (size + (rs.rs_end - rs.rs_start))
    else none

/-- The walk callback `vdev_trim_range_add` for the leaf `vd`. -/
def vdev_trim_range_add (vd : vdev_t) (ta : trim_args_t) (start size : Nat) :
    Option trim_args_t :=
  let logical_rs : range_seg_t := ⟨start, u64_add start size⟩
  let physical_rs := vd.vdev_xlate logical_rs
  if ta.trim_type = TRIM_TYPE_MANUAL ∧ physical_rs.rs_end ≤ vd.vdev_trim_last_offset then
    some ta
  else
    let physical_rs1 : range_seg_t :=
      if ta.trim_type = TRIM_TYPE_MANUAL ∧ vd.vdev_trim_last_offset > physical_rs.rs_start then
        { physical_rs with rs_start := vd.vdev_trim_last_offset }
      else physical_rs
    if physical_rs1.rs_end > physical_rs1.rs_start then
      match range_tree_add ta.trim_tree physical_rs1.rs_start
          (u64_sub physical_rs1.rs_end physical_rs1.rs_start) with
      | none => none
      | some t => some { ta with trim_tree := t }
    else some ta

/-- Modelled from the spec: `range_tree_walk`, which calls the callback on every
segment of the tree in ascending order with its start and its size. -/
def range_tree_walk (vd : vdev_t) (tree : List range_seg_t) (ta : trim_args_t) :
    Option trim_args_t :=
  tree.foldlM (fun t rs => vdev_trim_range_add vd t rs.rs_start
    (u64_sub rs.rs_end rs.rs_start)) ta

/-- The inner loop of `vdev_trim_calculate_progress` over the segments of
`ms_allocatable` of the metaslab the leaf is in the middle of; the pair is
`(vdev_trim_bytes_est, vdev_trim_bytes_done)`. -/
def vdev_trim_calculate_progress_segs (vd : vdev_t) :
    List range_seg_t → Nat × Nat → Nat × Nat
  | [], acc => acc
  | rs :: rest, (est, done) =>
    let physical_rs := vd.vdev_xlate ⟨rs.rs_start, rs.rs_end⟩
    let size := u64_sub physical_rs.rs_end physical_rs.rs_start
    let est1 := u64_add est size
    let done1 :=
      if vd.vdev_trim_last_offset ≥ physical_rs.rs_end then u64_add done size
      else if vd.vdev_trim_last_offset > physical_rs.rs_start ∧
          vd.vdev_trim_last_offset ≤ physical_rs.rs_end then
        u64_add done (u64_sub vd.vdev_trim_last_offset physical_rs.rs_start)
      else done
    vdev_trim_calculate_progress_segs vd rest (est1, done1)

/-- The outer loop of `vdev_trim_calculate_progress` over the metaslabs. `none`
is the division by zero children of a raidz top-level vdev. The
`metaslab_load` of the metaslab the leaf is in the middle of, which the source
wraps in `VERIFY0`, is taken to succeed: `ms_allocatable` is the loaded tree,
and a load that fails, which panics, is not followed. -/
def vdev_trim_calculate_progress_ms (vd : vdev_t) :
    List metaslab_t → Nat × Nat → Option (Nat × Nat)
  | [], acc => some acc
  | msp :: rest, (est, done) =>
    if vd.vdev_top_raidz = true ∧ vd.vdev_top_children = 0 then none
    else
      let ms_free0 := u64_sub msp.ms_size msp.ms_allocated_space
      let ms_free := if vd.vdev_top_raidz then ms_free0 / vd.vdev_top_children else ms_free0
      let physical_rs := vd.vdev_xlate ⟨msp.ms_start, u64_add msp.ms_start msp.ms_size⟩
      if vd.vdev_trim_last_offset ≤ physical_rs.rs_start then
        vdev_trim_calculate_progress_ms vd rest (u64_add est ms_free, done)
      else if vd.vdev_trim_last_offset > physical_rs.rs_end then
        vdev_trim_calculate_progress_ms vd rest (u64_add est ms_free, u64_add done ms_free)
      else
        vdev_trim_calculate_progress_ms vd rest
          (vdev_trim_calculate_progress_segs vd msp.ms_allocatable (est, done))

/-- The function `vdev_trim_calculate_progress`. -/
def vdev_trim_calculate_progress (spa : spa_t) : Option spa_t :=
  match vdev_trim_calculate_progress_ms spa.vd spa.vdev_ms (0, 0) with
  | none => none
  | some (est, done) =>
    some { spa with vd := { spa.vd with
      vdev_trim_bytes_est := est, vdev_trim_bytes_done := done } }

/-- Modelled from the spec: `zap_lookup` of one of the four keys, "returns
NotFound for missing keys"; the result is the errno and the value read. -/
def zap_lookup (spa : spa_t) (key : zap_key_t) : Nat × Nat :=
  if spa.zap_fault key ≠ 0 then (spa.zap_fault key, 0)
  else
    match (match key with
      | .LAST_OFFSET => spa.zap.VDEV_LEAF_ZAP_TRIM_LAST_OFFSET
      | .RATE => spa.zap.VDEV_LEAF_ZAP_TRIM_RATE
      | .PARTIAL => spa.zap.VDEV_LEAF_ZAP_TRIM_PARTIAL
      | .SECURE => spa.zap.VDEV_LEAF_ZAP_TRIM_SECURE) with
    | none => (ENOENT, 0)
    | some v => (0, v)

/-- One lookup of `vdev_trim_load`: on success the value goes to the field, on
`ENOENT` the field becomes 0 and the error is cleared, on any other error the
field is left alone. -/
def vdev_trim_load_key (spa : spa_t) (key : zap_key_t) (old : Nat) : Nat × Nat :=
  let r := zap_lookup spa key
  if r.1 = 0 then (0, r.2)
  else if r.1 = ENOENT then (0, 0)
  else (r.1, old)

/-- The function `vdev_trim_load`; the result is its return value and the new
state. -/
def vdev_trim_load (spa : spa_t) : Option (Nat × spa_t) :=
  let vd := spa.vd
  let r : Nat × vdev_t :=
    if vd.vdev_trim_state = VDEV_TRIM_ACTIVE ∨ vd.vdev_trim_state = VDEV_TRIM_SUSPENDED then
      let r1 := vdev_trim_load_key spa .LAST_OFFSET vd.vdev_trim_last_offset
      let vd1 := { vd with vdev_trim_last_offset := r1.2 }
      if r1.1 ≠ 0 then (r1.1, vd1)
      else
        let r2 := vdev_trim_load_key spa .RATE vd1.vdev_trim_rate
        let vd2 := { vd1 with vdev_trim_rate := r2.2 }
        if r2.1 ≠ 0 then (r2.1, vd2)
        else
          let r3 := vdev_trim_load_key spa .PARTIAL vd2.vdev_trim_partial
          let vd3 := { vd2 with vdev_trim_partial := r3.2 }
          if r3.1 ≠ 0 then (r3.1, vd3)
          else
            let r4 := vdev_trim_load_key spa .SECURE vd3.vdev_trim_secure
            (r4.1, { vd3 with vdev_trim_secure := r4.2 })
    else (0, vd)
  match vdev_trim_calculate_progress { spa with vd := r.2 } with
  | none => none
  | some spa1 => some (r.1, spa1)

/-! ## Manual TRIM worker -/

/-- Modelled from the spec: `txg_wait_synced(dsl, 0)` returns when every dirty
txg has synced, so every sync task registered so far has run, in txg order. -/
def txg_wait_synced (P : zfs_params) (spa : spa_t) : Option spa_t :=
  (spa.sync_tasks.insertionSort (fun a b => a.st_txg ≤ b.st_txg)).foldlM
    (fun s t => vdev_trim_zap_update_sync P t.st_guid t.st_txg s)
    { spa with sync_tasks := [] }

/-- Modelled from the spec: `metaslab_disable` of the allocator, which raises
the count `ms_disabled` of the metaslab. -/
def metaslab_disable (msp : metaslab_t) : metaslab_t :=
  { msp with ms_disabled := msp.ms_disabled + 1 }

/-- Modelled from the spec: `metaslab_enable(msp, issued)` of the allocator,
which lowers the count `ms_disabled`; `issued` is a hint to the allocator. -/
def metaslab_enable (msp : metaslab_t) (_issued : Bool) : metaslab_t :=
  { msp with ms_disabled := msp.ms_disabled - 1 }

/-- What the rest of the system does while the manual worker of a leaf runs:
`calls` is the environment of each call of `vdev_trim_range`, `ms_before i`
runs before the loop guard of metaslab `i` is evaluated, `drain` runs while the
worker waits for its zios after the loop, and `now` and `txg` are the clock and
the txg of the state change on exit. -/
structure trim_thread_env where
  calls : Nat → trim_call_env
  ms_before : Nat → List trim_interference
  drain : List trim_interference
  now : Nat
  txg : Nat

/-- The body of the metaslab loop of `vdev_trim_thread` for metaslab `i`; the
result is the error of `vdev_trim_ranges` (0 after `continue`), the new value
of the local `ms_count` and the new state. -/
def vdev_trim_thread_ms (P : zfs_params) (env : trim_thread_env) (ta : trim_args_t)
    (i ms_count : Nat) (spa : spa_t) : Option (Nat × Nat × spa_t) :=
  match spa.vdev_ms[i]? with
  | none => some (0, ms_count, spa)
  | some msp =>
    match (if spa.vdev_ms.length ≠ ms_count then vdev_trim_calculate_progress spa
        else some spa) with
    | none => none
    | some spa1 =>
      let ms_count1 := if spa.vdev_ms.length ≠ ms_count then spa.vdev_ms.length else ms_count
      let msp1 := metaslab_disable msp
      if msp1.ms_sm = false ∧ spa1.vd.vdev_trim_partial ≠ 0 then
        match vdev_trim_calculate_progress
            { spa1 with vdev_ms := spa1.vdev_ms.set i (metaslab_enable msp1 false) } with
        | none => none
        | some spa2 => some (0, ms_count1, spa2)
      else
        match range_tree_walk spa1.vd msp1.ms_allocatable ta with
        | none => none
        | some ta1 =>
          let msp2 := { msp1 with ms_trim := [] }
          match vdev_trim_ranges P env.calls ta1
              { spa1 with vdev_ms := spa1.vdev_ms.set i msp2 } with
          | none => none
          | some (error, spa2) =>
            some (error, ms_count1,
              { spa2 with vdev_ms := spa2.vdev_ms.set i (metaslab_enable msp2 true) })

/-- The metaslab loop of `vdev_trim_thread`, with `n` guard evaluations left,
at index `i`; `none` also when the guard evaluations run out, which
`vdev_trim_thread` excludes by allowing one more than there are metaslabs. -/
def vdev_trim_thread_loop (P : zfs_params) (env : trim_thread_env) (ta : trim_args_t) :
    Nat → Nat → Nat → spa_t → Option spa_t
  | 0, _, _, _ => none
  | n + 1, i, ms_count, spa =>
    match trim_interfere P (env.ms_before i) spa with
    | none => none
    | some spa0 =>
      if spa0.vd.vdev_detached = true ∨ ¬ i < spa0.vdev_ms.length then some spa0
      else
        match vdev_trim_thread_ms P env ta i ms_count spa0 with
        | none => none
        | some (error, ms_count1, spa1) =>
          if error ≠ 0 then some spa1
          else vdev_trim_thread_loop P env ta n (i + 1) ms_count1 spa1

/-- The exit path of `vdev_trim_thread`, from the end of the metaslab loop: the
wait for the manual zios in flight (`none` while some are left when `drain` is
used up), the move to `VDEV_TRIM_COMPLETE` under `vdev_trim_lock`, the wait
for the sync and the clearing of `vdev_trim_thread`. -/
def vdev_trim_thread_exit (P : zfs_params) (drain : List trim_interference)
    (now txg : Nat) (spa : spa_t) : Option spa_t :=
  match trim_interfere P drain spa with
  | none => none
  | some spa1 =>
    if spa1.vd.vdev_trim_inflight TRIM_TYPE_MANUAL > 0 then none
    else
      match (if spa1.vd.vdev_trim_exit_wanted = false ∧ spa1.vd.vdev_writeable = true then
          vdev_trim_change_state spa1 VDEV_TRIM_COMPLETE spa1.vd.vdev_trim_rate
            spa1.vd.vdev_trim_partial spa1.vd.vdev_trim_secure now txg
        else some spa1) with
      | none => none
      | some spa2 =>
        match txg_wait_synced P spa2 with
        | none => none
        | some spa3 => some { spa3 with vd := { spa3.vd with vdev_trim_thread := false } }

/-- The function `vdev_trim_thread`. `none` is also the failed
`VERIFY0(vdev_trim_load(vd))`. -/
def vdev_trim_thread (P : zfs_params) (env : trim_thread_env) (spa : spa_t) :
    Option spa_t :=
  match txg_wait_synced P spa with
  | none => none
  | some spa1 =>
    match vdev_trim_load { spa1 with vd := { spa1.vd with
        vdev_trim_last_offset := 0
        vdev_trim_rate := 0
        vdev_trim_partial := 0
        vdev_trim_secure := 0 } } with
    | none => none
    | some (err, spa2) =>
      if err ≠ 0 then none
      else
        match vdev_trim_thread_loop P env (vdev_trim_thread_args P spa2.vd)
            (spa2.vdev_ms.length + 1) 0 0 spa2 with
        | none => none
        | some spa3 => vdev_trim_thread_exit P env.drain env.now env.txg spa3

/-! ## Lifecycle controller -/

/-- The function `vdev_trim`: the state change and the creation of the worker,
which runs as `vdev_trim_thread`. -/
def vdev_trim (spa : spa_t) (rate part secure : Nat) (now txg : Nat) : Option spa_t :=
  match vdev_trim_change_state spa VDEV_TRIM_ACTIVE rate part secure now txg with
  | none => none
  | some spa1 => some { spa1 with vd := { spa1.vd with vdev_trim_thread := true } }

/-- The function `vdev_trim_stop_wait_impl`. The caller sleeps on `vdev_trim_cv`
until the worker has cleared `vdev_trim_thread`, which the worker does at the
end of its exit path; the calls of `vdev_trim_range` the worker may still make
on its way there are not followed. -/
def vdev_trim_stop_wait_impl (P : zfs_params) (w : trim_thread_env) (spa : spa_t) :
    Option spa_t :=
  match (if spa.vd.vdev_trim_thread = true then
      vdev_trim_thread_exit P w.drain w.now w.txg spa
    else some spa) with
  | none => none
  | some spa1 => some { spa1 with vd := { spa1.vd with vdev_trim_exit_wanted := false } }

/-- The function `vdev_trim_stop`. `vd_list` is `none` for a `NULL` list and
otherwise the guids of the leaves queued for `vdev_trim_stop_wait`. -/
def vdev_trim_stop (P : zfs_params) (w : trim_thread_env) (spa : spa_t)
    (tgt_state : vdev_trim_state_t) (vd_list : Option (List Nat)) (now txg : Nat) :
    Option (spa_t × Option (List Nat)) :=
  if spa.vd.vdev_trim_thread = false ∧ tgt_state ≠ VDEV_TRIM_CANCELED then
    some (spa, vd_list)
  else
    match vdev_trim_stop_request spa tgt_state now txg with
    | none => none
    | some spa1 =>
      match vd_list with
      | none =>
        match vdev_trim_stop_wait_impl P w spa1 with
        | none => none
        | some spa2 => some (spa2, none)
      | some l => some (spa1, some (l ++ [spa1.vd.vdev_guid]))

/-- The function `vdev_trim_stop_wait`: every leaf of the list is waited for;
guids of other leaves do not concern the leaf that is followed. -/
def vdev_trim_stop_wait (P : zfs_params) (w : trim_thread_env) :
    List Nat → spa_t → Option spa_t
  | [], spa => some spa
  | guid :: rest, spa =>
    if guid = spa.vd.vdev_guid then
      match vdev_trim_stop_wait_impl P w spa with
      | none => none
      | some spa1 => vdev_trim_stop_wait P w rest spa1
    else vdev_trim_stop_wait P w rest spa

/-! ## Concrete scenarios -/

/-- A healthy leaf on which a manual TRIM is active and nothing is in flight. -/
def vd_active : vdev_t :=
  { vdev_guid := 1
    vdev_leaf_zap := 1
    vdev_trim_state := VDEV_TRIM_ACTIVE
    vdev_trim_action_time := 100
    vdev_trim_last_offset := 0
    vdev_trim_rate := 0
    vdev_trim_partial := 0
    vdev_trim_secure := 0
    vdev_trim_offset := fun _ => 0
    vdev_trim_inflight := fun _ => 0
    vdev_trim_exit_wanted := false
    vdev_trim_thread := true
    vdev_trim_bytes_done := 0
    vdev_trim_bytes_est := 0
    vs_trim_errors := 0
    vdev_detached := false
    vdev_offline := false
    vdev_writeable := true
    vdev_is_concrete := true
    vdev_top_removing := false
    vdev_top_raidz := false
    vdev_top_children := 0
    vdev_xlate := fun rs => rs }

/-- A leaf ZAP without TRIM keys. -/
def zap_empty : leaf_zap_t :=
  { VDEV_LEAF_ZAP_TRIM_LAST_OFFSET := none
    VDEV_LEAF_ZAP_TRIM_RATE := none
    VDEV_LEAF_ZAP_TRIM_PARTIAL := none
    VDEV_LEAF_ZAP_TRIM_SECURE := none
    VDEV_LEAF_ZAP_TRIM_STATE := none
    VDEV_LEAF_ZAP_TRIM_ACTION_TIME := none }

/-- A pool state around a leaf with nothing pending, all counters zero, no
metaslab and a ZAP whose lookups work. -/
def spa_of (vd : vdev_t) (zap : leaf_zap_t) : spa_t :=
  { vd := vd
    vdev_freed := false
    zap := zap
    zap_fault := fun _ => 0
    vdev_ms := []
    sync_tasks := []
    events := []
    zios := []
    iostats := fun _ => ⟨0, 0, 0, 0, 0, 0⟩
    trim_calls := [] }

/-- The header constants as the headers define them (a label area of 4 MiB,
512-byte minimum block, four txg slots) with the default tunables. -/
def params_4m : zfs_params := zfs_params_default 4194304 512 3

/-- An environment in which every call finds the previous zio completed
without error, gets txg `7` and meets no other interference. -/
def env_quiet (n : Nat) : trim_call_env :=
  { before := [trim_interference.io_done (n - 1) 0], txg := 7, during := [] }

/-- The manual job of the healthy leaf under the default tunables, over a given
working tree. -/
def ta_manual (tree : List range_seg_t) : trim_args_t :=
  { vdev_trim_thread_args params_4m vd_active with trim_tree := tree }

/-! ## Auxiliary definitions of the proofs -/

/-- Arguments of the `w`-th call of the inner loop, as the code computes them. -/
def writes_call (P : zfs_params) (ta : trim_args_t) (rs_start size w : Nat) : Nat × Nat :=
  (u64_add (u64_add P.VDEV_LABEL_START_SIZE rs_start) (u64_mul w ta.trim_extent_bytes_max),
    min (u64_sub size (u64_mul w ta.trim_extent_bytes_max)) ta.trim_extent_bytes_max)

/-- A segment as a range tree of a device holds it: not empty, and its end,
moved past the label, is still a `uint64_t`. -/
def seg_wf (label : Nat) (rs : range_seg_t) : Prop :=
  rs.rs_start < rs.rs_end ∧ label + rs.rs_end < 18446744073709551616

instance (label : Nat) (rs : range_seg_t) : Decidable (seg_wf label rs) := by
  unfold seg_wf; infer_instance

/-- The skipped counters of one TRIM type. -/
def skip_view (type : trim_type_t) (spa : spa_t) : Nat × Nat :=
  ((spa.iostats type).extents_skipped, (spa.iostats type).bytes_skipped)

/-- Number of segments of a tree that the skip test rejects. -/
def skipped_extents (extent_bytes_min : Nat) (tree : List range_seg_t) : Nat :=
  (tree.filter (seg_skipped extent_bytes_min)).length

/-- Bytes in the segments of a tree that the skip test rejects. -/
def skipped_bytes (extent_bytes_min : Nat) (tree : List range_seg_t) : Nat :=
  ((tree.filter (seg_skipped extent_bytes_min)).map seg_size).sum

/-! ## The queue accounting as a step system -/

/-- State of the queue accounting of a leaf: the pool state and, for each TRIM
type, the number of callers of `vdev_trim_range` that have passed the queue gate
and have not yet reached the `vdev_trim_should_stop` check. -/
structure queue_state where
  spa : spa_t
  in_call : trim_type_t → Nat

/-- The atomic steps that touch the inflight counters of a leaf: a caller of
`vdev_trim_range` passes the queue gate (`gate`); a caller that has passed it
runs the rest of the function and either backs out or submits its zio
(`issue`); another thread acts, a zio completion among them (`other`). -/
inductive queue_label where
  | gate (ta : trim_args_t)
  | issue (ta : trim_args_t) (start size txg : Nat)
  | other (a : trim_interference)

/-- One step of the queue accounting; `none` is a step that cannot be taken. -/
def queue_step (P : zfs_params) (st : queue_state) : queue_label → Option queue_state
  | .gate ta =>
    match vdev_trim_range_gate P ta st.spa with
    | none => none
    | some spa1 =>
      some { spa := spa1
             in_call := Function.update st.in_call ta.trim_type
               (st.in_call ta.trim_type + 1) }
  | .issue ta start size txg =>
    if st.in_call ta.trim_type = 0 then none
    else
      some { spa := (vdev_trim_range_issue P ta start size txg st.spa).2
             in_call := Function.update st.in_call ta.trim_type
               (st.in_call ta.trim_type - 1) }
  | .other a =>
    match a.apply P st.spa with
    | none => none
    | some spa1 => some { spa := spa1, in_call := st.in_call }

/-- A run of the queue accounting. -/
def queue_run (P : zfs_params) (trace : List queue_label) (st : queue_state) :
    Option queue_state :=
  trace.foldlM (queue_step P) st

/-- Number of zios of a type that are submitted and not completed. -/
def zios_pending (type : trim_type_t) (zios : List zio_t) : Nat :=
  zios.countP (fun z => decide (z.io_trim_type = type) && !z.io_done)

/-- The accounting invariant: each counter equals the callers inside
`vdev_trim_range` plus the zios in flight of its type, and the two counters
together stay within the queue limit. -/
def queue_inv (P : zfs_params) (st : queue_state) : Prop :=
  (∀ t, st.spa.vd.vdev_trim_inflight t = st.in_call t + zios_pending t st.spa.zios) ∧
  st.spa.vd.vdev_trim_inflight TRIM_TYPE_MANUAL +
    st.spa.vd.vdev_trim_inflight TRIM_TYPE_AUTO ≤ P.zfs_trim_queue_limit

/-- The counters and the zios, which steps of other threads that are not
completions leave alone. -/
def queue_view (spa : spa_t) : (trim_type_t → Nat) × List zio_t :=
  (spa.vd.vdev_trim_inflight, spa.zios)

/-- The fields of the leaf that `vdev_trim_change_state` never assigns. -/
def vdev_flags (vd : vdev_t) :
    Nat × Nat × Bool × Bool × Bool × Bool × Bool × Bool × (trim_type_t → Nat) :=
  (vd.vdev_guid, vd.vdev_leaf_zap, vd.vdev_is_concrete, vd.vdev_top_removing,
    vd.vdev_trim_exit_wanted, vd.vdev_trim_thread, vd.vdev_writeable, vd.vdev_detached,
    vd.vdev_trim_inflight)

/-- A manual caller that passes the gate and submits a zio. -/
def trace_issue (start : Nat) : List queue_label :=
  [queue_label.gate (ta_manual []), queue_label.issue (ta_manual []) start 4096 7]

/-! ## Scenarios of the manual worker -/

/-- A metaslab `[0, size)` that is entirely free and has a space map. -/
def ms_free (size : Nat) : metaslab_t :=
  { ms_start := 0
    ms_size := size
    ms_sm := true
    ms_allocated_space := 0
    ms_allocatable := [⟨0, size⟩]
    ms_trim := []
    ms_disabled := 0 }

/-- An environment of the worker in which nothing interferes: every call of
`vdev_trim_range` gets the txg `txg_of n`, and `drain` runs while the worker
waits for its zios. -/
def env_thread (txg_of : Nat → Nat) (drain : List trim_interference) : trim_thread_env :=
  { calls := fun n => { before := [], txg := txg_of n, during := [] }
    ms_before := fun _ => []
    drain := drain
    now := 900
    txg := 9 }

/-- A leaf with one free metaslab of `size` bytes on which a manual TRIM has
just been started by `vdev_trim`: state `VDEV_TRIM_ACTIVE`, worker created. -/
def spa_started (size : Nat) : spa_t :=
  { spa_of vd_active zap_empty with vdev_ms := [ms_free size] }

/-- The environment of a worker that is suspended by another thread while it
waits in the gates of its third call of `vdev_trim_range`; the two zios it has
submitted complete without error while it waits to exit. -/
def env_suspend : trim_thread_env :=
  { calls := fun n =>
      { before := if n = 2 then [trim_interference.stop VDEV_TRIM_SUSPENDED 500 8] else []
        txg := 7
        during := [] }
    ms_before := fun _ => []
    drain := [trim_interference.io_done 0 0, trim_interference.io_done 1 0]
    now := 900
    txg := 9 }

/-- Scenario S4, first half: a manual TRIM of a leaf with one free metaslab of
1 GiB is suspended after 256 MiB have been issued, the worker exits and the
suspending thread returns from its wait. -/
def suspended_run : Option spa_t :=
  (vdev_trim_thread params_4m env_suspend (spa_started 1073741824)).bind
    (vdev_trim_stop_wait_impl params_4m (env_thread (fun _ => 7) []))

/-- Scenario S4, second half: `vdev_trim(0, 0, 0)` on the suspended leaf and the
run of the worker it creates, with every zio completing without error. -/
def resumed_run : Option spa_t :=
  (suspended_run.bind (fun spa => vdev_trim spa 0 0 0 1000 10)).bind
    (vdev_trim_thread params_4m (env_thread (fun _ => 11)
      ((List.range 7).map (fun i => trim_interference.io_done (i + 2) 0))))

/-- A leaf whose manual TRIM is complete and that still holds the settings of
that run. -/
def vd_complete : vdev_t :=
  { vd_active with
    vdev_trim_state := VDEV_TRIM_COMPLETE
    vdev_trim_thread := false
    vdev_trim_last_offset := 1077936128
    vdev_trim_rate := 1048576
    vdev_trim_partial := 1
    vdev_trim_secure := 1 }

/-- The leaf ZAP of the completed leaf. -/
def zap_complete : leaf_zap_t :=
  { VDEV_LEAF_ZAP_TRIM_LAST_OFFSET := some 1077936128
    VDEV_LEAF_ZAP_TRIM_RATE := some 1048576
    VDEV_LEAF_ZAP_TRIM_PARTIAL := some 1
    VDEV_LEAF_ZAP_TRIM_SECURE := some 1
    VDEV_LEAF_ZAP_TRIM_STATE := some VDEV_TRIM_COMPLETE
    VDEV_LEAF_ZAP_TRIM_ACTION_TIME := some 100 }

/-! ## Views of the lifecycle -/

/-- What sync tasks, zio callbacks and device faults leave alone on the leaf:
the state, the identity of the leaf and the flags of the lifecycle. -/
def life_view (spa : spa_t) :
    vdev_trim_state_t × Nat × Bool × Bool × Bool × Bool × Bool :=
  (spa.vd.vdev_trim_state, spa.vd.vdev_guid, spa.vdev_freed, spa.vd.vdev_is_concrete,
    spa.vd.vdev_top_removing, spa.vd.vdev_trim_exit_wanted, spa.vd.vdev_trim_thread)

/-- A call of `vdev_trim_stop` followed, when a list was given, by
`vdev_trim_stop_wait` on the list it returns. -/
def vdev_trim_stop_done (P : zfs_params) (w : trim_thread_env) (spa : spa_t)
    (tgt_state : vdev_trim_state_t) (vd_list : Option (List Nat)) (now txg : Nat) :
    Option spa_t :=
  match vdev_trim_stop P w spa tgt_state vd_list now txg with
  | none => none
  | some (spa1, none) => some spa1
  | some (spa1, some l) => vdev_trim_stop_wait P w l spa1

/-- The steps of other threads that are administrative: a call of
`vdev_trim_stop` and the start of the removal of the top-level vdev. -/
def trim_interference.is_admin : trim_interference → Bool
  | .stop _ _ _ => true
  | .top_removing => true
  | _ => false

/-- The leaf is cancelled and a sync task run for it would reach the ZAP. -/
def cancel_live (spa : spa_t) : Prop :=
  spa.vd.vdev_trim_state = VDEV_TRIM_CANCELED ∧ spa.vdev_freed = false ∧
    spa.vd.vdev_is_concrete = true ∧ spa.vd.vdev_top_removing = false

/-- The cancelled state is in the ZAP or a sync task of the leaf is pending. -/
def cancel_due (spa : spa_t) : Prop :=
  spa.zap.VDEV_LEAF_ZAP_TRIM_STATE = some VDEV_TRIM_CANCELED ∨
    ∃ t ∈ spa.sync_tasks, t.st_guid = spa.vd.vdev_guid

/-! ## Restart after import -/

/-- The function `vdev_trim_restart` for the leaf that is followed; a leaf has
no children, so the recursion ends with it. The lookups of
`VDEV_LEAF_ZAP_TRIM_STATE` and `VDEV_LEAF_ZAP_TRIM_ACTION_TIME` are asserted
to end with 0 or `ENOENT`, and `ENOENT` leaves the values the locals
`trim_state` and `timestamp` were given, `VDEV_TRIM_NONE` and 0. `none` is a failed
`VERIFY0(vdev_trim_load(vd))`. `now` and `txg` are the clock and the txg of the
state change in `vdev_trim`. -/
def vdev_trim_restart (spa : spa_t) (now txg : Nat) : Option spa_t :=
  if spa.vd.vdev_leaf_zap ≠ 0 then
    let trim_state := spa.zap.VDEV_LEAF_ZAP_TRIM_STATE.getD VDEV_TRIM_NONE
    let timestamp := spa.zap.VDEV_LEAF_ZAP_TRIM_ACTION_TIME.getD 0
    let spa1 : spa_t := { spa with vd := { spa.vd with
      vdev_trim_state := trim_state
      vdev_trim_action_time := timestamp } }
    if spa1.vd.vdev_trim_state = VDEV_TRIM_SUSPENDED ∨ spa1.vd.vdev_offline = true then
      match vdev_trim_load spa1 with
      | none => none
      | some (err, spa2) => if err ≠ 0 then none else some spa2
    else if spa1.vd.vdev_trim_state = VDEV_TRIM_ACTIVE ∧ spa1.vd.vdev_writeable = true ∧
        spa1.vd.vdev_top_removing = false ∧ spa1.vd.vdev_trim_thread = false then
      match vdev_trim_load spa1 with
      | none => none
      | some (err, spa2) =>
        if err ≠ 0 then none
        else vdev_trim spa2 spa2.vd.vdev_trim_rate spa2.vd.vdev_trim_partial
          spa2.vd.vdev_trim_secure now txg
    else some spa1
  else some spa

/-! ## SMB share list of `lib/libshare/smb.c` -/

/-- A node of the list `smb_shares` without its `next` pointer: the list is a
Lean list in the order of the `next` pointers, and `NULL` is the empty list.
The strings are the bytes before the terminating NUL. -/
structure smb_share_t where
  name : String
  path : String
  guest_ok : Nat
  afpshared : Nat
  deriving DecidableEq

/-- The return codes of `smb_retrieve_shares`, which `libshare.h` gives their
values. -/
inductive sa_status_t where
  | SA_OK
  | SA_SYSTEM_ERR
  deriving DecidableEq

/-- The function `smb_retrieve_shares` on the global `smb_shares`. The list
`new_shares` it builds from the output of `dscl . -readall /SharePoints` is
given: `none` is the failure of `spawn_with_pipe` or of `fdopen`, on which the
function returns before it assigns the global. -/
def smb_retrieve_shares (new_shares : Option (List smb_share_t))
    (smb_shares : List smb_share_t) : sa_status_t × List smb_share_t :=
  match new_shares with
  | none => (sa_status_t.SA_SYSTEM_ERR, smb_shares)
  | some l => (sa_status_t.SA_OK, l)

/-- The loop of `smb_is_mountpoint_active`, whose cursor is the global
`smb_shares`; the result is the return value and the global on return. -/
def smb_is_mountpoint_active_loop (mountpoint : String) :
    List smb_share_t → Bool × List smb_share_t
  | [] => (false, [])
  | s :: rest =>
    if mountpoint = s.path then (true, s :: rest)
    else smb_is_mountpoint_active_loop mountpoint rest

/-- The function `smb_is_mountpoint_active`. -/
def smb_is_mountpoint_active (new_shares : Option (List smb_share_t))
    (mountpoint : String) (smb_shares : List smb_share_t) : Bool × List smb_share_t :=
  smb_is_mountpoint_active_loop mountpoint (smb_retrieve_shares new_shares smb_shares).2

/-! ## Views and predicates of the later proofs -/

/-- The byte `x` lies in a segment of the range tree. -/
def tree_mem (x : Nat) (tree : List range_seg_t) : Prop :=
  ∃ rs ∈ tree, rs.rs_start ≤ x ∧ x < rs.rs_end

/-- The range `[a, b)` that `vdev_trim_range_add` is to insert for the
translated range `[ps, pe)` of a leaf with last offset `l`, in the words of the
specification; it is empty when `b ≤ a`. -/
def range_add_spec (type : trim_type_t) (l ps pe : Nat) : Nat × Nat :=
  match type with
  | TRIM_TYPE_MANUAL => if pe ≤ l then (pe, pe) else (max ps l, pe)
  | TRIM_TYPE_AUTO => (ps, pe)

/-- The four settings of a leaf that a manual TRIM keeps in the leaf ZAP. -/
def trim_settings (vd : vdev_t) : Nat × Nat × Nat × Nat :=
  (vd.vdev_trim_last_offset, vd.vdev_trim_rate, vd.vdev_trim_partial, vd.vdev_trim_secure)

/-- The value of a key in the leaf ZAP, 0 when the key is not stored. -/
def zap_value (zap : leaf_zap_t) (key : zap_key_t) : Nat :=
  match key with
  | .LAST_OFFSET => zap.VDEV_LEAF_ZAP_TRIM_LAST_OFFSET.getD 0
  | .RATE => zap.VDEV_LEAF_ZAP_TRIM_RATE.getD 0
  | .PARTIAL => zap.VDEV_LEAF_ZAP_TRIM_PARTIAL.getD 0
  | .SECURE => zap.VDEV_LEAF_ZAP_TRIM_SECURE.getD 0

/-- The part of the pool state and of the leaf that `vdev_trim_load` only
reads. -/
def load_frame (spa : spa_t) : leaf_zap_t × List sync_task_t × List trim_event_t ×
    vdev_trim_state_t × Nat × Bool × Bool × Bool × Bool :=
  (spa.zap, spa.sync_tasks, spa.events, spa.vd.vdev_trim_state, spa.vd.vdev_trim_action_time,
    spa.vd.vdev_trim_thread, spa.vd.vdev_offline, spa.vd.vdev_writeable,
    spa.vd.vdev_top_removing)

/-- The `(offset, size)` of the TRIM zios submitted so far, oldest first. -/
def zio_keys (spa : spa_t) : List (Nat × Nat) :=
  spa.zios.map (fun z => (z.io_offset, z.io_orig_size))

/-- From `spa` to `spa1` the TRIM zios submitted are among the calls of
`vdev_trim_range` that were made. -/
def zio_sub (spa spa1 : spa_t) : Prop :=
  ∃ calls zs, spa1.trim_calls = spa.trim_calls ++ calls ∧
    zio_keys spa1 = zio_keys spa ++ zs ∧ ∀ z ∈ zs, z ∈ calls

/-- A segment of a working tree lies within a segment of `alloc` and can be
moved past the label. -/
def seg_within (label : Nat) (alloc : List range_seg_t) (r : range_seg_t) : Prop :=
  seg_wf label r ∧ ∃ rs ∈ alloc, rs.rs_start ≤ r.rs_start ∧ r.rs_end ≤ rs.rs_end

/-! ## The progress store as a step system -/

/-- The atomic steps of a manual run as the progress store sees them: a caller
of `vdev_trim_range` passes the queue gate (`gate`); a caller runs the part of
`vdev_trim_range` under `vdev_trim_lock` with the txg it was given (`issue`);
the txg engine runs the pending sync task number `k` (`fire`); the worker, on
its way out, moves the leaf to `VDEV_TRIM_COMPLETE` unless it was asked to exit
or the leaf is not writeable (`complete`); another thread acts (`other`). -/
inductive progress_label where
  | gate (ta : trim_args_t)
  | issue (ta : trim_args_t) (start size txg : Nat)
  | fire (k : Nat)
  | complete (now txg : Nat)
  | other (a : trim_interference)

/-- The txg engine runs the sync task at position `k` of the pending ones. -/
def sync_fire (P : zfs_params) (k : Nat) (spa : spa_t) : Option spa_t :=
  match spa.sync_tasks[k]? with
  | none => none
  | some t =>
    vdev_trim_zap_update_sync P t.st_guid t.st_txg
      { spa with sync_tasks := spa.sync_tasks.eraseIdx k }

/-- One step of a manual run; `none` is a step that cannot be taken. -/
def progress_step (P : zfs_params) (spa : spa_t) : progress_label → Option spa_t
  | .gate ta => vdev_trim_range_gate P ta spa
  | .issue ta start size txg => some (vdev_trim_range_issue P ta start size txg spa).2
  | .fire k => sync_fire P k spa
  | .complete now txg =>
    if spa.vd.vdev_trim_exit_wanted = false ∧ spa.vd.vdev_writeable = true then
      vdev_trim_change_state spa VDEV_TRIM_COMPLETE spa.vd.vdev_trim_rate
        spa.vd.vdev_trim_partial spa.vd.vdev_trim_secure now txg
    else some spa
  | .other a => a.apply P spa

/-- A manual run as a sequence of steps. -/
def progress_run (P : zfs_params) (trace : List progress_label) (spa : spa_t) :
    Option spa_t :=
  trace.foldlM (progress_step P) spa

/-- The persisted `LastOffset`, 0 while the key is not stored. -/
def zap_last_offset (spa : spa_t) : Nat :=
  spa.zap.VDEV_LEAF_ZAP_TRIM_LAST_OFFSET.getD 0

/-- The contract of the txg engine for a tx assigned to `txg`: no pending sync
task belongs to a later txg, and none belongs to another txg that shares the
slot `txg & TXG_MASK`, because a txg opens only after the txg that is
`TXG_MASK + 1` before it has synced. -/
def txg_open_ok (P : zfs_params) (spa : spa_t) (txg : Nat) : Bool :=
  spa.sync_tasks.all (fun t => decide (t.st_txg ≤ txg) &&
    (decide (Nat.land t.st_txg P.TXG_MASK ≠ Nat.land txg P.TXG_MASK) ||
      decide (t.st_txg = txg)))

/-- The completion `io_done i io_error` takes the rewind branch of
`vdev_trim_cb`. -/
def zio_rewinds (spa : spa_t) (i io_error : Nat) : Bool :=
  match spa.zios[i]? with
  | none => false
  | some zio =>
    !zio.io_done && decide (zio.io_trim_type = TRIM_TYPE_MANUAL) &&
      decide (io_error = ENXIO) && !spa.vd.vdev_writeable

/-- What a step of a single manual run without a rewind has to respect in the
state it is taken in. `hi` is the end of the last chunk of the run, or the
last offset the run started from. A manual chunk ends at or after `hi` and
below `UINT64_MAX`; a tx gets its txg by the contract of the txg engine; the
sync task that fires belongs to the earliest txg that has one pending; the
tx of the move to `VDEV_TRIM_COMPLETE` gets its txg by the same contract; no
completion takes the rewind branch; no other thread activates the leaf anew.
The syncing of a txg is followed task by task, as `fire` steps. -/
def progress_label.ok (P : zfs_params) (spa : spa_t) (hi : Nat) : progress_label → Bool
  | .gate _ => true
  | .issue ta start size txg =>
    decide (ta.trim_type = TRIM_TYPE_AUTO) ||
      (txg_open_ok P spa txg && decide (hi ≤ start + size) &&
        decide (start + size < UINT64_MAX))
  | .fire k =>
    match spa.sync_tasks[k]? with
    | none => true
    | some t => spa.sync_tasks.all (fun u => decide (t.st_txg ≤ u.st_txg))
  | .complete _ txg => txg_open_ok P spa txg
  | .other (.io_done i io_error) => !zio_rewinds spa i io_error
  | .other (.txg_sync _) => false
  | .other (.stop tgt_state _ txg) =>
    decide (tgt_state ≠ VDEV_TRIM_ACTIVE) && txg_open_ok P spa txg
  | .other _ => true

/-- The end of the last chunk of the run after a step. -/
def progress_label.hi (hi : Nat) : progress_label → Nat
  | .issue ta start size _ => if ta.trim_type = TRIM_TYPE_MANUAL then start + size else hi
  | _ => hi

/-- Every step of a trace, taken from `spa`, respects `progress_label.ok`. -/
def progress_ok (P : zfs_params) : List progress_label → spa_t → Nat → Bool
  | [], _, _ => true
  | a :: rest, spa, hi =>
    a.ok P spa hi &&
      match progress_step P spa a with
      | none => true
      | some spa1 => progress_ok P rest spa1 (a.hi hi)

/-- The leaf is out of reach of its sync tasks. -/
def sync_unreachable (spa : spa_t) : Prop :=
  spa.vdev_freed = true ∨ spa.vd.vdev_top_removing = true ∨ spa.vd.vdev_is_concrete = false

/-- The slots of `vdev_trim_offset` against the pending sync tasks `T` of the
leaf `guid`, the persisted last offset `p` and the end `hi` of the last chunk:
a slot in use holds a value between `p` and `hi` and has a pending task; the
pending tasks of one slot belong to one txg; the slots in use are ordered as
the txgs of their tasks. -/
def slot_inv (M : Nat) (σ : Nat → Nat) (T : List sync_task_t) (guid p hi : Nat) : Prop :=
  p ≤ hi ∧
  (∀ i, σ i ≠ 0 → p ≤ σ i ∧ σ i ≤ hi ∧ ∃ τ ∈ T, Nat.land τ.st_txg M = i) ∧
  (∀ τ ∈ T, τ.st_guid = guid) ∧
  (∀ τ1 ∈ T, ∀ τ2 ∈ T,
    Nat.land τ1.st_txg M = Nat.land τ2.st_txg M → τ1.st_txg = τ2.st_txg) ∧
  (∀ τ1 ∈ T, ∀ τ2 ∈ T, τ1.st_txg < τ2.st_txg →
    σ (Nat.land τ1.st_txg M) ≠ 0 → σ (Nat.land τ2.st_txg M) ≠ 0 →
    σ (Nat.land τ1.st_txg M) ≤ σ (Nat.land τ2.st_txg M))

/-- The invariant of a manual run without a rewind. -/
def progress_inv (P : zfs_params) (spa : spa_t) (hi : Nat) : Prop :=
  hi < UINT64_MAX ∧
  (sync_unreachable spa ∨
    (spa.vd.vdev_trim_last_offset ≠ UINT64_MAX ∧
      slot_inv P.TXG_MASK spa.vd.vdev_trim_offset spa.sync_tasks spa.vd.vdev_guid
        (zap_last_offset spa) hi))

/-- The fields the invariant of a manual run speaks of. -/
def progress_view (spa : spa_t) :
    (Nat → Nat) × List sync_task_t × Nat × Option Nat × Nat × Bool × Bool × Bool :=
  (spa.vd.vdev_trim_offset, spa.sync_tasks, spa.vd.vdev_trim_last_offset,
    spa.zap.VDEV_LEAF_ZAP_TRIM_LAST_OFFSET, spa.vd.vdev_guid, spa.vdev_freed,
    spa.vd.vdev_top_removing, spa.vd.vdev_is_concrete)

/-! ## Scenarios of the progress store, the restart and the share list -/

/-- A manual run of the healthy leaf: a chunk of 128 MiB goes out in txg 7, the
next one in txg 8, then the sync task of txg 7 fires. -/
def trace_two_txgs : List progress_label :=
  [progress_label.gate (ta_manual []),
    progress_label.issue (ta_manual []) 4194304 134217728 7,
    progress_label.gate (ta_manual []),
    progress_label.issue (ta_manual []) 138412032 134217728 8,
    progress_label.fire 0]

/-- The run goes on: the first zio completes without error, a third chunk goes
out in txg 8, the sync task of txg 8 fires, the worker moves the leaf to
`VDEV_TRIM_COMPLETE` in txg 9 and the sync task of that change fires. -/
def trace_second_sync : List progress_label :=
  [progress_label.other (trim_interference.io_done 0 0),
    progress_label.gate (ta_manual []),
    progress_label.issue (ta_manual []) 272629760 134217728 8,
    progress_label.fire 0,
    progress_label.complete 900 9,
    progress_label.fire 0]

/-- The metaslab of scenario S2: 2 MiB with the free segments `[0, 16 KiB)` and
`[1 MiB, 1 MiB + 64 KiB)`. -/
def ms_two_segments : metaslab_t :=
  { ms_start := 0
    ms_size := 2097152
    ms_sm := true
    ms_allocated_space := 2015232
    ms_allocatable := [⟨0, 16384⟩, ⟨1048576, 1114112⟩]
    ms_trim := []
    ms_disabled := 0 }

/-- The leaf as a pool import finds it, before `vdev_trim_restart`: no manual
TRIM state in memory and no worker, while the leaf ZAP holds the settings of an
earlier run and the given state. -/
def spa_imported (state : vdev_trim_state_t) : spa_t :=
  spa_of
    { vd_active with
      vdev_trim_state := VDEV_TRIM_NONE
      vdev_trim_action_time := 0
      vdev_trim_thread := false }
    { zap_complete with VDEV_LEAF_ZAP_TRIM_STATE := some state }

/-- A suspended leaf without worker that holds the settings of its run. -/
def spa_suspended : spa_t :=
  spa_of { vd_complete with vdev_trim_state := VDEV_TRIM_SUSPENDED }
    { zap_complete with VDEV_LEAF_ZAP_TRIM_STATE := some VDEV_TRIM_SUSPENDED }

/-- The first chunk of a manual TRIM of the healthy leaf, issued in txg 7. -/
def zio_first : zio_t :=
  { io_offset := 4194304
    io_orig_size := 134217728
    io_txg := 7
    io_trim_type := TRIM_TYPE_MANUAL
    io_trim_flags := 0
    io_done := false }

/-- The healthy leaf after that chunk went out: the zio is in flight, the slot
of txg 7 holds the end of the chunk and the sync task of txg 7 is pending. -/
def spa_first_chunk : spa_t :=
  { spa_of
      { vd_active with
        vdev_trim_inflight := Function.update (fun _ => 0) TRIM_TYPE_MANUAL 1
        vdev_trim_offset := Function.update (fun _ => 0) 3 138412032 }
      zap_empty with
    sync_tasks := [⟨7, 1⟩]
    zios := [zio_first] }

/-- A share list of three shares, as `smb_retrieve_shares` installs it. -/
def shares_three : List smb_share_t :=
  [⟨"a", "/Volumes/a", 1, 0⟩, ⟨"b", "/Volumes/b", 1, 0⟩, ⟨"c", "/Volumes/c", 0, 1⟩]

/-! ## Autotrim worker

The function `vdev_autotrim_thread` for one top-level vdev. The frees that the
allocator adds to `ms_trim` while a pass runs are not followed, and the
`metaslab_load` under `ZFS_DEBUG_TRIM` does not fail. -/

/-- Conversion of an `int` to `uint64_t`. -/
def int_to_u64 (x : Int) : Nat := (x % 18446744073709551616).toNat

/-- The statement `shift++` on an `int`, wrapping at `INT_MAX` as two's
complement arithmetic does. -/
def int_inc (x : Int) : Int :=
  if x + 1 > 2147483647 then x + 1 - 4294967296 else x + 1

/-- Value of the pool property `autotrim`, as `spa_get_autotrim` returns it. -/
inductive spa_autotrim_t where
  | SPA_AUTOTRIM_OFF
  | SPA_AUTOTRIM_ON
  deriving DecidableEq

open spa_autotrim_t

/-- A vdev of the tree under a top-level vdev as `vdev_autotrim_thread` reads
it: its TRIM fields with the pool state around them (`spa.vd` is the vdev),
`vdev_has_trim` and `vdev_ops->vdev_op_leaf`. -/
structure autotrim_vdev_t where
  spa : spa_t
  vdev_has_trim : Bool
  vdev_op_leaf : Bool

/-- What `vdev_autotrim_thread` hands to the allocator and to the scheduler, in
the order it does so: `skipped i` is the `metaslab_enable(msp, B_FALSE)` of a
metaslab left by `continue`, `ranges c error chunks` is a call of
`vdev_trim_ranges` for child `c` that returned `error` after `chunks` calls of
`vdev_trim_range`, `enabled i issued_trim` is the
`metaslab_enable(msp, issued_trim)` at the end of the loop body, and `delay` is
`delay(hz)`. -/
inductive autotrim_event_t where
  | skipped (i : Nat)
  | ranges (c error chunks : Nat)
  | enabled (i : Nat) (issued_trim : Bool)
  | delay
  deriving DecidableEq

/-- A top-level vdev as `vdev_autotrim_thread` works on it: the vdev itself,
its children (`vdev_children` is the length of `vdev_child`), its metaslab
array (`vdev_ms_count` is the length of `vdev_ms`), the two autotrim fields,
the pool property and the events so far. -/
structure autotrim_top_t where
  vdev_self : autotrim_vdev_t
  vdev_child : List autotrim_vdev_t
  vdev_ms : List metaslab_t
  vdev_autotrim_exit_wanted : Bool
  vdev_autotrim_thread : Bool
  spa_autotrim : spa_autotrim_t
  events : List autotrim_event_t

/-- What another thread can do to a top-level vdev while its autotrim worker is
between two passes: `vdev_autotrim_stop_wait` asks it to exit, the pool
property is set, or a step is made on the vdev itself or on child `c`. -/
inductive autotrim_interference where
  | exit_wanted
  | set_autotrim (v : spa_autotrim_t)
  | top (a : trim_interference)
  | child (c : Nat) (a : trim_interference)

/-- Effect of one step of another thread on the top-level vdev. -/
def autotrim_interference.apply (P : zfs_params) (tvd : autotrim_top_t) :
    autotrim_interference → Option autotrim_top_t
  | .exit_wanted => some { tvd with vdev_autotrim_exit_wanted := true }
  | .set_autotrim v => some { tvd with spa_autotrim := v }
  | .top a =>
    match a.apply P tvd.vdev_self.spa with
    | none => none
    | some s => some { tvd with vdev_self := { tvd.vdev_self with spa := s } }
  | .child c a =>
    match tvd.vdev_child[c]? with
    | none => some tvd
    | some cvd =>
      match a.apply P cvd.spa with
      | none => none
      | some s => some { tvd with vdev_child := tvd.vdev_child.set c { cvd with spa := s } }

/-- What the rest of the system does while the autotrim worker of a top-level
vdev runs: `calls c` is the environment of the calls of `vdev_trim_range` for
child `c`; `manual_start i c` says that, when the issue loop of metaslab `i`
comes to child `c`, another thread has attached a manual worker to the child
since its tree was built (of that, `vdev_trim_thread` is kept); `pass_before k`
runs before the loop guard is evaluated with `shift = k`; `drain c` runs while
the worker waits for the zios of child `c` on its way out; `ZFS_DEBUG_TRIM`
says that the flag is set in `zfs_flags`. -/
structure autotrim_env where
  calls : Nat → Nat → trim_call_env
  manual_start : Nat → Nat → Bool
  pass_before : Nat → List autotrim_interference
  drain : Nat → List trim_interference
  ZFS_DEBUG_TRIM : Bool

/-- Child `c` as the issue loop of metaslab `i` finds it when it comes to the
child. -/
def autotrim_env.child_at (env : autotrim_env) (i c : Nat) (cvd : autotrim_vdev_t) :
    autotrim_vdev_t :=
  if env.manual_start i c = true then
    { cvd with spa := { cvd.spa with vd := { cvd.spa.vd with vdev_trim_thread := true } } }
  else cvd

/-- The array `tap` of the loop body: the vdev itself when it has no children,
its children otherwise. -/
def autotrim_top_t.tap (tvd : autotrim_top_t) : List autotrim_vdev_t :=
  if tvd.vdev_child.length = 0 then [tvd.vdev_self] else tvd.vdev_child

/-- The vdevs of `tap` put back after the calls of `vdev_trim_ranges`. -/
def autotrim_top_t.set_tap (tvd : autotrim_top_t) (l : List autotrim_vdev_t) :
    autotrim_top_t :=
  if tvd.vdev_child.length = 0 then { tvd with vdev_self := l.headD tvd.vdev_self }
  else { tvd with vdev_child := l }

/-- The body of the loop of `vdev_autotrim_thread` that builds the tree of one
child from the swapped tree of the metaslab. The inner `none` is a `trim_tree`
left `NULL`, the outer `none` a panic of `range_tree_add`. -/
def vdev_autotrim_thread_tree (P : zfs_params) (trim_tree : List range_seg_t)
    (cvd : autotrim_vdev_t) : Option (Option trim_args_t) :=
  if cvd.spa.vd.vdev_detached = true ∨ cvd.spa.vd.vdev_writeable = false ∨
      cvd.vdev_has_trim = false ∨ cvd.vdev_op_leaf = false ∨
      cvd.spa.vd.vdev_trim_thread = true then some none
  else
    match range_tree_walk cvd.spa.vd trim_tree (vdev_autotrim_thread_args P) with
    | none => none
    | some ta => some (some ta)

/-- The loop of `vdev_autotrim_thread` that issues the trims of metaslab `i`,
from child `c` on; the result is the new value of `issued_trim`, the children
and the calls of `vdev_trim_ranges` made. An error of `vdev_trim_ranges` leaves
the loop (`break`) before `issued_trim` is set. -/
def vdev_autotrim_thread_issue (P : zfs_params) (env : autotrim_env) (i : Nat) :
    Nat → List (autotrim_vdev_t × Option trim_args_t) → Bool →
      Option (Bool × List autotrim_vdev_t × List autotrim_event_t)
  | _, [], issued_trim => some (issued_trim, [], [])
  | c, (cvd, tree) :: rest, issued_trim =>
    let cvd0 := env.child_at i c cvd
    match tree with
    | none =>
      match vdev_autotrim_thread_issue P env i (c + 1) rest issued_trim with
      | none => none
      | some (issued_trim1, kids, evs) => some (issued_trim1, cvd0 :: kids, evs)
    | some ta =>
      if cvd0.spa.vd.vdev_trim_thread = true then
        match vdev_autotrim_thread_issue P env i (c + 1) rest issued_trim with
        | none => none
        | some (issued_trim1, kids, evs) => some (issued_trim1, cvd0 :: kids, evs)
      else
        match vdev_trim_ranges P (env.calls c) ta cvd0.spa with
        | none => none
        | some (error, spa1) =>
          let ev := autotrim_event_t.ranges c error
            (spa1.trim_calls.length - cvd0.spa.trim_calls.length)
          if error ≠ 0 then
            some (issued_trim, { cvd0 with spa := spa1 } :: rest.map Prod.fst, [ev])
          else
            match vdev_autotrim_thread_issue P env i (c + 1) rest true with
            | none => none
            | some (issued_trim1, kids, evs) =>
              some (issued_trim1, { cvd0 with spa := spa1 } :: kids, ev :: evs)

/-- Modelled from the spec: `range_tree_find(rt, start, size)` of the range tree
library; it finds the segment of the tree that holds all of
`[start, start + size)`. -/
def range_tree_find (rt : List range_seg_t) (start size : Nat) : Option range_seg_t :=
  rt.find? (fun rs => decide (rs.rs_start ≤ start) && decide (start + size ≤ rs.rs_end))

/-- The walk callback `vdev_trim_range_verify` on a loaded metaslab; `false` is
a failed `VERIFY`. -/
def vdev_trim_range_verify (msp : metaslab_t) (start size : Nat) : Bool :=
  decide (msp.ms_disabled > 0) && (range_tree_find msp.ms_allocatable start size).isSome

/-- The body of the metaslab loop of `vdev_autotrim_thread` for metaslab `i`;
the result is the new value of `issued_trim` and the new state. `none` is a
panic, of `range_tree_add` or of the verification under `ZFS_DEBUG_TRIM`, or a
call of `vdev_trim_ranges` that never returns. -/
def vdev_autotrim_thread_ms (P : zfs_params) (env : autotrim_env) (i : Nat)
    (issued_trim : Bool) (tvd : autotrim_top_t) : Option (Bool × autotrim_top_t) :=
  match tvd.vdev_ms[i]? with
  | none => none
  | some msp =>
    let msp1 := metaslab_disable msp
    if msp1.ms_sm = false ∨ msp1.ms_trim = [] then
      some (issued_trim, { tvd with
        vdev_ms := tvd.vdev_ms.set i (metaslab_enable msp1 false)
        events := tvd.events ++ [autotrim_event_t.skipped i] })
    else if msp1.ms_disabled > 1 then
      some (issued_trim, { tvd with
        vdev_ms := tvd.vdev_ms.set i (metaslab_enable msp1 false)
        events := tvd.events ++ [autotrim_event_t.skipped i] })
    else
      let trim_tree := msp1.ms_trim
      let msp2 := { msp1 with ms_trim := [] }
      match tvd.tap.mapM (vdev_autotrim_thread_tree P trim_tree) with
      | none => none
      | some trees =>
        match vdev_autotrim_thread_issue P env i 0 (tvd.tap.zip trees) issued_trim with
        | none => none
        | some (issued_trim1, kids, evs) =>
          if env.ZFS_DEBUG_TRIM = true ∧
              trim_tree.all (fun rs => vdev_trim_range_verify msp2 rs.rs_start
                (u64_sub rs.rs_end rs.rs_start)) = false then none
          else
            some (issued_trim1, { tvd.set_tap kids with
              vdev_ms := tvd.vdev_ms.set i (metaslab_enable msp2 issued_trim1)
              events := tvd.events ++ evs ++ [autotrim_event_t.enabled i issued_trim1] })

/-- The metaslab loop of `vdev_autotrim_thread`, at index `i` with stride
`txgs_per_trim`, with `n` guard evaluations left; `none` also when the guard
evaluations run out. -/
def vdev_autotrim_thread_ms_loop (P : zfs_params) (env : autotrim_env)
    (txgs_per_trim : Int) : Nat → Nat → Bool → autotrim_top_t →
      Option (Bool × autotrim_top_t)
  | 0, _, _, _ => none
  | n + 1, i, issued_trim, tvd =>
    if ¬ i < tvd.vdev_ms.length then some (issued_trim, tvd)
    else
      match vdev_autotrim_thread_ms P env i issued_trim tvd with
      | none => none
      | some (issued_trim1, tvd1) =>
        vdev_autotrim_thread_ms_loop P env txgs_per_trim n
          (u64_add i (int_to_u64 txgs_per_trim)) issued_trim1 tvd1

/-- One pass of `vdev_autotrim_thread`, the body of its `while` loop, for the
value `shift` of the counter: the metaslab loop, the `delay(hz)` when no trim
was issued, and `shift++`. The metaslab loop evaluates its guard at most once
more than there are metaslabs. -/
def vdev_autotrim_thread_pass (P : zfs_params) (env : autotrim_env) (shift : Int)
    (tvd : autotrim_top_t) : Option (Int × autotrim_top_t) :=
  let txgs_per_trim : Int := max P.zfs_trim_txg_batch 1
  match vdev_autotrim_thread_ms_loop P env txgs_per_trim (tvd.vdev_ms.length + 1)
      (int_to_u64 (Int.tmod shift txgs_per_trim)) false tvd with
  | none => none
  | some (issued_trim, tvd1) =>
    some (int_inc shift,
      if issued_trim = false then
        { tvd1 with events := tvd1.events ++ [autotrim_event_t.delay] }
      else tvd1)

/-- The `while` loop of `vdev_autotrim_thread`, with `n` evaluations of its
guard left; `none` also for a worker that is still running when they are
used up. -/
def vdev_autotrim_thread_loop (P : zfs_params) (env : autotrim_env) :
    Nat → Int → autotrim_top_t → Option autotrim_top_t
  | 0, _, _ => none
  | n + 1, shift, tvd =>
    match (env.pass_before shift.toNat).foldlM (fun s a => a.apply P s) tvd with
    | none => none
    | some tvd0 =>
      if tvd0.vdev_autotrim_exit_wanted = false ∧ tvd0.vdev_self.spa.vd.vdev_writeable = true ∧
          tvd0.vdev_self.spa.vd.vdev_top_removing = false ∧
          tvd0.spa_autotrim = SPA_AUTOTRIM_ON then
        match vdev_autotrim_thread_pass P env shift tvd0 with
        | none => none
        | some (shift1, tvd1) => vdev_autotrim_thread_loop P env n shift1 tvd1
      else some tvd0

/-- The wait of `vdev_autotrim_thread` for the autotrim zios of one child;
`none` while some are left when `drain` is used up. -/
def vdev_autotrim_thread_drain (P : zfs_params) (env : autotrim_env) (c : Nat)
    (cvd : autotrim_vdev_t) : Option autotrim_vdev_t :=
  match trim_interfere P (env.drain c) cvd.spa with
  | none => none
  | some s =>
    if s.vd.vdev_trim_inflight TRIM_TYPE_AUTO > 0 then none
    else some { cvd with spa := s }

/-- The function `vdev_autotrim_thread`, for a worker that is given `n`
evaluations of the guard of its `while` loop. -/
def vdev_autotrim_thread (P : zfs_params) (env : autotrim_env) (n : Nat)
    (tvd : autotrim_top_t) : Option autotrim_top_t :=
  match vdev_autotrim_thread_loop P env n 0 tvd with
  | none => none
  | some tvd1 =>
    match (tvd1.vdev_child.zip (List.range tvd1.vdev_child.length)).mapM
        (fun p => vdev_autotrim_thread_drain P env p.2 p.1) with
    | none => none
    | some kids =>
      some { tvd1 with
        vdev_child := kids
        vdev_ms :=
          if tvd1.spa_autotrim = SPA_AUTOTRIM_OFF then
            tvd1.vdev_ms.map (fun msp => { msp with ms_trim := [] })
          else tvd1.vdev_ms
        vdev_autotrim_thread := false }

/-! ## Views of the loader and of the progress estimator -/

/-- The field of the leaf that `vdev_trim_load` fills from a key. -/
def trim_setting (vd : vdev_t) : zap_key_t → Nat
  | .LAST_OFFSET => vd.vdev_trim_last_offset
  | .RATE => vd.vdev_trim_rate
  | .PARTIAL => vd.vdev_trim_partial
  | .SECURE => vd.vdev_trim_secure

/-- The place of a key in the order in which `vdev_trim_load` looks the keys
up. -/
def zap_key_t.order : zap_key_t → Nat
  | .LAST_OFFSET => 0
  | .RATE => 1
  | .PARTIAL => 2
  | .SECURE => 3

/-- A lookup of the key ends with success or with `ENOENT`. -/
def zap_lookup_ok (spa : spa_t) (key : zap_key_t) : Prop :=
  (zap_lookup spa key).1 = 0 ∨ (zap_lookup spa key).1 = ENOENT

instance (spa : spa_t) (key : zap_key_t) : Decidable (zap_lookup_ok spa key) := by
  unfold zap_lookup_ok
  infer_instance

/-- The sum `a + b` fits in a `uint64_t`. -/
def u64_fits (a b : Nat) : Bool := decide (a + b < 18446744073709551616)

/-- No addition of the inner loop of `vdev_trim_calculate_progress` overflows
on the segments given, from the sums `(vdev_trim_bytes_est,
vdev_trim_bytes_done)` given. -/
def progress_segs_fit (vd : vdev_t) : List range_seg_t → Nat × Nat → Bool
  | [], _ => true
  | rs :: rest, (est, done) =>
    let physical_rs := vd.vdev_xlate ⟨rs.rs_start, rs.rs_end⟩
    let size := u64_sub physical_rs.rs_end physical_rs.rs_start
    u64_fits est size &&
      (if vd.vdev_trim_last_offset ≥ physical_rs.rs_end then u64_fits done size
        else if vd.vdev_trim_last_offset > physical_rs.rs_start ∧
            vd.vdev_trim_last_offset ≤ physical_rs.rs_end then
          u64_fits done (u64_sub vd.vdev_trim_last_offset physical_rs.rs_start)
        else true) &&
      progress_segs_fit vd rest
        (vdev_trim_calculate_progress_segs vd [rs] (est, done))

/-- No addition of `vdev_trim_calculate_progress` overflows on the metaslabs
given, from the sums given. -/
def progress_ms_fit (vd : vdev_t) : List metaslab_t → Nat × Nat → Bool
  | [], _ => true
  | msp :: rest, (est, done) =>
    let ms_free0 := u64_sub msp.ms_size msp.ms_allocated_space
    let ms_free := if vd.vdev_top_raidz then ms_free0 / vd.vdev_top_children else ms_free0
    let physical_rs := vd.vdev_xlate ⟨msp.ms_start, u64_add msp.ms_start msp.ms_size⟩
    if vd.vdev_trim_last_offset ≤ physical_rs.rs_start then
      u64_fits est ms_free && progress_ms_fit vd rest (u64_add est ms_free, done)
    else if vd.vdev_trim_last_offset > physical_rs.rs_end then
      u64_fits est ms_free && u64_fits done ms_free &&
        progress_ms_fit vd rest (u64_add est ms_free, u64_add done ms_free)
    else
      progress_segs_fit vd msp.ms_allocatable (est, done) &&
        progress_ms_fit vd rest
          (vdev_trim_calculate_progress_segs vd msp.ms_allocatable (est, done))

/-- What a lookup that ends with success or with `ENOENT` leaves in the field:
the stored value, and 0 for a key that is missing. -/
def zap_found (spa : spa_t) (key : zap_key_t) : Nat :=
  if spa.zap_fault key = 0 then zap_value spa.zap key else 0

/-- The lookups of `vdev_trim_load`, its part before the call of
`vdev_trim_calculate_progress`: the value of `err` and the leaf. -/
def vdev_trim_load_keys (spa : spa_t) : Nat × vdev_t :=
  let vd := spa.vd
  if vd.vdev_trim_state = VDEV_TRIM_ACTIVE ∨ vd.vdev_trim_state = VDEV_TRIM_SUSPENDED then
    let r1 := vdev_trim_load_key spa .LAST_OFFSET vd.vdev_trim_last_offset
    let vd1 := { vd with vdev_trim_last_offset := r1.2 }
    if r1.1 ≠ 0 then (r1.1, vd1)
    else
      let r2 := vdev_trim_load_key spa .RATE vd1.vdev_trim_rate
      let vd2 := { vd1 with vdev_trim_rate := r2.2 }
      if r2.1 ≠ 0 then (r2.1, vd2)
      else
        let r3 := vdev_trim_load_key spa .PARTIAL vd2.vdev_trim_partial
        let vd3 := { vd2 with vdev_trim_partial := r3.2 }
        if r3.1 ≠ 0 then (r3.1, vd3)
        else
          let r4 := vdev_trim_load_key spa .SECURE vd3.vdev_trim_secure
          (r4.1, { vd3 with vdev_trim_secure := r4.2 })
  else (0, vd)

/-! ## Views of the autotrim events -/

/-- The metaslab that an event of the worker re-enables. -/
def autotrim_event_t.visit : autotrim_event_t → Option Nat
  | .skipped i => some i
  | .enabled i _ => some i
  | _ => none

/-- The metaslabs re-enabled by a list of events, in order: the metaslabs the
loop body ran for. -/
def autotrim_visits (evs : List autotrim_event_t) : List Nat :=
  evs.filterMap autotrim_event_t.visit

/-- The event is a call of `vdev_trim_ranges` that returned 0. -/
def autotrim_event_t.returned_zero : autotrim_event_t → Bool
  | .ranges _ error _ => decide (error = 0)
  | _ => false

/-- Some call of `vdev_trim_ranges` among the events returned 0. -/
def ranges_ok (evs : List autotrim_event_t) : Bool :=
  evs.any autotrim_event_t.returned_zero

/-- The event is a call of `vdev_trim_ranges` that handed a chunk to
`vdev_trim_range`. -/
def autotrim_event_t.handed_chunk : autotrim_event_t → Bool
  | .ranges _ _ chunks => decide (0 < chunks)
  | _ => false

/-- Some call of `vdev_trim_ranges` among the events handed a chunk to
`vdev_trim_range`. -/
def chunk_handed (evs : List autotrim_event_t) : Bool :=
  evs.any autotrim_event_t.handed_chunk

/-- Every `metaslab_enable(msp, issued_trim)` among the events passes a flag
that says whether a call of `vdev_trim_ranges` before it returned 0, where
`ok` says whether one did before the events. -/
def flags_follow (ok : Bool) (evs : List autotrim_event_t) : Prop :=
  ∀ pre i flag post, evs = pre ++ autotrim_event_t.enabled i flag :: post →
    flag = (ok || ranges_ok pre)

/-- The metaslabs of a pass in the words of the specification: "for pass p,
visit metaslabs with i ≡ p mod txgs_per_trim", of `n` metaslabs, in increasing
order. -/
def pass_indices_spec (n txgs_per_trim p : Nat) : List Nat :=
  (List.range n).filter (fun j => decide (j % txgs_per_trim = p % txgs_per_trim))

/-- The indices below `n` from `i` on that are congruent to `i` modulo `t`, in
increasing order. -/
def stride_from (t n i : Nat) : List Nat :=
  (List.range n).filter (fun j => decide (i ≤ j) && decide (j % t = i % t))

/-! ## Scenarios of the autotrim worker, the loader and the estimator -/

/-- A healthy leaf without manual TRIM, as autotrim finds it. -/
def vd_idle : vdev_t :=
  { vd_active with
    vdev_trim_state := VDEV_TRIM_NONE
    vdev_trim_action_time := 0
    vdev_trim_thread := false }

/-- A metaslab `[0, 1 GiB)` with a space map, all of it free, whose recently
freed segments are `ms_trim`. -/
def ms_freed (ms_trim : List range_seg_t) : metaslab_t :=
  { ms_start := 0
    ms_size := 1073741824
    ms_sm := true
    ms_allocated_space := 0
    ms_allocatable := [⟨0, 1073741824⟩]
    ms_trim := ms_trim
    ms_disabled := 0 }

/-- A top-level vdev that is a healthy leaf with TRIM support, with the given
metaslabs, a running autotrim worker and the property `autotrim` on. -/
def tvd_leaf (ms : List metaslab_t) : autotrim_top_t :=
  { vdev_self := { spa := spa_of vd_idle zap_empty, vdev_has_trim := true, vdev_op_leaf := true }
    vdev_child := []
    vdev_ms := ms
    vdev_autotrim_exit_wanted := false
    vdev_autotrim_thread := true
    spa_autotrim := SPA_AUTOTRIM_ON
    events := [] }

/-- An environment of the autotrim worker in which nothing interferes and
every call of `vdev_trim_range` gets txg 7. -/
def env_auto : autotrim_env :=
  { calls := fun _ _ => { before := [], txg := 7, during := [] }
    manual_start := fun _ _ => false
    pass_before := fun _ => []
    drain := fun _ => []
    ZFS_DEBUG_TRIM := false }

/-- The same environment, except that the leaf stops being writeable while the
worker is in its second call of `vdev_trim_range`. -/
def env_auto_fault : autotrim_env :=
  { env_auto with
    calls := fun _ n =>
      { before := [], txg := 7,
        during := if n = 1 then [trim_interference.set_writeable false] else [] } }

/-- A leaf in state Active whose ZAP holds a last offset and a secure flag but
no rate, and whose lookup of the key for partial fails with `EIO` (5); in
memory partial is 7 and secure is 9. -/
def spa_lookup_fault : spa_t :=
  { spa_of { vd_active with vdev_trim_partial := 7, vdev_trim_secure := 9 }
      { zap_complete with VDEV_LEAF_ZAP_TRIM_RATE := none } with
    zap_fault := fun key => if key = zap_key_t.PARTIAL then 5 else 0 }

/-- A leaf that resumes a manual TRIM at offset 20000 of the metaslab of
scenario S2. -/
def spa_midway : spa_t :=
  { spa_of { vd_active with vdev_trim_last_offset := 20000 } zap_empty with
    vdev_ms := [ms_two_segments] }

/-! ## A walk of which no stop is requested -/

/-- The steps of other threads that ask a TRIM worker to stop: the leaf stops
being writeable, the leaf is detached, the removal of its top-level vdev
starts, or `vdev_trim_stop` is called. -/
def trim_interference.stops : trim_interference → Bool
  | .set_writeable b => !b
  | .detach => true
  | .top_removing => true
  | .stop _ _ _ => true
  | _ => false

/-- No stop is requested of a walk that starts in `spa`:
`vdev_trim_should_stop` is false at the start and no step of another thread
during the calls of `vdev_trim_range` still to come asks the worker to stop. -/
def no_stop_requested (env : Nat → trim_call_env) (spa : spa_t) : Prop :=
  vdev_trim_should_stop spa.vd = false ∧
  ∀ n, spa.trim_calls.length ≤ n →
    ∀ a ∈ (env n).before ++ (env n).during, a.stops = false

/-- The device completes its zios fast enough for the queue gate to open: at
every call of `vdev_trim_range` still to come, each zio but the
`zfs_trim_queue_limit - 1` newest has completed before the walk starts, or
completes while this call or an earlier one of the walk waits in the gate, after
the zio was submitted. -/
def queue_drains (P : zfs_params) (env : Nat → trim_call_env) (spa : spa_t) : Prop :=
  ∀ n j, spa.trim_calls.length ≤ n →
    j + P.zfs_trim_queue_limit ≤ spa.zios.length + (n - spa.trim_calls.length) →
    (∃ z, spa.zios[j]? = some z ∧ z.io_done = true) ∨
    ∃ m e, spa.trim_calls.length ≤ m ∧ m ≤ n ∧
      j < spa.zios.length + (m - spa.trim_calls.length) ∧
      trim_interference.io_done j e ∈ (env m).before

/-- What holds between two calls of `vdev_trim_range` of a walk of which no
stop is requested and whose queue drains. -/
def walk_inv (P : zfs_params) (env : Nat → trim_call_env) (spa : spa_t) : Prop :=
  no_stop_requested env spa ∧ spa.vd.vdev_leaf_zap ≠ 0 ∧
    queue_inv P { spa := spa, in_call := fun _ => 0 } ∧ queue_drains P env spa

/-! ## Frame lemmas: other threads do not touch the worker's own records -/

theorem spa_iostats_trim_add_view (spa : spa_t) (type : trim_type_t)
    (ok ok_bytes failed failed_bytes : Nat) :
    issue_view (spa_iostats_trim_add spa type ok ok_bytes 0 0 failed failed_bytes) =
      issue_view spa := by
  cases type <;> simp [issue_view, spa_iostats_trim_add, Function.update_apply]

theorem vdev_trim_zap_update_sync_view (P : zfs_params) (guid txg : Nat)
    (spa spa1 : spa_t) (h : vdev_trim_zap_update_sync P guid txg spa = some spa1) :
    issue_view spa1 = issue_view spa := by
  unfold vdev_trim_zap_update_sync at h
  split at h
  · cases h; rfl
  · split at h
    · cases h
    · cases h; rfl

theorem vdev_trim_change_state_view (spa spa1 : spa_t) (new_state : vdev_trim_state_t)
    (rate part secure now txg : Nat)
    (h : vdev_trim_change_state spa new_state rate part secure now txg = some spa1) :
    issue_view spa1 = issue_view spa := by
  unfold vdev_trim_change_state at h
  by_cases hc : new_state = spa.vd.vdev_trim_state
  · rw [if_pos hc] at h; cases h; rfl
  · rw [if_neg hc] at h
    dsimp only at h
    cases hev : vdev_trim_state_event new_state
        (decide (spa.vd.vdev_trim_state = VDEV_TRIM_SUSPENDED)) with
    | none => rw [hev] at h; cases h
    | some ev => rw [hev] at h; cases h; rfl

theorem vdev_trim_stop_request_view (spa spa1 : spa_t) (tgt_state : vdev_trim_state_t)
    (now txg : Nat) (h : vdev_trim_stop_request spa tgt_state now txg = some spa1) :
    issue_view spa1 = issue_view spa := by
  unfold vdev_trim_stop_request at h
  by_cases hc : spa.vd.vdev_trim_thread = false ∧ tgt_state ≠ VDEV_TRIM_CANCELED
  · rw [if_pos hc] at h; cases h; rfl
  · rw [if_neg hc] at h
    cases h2 : vdev_trim_change_state spa tgt_state 0 0 0 now txg with
    | none => rw [h2] at h; cases h
    | some spa2 =>
      rw [h2] at h
      injection h with h
      rw [← h]
      exact vdev_trim_change_state_view spa spa2 _ _ _ _ _ _ h2

theorem vdev_trim_cb_view (P : zfs_params) (zio : zio_t) (io_error : Nat) (spa : spa_t) :
    issue_view (vdev_trim_cb P zio io_error spa) = issue_view spa := by
  unfold vdev_trim_cb
  simp only [issue_view, spa_iostats_trim_add]
  split_ifs <;> simp [Function.update_apply]

theorem vdev_autotrim_cb_view (zio : zio_t) (io_error : Nat) (spa : spa_t) :
    issue_view (vdev_autotrim_cb zio io_error spa) = issue_view spa := by
  unfold vdev_autotrim_cb
  simp only [issue_view, spa_iostats_trim_add]
  split_ifs <;> simp [Function.update_apply]

theorem zio_done_view (P : zfs_params) (i io_error : Nat) (spa : spa_t) :
    issue_view (zio_done P i io_error spa) = issue_view spa := by
  unfold zio_done
  cases spa.zios[i]? with
  | none => rfl
  | some zio =>
    dsimp only
    by_cases hd : zio.io_done = true
    · rw [if_pos hd]
    · rw [if_neg hd]
      cases zio.io_trim_type with
      | TRIM_TYPE_MANUAL => dsimp only; rw [vdev_trim_cb_view]; rfl
      | TRIM_TYPE_AUTO => dsimp only; rw [vdev_autotrim_cb_view]; rfl

theorem foldlM_sync_view (P : zfs_params) (tasks : List sync_task_t) :
    ∀ (spa spa1 : spa_t),
      tasks.foldlM (fun s t => vdev_trim_zap_update_sync P t.st_guid t.st_txg s) spa =
        some spa1 → issue_view spa1 = issue_view spa := by
  induction tasks with
  | nil => intro spa spa1 h; simp at h; rw [h]
  | cons t rest ih =>
    intro spa spa1 h
    rw [List.foldlM_cons] at h
    cases h1 : vdev_trim_zap_update_sync P t.st_guid t.st_txg spa with
    | none => rw [h1] at h; simp at h
    | some spa2 =>
      rw [h1] at h
      rw [ih spa2 spa1 h]
      exact vdev_trim_zap_update_sync_view P _ _ _ _ h1

theorem spa_sync_view (P : zfs_params) (txg : Nat) (spa spa1 : spa_t)
    (h : spa_sync P txg spa = some spa1) : issue_view spa1 = issue_view spa := by
  unfold spa_sync at h
  rw [foldlM_sync_view P _ _ _ h]
  rfl

theorem trim_interference_apply_view (P : zfs_params) (a : trim_interference)
    (spa spa1 : spa_t) (h : a.apply P spa = some spa1) :
    issue_view spa1 = issue_view spa := by
  cases a with
  | io_done i io_error =>
    simp only [trim_interference.apply, Option.some.injEq] at h
    rw [← h]; exact zio_done_view P i io_error spa
  | txg_sync txg => exact spa_sync_view P txg spa spa1 h
  | set_writeable b =>
    simp only [trim_interference.apply, Option.some.injEq] at h
    rw [← h]; rfl
  | detach =>
    simp only [trim_interference.apply, Option.some.injEq] at h
    rw [← h]; rfl
  | top_removing =>
    simp only [trim_interference.apply, Option.some.injEq] at h
    rw [← h]; rfl
  | stop tgt_state now txg => exact vdev_trim_stop_request_view spa spa1 tgt_state now txg h

theorem trim_interfere_view (P : zfs_params) (script : List trim_interference) :
    ∀ (spa spa1 : spa_t), trim_interfere P script spa = some spa1 →
      issue_view spa1 = issue_view spa := by
  induction script with
  | nil => intro spa spa1 h; simp [trim_interfere] at h; rw [h]
  | cons a rest ih =>
    intro spa spa1 h
    unfold trim_interfere at h
    rw [List.foldlM_cons] at h
    cases h1 : a.apply P spa with
    | none => rw [h1] at h; simp at h
    | some spa2 =>
      rw [h1] at h
      rw [ih spa2 spa1 h]
      exact trim_interference_apply_view P a spa spa2 h1

/-! ## The calls `vdev_trim_ranges` makes -/

theorem vdev_trim_range_issue_view (P : zfs_params) (ta : trim_args_t)
    (start size txg : Nat) (spa : spa_t) :
    issue_view (vdev_trim_range_issue P ta start size txg spa).2 = issue_view spa := by
  unfold vdev_trim_range_issue
  dsimp only
  split_ifs <;> rfl

theorem vdev_trim_range_gate_view (P : zfs_params) (ta : trim_args_t) (spa spa1 : spa_t)
    (h : vdev_trim_range_gate P ta spa = some spa1) : issue_view spa1 = issue_view spa := by
  unfold vdev_trim_range_gate at h
  split_ifs at h
  injection h with h
  rw [← h]
  rfl

theorem vdev_trim_range_view (P : zfs_params) (env : Nat → trim_call_env) (ta : trim_args_t)
    (start size : Nat) (spa spa1 : spa_t) (error : Nat)
    (h : vdev_trim_range P env ta start size spa = some (error, spa1)) :
    issue_view spa1 = (spa.trim_calls ++ [(start, size)], (issue_view spa).2) := by
  unfold vdev_trim_range at h
  dsimp only at h
  cases h1 : trim_interfere P (env spa.trim_calls.length).before
      { spa with trim_calls := spa.trim_calls ++ [(start, size)] } with
  | none => rw [h1] at h; cases h
  | some s1 =>
    have v1 := trim_interfere_view P _ _ _ h1
    rw [h1] at h
    dsimp only at h
    cases h2 : vdev_trim_range_gate P ta s1 with
    | none => rw [h2] at h; cases h
    | some s2 =>
      have v2 := vdev_trim_range_gate_view P ta s1 s2 h2
      rw [h2] at h
      dsimp only at h
      cases h3 : trim_interfere P (env spa.trim_calls.length).during s2 with
      | none => rw [h3] at h; cases h
      | some s3 =>
        have v3 := trim_interfere_view P _ _ _ h3
        rw [h3] at h
        dsimp only at h
        injection h with h
        have h4 := congrArg Prod.snd h
        dsimp only at h4
        rw [← h4, vdev_trim_range_issue_view, v3, v2, v1]
        rfl

theorem vdev_trim_ranges_writes_view (P : zfs_params) (env : Nat → trim_call_env)
    (ta : trim_args_t) (rs_start size : Nat) :
    ∀ (n w : Nat) (spa spa1 : spa_t) (error : Nat),
      vdev_trim_ranges_writes P env ta rs_start size n w spa = some (error, spa1) →
      (issue_view spa1).2 = (issue_view spa).2 ∧
      (∃ k, k ≤ n ∧ (0 < n → 0 < k) ∧ (error = 0 → k = n) ∧
        spa1.trim_calls = spa.trim_calls ++
          (List.range' w k).map (writes_call P ta rs_start size)) := by
  intro n
  induction n with
  | zero =>
    intro w spa spa1 error h
    simp only [vdev_trim_ranges_writes, Option.some.injEq, Prod.mk.injEq] at h
    obtain ⟨_, h⟩ := h
    subst h
    exact ⟨rfl, 0, le_refl _, fun h0 => absurd h0 (lt_irrefl _), fun _ => rfl, by simp⟩
  | succ n ih =>
    intro w spa spa1 error h
    rw [vdev_trim_ranges_writes] at h
    cases h1 : vdev_trim_range P env ta
        (u64_add (u64_add P.VDEV_LABEL_START_SIZE rs_start)
          (u64_mul w ta.trim_extent_bytes_max))
        (min (u64_sub size (u64_mul w ta.trim_extent_bytes_max)) ta.trim_extent_bytes_max)
        spa with
    | none => rw [h1] at h; cases h
    | some r =>
      obtain ⟨e1, s1⟩ := r
      rw [h1] at h
      dsimp only at h
      have v1 := vdev_trim_range_view P env ta _ _ spa s1 e1 h1
      have c1 : s1.trim_calls = spa.trim_calls ++ [writes_call P ta rs_start size w] :=
        congrArg Prod.fst v1
      have k1 : (issue_view s1).2 = (issue_view spa).2 := by rw [v1]
      by_cases he : e1 ≠ 0
      · rw [if_pos he] at h
        injection h with h
        injection h with h1e h1s
        subst h1s
        refine ⟨k1, 1, by omega, fun _ => by omega, fun h0 => ?_, ?_⟩
        · exact absurd (h1e.trans h0) he
        · rw [c1]; simp [List.range']
      · rw [if_neg he] at h
        obtain ⟨hk, k, hkn, _, hk0, hc⟩ := ih (w + 1) s1 spa1 error h
        refine ⟨hk.trans k1, k + 1, by omega, fun _ => by omega, fun h0 => ?_, ?_⟩
        · rw [hk0 h0]
        · rw [hc, c1, List.range'_succ]
          simp

/-! ## Machine arithmetic of the splitting rule -/

theorem u64_sub_seg (label : Nat) (rs : range_seg_t) (h : seg_wf label rs) :
    u64_sub rs.rs_end rs.rs_start = seg_size rs := by
  obtain ⟨h1, h2⟩ := h
  unfold u64_sub seg_size
  omega

theorem seg_size_pos (label : Nat) (rs : range_seg_t) (h : seg_wf label rs) :
    1 ≤ seg_size rs ∧ seg_size rs < 18446744073709551616 := by
  obtain ⟨h1, h2⟩ := h
  unfold seg_size
  omega

theorem chunk_count_eq (size m : Nat) (hs : 1 ≤ size) (hm : 1 ≤ m) :
    chunk_count size m = (size - 1) / m + 1 := by
  unfold chunk_count
  have : size + m - 1 = size - 1 + m := by omega
  rw [this, Nat.add_div_right _ (by omega)]

theorem writes_required_eq (size m : Nat) (hs : 1 ≤ size)
    (hs2 : size < 18446744073709551616) (hm : 1 ≤ m) :
    u64_add (u64_sub size 1 / m) 1 = chunk_count size m := by
  rw [chunk_count_eq size m hs hm]
  have h1 : u64_sub size 1 = size - 1 := by unfold u64_sub; omega
  rw [h1]
  have h2 : (size - 1) / m ≤ size - 1 := Nat.div_le_self _ _
  unfold u64_add
  generalize (size - 1) / m = q at h2 ⊢
  omega

theorem chunk_mul_le (size m i : Nat) (hs : 1 ≤ size) (hm : 1 ≤ m)
    (hi : i < chunk_count size m) : i * m ≤ size - 1 := by
  rw [chunk_count_eq size m hs hm] at hi
  have h1 : i ≤ (size - 1) / m := by omega
  calc i * m ≤ (size - 1) / m * m := Nat.mul_le_mul_right m h1
    _ ≤ size - 1 := Nat.div_mul_le_self _ _

theorem writes_call_eq (P : zfs_params) (ta : trim_args_t) (rs : range_seg_t) (i : Nat)
    (hwf : seg_wf P.VDEV_LABEL_START_SIZE rs) (hm : 1 ≤ ta.trim_extent_bytes_max)
    (hi : i < chunk_count (seg_size rs) ta.trim_extent_bytes_max) :
    writes_call P ta rs.rs_start (seg_size rs) i =
      seg_chunk P.VDEV_LABEL_START_SIZE ta.trim_extent_bytes_max rs i := by
  have hp := seg_size_pos _ rs hwf
  have hle := chunk_mul_le (seg_size rs) ta.trim_extent_bytes_max i hp.1 hm hi
  obtain ⟨h1, h2⟩ := hwf
  unfold writes_call seg_chunk u64_add u64_sub u64_mul
  unfold seg_size at hle hp ⊢
  generalize i * ta.trim_extent_bytes_max = x at hle ⊢
  have e1 : x % 18446744073709551616 = x := Nat.mod_eq_of_lt (by omega)
  have e2 : (P.VDEV_LABEL_START_SIZE + rs.rs_start) % 18446744073709551616 =
      P.VDEV_LABEL_START_SIZE + rs.rs_start := Nat.mod_eq_of_lt (by omega)
  have e3 : (P.VDEV_LABEL_START_SIZE + rs.rs_start + x) % 18446744073709551616 =
      P.VDEV_LABEL_START_SIZE + rs.rs_start + x := Nat.mod_eq_of_lt (by omega)
  have e4 : (rs.rs_end - rs.rs_start + 18446744073709551616 - x) % 18446744073709551616 =
      rs.rs_end - rs.rs_start - x := by omega
  rw [e1, e2, e3, e4]

theorem writes_calls_eq (P : zfs_params) (ta : trim_args_t) (rs : range_seg_t)
    (hwf : seg_wf P.VDEV_LABEL_START_SIZE rs) (hm : 1 ≤ ta.trim_extent_bytes_max) :
    (List.range' 0 (chunk_count (seg_size rs) ta.trim_extent_bytes_max)).map
        (writes_call P ta rs.rs_start (seg_size rs)) =
      seg_chunks P.VDEV_LABEL_START_SIZE ta.trim_extent_bytes_max rs := by
  unfold seg_chunks
  rw [← List.range_eq_range']
  apply List.map_congr_left
  intro i hi
  exact writes_call_eq P ta rs i hwf hm (List.mem_range.mp hi)

/-! ## The walk of `vdev_trim_ranges`, one segment and then the tree -/

theorem skip_view_of_issue_view (a b : spa_t) (h : (issue_view a).2 = (issue_view b).2)
    (type : trim_type_t) : skip_view type a = skip_view type b := by
  unfold issue_view at h
  simp only [Prod.mk.injEq] at h
  obtain ⟨⟨h1, h2⟩, h3, h4⟩ := h
  cases type <;> simp [skip_view, *]

theorem skip_view_add (spa : spa_t) (type t : trim_type_t) (size : Nat) :
    skip_view t (spa_iostats_trim_add spa type 0 0 1 size 0 0) =
      if t = type then ((skip_view t spa).1 + 1, (skip_view t spa).2 + size)
      else skip_view t spa := by
  unfold skip_view spa_iostats_trim_add
  by_cases h : t = type
  · subst h; simp
  · simp [Function.update_apply, h]

theorem seg_skipped_iff (ta : trim_args_t) (label : Nat) (rs : range_seg_t)
    (hwf : seg_wf label rs) :
    (ta.trim_extent_bytes_min ≠ 0 ∧
        u64_sub rs.rs_end rs.rs_start < ta.trim_extent_bytes_min) ↔
      seg_skipped ta.trim_extent_bytes_min rs = true := by
  rw [u64_sub_seg label rs hwf]
  simp [seg_skipped]

theorem take_seg_chunks (label m : Nat) (rs : range_seg_t) (f : Nat → Nat × Nat) (k : Nat)
    (hk : k ≤ chunk_count (seg_size rs) m)
    (hf : (List.range' 0 (chunk_count (seg_size rs) m)).map f = seg_chunks label m rs) :
    (List.range' 0 k).map f = (seg_chunks label m rs).take k := by
  rw [← hf, ← List.map_take, ← List.range_eq_range', ← List.range_eq_range',
    List.take_range, Nat.min_eq_left hk]

theorem vdev_trim_ranges_seg_spec (P : zfs_params) (env : Nat → trim_call_env)
    (ta : trim_args_t) (rs : range_seg_t) (spa spa1 : spa_t) (error : Nat)
    (hwf : seg_wf P.VDEV_LABEL_START_SIZE rs) (hm : 1 ≤ ta.trim_extent_bytes_max)
    (h : vdev_trim_ranges_seg P env ta rs spa = some (error, spa1)) :
    (seg_skipped ta.trim_extent_bytes_min rs = true →
      error = 0 ∧ spa1 = spa_iostats_trim_add spa ta.trim_type 0 0 1 (seg_size rs) 0 0) ∧
    (seg_skipped ta.trim_extent_bytes_min rs = false →
      (issue_view spa1).2 = (issue_view spa).2 ∧
      ∃ k, 0 < k ∧ k ≤ chunk_count (seg_size rs) ta.trim_extent_bytes_max ∧
        (error = 0 → k = chunk_count (seg_size rs) ta.trim_extent_bytes_max) ∧
        spa1.trim_calls = spa.trim_calls ++
          (seg_chunks P.VDEV_LABEL_START_SIZE ta.trim_extent_bytes_max rs).take k) := by
  have hiff := seg_skipped_iff ta _ rs hwf
  have hp := seg_size_pos _ rs hwf
  unfold vdev_trim_ranges_seg at h
  dsimp only at h
  by_cases hs : seg_skipped ta.trim_extent_bytes_min rs = true
  · rw [if_pos (hiff.mpr hs)] at h
    injection h with h
    injection h with h1 h2
    rw [u64_sub_seg _ rs hwf] at h2
    refine ⟨fun _ => ⟨h1.symm, h2.symm⟩, fun hf => ?_⟩
    rw [hs] at hf
    cases hf
  · rw [if_neg (fun hc => hs (hiff.mp hc)), if_neg (Nat.one_le_iff_ne_zero.mp hm)] at h
    rw [u64_sub_seg _ rs hwf, writes_required_eq _ _ hp.1 hp.2 hm] at h
    refine ⟨fun ht => absurd ht hs, fun _ => ?_⟩
    obtain ⟨hv, k, hk1, hk2, hk3, hk4⟩ :=
      vdev_trim_ranges_writes_view P env ta rs.rs_start (seg_size rs) _ 0 spa spa1 error h
    have hpos : 0 < chunk_count (seg_size rs) ta.trim_extent_bytes_max := by
      rw [chunk_count_eq _ _ hp.1 hm]; exact Nat.succ_pos _
    refine ⟨hv, k, hk2 hpos, hk1, hk3, ?_⟩
    rw [hk4, take_seg_chunks _ _ rs _ k hk1 (writes_calls_eq P ta rs hwf hm)]

theorem vdev_trim_ranges_segs_spec (P : zfs_params) (env : Nat → trim_call_env)
    (ta : trim_args_t) (hm : 1 ≤ ta.trim_extent_bytes_max) :
    ∀ (tree : List range_seg_t) (spa spa1 : spa_t),
      (∀ rs ∈ tree, seg_wf P.VDEV_LABEL_START_SIZE rs) →
      vdev_trim_ranges_segs P env ta tree spa = some (0, spa1) →
      spa1.trim_calls = spa.trim_calls ++
        tree_chunks P.VDEV_LABEL_START_SIZE ta.trim_extent_bytes_max
          ta.trim_extent_bytes_min tree ∧
      ∀ t, skip_view t spa1 =
        if t = ta.trim_type then
          ((skip_view t spa).1 + skipped_extents ta.trim_extent_bytes_min tree,
            (skip_view t spa).2 + skipped_bytes ta.trim_extent_bytes_min tree)
        else skip_view t spa := by
  intro tree
  induction tree with
  | nil =>
    intro spa spa1 _ h
    simp only [vdev_trim_ranges_segs, Option.some.injEq, Prod.mk.injEq, true_and] at h
    subst h
    simp [tree_chunks, skipped_extents, skipped_bytes]
  | cons rs rest ih =>
    intro spa spa1 hwf h
    rw [vdev_trim_ranges_segs] at h
    have hwf1 := hwf rs (List.mem_cons_self _ _)
    have hwf2 : ∀ r ∈ rest, seg_wf P.VDEV_LABEL_START_SIZE r :=
      fun r hr => hwf r (List.mem_cons_of_mem _ hr)
    cases h1 : vdev_trim_ranges_seg P env ta rs spa with
    | none => rw [h1] at h; cases h
    | some r =>
      obtain ⟨e1, s1⟩ := r
      rw [h1] at h
      dsimp only at h
      by_cases he : e1 ≠ 0
      · rw [if_pos he] at h
        injection h with h
        injection h with h0 _
        exact absurd h0 he
      · rw [if_neg he] at h
        have he0 : e1 = 0 := by omega
        obtain ⟨hc, hv⟩ := ih s1 spa1 hwf2 h
        obtain ⟨hskip, hissue⟩ := vdev_trim_ranges_seg_spec P env ta rs spa s1 e1 hwf1 hm h1
        cases hs : seg_skipped ta.trim_extent_bytes_min rs with
        | true =>
          obtain ⟨_, hs1⟩ := hskip hs
          subst hs1
          constructor
          · rw [hc]
            simp [tree_chunks, List.filter_cons, hs, spa_iostats_trim_add]
          · intro t
            rw [hv t, skip_view_add]
            by_cases ht : t = ta.trim_type
            · simp [ht, skipped_extents, skipped_bytes, List.filter_cons, hs]
              constructor <;> omega
            · simp [ht]
        | false =>
          obtain ⟨hv1, k, _, _, hk, hcalls⟩ := hissue hs
          constructor
          · rw [hc, hcalls, hk he0]
            simp [tree_chunks, List.filter_cons, hs, seg_chunks]
          · intro t
            rw [hv t, skip_view_of_issue_view s1 spa hv1 t]
            simp [skipped_extents, skipped_bytes, List.filter_cons, hs]

/-! ## Arithmetic of the chunks of one segment -/

theorem chunk_count_ceil (size m : Nat) (hs : 1 ≤ size) (hm : 1 ≤ m) :
    (chunk_count size m - 1) * m < size ∧ size ≤ chunk_count size m * m := by
  rw [chunk_count_eq size m hs hm]
  have h1 : (size - 1) / m * m ≤ size - 1 := Nat.div_mul_le_self _ _
  have h2 : size - 1 < (size - 1) / m * m + m := Nat.lt_div_mul_add (by omega)
  rw [Nat.add_sub_cancel, Nat.add_mul, Nat.one_mul]
  generalize (size - 1) / m * m = x at h1 h2 ⊢
  omega

theorem seg_chunk_len (label m : Nat) (rs : range_seg_t) (i : Nat)
    (hs : 1 ≤ seg_size rs) (hm : 1 ≤ m) (hi : i < chunk_count (seg_size rs) m) :
    1 ≤ (seg_chunk label m rs i).2 ∧ (seg_chunk label m rs i).2 ≤ m := by
  have hle := chunk_mul_le (seg_size rs) m i hs hm hi
  unfold seg_chunk
  dsimp only
  generalize i * m = x at hle ⊢
  omega

theorem seg_chunk_full (label m : Nat) (rs : range_seg_t) (i : Nat)
    (hs : 1 ≤ seg_size rs) (hm : 1 ≤ m) (hi : i + 1 < chunk_count (seg_size rs) m) :
    (seg_chunk label m rs i).2 = m := by
  have hle := chunk_mul_le (seg_size rs) m (i + 1) hs hm hi
  unfold seg_chunk
  dsimp only
  rw [Nat.add_mul, Nat.one_mul] at hle
  generalize i * m = x at hle ⊢
  omega

theorem seg_chunk_next (label m : Nat) (rs : range_seg_t) (i : Nat)
    (hs : 1 ≤ seg_size rs) (hm : 1 ≤ m) (hi : i + 1 < chunk_count (seg_size rs) m) :
    (seg_chunk label m rs i).1 + (seg_chunk label m rs i).2 =
      (seg_chunk label m rs (i + 1)).1 := by
  rw [seg_chunk_full label m rs i hs hm hi]
  unfold seg_chunk
  dsimp only
  rw [Nat.add_mul, Nat.one_mul]
  omega

theorem seg_chunks_sum (label m : Nat) (rs : range_seg_t)
    (hs : 1 ≤ seg_size rs) (hm : 1 ≤ m) :
    ((seg_chunks label m rs).map Prod.snd).sum = seg_size rs := by
  unfold seg_chunks
  rw [List.map_map]
  obtain ⟨n, hn⟩ : ∃ n, chunk_count (seg_size rs) m = n + 1 :=
    ⟨(seg_size rs - 1) / m, chunk_count_eq _ _ hs hm⟩
  have hc := chunk_count_ceil (seg_size rs) m hs hm
  rw [hn] at hc ⊢
  rw [List.sum_range_succ]
  have hfull : (List.range n).map (Prod.snd ∘ seg_chunk label m rs) =
      (List.range n).map (Function.const Nat m) := by
    apply List.map_congr_left
    intro i hi
    have hi1 : i + 1 < chunk_count (seg_size rs) m := by
      rw [hn]; have := List.mem_range.mp hi; omega
    exact seg_chunk_full label m rs i hs hm hi1
  rw [hfull, List.map_const, List.sum_replicate, List.length_range, smul_eq_mul]
  simp only [Function.comp, seg_chunk]
  rw [Nat.add_sub_cancel] at hc
  obtain ⟨hc1, hc2⟩ := hc
  rw [Nat.add_mul, Nat.one_mul] at hc2
  generalize n * m = x at hc1 hc2 ⊢
  omega

/-! ## C2: the minimum extent size -/

theorem mem_tree_chunks (label m mn : Nat) (tree : List range_seg_t) (c : Nat × Nat)
    (hc : c ∈ tree_chunks label m mn tree) :
    ∃ rs ∈ tree, seg_skipped mn rs = false ∧
      ∃ i, i < chunk_count (seg_size rs) m ∧ c = seg_chunk label m rs i := by
  unfold tree_chunks at hc
  rw [List.mem_flatMap] at hc
  obtain ⟨rs, hrs, hcs⟩ := hc
  rw [List.mem_filter] at hrs
  unfold seg_chunks at hcs
  rw [List.mem_map] at hcs
  obtain ⟨i, hi, rfl⟩ := hcs
  exact ⟨rs, hrs.1, by simpa using hrs.2, i, List.mem_range.mp hi, rfl⟩

/-- C2, the code at the failing input. With the default bounds (max 128 MiB,
min 32 KiB) the manual job on a healthy leaf hands the segment of
128 MiB + 4 KiB over as a 128 MiB chunk followed by a 4 KiB chunk and returns 0:
the last chunk is below the `trim_extent_bytes_min` of the job, the size that
the comment on `zfs_trim_extent_bytes_min` gives as the minimum of a TRIM
command. The test `size < extent_bytes_min` is made on the segment before it is
split, not on the chunks. -/
theorem vdev_trim_ranges_last_chunk_below_min :
    (vdev_trim_ranges params_4m env_quiet (ta_manual [⟨0, 134221824⟩])
        (spa_of vd_active zap_empty)).map (fun r => (r.1, r.2.trim_calls)) =
      some (0, [(4194304, 134217728), (138412032, 4096)]) ∧
    4096 < (ta_manual [⟨0, 134221824⟩]).trim_extent_bytes_min := by
  decide

/-! ## C3: skipped segments -/

/-- C3. For a working tree of well-formed segments: whenever the loop body of
`vdev_trim_ranges` has dealt with a segment, it has handed no chunk to
`vdev_trim_range` if and only if `extent_bytes_min` is non-zero and the size of
the segment is below it; such a segment adds 1 to the skipped-range count and
its size to the skipped-bytes count of the job's TRIM type (and nothing to the
other type), and a segment that is issued changes no skipped counter. For a
whole walk that returns 0 the calls are the chunks of the segments that are not
skipped, none of which has an empty chunk list, and the skipped counters of the
job's type have grown by the number and the bytes of the skipped segments. -/
theorem vdev_trim_ranges_skip_rule (P : zfs_params) (env : Nat → trim_call_env)
    (ta : trim_args_t) (spa : spa_t)
    (hmax : 1 ≤ ta.trim_extent_bytes_max)
    (hwf : ∀ rs ∈ ta.trim_tree, seg_wf P.VDEV_LABEL_START_SIZE rs) :
    (∀ rs ∈ ta.trim_tree, ∀ (s s1 : spa_t) (error : Nat),
      vdev_trim_ranges_seg P env ta rs s = some (error, s1) →
      (s1.trim_calls = s.trim_calls ↔
        (ta.trim_extent_bytes_min ≠ 0 ∧ seg_size rs < ta.trim_extent_bytes_min)) ∧
      ((ta.trim_extent_bytes_min ≠ 0 ∧ seg_size rs < ta.trim_extent_bytes_min) →
        ∀ t, skip_view t s1 =
          if t = ta.trim_type then ((skip_view t s).1 + 1, (skip_view t s).2 + seg_size rs)
          else skip_view t s) ∧
      (¬(ta.trim_extent_bytes_min ≠ 0 ∧ seg_size rs < ta.trim_extent_bytes_min) →
        ∀ t, skip_view t s1 = skip_view t s)) ∧
    ((vdev_trim_ranges P env ta spa).map Prod.fst = some 0 →
      (vdev_trim_ranges P env ta spa).map (fun r => r.2.trim_calls) =
        some (spa.trim_calls ++
          (ta.trim_tree.filter (fun rs => !seg_skipped ta.trim_extent_bytes_min rs)).flatMap
            (seg_chunks P.VDEV_LABEL_START_SIZE ta.trim_extent_bytes_max)) ∧
      (∀ rs ∈ ta.trim_tree, seg_skipped ta.trim_extent_bytes_min rs = false →
        seg_chunks P.VDEV_LABEL_START_SIZE ta.trim_extent_bytes_max rs ≠ []) ∧
      ∀ t, (vdev_trim_ranges P env ta spa).map (fun r => skip_view t r.2) =
        some (if t = ta.trim_type then
          ((skip_view t spa).1 + skipped_extents ta.trim_extent_bytes_min ta.trim_tree,
            (skip_view t spa).2 + skipped_bytes ta.trim_extent_bytes_min ta.trim_tree)
          else skip_view t spa)) := by
  have hsk : ∀ rs : range_seg_t,
      (ta.trim_extent_bytes_min ≠ 0 ∧ seg_size rs < ta.trim_extent_bytes_min) ↔
        seg_skipped ta.trim_extent_bytes_min rs = true := by
    intro rs; simp [seg_skipped]
  constructor
  · intro rs hrs s s1 error h
    have hp := (seg_size_pos _ rs (hwf rs hrs)).1
    obtain ⟨hskip, hissue⟩ := vdev_trim_ranges_seg_spec P env ta rs s s1 error (hwf rs hrs) hmax h
    rw [hsk rs]
    cases hs : seg_skipped ta.trim_extent_bytes_min rs with
    | true =>
      obtain ⟨_, hs1⟩ := hskip hs
      subst hs1
      refine ⟨⟨fun _ => rfl, fun _ => rfl⟩, fun _ t => skip_view_add s ta.trim_type t _,
        fun hc => absurd rfl hc⟩
    | false =>
      obtain ⟨hv, k, hk0, hkn, _, hcalls⟩ := hissue hs
      refine ⟨⟨fun hc => ?_, fun hc => Bool.noConfusion hc⟩, fun hc => Bool.noConfusion hc,
        fun _ t => skip_view_of_issue_view s1 s hv t⟩
      rw [hcalls] at hc
      have hlen := congrArg List.length hc
      simp only [List.length_append, List.length_take, seg_chunks, List.length_map,
        List.length_range] at hlen
      omega
  · intro hrun
    unfold vdev_trim_ranges at hrun ⊢
    cases h : vdev_trim_ranges_segs P env ta ta.trim_tree spa with
    | none => rw [h] at hrun; cases hrun
    | some r =>
      obtain ⟨e1, s1⟩ := r
      rw [h] at hrun
      simp only [Option.map_some', Option.some.injEq] at hrun
      subst hrun
      simp only [Option.map_some', Option.some.injEq]
      obtain ⟨hc, hv⟩ := vdev_trim_ranges_segs_spec P env ta hmax ta.trim_tree spa s1 hwf h
      refine ⟨hc, fun rs hrs _ hnil => ?_, hv⟩
      have hp := (seg_size_pos _ rs (hwf rs hrs)).1
      have hlen := congrArg List.length hnil
      have hpos : 0 < chunk_count (seg_size rs) ta.trim_extent_bytes_max := by
        rw [chunk_count_eq _ _ hp hmax]; exact Nat.succ_pos _
      simp only [seg_chunks, List.length_map, List.length_range, List.length_nil] at hlen
      omega

/-- C3, scenario S2: the segments `[0, 16 KiB)` and `[1 MiB, 1 MiB + 64 KiB)` with
a minimum of 32 KiB give one call of 64 KiB and one skipped range of 16 KiB. -/
theorem vdev_trim_ranges_skip_rule_witness :
    (vdev_trim_ranges params_4m env_quiet (ta_manual [⟨0, 16384⟩, ⟨1048576, 1114112⟩])
        (spa_of vd_active zap_empty)).map (fun r => r.2.trim_calls) =
      some [(5242880, 65536)] ∧
    (vdev_trim_ranges params_4m env_quiet (ta_manual [⟨0, 16384⟩, ⟨1048576, 1114112⟩])
        (spa_of vd_active zap_empty)).map (fun r => skip_view TRIM_TYPE_MANUAL r.2) =
      some (1, 16384) := by
  have h := (vdev_trim_ranges_skip_rule params_4m env_quiet
    (ta_manual [⟨0, 16384⟩, ⟨1048576, 1114112⟩]) (spa_of vd_active zap_empty)
    (by decide) (by decide)).2 (by decide)
  refine ⟨?_, ?_⟩
  · rw [h.1]; decide
  · rw [h.2.2 TRIM_TYPE_MANUAL]; decide

/-! ## C4: the queue cap -/

theorem vdev_trim_zap_update_sync_queue (P : zfs_params) (guid txg : Nat)
    (spa spa1 : spa_t) (h : vdev_trim_zap_update_sync P guid txg spa = some spa1) :
    queue_view spa1 = queue_view spa := by
  unfold vdev_trim_zap_update_sync at h
  split at h
  · cases h; rfl
  · split at h
    · cases h
    · cases h
      dsimp only [queue_view]
      split_ifs <;> rfl

theorem foldlM_sync_queue (P : zfs_params) (tasks : List sync_task_t) :
    ∀ (spa spa1 : spa_t),
      tasks.foldlM (fun s t => vdev_trim_zap_update_sync P t.st_guid t.st_txg s) spa =
        some spa1 → queue_view spa1 = queue_view spa := by
  induction tasks with
  | nil => intro spa spa1 h; simp at h; rw [h]
  | cons t rest ih =>
    intro spa spa1 h
    rw [List.foldlM_cons] at h
    cases h1 : vdev_trim_zap_update_sync P t.st_guid t.st_txg spa with
    | none => rw [h1] at h; simp at h
    | some spa2 =>
      rw [h1] at h
      rw [ih spa2 spa1 h]
      exact vdev_trim_zap_update_sync_queue P _ _ _ _ h1

theorem spa_sync_queue (P : zfs_params) (txg : Nat) (spa spa1 : spa_t)
    (h : spa_sync P txg spa = some spa1) : queue_view spa1 = queue_view spa := by
  unfold spa_sync at h
  rw [foldlM_sync_queue P _ _ _ h]
  rfl

theorem change_state_action_time_flags (vd : vdev_t) (now : Nat) :
    vdev_flags (change_state_action_time vd now) = vdev_flags vd := by
  unfold change_state_action_time; split_ifs <;> rfl

theorem change_state_reset_flags (vd : vdev_t) :
    vdev_flags (change_state_reset vd) = vdev_flags vd := by
  unfold change_state_reset; split_ifs <;> rfl

theorem change_state_rate_flags (vd : vdev_t) (rate : Nat) :
    vdev_flags (change_state_rate vd rate) = vdev_flags vd := by
  unfold change_state_rate; split_ifs <;> rfl

theorem change_state_part_flags (vd : vdev_t) (part : Nat) :
    vdev_flags (change_state_part vd part) = vdev_flags vd := by
  unfold change_state_part; split_ifs <;> rfl

theorem change_state_secure_flags (vd : vdev_t) (secure : Nat) :
    vdev_flags (change_state_secure vd secure) = vdev_flags vd := by
  unfold change_state_secure; split_ifs <;> rfl

theorem vdev_trim_change_state_vd_flags (vd : vdev_t) (new_state : vdev_trim_state_t)
    (rate part secure now : Nat) :
    vdev_flags (vdev_trim_change_state_vd vd new_state rate part secure now) =
      vdev_flags vd := by
  unfold vdev_trim_change_state_vd
  dsimp only
  by_cases h : new_state = VDEV_TRIM_ACTIVE
  · rw [if_pos h]
    exact (change_state_secure_flags _ _).trans ((change_state_part_flags _ _).trans
      ((change_state_rate_flags _ _).trans ((change_state_reset_flags _).trans
        (change_state_action_time_flags _ _))))
  · rw [if_neg h]
    exact change_state_action_time_flags _ _

theorem vdev_trim_change_state_vd_inflight (vd : vdev_t) (new_state : vdev_trim_state_t)
    (rate part secure now : Nat) :
    (vdev_trim_change_state_vd vd new_state rate part secure now).vdev_trim_inflight =
      vd.vdev_trim_inflight := by
  have h := vdev_trim_change_state_vd_flags vd new_state rate part secure now
  simp only [vdev_flags, Prod.mk.injEq] at h
  exact h.2.2.2.2.2.2.2.2

theorem vdev_trim_change_state_queue (spa spa1 : spa_t) (new_state : vdev_trim_state_t)
    (rate part secure now txg : Nat)
    (h : vdev_trim_change_state spa new_state rate part secure now txg = some spa1) :
    queue_view spa1 = queue_view spa := by
  unfold vdev_trim_change_state at h
  by_cases hc : new_state = spa.vd.vdev_trim_state
  · rw [if_pos hc] at h; cases h; rfl
  · rw [if_neg hc] at h
    dsimp only at h
    cases hev : vdev_trim_state_event new_state
        (decide (spa.vd.vdev_trim_state = VDEV_TRIM_SUSPENDED)) with
    | none => rw [hev] at h; cases h
    | some ev =>
      rw [hev] at h
      cases h
      simp only [queue_view, vdev_trim_change_state_vd_inflight]

theorem vdev_trim_stop_request_queue (spa spa1 : spa_t) (tgt_state : vdev_trim_state_t)
    (now txg : Nat) (h : vdev_trim_stop_request spa tgt_state now txg = some spa1) :
    queue_view spa1 = queue_view spa := by
  unfold vdev_trim_stop_request at h
  by_cases hc : spa.vd.vdev_trim_thread = false ∧ tgt_state ≠ VDEV_TRIM_CANCELED
  · rw [if_pos hc] at h; cases h; rfl
  · rw [if_neg hc] at h
    cases h2 : vdev_trim_change_state spa tgt_state 0 0 0 now txg with
    | none => rw [h2] at h; cases h
    | some spa2 =>
      rw [h2] at h
      injection h with h
      rw [← h]
      exact vdev_trim_change_state_queue spa spa2 _ _ _ _ _ _ h2

theorem vdev_trim_cb_queue (P : zfs_params) (zio : zio_t) (io_error : Nat) (spa : spa_t) :
    queue_view (vdev_trim_cb P zio io_error spa) =
      (Function.update spa.vd.vdev_trim_inflight TRIM_TYPE_MANUAL
        (u64_sub (spa.vd.vdev_trim_inflight TRIM_TYPE_MANUAL) 1), spa.zios) := by
  unfold vdev_trim_cb
  simp only [queue_view, spa_iostats_trim_add]
  split_ifs <;> rfl

theorem vdev_autotrim_cb_queue (zio : zio_t) (io_error : Nat) (spa : spa_t) :
    queue_view (vdev_autotrim_cb zio io_error spa) =
      (Function.update spa.vd.vdev_trim_inflight TRIM_TYPE_AUTO
        (u64_sub (spa.vd.vdev_trim_inflight TRIM_TYPE_AUTO) 1), spa.zios) := by
  unfold vdev_autotrim_cb
  simp only [queue_view, spa_iostats_trim_add]
  split_ifs <;> rfl

theorem zios_pending_set_done (t : trim_type_t) (zio : zio_t) (hd : zio.io_done = false) :
    ∀ (zios : List zio_t) (i : Nat), zios[i]? = some zio →
      zios_pending t (zios.set i { zio with io_done := true }) +
        (if zio.io_trim_type = t then 1 else 0) = zios_pending t zios := by
  intro zios
  induction zios with
  | nil => intro i h; simp at h
  | cons z rest ih =>
    intro i h
    cases i with
    | zero =>
      simp only [List.getElem?_cons_zero, Option.some.injEq] at h
      subst h
      simp only [zios_pending, List.set_cons_zero, List.countP_cons, hd]
      by_cases ht : z.io_trim_type = t <;> simp [ht]
    | succ j =>
      simp only [List.getElem?_cons_succ] at h
      have := ih j h
      simp only [zios_pending, List.set_cons_succ, List.countP_cons] at this ⊢
      omega

theorem queue_inv_of_view (P : zfs_params) (st : queue_state) (spa1 : spa_t)
    (hv : queue_view spa1 = queue_view st.spa) (h : queue_inv P st) :
    queue_inv P { spa := spa1, in_call := st.in_call } := by
  unfold queue_view at hv
  simp only [Prod.mk.injEq] at hv
  unfold queue_inv at h ⊢
  dsimp only
  rw [hv.1, hv.2]
  exact h

theorem zio_callback_queue (P : zfs_params) (zio : zio_t) (io_error : Nat) (spa : spa_t) :
    queue_view (match zio.io_trim_type with
        | TRIM_TYPE_MANUAL => vdev_trim_cb P zio io_error spa
        | TRIM_TYPE_AUTO => vdev_autotrim_cb zio io_error spa) =
      (Function.update spa.vd.vdev_trim_inflight zio.io_trim_type
        (u64_sub (spa.vd.vdev_trim_inflight zio.io_trim_type) 1), spa.zios) := by
  cases zio.io_trim_type with
  | TRIM_TYPE_MANUAL => exact vdev_trim_cb_queue P zio io_error spa
  | TRIM_TYPE_AUTO => exact vdev_autotrim_cb_queue zio io_error spa

theorem trim_interference_apply_queue (P : zfs_params) (a : trim_interference)
    (st : queue_state) (spa1 : spa_t) (hl : P.zfs_trim_queue_limit < 18446744073709551616)
    (h : a.apply P st.spa = some spa1) (hinv : queue_inv P st) :
    queue_inv P { spa := spa1, in_call := st.in_call } := by
  cases a with
  | txg_sync txg => exact queue_inv_of_view P st spa1 (spa_sync_queue P txg _ _ h) hinv
  | set_writeable b =>
    simp only [trim_interference.apply, Option.some.injEq] at h
    subst h; exact hinv
  | detach =>
    simp only [trim_interference.apply, Option.some.injEq] at h
    subst h; exact hinv
  | top_removing =>
    simp only [trim_interference.apply, Option.some.injEq] at h
    subst h; exact hinv
  | stop tgt_state now txg =>
    exact queue_inv_of_view P st spa1 (vdev_trim_stop_request_queue _ _ _ _ _ h) hinv
  | io_done i io_error =>
    simp only [trim_interference.apply, Option.some.injEq] at h
    subst h
    unfold zio_done
    cases hz : st.spa.zios[i]? with
    | none => exact hinv
    | some zio =>
      dsimp only
      by_cases hd : zio.io_done = true
      · rw [if_pos hd]; exact hinv
      · rw [if_neg hd]
        have hd1 : zio.io_done = false := by simpa using hd
        have hp := fun t => zios_pending_set_done t zio hd1 st.spa.zios i hz
        obtain ⟨h1, h2⟩ := hinv
        have hq := zio_callback_queue P zio io_error
          { st.spa with zios := st.spa.zios.set i { zio with io_done := true } }
        unfold queue_view at hq
        simp only [Prod.mk.injEq] at hq
        unfold queue_inv
        dsimp only
        rw [hq.1, hq.2]
        have hty := hp zio.io_trim_type
        rw [if_pos rfl] at hty
        have h1ty := h1 zio.io_trim_type
        have hb : st.spa.vd.vdev_trim_inflight zio.io_trim_type ≤ P.zfs_trim_queue_limit := by
          cases zio.io_trim_type <;> omega
        have e : u64_sub (st.spa.vd.vdev_trim_inflight zio.io_trim_type) 1 =
            st.spa.vd.vdev_trim_inflight zio.io_trim_type - 1 := by
          unfold u64_sub; omega
        rw [e]
        have hall : ∀ t, Function.update st.spa.vd.vdev_trim_inflight zio.io_trim_type
            (st.spa.vd.vdev_trim_inflight zio.io_trim_type - 1) t + 
              (if zio.io_trim_type = t then 1 else 0) = st.spa.vd.vdev_trim_inflight t := by
          intro t
          by_cases ht : zio.io_trim_type = t
          · subst ht; rw [Function.update_same, if_pos rfl]; omega
          · rw [Function.update_noteq (Ne.symm ht), if_neg ht]; rfl
        refine ⟨fun t => ?_, ?_⟩
        · have := hall t
          have := hp t
          have := h1 t
          omega
        · have hm := hall TRIM_TYPE_MANUAL
          have ha := hall TRIM_TYPE_AUTO
          omega

theorem vdev_trim_range_issue_queue (P : zfs_params) (ta : trim_args_t)
    (start size txg : Nat) (spa : spa_t) :
    queue_view (vdev_trim_range_issue P ta start size txg spa).2 =
      if vdev_trim_should_stop spa.vd then
        (Function.update spa.vd.vdev_trim_inflight ta.trim_type
          (u64_sub (spa.vd.vdev_trim_inflight ta.trim_type) 1), spa.zios)
      else
        (spa.vd.vdev_trim_inflight, spa.zios ++
          [{ io_offset := start, io_orig_size := size, io_txg := txg,
             io_trim_type := ta.trim_type, io_trim_flags := ta.trim_flags,
             io_done := false }]) := by
  unfold vdev_trim_range_issue queue_view
  dsimp only
  by_cases h1 : ta.trim_type = TRIM_TYPE_MANUAL ∧
      spa.vd.vdev_trim_offset (Nat.land txg P.TXG_MASK) = 0
  · rw [if_pos h1]
    dsimp only
    split_ifs <;> rfl
  · rw [if_neg h1]
    split_ifs <;> rfl

theorem queue_step_inv (P : zfs_params) (hl : P.zfs_trim_queue_limit < 18446744073709551616)
    (st st1 : queue_state) (l : queue_label)
    (h : queue_step P st l = some st1) (hinv : queue_inv P st) : queue_inv P st1 := by
  cases l with
  | other a =>
    simp only [queue_step] at h
    cases ha : a.apply P st.spa with
    | none => rw [ha] at h; cases h
    | some spa1 =>
      rw [ha] at h
      injection h with h
      subst h
      exact trim_interference_apply_queue P a st spa1 hl ha hinv
  | gate ta =>
    simp only [queue_step, vdev_trim_range_gate] at h
    obtain ⟨h1, h2⟩ := hinv
    by_cases hq : u64_add (st.spa.vd.vdev_trim_inflight TRIM_TYPE_MANUAL)
        (st.spa.vd.vdev_trim_inflight TRIM_TYPE_AUTO) ≥ P.zfs_trim_queue_limit
    · rw [if_pos hq] at h; cases h
    · rw [if_neg hq] at h
      injection h with h
      subst h
      have hsum : st.spa.vd.vdev_trim_inflight TRIM_TYPE_MANUAL +
          st.spa.vd.vdev_trim_inflight TRIM_TYPE_AUTO < P.zfs_trim_queue_limit := by
        unfold u64_add at hq; omega
      have hb : st.spa.vd.vdev_trim_inflight ta.trim_type < P.zfs_trim_queue_limit := by
        cases ta.trim_type <;> omega
      have e : u64_add (st.spa.vd.vdev_trim_inflight ta.trim_type) 1 =
          st.spa.vd.vdev_trim_inflight ta.trim_type + 1 := by
        unfold u64_add; omega
      unfold queue_inv
      dsimp only
      rw [e]
      have hall : ∀ t, Function.update st.spa.vd.vdev_trim_inflight ta.trim_type
          (st.spa.vd.vdev_trim_inflight ta.trim_type + 1) t =
            st.spa.vd.vdev_trim_inflight t + (if ta.trim_type = t then 1 else 0) := by
        intro t
        by_cases ht : ta.trim_type = t
        · subst ht; rw [Function.update_same, if_pos rfl]
        · rw [Function.update_noteq (Ne.symm ht), if_neg ht]; rfl
      have hcall : ∀ t, Function.update st.in_call ta.trim_type
          (st.in_call ta.trim_type + 1) t =
            st.in_call t + (if ta.trim_type = t then 1 else 0) := by
        intro t
        by_cases ht : ta.trim_type = t
        · subst ht; rw [Function.update_same, if_pos rfl]
        · rw [Function.update_noteq (Ne.symm ht), if_neg ht]; rfl
      refine ⟨fun t => ?_, ?_⟩
      · rw [hall t, hcall t, h1 t]; omega
      · rw [hall TRIM_TYPE_MANUAL, hall TRIM_TYPE_AUTO]
        cases ta.trim_type <;> simp <;> omega
  | issue ta start size txg =>
    simp only [queue_step] at h
    obtain ⟨h1, h2⟩ := hinv
    by_cases hc : st.in_call ta.trim_type = 0
    · rw [if_pos hc] at h; cases h
    · rw [if_neg hc] at h
      injection h with h
      subst h
      have hb : st.spa.vd.vdev_trim_inflight ta.trim_type ≤ P.zfs_trim_queue_limit := by
        cases ta.trim_type <;> omega
      have h1ty := h1 ta.trim_type
      have e : u64_sub (st.spa.vd.vdev_trim_inflight ta.trim_type) 1 =
          st.spa.vd.vdev_trim_inflight ta.trim_type - 1 := by
        unfold u64_sub; omega
      have hcall : ∀ t, Function.update st.in_call ta.trim_type
          (st.in_call ta.trim_type - 1) t + (if ta.trim_type = t then 1 else 0) =
            st.in_call t := by
        intro t
        by_cases ht : ta.trim_type = t
        · subst ht; rw [Function.update_same, if_pos rfl]; omega
        · rw [Function.update_noteq (Ne.symm ht), if_neg ht]; rfl
      have hq := vdev_trim_range_issue_queue P ta start size txg st.spa
      unfold queue_view at hq
      unfold queue_inv
      dsimp only
      by_cases hstop : vdev_trim_should_stop st.spa.vd = true
      · rw [if_pos hstop, Prod.mk.injEq] at hq
        rw [hq.1, hq.2, e]
        have hall : ∀ t, Function.update st.spa.vd.vdev_trim_inflight ta.trim_type
            (st.spa.vd.vdev_trim_inflight ta.trim_type - 1) t +
              (if ta.trim_type = t then 1 else 0) = st.spa.vd.vdev_trim_inflight t := by
          intro t
          by_cases ht : ta.trim_type = t
          · subst ht; rw [Function.update_same, if_pos rfl]; omega
          · rw [Function.update_noteq (Ne.symm ht), if_neg ht]; rfl
        refine ⟨fun t => ?_, ?_⟩
        · have := hall t
          have := hcall t
          have := h1 t
          omega
        · have := hall TRIM_TYPE_MANUAL
          have := hall TRIM_TYPE_AUTO
          omega
      · rw [if_neg hstop, Prod.mk.injEq] at hq
        rw [hq.1, hq.2]
        have hpend : ∀ t, zios_pending t (st.spa.zios ++
            [{ io_offset := start, io_orig_size := size, io_txg := txg,
               io_trim_type := ta.trim_type, io_trim_flags := ta.trim_flags,
               io_done := false }]) =
            zios_pending t st.spa.zios + (if ta.trim_type = t then 1 else 0) := by
          intro t
          unfold zios_pending
          rw [List.countP_append]
          by_cases ht : ta.trim_type = t <;> simp [ht]
        refine ⟨fun t => ?_, h2⟩
        rw [hpend t]
        have := hcall t
        have := h1 t
        omega

theorem queue_run_inv (P : zfs_params) (hl : P.zfs_trim_queue_limit < 18446744073709551616)
    (trace : List queue_label) :
    ∀ (st st1 : queue_state), queue_run P trace st = some st1 → queue_inv P st →
      queue_inv P st1 := by
  induction trace with
  | nil =>
    intro st st1 h hinv
    simp only [queue_run, List.foldlM_nil, Option.pure_def, Option.some.injEq] at h
    subst h
    exact hinv
  | cons l rest ih =>
    intro st st1 h hinv
    unfold queue_run at h
    rw [List.foldlM_cons] at h
    cases h1 : queue_step P st l with
    | none => rw [h1] at h; simp at h
    | some st2 =>
      rw [h1] at h
      exact ih st2 st1 h (queue_step_inv P hl st st2 l h1 hinv)

/-- C4. Start from a leaf with both inflight counters 0, no caller inside
`vdev_trim_range` and no TRIM zio pending, and let the queue limit be a constant
`unsigned int`. After every sequence of steps (a caller passes the queue gate
and increments its counter; a caller backs out on `vdev_trim_should_stop` and
decrements it, or submits its zio; a zio completes and its callback decrements
its counter; any other interference) the two counters together are at most
`zfs_trim_queue_limit`, and each counter equals the number of callers inside
plus the zios pending of its type: every decrement finds its counter at least 1,
so no counter ever goes below 0. -/
theorem vdev_trim_queue_cap (P : zfs_params)
    (hl : P.zfs_trim_queue_limit < 4294967296)
    (st0 : queue_state)
    (h0 : ∀ t, st0.spa.vd.vdev_trim_inflight t = 0)
    (hc0 : ∀ t, st0.in_call t = 0)
    (hz0 : ∀ t, zios_pending t st0.spa.zios = 0)
    (trace : List queue_label)
    (hrun : (queue_run P trace st0).isSome = true) :
    ∃ st, queue_run P trace st0 = some st ∧
      st.spa.vd.vdev_trim_inflight TRIM_TYPE_MANUAL +
        st.spa.vd.vdev_trim_inflight TRIM_TYPE_AUTO ≤ P.zfs_trim_queue_limit ∧
      ∀ t, st.spa.vd.vdev_trim_inflight t = st.in_call t + zios_pending t st.spa.zios ∧
        ((0 < st.in_call t ∨ 0 < zios_pending t st.spa.zios) →
          1 ≤ st.spa.vd.vdev_trim_inflight t) := by
  cases h : queue_run P trace st0 with
  | none => rw [h] at hrun; cases hrun
  | some st =>
    have hinv0 : queue_inv P st0 := by
      refine ⟨fun t => ?_, ?_⟩
      · rw [h0 t, hc0 t, hz0 t]
      · rw [h0, h0]; omega
    obtain ⟨h1, h2⟩ := queue_run_inv P (by omega) trace st0 st h hinv0
    refine ⟨st, rfl, h2, fun t => ⟨h1 t, fun hpos => ?_⟩⟩
    have := h1 t
    omega

/-- C4 on a run that fills the queue of 10, completes the first zio and issues
once more; a further caller is not let through the gate of the full queue. -/
theorem vdev_trim_queue_cap_witness :
    (∃ st, queue_run params_4m
        ((List.range 10).flatMap trace_issue ++
          [queue_label.other (trim_interference.io_done 0 0)] ++ trace_issue 10)
        ⟨spa_of vd_active zap_empty, fun _ => 0⟩ = some st ∧
      st.spa.vd.vdev_trim_inflight TRIM_TYPE_MANUAL +
        st.spa.vd.vdev_trim_inflight TRIM_TYPE_AUTO ≤ 10 ∧
      ∀ t, st.spa.vd.vdev_trim_inflight t = st.in_call t + zios_pending t st.spa.zios ∧
        ((0 < st.in_call t ∨ 0 < zios_pending t st.spa.zios) →
          1 ≤ st.spa.vd.vdev_trim_inflight t)) ∧
    (queue_run params_4m
        ((List.range 10).flatMap trace_issue ++ [queue_label.gate (ta_manual [])])
        ⟨spa_of vd_active zap_empty, fun _ => 0⟩).isSome = false :=
  ⟨vdev_trim_queue_cap params_4m (by decide) ⟨spa_of vd_active zap_empty, fun _ => 0⟩
    (fun _ => rfl) (fun _ => rfl) (fun _ => rfl) _ (by decide), by decide⟩

/-! ## Steps of other threads that do not ask the worker to stop -/

theorem vdev_trim_zap_update_sync_benign (P : zfs_params) (guid txg : Nat) (spa : spa_t)
    (hz : spa.vd.vdev_leaf_zap ≠ 0) :
    ∃ spa1, vdev_trim_zap_update_sync P guid txg spa = some spa1 ∧
      vdev_trim_should_stop spa1.vd = vdev_trim_should_stop spa.vd ∧
      spa1.vd.vdev_leaf_zap = spa.vd.vdev_leaf_zap ∧
      spa1.trim_calls = spa.trim_calls ∧ spa1.zios = spa.zios := by
  unfold vdev_trim_zap_update_sync
  by_cases hc : (spa.vdev_freed || guid != spa.vd.vdev_guid || spa.vd.vdev_top_removing ||
      !spa.vd.vdev_is_concrete) = true
  · rw [if_pos hc]
    exact ⟨spa, rfl, rfl, rfl, rfl, rfl⟩
  · rw [if_neg hc, if_neg hz]
    refine ⟨_, rfl, ?_, ?_, rfl, rfl⟩
    · simp only [vdev_trim_should_stop, apply_ite vdev_t.vdev_trim_exit_wanted,
        apply_ite vdev_t.vdev_writeable, apply_ite vdev_t.vdev_detached,
        apply_ite vdev_t.vdev_top_removing, ite_self]
    · simp only [apply_ite vdev_t.vdev_leaf_zap, ite_self]

theorem foldlM_sync_benign (P : zfs_params) (tasks : List sync_task_t) :
    ∀ (spa : spa_t), spa.vd.vdev_leaf_zap ≠ 0 →
      ∃ spa1, tasks.foldlM (fun s t => vdev_trim_zap_update_sync P t.st_guid t.st_txg s) spa =
          some spa1 ∧
        vdev_trim_should_stop spa1.vd = vdev_trim_should_stop spa.vd ∧
        spa1.vd.vdev_leaf_zap = spa.vd.vdev_leaf_zap ∧
        spa1.trim_calls = spa.trim_calls ∧ spa1.zios = spa.zios := by
  induction tasks with
  | nil => intro spa _; exact ⟨spa, rfl, rfl, rfl, rfl, rfl⟩
  | cons t rest ih =>
    intro spa hz
    obtain ⟨s1, e1, a1, a2, a3, a4⟩ :=
      vdev_trim_zap_update_sync_benign P t.st_guid t.st_txg spa hz
    obtain ⟨s2, e2, b1, b2, b3, b4⟩ := ih s1 (by rw [a2]; exact hz)
    refine ⟨s2, ?_, b1.trans a1, b2.trans a2, b3.trans a3, b4.trans a4⟩
    rw [List.foldlM_cons, e1]
    exact e2

theorem spa_sync_benign (P : zfs_params) (txg : Nat) (spa : spa_t)
    (hz : spa.vd.vdev_leaf_zap ≠ 0) :
    ∃ spa1, spa_sync P txg spa = some spa1 ∧
      vdev_trim_should_stop spa1.vd = vdev_trim_should_stop spa.vd ∧
      spa1.vd.vdev_leaf_zap = spa.vd.vdev_leaf_zap ∧
      spa1.trim_calls = spa.trim_calls ∧ spa1.zios = spa.zios := by
  unfold spa_sync
  exact foldlM_sync_benign P _
    { spa with sync_tasks := spa.sync_tasks.filter (fun t => !decide (t.st_txg = txg)) } hz

theorem zios_set_done (zios : List zio_t) (i : Nat) (zio : zio_t)
    (hz : zios[i]? = some zio) :
    (∀ j : Nat, (∃ z : zio_t, zios[j]? = some z ∧ z.io_done = true) →
      ∃ z : zio_t, (zios.set i { zio with io_done := true })[j]? = some z ∧
        z.io_done = true) ∧
    ∃ z : zio_t, (zios.set i { zio with io_done := true })[i]? = some z ∧
      z.io_done = true := by
  have hi : i < zios.length := by
    by_contra hc
    rw [List.getElem?_eq_none_iff.mpr (by omega)] at hz
    cases hz
  have hset : (zios.set i { zio with io_done := true })[i]? =
      some { zio with io_done := true } := by
    rw [List.getElem?_set_self]
    simp [hi]
  refine ⟨fun j h => ?_, _, hset, rfl⟩
  obtain ⟨z, h1, h2⟩ := h
  by_cases hij : i = j
  · subst hij
    exact ⟨_, hset, rfl⟩
  · refine ⟨z, ?_, h2⟩
    rw [List.getElem?_set_ne hij]
    exact h1

theorem zio_done_flags (P : zfs_params) (i io_error : Nat) (spa : spa_t) :
    vdev_trim_should_stop (zio_done P i io_error spa).vd = vdev_trim_should_stop spa.vd ∧
    (zio_done P i io_error spa).vd.vdev_leaf_zap = spa.vd.vdev_leaf_zap ∧
    (zio_done P i io_error spa).trim_calls = spa.trim_calls ∧
    (zio_done P i io_error spa).zios =
      (spa.zios[i]?).elim spa.zios (fun zio =>
        if zio.io_done = true then spa.zios
        else spa.zios.set i { zio with io_done := true }) := by
  unfold zio_done
  cases spa.zios[i]? with
  | none => exact ⟨rfl, rfl, rfl, rfl⟩
  | some zio =>
    dsimp only [Option.elim]
    by_cases hd : zio.io_done = true
    · rw [if_pos hd, if_pos hd]; exact ⟨rfl, rfl, rfl, rfl⟩
    · rw [if_neg hd, if_neg hd]
      cases zio.io_trim_type with
      | TRIM_TYPE_MANUAL =>
        dsimp only
        unfold vdev_trim_cb
        simp only [vdev_trim_should_stop, spa_iostats_trim_add]
        split_ifs <;> exact ⟨rfl, rfl, rfl, rfl⟩
      | TRIM_TYPE_AUTO =>
        dsimp only
        unfold vdev_autotrim_cb
        simp only [vdev_trim_should_stop, spa_iostats_trim_add]
        split_ifs <;> exact ⟨rfl, rfl, rfl, rfl⟩

theorem zio_done_benign (P : zfs_params) (i io_error : Nat) (spa : spa_t) :
    vdev_trim_should_stop (zio_done P i io_error spa).vd = vdev_trim_should_stop spa.vd ∧
    (zio_done P i io_error spa).vd.vdev_leaf_zap = spa.vd.vdev_leaf_zap ∧
    (zio_done P i io_error spa).trim_calls = spa.trim_calls ∧
    (zio_done P i io_error spa).zios.length = spa.zios.length ∧
    (∀ j : Nat, (∃ z : zio_t, spa.zios[j]? = some z ∧ z.io_done = true) →
      ∃ z : zio_t, (zio_done P i io_error spa).zios[j]? = some z ∧ z.io_done = true) ∧
    (i < spa.zios.length →
      ∃ z : zio_t, (zio_done P i io_error spa).zios[i]? = some z ∧ z.io_done = true) := by
  obtain ⟨a1, a2, a3, a4⟩ := zio_done_flags P i io_error spa
  refine ⟨a1, a2, a3, ?_⟩
  rw [a4]
  cases hz : spa.zios[i]? with
  | none =>
    refine ⟨rfl, fun j h => h, fun hi => ?_⟩
    rw [List.getElem?_eq_none_iff] at hz
    omega
  | some zio =>
    dsimp only [Option.elim]
    by_cases hd : zio.io_done = true
    · rw [if_pos hd]
      exact ⟨rfl, fun j h => h, fun _ => ⟨zio, hz, hd⟩⟩
    · rw [if_neg hd]
      obtain ⟨s1, s2⟩ := zios_set_done spa.zios i zio hz
      exact ⟨List.length_set _ _ _, s1, fun _ => s2⟩

theorem trim_interference_apply_benign (P : zfs_params) (a : trim_interference)
    (spa : spa_t) (ha : a.stops = false)
    (hs : vdev_trim_should_stop spa.vd = false) (hz : spa.vd.vdev_leaf_zap ≠ 0) :
    ∃ spa1, a.apply P spa = some spa1 ∧
      vdev_trim_should_stop spa1.vd = false ∧
      spa1.vd.vdev_leaf_zap = spa.vd.vdev_leaf_zap ∧
      spa1.trim_calls = spa.trim_calls ∧
      spa1.zios.length = spa.zios.length ∧
      (∀ j : Nat, (∃ z : zio_t, spa.zios[j]? = some z ∧ z.io_done = true) →
        ∃ z : zio_t, spa1.zios[j]? = some z ∧ z.io_done = true) ∧
      (∀ (j e : Nat), a = trim_interference.io_done j e → j < spa.zios.length →
        ∃ z : zio_t, spa1.zios[j]? = some z ∧ z.io_done = true) := by
  cases a with
  | io_done i io_error =>
    obtain ⟨a1, a2, a3, a4, a5, a6⟩ := zio_done_benign P i io_error spa
    refine ⟨_, rfl, a1.trans hs, a2, a3, a4, a5, fun j e he hj => ?_⟩
    injection he with h1 _
    subst h1
    exact a6 hj
  | txg_sync txg =>
    obtain ⟨s1, e1, a1, a2, a3, a4⟩ := spa_sync_benign P txg spa hz
    refine ⟨s1, e1, a1.trans hs, a2, a3, by rw [a4], fun j h => by rw [a4]; exact h,
      fun j e he _ => by cases he⟩
  | set_writeable b =>
    have hb : b = true := by
      cases b with
      | true => rfl
      | false => cases ha
    subst hb
    refine ⟨_, rfl, ?_, rfl, rfl, rfl, fun j h => h, fun j e he _ => by cases he⟩
    simp only [vdev_trim_should_stop, Bool.or_eq_false_iff, Bool.not_eq_false'] at hs ⊢
    exact ⟨⟨⟨hs.1.1.1, trivial⟩, hs.1.2⟩, hs.2⟩
  | detach => cases ha
  | top_removing => cases ha
  | stop tgt_state now txg => cases ha

theorem trim_interfere_benign (P : zfs_params)
    (hl : P.zfs_trim_queue_limit < 18446744073709551616) (in_call : trim_type_t → Nat)
    (script : List trim_interference) :
    ∀ (spa : spa_t), (∀ a ∈ script, a.stops = false) →
      vdev_trim_should_stop spa.vd = false → spa.vd.vdev_leaf_zap ≠ 0 →
      queue_inv P { spa := spa, in_call := in_call } →
      ∃ spa1, trim_interfere P script spa = some spa1 ∧
        vdev_trim_should_stop spa1.vd = false ∧
        spa1.vd.vdev_leaf_zap = spa.vd.vdev_leaf_zap ∧
        spa1.trim_calls = spa.trim_calls ∧
        spa1.zios.length = spa.zios.length ∧
        queue_inv P { spa := spa1, in_call := in_call } ∧
        (∀ j : Nat, (∃ z : zio_t, spa.zios[j]? = some z ∧ z.io_done = true) →
          ∃ z : zio_t, spa1.zios[j]? = some z ∧ z.io_done = true) ∧
        (∀ (j e : Nat), trim_interference.io_done j e ∈ script → j < spa.zios.length →
          ∃ z : zio_t, spa1.zios[j]? = some z ∧ z.io_done = true) := by
  induction script with
  | nil =>
    intro spa _ hs _ hq
    exact ⟨spa, rfl, hs, rfl, rfl, rfl, hq, fun j h => h, fun j e he _ => by cases he⟩
  | cons a rest ih =>
    intro spa hb hs hz hq
    obtain ⟨s1, e1, a1, a2, a3, a4, a5, a6⟩ :=
      trim_interference_apply_benign P a spa (hb a (List.mem_cons_self _ _)) hs hz
    have q1 := trim_interference_apply_queue P a { spa := spa, in_call := in_call } s1 hl e1 hq
    obtain ⟨s2, e2, b1, b2, b3, b4, b5, b6, b7⟩ :=
      ih s1 (fun x hx => hb x (List.mem_cons_of_mem _ hx)) a1 (by rw [a2]; exact hz) q1
    refine ⟨s2, ?_, b1, b2.trans a2, b3.trans a3, b4.trans a4, b5, fun j h => b6 j (a5 j h),
      fun j e he hj => ?_⟩
    · unfold trim_interfere at e2 ⊢
      rw [List.foldlM_cons, e1]
      exact e2
    · rcases List.mem_cons.mp he with h | h
      · exact b6 j (a6 j e h.symm hj)
      · exact b7 j e h (by rw [a4]; exact hj)

/-! ## A walk of `vdev_trim_ranges` of which no stop is requested -/

theorem zios_pending_sum (zios : List zio_t) :
    zios_pending TRIM_TYPE_MANUAL zios + zios_pending TRIM_TYPE_AUTO zios =
      zios.countP (fun z => !z.io_done) := by
  induction zios with
  | nil => rfl
  | cons z rest ih =>
    simp only [zios_pending, List.countP_cons] at ih ⊢
    cases hty : z.io_trim_type <;> cases hd : z.io_done <;> simp <;> omega

theorem countP_not_done_le : ∀ (zios : List zio_t) (k : Nat),
    (∀ j : Nat, j < k → ∃ z : zio_t, zios[j]? = some z ∧ z.io_done = true) →
    zios.countP (fun z => !z.io_done) ≤ zios.length - k := by
  intro zios
  induction zios with
  | nil => intro k _; simp
  | cons z rest ih =>
    intro k h
    cases k with
    | zero => exact List.countP_le_length _
    | succ k =>
      obtain ⟨z0, h1, h2⟩ := h 0 (by omega)
      simp only [List.getElem?_cons_zero, Option.some.injEq] at h1
      subst h1
      have := ih k (fun j hj => by
        have := h (j + 1) (by omega)
        simpa only [List.getElem?_cons_succ] using this)
      simp only [List.countP_cons, h2, List.length_cons]
      simp only [Bool.not_true, Bool.false_eq_true, if_false, Nat.add_zero]
      omega

theorem zios_pending_room (zios : List zio_t) (L : Nat) (hL : 1 ≤ L)
    (h : ∀ j : Nat, j + L ≤ zios.length → ∃ z : zio_t, zios[j]? = some z ∧ z.io_done = true) :
    zios_pending TRIM_TYPE_MANUAL zios + zios_pending TRIM_TYPE_AUTO zios < L := by
  rw [zios_pending_sum]
  have := countP_not_done_le zios (zios.length + 1 - L) (fun j hj => h j (by omega))
  omega

theorem vdev_trim_range_issue_walk (P : zfs_params) (ta : trim_args_t)
    (start size txg : Nat) (spa : spa_t) (hs : vdev_trim_should_stop spa.vd = false) :
    (vdev_trim_range_issue P ta start size txg spa).1 = 0 ∧
      vdev_trim_should_stop (vdev_trim_range_issue P ta start size txg spa).2.vd = false ∧
      (vdev_trim_range_issue P ta start size txg spa).2.vd.vdev_leaf_zap =
        spa.vd.vdev_leaf_zap ∧
      (vdev_trim_range_issue P ta start size txg spa).2.trim_calls = spa.trim_calls ∧
      (vdev_trim_range_issue P ta start size txg spa).2.zios = spa.zios ++
        [{ io_offset := start, io_orig_size := size, io_txg := txg,
           io_trim_type := ta.trim_type, io_trim_flags := ta.trim_flags,
           io_done := false }] := by
  unfold vdev_trim_range_issue
  by_cases h0 : ta.trim_type = TRIM_TYPE_MANUAL ∧
      spa.vd.vdev_trim_offset (Nat.land txg P.TXG_MASK) = 0
  · simp only [if_pos h0, hs, if_pos h0.1]
    refine ⟨?_, ?_, ?_, ?_, ?_⟩ <;> trivial
  · by_cases h1 : ta.trim_type = TRIM_TYPE_MANUAL
    · simp only [if_neg h0, hs, if_pos h1]
      refine ⟨?_, ?_, ?_, ?_, ?_⟩ <;> trivial
    · simp only [if_neg h0, hs, if_neg h1]
      refine ⟨?_, ?_, ?_, ?_, ?_⟩ <;> trivial

theorem queue_inv_in_call (P : zfs_params) (spa : spa_t) (f g : trim_type_t → Nat)
    (hfg : ∀ t, f t = g t) (h : queue_inv P { spa := spa, in_call := f }) :
    queue_inv P { spa := spa, in_call := g } := by
  have : f = g := funext hfg
  rw [← this]
  exact h

theorem walk_inv_iostats (P : zfs_params) (env : Nat → trim_call_env) (spa : spa_t)
    (type : trim_type_t) (a b c d e f : Nat) (h : walk_inv P env spa) :
    walk_inv P env (spa_iostats_trim_add spa type a b c d e f) := h

theorem vdev_trim_range_walk (P : zfs_params) (env : Nat → trim_call_env) (ta : trim_args_t)
    (start size : Nat) (spa : spa_t)
    (hl : P.zfs_trim_queue_limit < 18446744073709551616) (h : walk_inv P env spa) :
    ∃ spa1, vdev_trim_range P env ta start size spa = some (0, spa1) ∧
      walk_inv P env spa1 := by
  obtain ⟨⟨hs, henv⟩, hz, hq0, hdr⟩ := h
  obtain ⟨s1, e1, a1, a2, a3, a4, a5, a6, a7⟩ :=
    trim_interfere_benign P hl (fun _ => 0) (env spa.trim_calls.length).before
      { spa with trim_calls := spa.trim_calls ++ [(start, size)] }
      (fun a ha => henv _ (Nat.le_refl _) a (List.mem_append_left _ ha)) hs hz hq0
  dsimp only at a2 a3 a4 a6 a7
  have hL : 1 ≤ P.zfs_trim_queue_limit := by
    by_contra hc
    rcases hdr spa.trim_calls.length spa.zios.length (Nat.le_refl _) (by omega) with
      ⟨z, hz1, _⟩ | ⟨m, e, h1, h2, h3, _⟩
    · rw [List.getElem?_eq_none_iff.mpr (Nat.le_refl _)] at hz1
      cases hz1
    · omega
  have hdone : ∀ j : Nat, j + P.zfs_trim_queue_limit ≤ s1.zios.length →
      ∃ z : zio_t, s1.zios[j]? = some z ∧ z.io_done = true := by
    intro j hj
    rw [a4] at hj
    rcases hdr spa.trim_calls.length j (Nat.le_refl _) (by omega) with
      hd | ⟨m, e, h1, h2, h3, h4⟩
    · exact a6 j hd
    · have hm : m = spa.trim_calls.length := by omega
      subst hm
      exact a7 j e h4 (by omega)
  have hroom := zios_pending_room s1.zios _ hL hdone
  have hsum : s1.vd.vdev_trim_inflight TRIM_TYPE_MANUAL +
      s1.vd.vdev_trim_inflight TRIM_TYPE_AUTO < P.zfs_trim_queue_limit := by
    have m1 := a5.1 TRIM_TYPE_MANUAL
    have m2 := a5.1 TRIM_TYPE_AUTO
    dsimp only at m1 m2
    omega
  have hgate : ∃ s2, vdev_trim_range_gate P ta s1 = some s2 ∧
      vdev_trim_should_stop s2.vd = false ∧ s2.vd.vdev_leaf_zap = s1.vd.vdev_leaf_zap ∧
      s2.trim_calls = s1.trim_calls ∧ s2.zios = s1.zios ∧
      queue_inv P { spa := s2, in_call := Function.update (fun _ => 0) ta.trim_type 1 } := by
    have hg : vdev_trim_range_gate P ta s1 =
        some { s1 with vd := { s1.vd with
          vdev_trim_inflight := Function.update s1.vd.vdev_trim_inflight ta.trim_type
            (u64_add (s1.vd.vdev_trim_inflight ta.trim_type) 1) } } := by
      unfold vdev_trim_range_gate
      rw [if_neg]
      unfold u64_add
      have := Nat.mod_le (s1.vd.vdev_trim_inflight TRIM_TYPE_MANUAL +
        s1.vd.vdev_trim_inflight TRIM_TYPE_AUTO) 18446744073709551616
      omega
    refine ⟨_, hg, a1, rfl, rfl, rfl, ?_⟩
    exact queue_step_inv P hl { spa := s1, in_call := fun _ => 0 } _
      (queue_label.gate ta) (by simp only [queue_step, hg]) a5
  obtain ⟨s2, hgate, g1, g2, g3, g4, qg⟩ := hgate
  obtain ⟨s3, e3, c1, c2, c3, c4, c5, c6, c7⟩ :=
    trim_interfere_benign P hl (Function.update (fun _ => 0) ta.trim_type 1)
      (env spa.trim_calls.length).during s2
      (fun a ha => henv _ (Nat.le_refl _) a (List.mem_append_right _ ha)) g1
      (by rw [g2, a2]; exact hz) qg
  rw [g2] at c2
  rw [g3] at c3
  rw [g4] at c4 c6 c7
  obtain ⟨i1, i2, i3, i4, i5⟩ := vdev_trim_range_issue_walk P ta start size
    (env spa.trim_calls.length).txg s3 c1
  have qi := queue_step_inv P hl
    { spa := s3, in_call := Function.update (fun _ => 0) ta.trim_type 1 } _
    (queue_label.issue ta start size (env spa.trim_calls.length).txg)
    (by
      simp only [queue_step]
      rw [if_neg (by simp)]) c5
  refine ⟨(vdev_trim_range_issue P ta start size (env spa.trim_calls.length).txg s3).2, ?_,
    ⟨i2, fun n hn a ha => henv n ?_ a ha⟩, ?_, ?_, ?_⟩
  · unfold vdev_trim_range
    dsimp only
    rw [e1]
    dsimp only
    rw [hgate]
    dsimp only
    rw [e3]
    dsimp only
    rw [← i1]
  · rw [i4, c3, a3, List.length_append] at hn
    omega
  · rw [i3, c2, a2]; exact hz
  · apply queue_inv_in_call P _ _ _ _ qi
    intro t
    dsimp only
    by_cases ht : t = ta.trim_type
    · subst ht; simp
    · simp [Function.update_noteq ht]
  · intro n j hn hj
    rw [i4, c3, a3, List.length_append] at hn hj ⊢
    rw [i5, List.length_append, c4, a4] at hj ⊢
    simp only [List.length_singleton] at hn hj ⊢
    have keep : (∃ z : zio_t, s1.zios[j]? = some z ∧ z.io_done = true) →
        ∃ z : zio_t, (s3.zios ++
          [{ io_offset := start, io_orig_size := size,
             io_txg := (env spa.trim_calls.length).txg,
             io_trim_type := ta.trim_type, io_trim_flags := ta.trim_flags,
             io_done := false }])[j]? = some z ∧ z.io_done = true := by
      intro hd
      obtain ⟨z, z1, z2⟩ := c6 j hd
      refine ⟨z, ?_, z2⟩
      rw [List.getElem?_append_left]
      · exact z1
      · by_contra hc
        rw [List.getElem?_eq_none_iff.mpr (by omega)] at z1
        cases z1
    rcases hdr n j (by omega) (by omega) with hd | ⟨m, e, h1, h2, h3, h4⟩
    · exact Or.inl (keep (a6 j hd))
    · by_cases hm : m = spa.trim_calls.length
      · subst hm
        exact Or.inl (keep (a7 j e h4 (by omega)))
      · exact Or.inr ⟨m, e, by omega, h2, by omega, h4⟩

theorem vdev_trim_ranges_writes_walk (P : zfs_params) (env : Nat → trim_call_env)
    (ta : trim_args_t) (rs_start size : Nat)
    (hl : P.zfs_trim_queue_limit < 18446744073709551616) :
    ∀ (n w : Nat) (spa : spa_t), walk_inv P env spa →
      ∃ spa1, vdev_trim_ranges_writes P env ta rs_start size n w spa = some (0, spa1) ∧
        walk_inv P env spa1 := by
  intro n
  induction n with
  | zero => intro w spa h; exact ⟨spa, rfl, h⟩
  | succ n ih =>
    intro w spa h
    obtain ⟨s1, e1, h1⟩ := vdev_trim_range_walk P env ta
      (u64_add (u64_add P.VDEV_LABEL_START_SIZE rs_start)
        (u64_mul w ta.trim_extent_bytes_max))
      (min (u64_sub size (u64_mul w ta.trim_extent_bytes_max)) ta.trim_extent_bytes_max)
      spa hl h
    obtain ⟨s2, e2, h2⟩ := ih (w + 1) s1 h1
    refine ⟨s2, ?_, h2⟩
    rw [vdev_trim_ranges_writes, e1]
    dsimp only
    rw [if_neg (by simp)]
    exact e2

theorem vdev_trim_ranges_seg_walk (P : zfs_params) (env : Nat → trim_call_env)
    (ta : trim_args_t) (rs : range_seg_t) (spa : spa_t)
    (hl : P.zfs_trim_queue_limit < 18446744073709551616)
    (hm : 1 ≤ ta.trim_extent_bytes_max) (h : walk_inv P env spa) :
    ∃ spa1, vdev_trim_ranges_seg P env ta rs spa = some (0, spa1) ∧ walk_inv P env spa1 := by
  unfold vdev_trim_ranges_seg
  dsimp only
  by_cases hs : ta.trim_extent_bytes_min ≠ 0 ∧
      u64_sub rs.rs_end rs.rs_start < ta.trim_extent_bytes_min
  · rw [if_pos hs]
    exact ⟨_, rfl, walk_inv_iostats P env spa _ _ _ _ _ _ _ h⟩
  · rw [if_neg hs, if_neg (Nat.one_le_iff_ne_zero.mp hm)]
    exact vdev_trim_ranges_writes_walk P env ta _ _ hl _ 0 spa h

theorem vdev_trim_ranges_segs_walk (P : zfs_params) (env : Nat → trim_call_env)
    (ta : trim_args_t) (hl : P.zfs_trim_queue_limit < 18446744073709551616)
    (hm : 1 ≤ ta.trim_extent_bytes_max) :
    ∀ (tree : List range_seg_t) (spa : spa_t), walk_inv P env spa →
      ∃ spa1, vdev_trim_ranges_segs P env ta tree spa = some (0, spa1) ∧
        walk_inv P env spa1 := by
  intro tree
  induction tree with
  | nil => intro spa h; exact ⟨spa, rfl, h⟩
  | cons rs rest ih =>
    intro spa h
    obtain ⟨s1, e1, h1⟩ := vdev_trim_ranges_seg_walk P env ta rs spa hl hm h
    obtain ⟨s2, e2, h2⟩ := ih s1 h1
    refine ⟨s2, ?_, h2⟩
    rw [vdev_trim_ranges_segs, e1]
    dsimp only
    rw [if_neg (by simp)]
    exact e2

theorem tree_chunks_cons (label m mn : Nat) (rs : range_seg_t) (rest : List range_seg_t) :
    tree_chunks label m mn (rs :: rest) =
      (if seg_skipped mn rs = true then [] else seg_chunks label m rs) ++
        tree_chunks label m mn rest := by
  unfold tree_chunks
  cases hs : seg_skipped mn rs <;> simp [List.filter_cons, hs]

theorem vdev_trim_ranges_segs_take (P : zfs_params) (env : Nat → trim_call_env)
    (ta : trim_args_t) (hm : 1 ≤ ta.trim_extent_bytes_max) :
    ∀ (tree : List range_seg_t) (spa spa1 : spa_t) (error : Nat),
      (∀ rs ∈ tree, seg_wf P.VDEV_LABEL_START_SIZE rs) →
      vdev_trim_ranges_segs P env ta tree spa = some (error, spa1) →
      ∃ k, spa1.trim_calls = spa.trim_calls ++
        (tree_chunks P.VDEV_LABEL_START_SIZE ta.trim_extent_bytes_max
          ta.trim_extent_bytes_min tree).take k := by
  intro tree
  induction tree with
  | nil =>
    intro spa spa1 error _ h
    simp only [vdev_trim_ranges_segs, Option.some.injEq, Prod.mk.injEq] at h
    obtain ⟨_, h⟩ := h
    subst h
    exact ⟨0, by simp⟩
  | cons rs rest ih =>
    intro spa spa1 error hwf h
    rw [vdev_trim_ranges_segs] at h
    have hwf1 := hwf rs (List.mem_cons_self _ _)
    have hwf2 : ∀ r ∈ rest, seg_wf P.VDEV_LABEL_START_SIZE r :=
      fun r hr => hwf r (List.mem_cons_of_mem _ hr)
    cases h1 : vdev_trim_ranges_seg P env ta rs spa with
    | none => rw [h1] at h; cases h
    | some r =>
      obtain ⟨e1, s1⟩ := r
      rw [h1] at h
      dsimp only at h
      obtain ⟨hskip, hissue⟩ := vdev_trim_ranges_seg_spec P env ta rs spa s1 e1 hwf1 hm h1
      rw [tree_chunks_cons]
      cases hs : seg_skipped ta.trim_extent_bytes_min rs with
      | true =>
        obtain ⟨he, hs1⟩ := hskip hs
        subst he
        rw [if_neg (by simp)] at h
        obtain ⟨k, hk⟩ := ih s1 spa1 error hwf2 h
        refine ⟨k, ?_⟩
        rw [hk, hs1]
        simp [spa_iostats_trim_add]
      | false =>
        obtain ⟨_, k, _, hk1, hk2, hcalls⟩ := hissue hs
        have hlen : (seg_chunks P.VDEV_LABEL_START_SIZE ta.trim_extent_bytes_max rs).length =
            chunk_count (seg_size rs) ta.trim_extent_bytes_max := by
          simp [seg_chunks]
        by_cases he : e1 ≠ 0
        · rw [if_pos he] at h
          injection h with h
          injection h with _ h2
          subst h2
          refine ⟨k, ?_⟩
          rw [hcalls]
          simp only [Bool.false_eq_true, if_false]
          rw [List.take_append_of_le_length (by omega)]
        · rw [if_neg he] at h
          have he0 : e1 = 0 := by omega
          obtain ⟨k2, hk⟩ := ih s1 spa1 error hwf2 h
          refine ⟨chunk_count (seg_size rs) ta.trim_extent_bytes_max + k2, ?_⟩
          rw [hk, hcalls, hk2 he0]
          simp only [Bool.false_eq_true, if_false]
          rw [← hlen, List.take_length, List.take_append, List.append_assoc]

/-! ## C1: the splitting rule -/

/-- C1. Take a working tree of well-formed segments, `extent_bytes_max >= 1` and
a walk of `vdev_trim_ranges` of which no stop is requested:
`vdev_trim_should_stop` is false when the walk starts and no other thread asks
the worker to stop while it runs. Let the leaf have a ZAP, let the inflight
counters count the pending zios, and let the device complete its zios fast
enough for the queue gate to open. Then the walk returns 0 and has handed to
`vdev_trim_range`, in tree order, exactly the chunks of the splitting rule of
the segments that are not skipped. Whatever the other threads do, a walk that
returns, with or without an error, has handed over an initial part of these
chunks. For every segment that is not skipped the rule gives `ceil(size / max)`
chunks, chunk `i` at offset `VDEV_LABEL_START_SIZE + s + i * max` with length
`min(size - i * max, max)`; every length lies between 1 and `max`, consecutive
chunks are contiguous and the lengths add up to `size`. -/
theorem vdev_trim_ranges_splitting_rule (P : zfs_params) (env : Nat → trim_call_env)
    (ta : trim_args_t) (spa : spa_t)
    (hmax : 1 ≤ ta.trim_extent_bytes_max)
    (hwf : ∀ rs ∈ ta.trim_tree, seg_wf P.VDEV_LABEL_START_SIZE rs)
    (hstop : no_stop_requested env spa)
    (hzap : spa.vd.vdev_leaf_zap ≠ 0)
    (hl : P.zfs_trim_queue_limit < 18446744073709551616)
    (hq0 : queue_inv P { spa := spa, in_call := fun _ => 0 })
    (hq : queue_drains P env spa) :
    (∃ spa1, vdev_trim_ranges P env ta spa = some (0, spa1) ∧
      spa1.trim_calls = spa.trim_calls ++ tree_chunks P.VDEV_LABEL_START_SIZE
        ta.trim_extent_bytes_max ta.trim_extent_bytes_min ta.trim_tree) ∧
    (∀ (env1 : Nat → trim_call_env) (spa0 spa1 : spa_t) (error : Nat),
      vdev_trim_ranges P env1 ta spa0 = some (error, spa1) →
      ∃ k, spa1.trim_calls = spa0.trim_calls ++
        (tree_chunks P.VDEV_LABEL_START_SIZE ta.trim_extent_bytes_max
          ta.trim_extent_bytes_min ta.trim_tree).take k) ∧
    ∀ rs ∈ ta.trim_tree, seg_skipped ta.trim_extent_bytes_min rs = false →
      let n := chunk_count (seg_size rs) ta.trim_extent_bytes_max
      let cs := seg_chunks P.VDEV_LABEL_START_SIZE ta.trim_extent_bytes_max rs
      cs.length = n ∧
      ((n - 1) * ta.trim_extent_bytes_max < seg_size rs ∧
        seg_size rs ≤ n * ta.trim_extent_bytes_max) ∧
      (∀ i, i < n →
        cs[i]? = some (P.VDEV_LABEL_START_SIZE + rs.rs_start + i * ta.trim_extent_bytes_max,
          min (seg_size rs - i * ta.trim_extent_bytes_max) ta.trim_extent_bytes_max) ∧
        1 ≤ min (seg_size rs - i * ta.trim_extent_bytes_max) ta.trim_extent_bytes_max ∧
        min (seg_size rs - i * ta.trim_extent_bytes_max) ta.trim_extent_bytes_max ≤
          ta.trim_extent_bytes_max) ∧
      (∀ i, i + 1 < n →
        (P.VDEV_LABEL_START_SIZE + rs.rs_start + i * ta.trim_extent_bytes_max) +
            min (seg_size rs - i * ta.trim_extent_bytes_max) ta.trim_extent_bytes_max =
          P.VDEV_LABEL_START_SIZE + rs.rs_start + (i + 1) * ta.trim_extent_bytes_max) ∧
      (cs.map Prod.snd).sum = seg_size rs := by
  refine ⟨?_, fun env1 spa0 spa1 error h => ?_, ?_⟩
  · obtain ⟨spa1, e1, _⟩ := vdev_trim_ranges_segs_walk P env ta hl hmax ta.trim_tree spa
      ⟨hstop, hzap, hq0, hq⟩
    exact ⟨spa1, e1, (vdev_trim_ranges_segs_spec P env ta hmax ta.trim_tree spa spa1 hwf e1).1⟩
  · exact vdev_trim_ranges_segs_take P env1 ta hmax ta.trim_tree spa0 spa1 error hwf h
  · intro rs hrs _
    have hp := (seg_size_pos _ rs (hwf rs hrs)).1
    refine ⟨by simp [seg_chunks], chunk_count_ceil _ _ hp hmax, fun i hi => ⟨?_, ?_⟩,
      fun i hi => ?_, seg_chunks_sum _ _ rs hp hmax⟩
    · simp [seg_chunks, List.getElem?_range hi, seg_chunk, hi]
    · exact seg_chunk_len P.VDEV_LABEL_START_SIZE _ rs i hp hmax hi
    · exact seg_chunk_next P.VDEV_LABEL_START_SIZE _ rs i hp hmax hi

/-- C1, scenario S1: on the healthy leaf, with every zio completed before the
next call, a 4 GiB segment at 0 with `max` = 128 MiB is handed over as exactly
32 chunks of 128 MiB, the first at `VDEV_LABEL_START_SIZE`, and the walk
returns 0. -/
theorem vdev_trim_ranges_splitting_rule_witness :
    (no_stop_requested env_quiet (spa_of vd_active zap_empty) ∧
      queue_drains params_4m env_quiet (spa_of vd_active zap_empty)) ∧
    (∃ spa1, vdev_trim_ranges params_4m env_quiet (ta_manual [⟨0, 4294967296⟩])
        (spa_of vd_active zap_empty) = some (0, spa1) ∧
      spa1.trim_calls = (spa_of vd_active zap_empty).trim_calls ++
        tree_chunks params_4m.VDEV_LABEL_START_SIZE
          (ta_manual [⟨0, 4294967296⟩]).trim_extent_bytes_max
          (ta_manual [⟨0, 4294967296⟩]).trim_extent_bytes_min
          (ta_manual [⟨0, 4294967296⟩]).trim_tree) ∧
    tree_chunks params_4m.VDEV_LABEL_START_SIZE
        (ta_manual [⟨0, 4294967296⟩]).trim_extent_bytes_max
        (ta_manual [⟨0, 4294967296⟩]).trim_extent_bytes_min
        (ta_manual [⟨0, 4294967296⟩]).trim_tree =
      (List.range 32).map (fun i => (4194304 + i * 134217728, 134217728)) ∧
    (vdev_trim_ranges params_4m env_quiet (ta_manual [⟨0, 4294967296⟩])
        (spa_of vd_active zap_empty)).map (fun r => (r.1, r.2.trim_calls)) =
      some (0, (List.range 32).map (fun i => (4194304 + i * 134217728, 134217728))) := by
  have hs : no_stop_requested env_quiet (spa_of vd_active zap_empty) := by
    refine ⟨rfl, fun n _ a ha => ?_⟩
    simp only [env_quiet, List.append_nil, List.mem_singleton] at ha
    subst ha
    rfl
  have hd : queue_drains params_4m env_quiet (spa_of vd_active zap_empty) := by
    intro n j _ hj
    have hj1 : j + 10 ≤ n := by
      simpa [spa_of, params_4m, zfs_params_default] using hj
    refine Or.inr ⟨j + 1, 0, Nat.zero_le _, by omega, ?_, ?_⟩
    · show j < 0 + (j + 1 - 0)
      omega
    · simp [env_quiet]
  exact ⟨⟨hs, hd⟩,
    (vdev_trim_ranges_splitting_rule params_4m env_quiet (ta_manual [⟨0, 4294967296⟩])
      (spa_of vd_active zap_empty) (by decide) (by decide) hs (by decide)
      (by decide) ⟨fun t => by cases t <;> rfl, by decide⟩ hd).1,
    by decide, by decide⟩

/-! ## C5: resuming a suspended TRIM -/

/-- On a top-level leaf (`vdev_xlate` the identity) a manual job that meets a
free segment `[s, e)` with `s < LastOffset < e` puts `[LastOffset, e)` into its
working tree: the persisted value is taken as a physical offset. -/
theorem vdev_trim_range_add_resume (vd : vdev_t) (ta : trim_args_t) (s e : Nat)
    (hx : ∀ rs, vd.vdev_xlate rs = rs)
    (hm : ta.trim_type = TRIM_TYPE_MANUAL) (ht : ta.trim_tree = [])
    (h1 : s < vd.vdev_trim_last_offset) (h2 : vd.vdev_trim_last_offset < e)
    (h3 : e < 18446744073709551616) :
    vdev_trim_range_add vd ta s (u64_sub e s) =
      some { ta with trim_tree := [⟨vd.vdev_trim_last_offset, e⟩] } := by
  have he : u64_add s (u64_sub e s) = e := by unfold u64_add u64_sub; omega
  have hl : u64_sub e vd.vdev_trim_last_offset = e - vd.vdev_trim_last_offset := by
    unfold u64_sub; omega
  have c1 : ¬ e ≤ vd.vdev_trim_last_offset := by omega
  have c2 : vd.vdev_trim_last_offset > s := h1
  have c3 : e > vd.vdev_trim_last_offset := h2
  have c4 : vd.vdev_trim_last_offset + (e - vd.vdev_trim_last_offset) = e := by omega
  unfold vdev_trim_range_add
  simp only [hx, he, hm, true_and, c1, c2, c3, if_true, if_false, ht, hl, range_tree_add, c4]

/-- The first chunk of a walk over the tree `[LastOffset, e)` that the resumed
job holds is handed over at `VDEV_LABEL_START_SIZE + LastOffset`. -/
theorem tree_chunks_resume_head (label m mn l e : Nat) (hm : 1 ≤ m) (hle : l < e)
    (hmin : mn ≤ e - l) :
    (tree_chunks label m mn [⟨l, e⟩]).head? = some (label + l, min (e - l) m) := by
  have hs : seg_skipped mn ⟨l, e⟩ = false := by
    simp only [seg_skipped, seg_size, Bool.and_eq_false_imp, decide_eq_true_eq,
      decide_eq_false_iff_not, not_lt]
    intro _; exact hmin
  have hn : chunk_count (seg_size ⟨l, e⟩) m = (e - l - 1) / m + 1 :=
    chunk_count_eq _ _ (by simp only [seg_size]; omega) hm
  simp only [tree_chunks, List.filter_cons, hs, Bool.not_false, if_true, List.filter_nil,
    List.flatMap_cons, List.flatMap_nil, List.append_nil]
  unfold seg_chunks
  rw [hn, List.range_succ_eq_map]
  simp only [List.map_cons, List.head?_cons, seg_chunk, seg_size, Nat.zero_mul, Nat.add_zero,
    Nat.sub_zero]

/-- C5 fails on the code. With a label area of 4 MiB, the suspended run has
issued the device offsets `[4 MiB, 4 MiB + 256 MiB)` and persists
`LastOffset` = 4 MiB + 256 MiB = 272629760, a device offset. The resumed run
compares that value with physical offsets, which lack the label area, so its
first chunk starts at device offset 276824064 = `LastOffset` + 4 MiB: the free
bytes at device offsets `[LastOffset, LastOffset + 4 MiB)` are never issued. -/
theorem vdev_trim_resume_skips_label_size :
    suspended_run.map (fun spa =>
        (spa.vd.vdev_trim_state, spa.zap.VDEV_LEAF_ZAP_TRIM_LAST_OFFSET,
          spa.zios.map (fun z => (z.io_offset, z.io_orig_size)))) =
      some (VDEV_TRIM_SUSPENDED, some 272629760,
        [(4194304, 134217728), (138412032, 134217728)]) ∧
    resumed_run.map (fun spa => (spa.vd.vdev_trim_state, spa.trim_calls.drop 3)) =
      some (VDEV_TRIM_COMPLETE,
        [(276824064, 134217728), (411041792, 134217728), (545259520, 134217728),
          (679477248, 134217728), (813694976, 134217728), (947912704, 130023424)]) := by
  decide

/-! ## C7: restarting a completed TRIM -/

/-- Activating a completed leaf with `rate = 0`, `partial = 0`, `secure = 0`
leaves the sentinel `UINT64_MAX` in all four settings. -/
theorem vdev_trim_change_state_reactivate (spa : spa_t) (now txg : Nat)
    (hs : spa.vd.vdev_trim_state = VDEV_TRIM_COMPLETE) :
    (vdev_trim_change_state spa VDEV_TRIM_ACTIVE 0 0 0 now txg).map
      (fun s => (s.vd.vdev_trim_last_offset, s.vd.vdev_trim_rate, s.vd.vdev_trim_partial,
        s.vd.vdev_trim_secure)) =
      some (UINT64_MAX, UINT64_MAX, UINT64_MAX, UINT64_MAX) := by
  simp [vdev_trim_change_state, hs, vdev_trim_state_event, vdev_trim_change_state_vd,
    change_state_action_time, change_state_reset, change_state_rate, change_state_part,
    change_state_secure]

/-- A sync task that reaches the ZAP of a leaf holding the sentinel in all four
settings writes 0 for `LastOffset`, `Partial` and `Secure` and the sentinel
itself for `Rate`. -/
theorem vdev_trim_zap_update_sync_sentinels (P : zfs_params) (txg : Nat) (spa spa1 : spa_t)
    (h1 : spa.vdev_freed = false) (h2 : spa.vd.vdev_is_concrete = true)
    (h3 : spa.vd.vdev_top_removing = false)
    (hl : spa.vd.vdev_trim_last_offset = UINT64_MAX)
    (hr : spa.vd.vdev_trim_rate = UINT64_MAX)
    (hp : spa.vd.vdev_trim_partial = UINT64_MAX)
    (hsec : spa.vd.vdev_trim_secure = UINT64_MAX)
    (h : vdev_trim_zap_update_sync P spa.vd.vdev_guid txg spa = some spa1) :
    spa1.zap.VDEV_LEAF_ZAP_TRIM_LAST_OFFSET = some 0 ∧
      spa1.zap.VDEV_LEAF_ZAP_TRIM_PARTIAL = some 0 ∧
      spa1.zap.VDEV_LEAF_ZAP_TRIM_SECURE = some 0 ∧
      spa1.zap.VDEV_LEAF_ZAP_TRIM_RATE = some UINT64_MAX := by
  unfold vdev_trim_zap_update_sync at h
  rw [if_neg (by simp [h1, h2, h3])] at h
  dsimp only at h
  by_cases hz : spa.vd.vdev_leaf_zap = 0
  · rw [if_pos hz] at h; cases h
  · rw [if_neg hz] at h
    cases h
    dsimp only
    simp only [hl, hr, hp, hsec, if_true, Bool.or_true, decide_True]
    refine ⟨?_, ?_, ?_, ?_⟩
    · split_ifs <;> rfl
    · trivial
    · trivial
    · rw [if_pos (by decide)]

/-- C7 fails on the code. After `vdev_trim_change_state(leaf, Active, 0, 0, 0)`
on a completed leaf and the firing of the sync task it registers, the persisted
`LastOffset`, `Partial` and `Secure` are 0, but the persisted `Rate` is the
sentinel `UINT64_MAX`: `vdev_trim_zap_update_sync` turns the sentinel into 0
for the other three keys and writes it unchanged for `Rate`. -/
theorem vdev_trim_reactivate_persists_rate_sentinel :
    ((vdev_trim_change_state (spa_of vd_complete zap_complete)
        VDEV_TRIM_ACTIVE 0 0 0 200 7).bind (spa_sync params_4m 7)).map
      (fun spa => (spa.zap.VDEV_LEAF_ZAP_TRIM_LAST_OFFSET, spa.zap.VDEV_LEAF_ZAP_TRIM_PARTIAL,
        spa.zap.VDEV_LEAF_ZAP_TRIM_SECURE, spa.zap.VDEV_LEAF_ZAP_TRIM_RATE,
        spa.sync_tasks)) =
      some (some 0, some 0, some 0, some 18446744073709551615, []) := by
  decide

/-! ## C8: the action time across a suspension -/

/-- C8 fails on the code. `vdev_trim_change_state` tests the state the leaf is
leaving, not the one it enters: moving an active leaf to `VDEV_TRIM_SUSPENDED`
sets `vdev_trim_action_time` to the clock, for every earlier value and every
clock value, and it is the later re-activation that keeps the time (that of the
suspension). On the healthy leaf started at time 100, a suspension at time 200,
also through `vdev_trim_stop`, leaves 200, and the re-activation at time 300
leaves 200 as well. -/
theorem vdev_trim_suspend_overwrites_action_time :
    (∀ (spa : spa_t) (now txg : Nat),
      (vdev_trim_change_state
          { spa with vd := { spa.vd with vdev_trim_state := VDEV_TRIM_ACTIVE } }
          VDEV_TRIM_SUSPENDED 0 0 0 now txg).map
        (fun s => (s.vd.vdev_trim_state, s.vd.vdev_trim_action_time)) =
        some (VDEV_TRIM_SUSPENDED, now)) ∧
    vd_active.vdev_trim_action_time = 100 ∧
    (vdev_trim_stop params_4m (env_thread (fun _ => 7) []) (spa_of vd_active zap_empty)
        VDEV_TRIM_SUSPENDED none 200 7).map
      (fun r => (r.1.vd.vdev_trim_state, r.1.vd.vdev_trim_action_time)) =
      some (VDEV_TRIM_SUSPENDED, 200) ∧
    ((vdev_trim_stop params_4m (env_thread (fun _ => 7) []) (spa_of vd_active zap_empty)
        VDEV_TRIM_SUSPENDED none 200 7).bind (fun r => vdev_trim r.1 0 0 0 300 8)).map
      (fun s => (s.vd.vdev_trim_state, s.vd.vdev_trim_action_time)) =
      some (VDEV_TRIM_ACTIVE, 200) := by
  refine ⟨fun spa now txg => ?_, by decide, by decide, by decide⟩
  simp [vdev_trim_change_state, vdev_trim_state_event, vdev_trim_change_state_vd,
    change_state_action_time]

/-! ## C10: the rewind after a device loss -/

/-- C10 fails on the code. The worker issues chunks at device offsets 4 MiB and
4 MiB + 128 MiB in txg 5 and at 4 MiB + 256 MiB in txg 6; the leaf then becomes
unwriteable and all three zios end with `ENXIO`. Each callback pulls back only
the slot of its own txg, so after the sync tasks have fired in txg order the
persisted `LastOffset` is 272629760 = 4 MiB + 256 MiB, the rewound slot of
txg 6, which is above the smallest failing offset 4194304. When all three
chunks are issued in one txg the persisted value is 4194304. -/
theorem vdev_trim_rewind_misses_other_txgs :
    (vdev_trim_thread params_4m
        (env_thread (fun n => if n < 2 then 5 else 6)
          [trim_interference.set_writeable false, trim_interference.io_done 0 ENXIO,
            trim_interference.io_done 1 ENXIO, trim_interference.io_done 2 ENXIO])
        (spa_started 402653184)).map
      (fun spa => (spa.zios.map (fun z => (z.io_offset, z.io_txg, z.io_done)),
        spa.sync_tasks, spa.zap.VDEV_LEAF_ZAP_TRIM_LAST_OFFSET)) =
      some ([(4194304, 5, true), (138412032, 5, true), (272629760, 6, true)], [],
        some 272629760) ∧
    (vdev_trim_thread params_4m
        (env_thread (fun _ => 5)
          [trim_interference.set_writeable false, trim_interference.io_done 0 ENXIO,
            trim_interference.io_done 1 ENXIO, trim_interference.io_done 2 ENXIO])
        (spa_started 402653184)).map
      (fun spa => spa.zap.VDEV_LEAF_ZAP_TRIM_LAST_OFFSET) = some (some 4194304) := by
  decide

/-! ## C9: the exit of the worker -/

theorem vdev_trim_zap_update_sync_life (P : zfs_params) (guid txg : Nat)
    (spa spa1 : spa_t) (h : vdev_trim_zap_update_sync P guid txg spa = some spa1) :
    life_view spa1 = life_view spa ∧ spa1.sync_tasks = spa.sync_tasks ∧
      spa1.events = spa.events := by
  unfold vdev_trim_zap_update_sync at h
  split at h
  · cases h; exact ⟨rfl, rfl, rfl⟩
  · split at h
    · cases h
    · cases h
      dsimp only [life_view]
      split_ifs <;> exact ⟨rfl, rfl, rfl⟩

theorem foldlM_sync_life (P : zfs_params) (tasks : List sync_task_t) :
    ∀ (spa spa1 : spa_t),
      tasks.foldlM (fun s t => vdev_trim_zap_update_sync P t.st_guid t.st_txg s) spa =
        some spa1 →
      life_view spa1 = life_view spa ∧ spa1.sync_tasks = spa.sync_tasks ∧
        spa1.events = spa.events := by
  induction tasks with
  | nil => intro spa spa1 h; simp at h; rw [h]; exact ⟨rfl, rfl, rfl⟩
  | cons t rest ih =>
    intro spa spa1 h
    rw [List.foldlM_cons] at h
    cases h1 : vdev_trim_zap_update_sync P t.st_guid t.st_txg spa with
    | none => rw [h1] at h; simp at h
    | some spa2 =>
      rw [h1] at h
      obtain ⟨a1, a2, a3⟩ := ih spa2 spa1 h
      obtain ⟨b1, b2, b3⟩ := vdev_trim_zap_update_sync_life P _ _ _ _ h1
      exact ⟨a1.trans b1, a2.trans b2, a3.trans b3⟩

theorem txg_wait_synced_life (P : zfs_params) (spa spa1 : spa_t)
    (h : txg_wait_synced P spa = some spa1) :
    life_view spa1 = life_view spa ∧ spa1.sync_tasks = [] ∧ spa1.events = spa.events := by
  unfold txg_wait_synced at h
  obtain ⟨a1, a2, a3⟩ := foldlM_sync_life P _ _ _ h
  exact ⟨a1, a2, a3⟩

theorem vdev_trim_change_state_state (spa spa1 : spa_t) (new_state : vdev_trim_state_t)
    (rate part secure now txg : Nat)
    (h : vdev_trim_change_state spa new_state rate part secure now txg = some spa1) :
    spa1.vd.vdev_trim_state = new_state := by
  unfold vdev_trim_change_state at h
  by_cases hc : new_state = spa.vd.vdev_trim_state
  · rw [if_pos hc] at h; cases h; exact hc.symm
  · rw [if_neg hc] at h
    dsimp only at h
    cases hev : vdev_trim_state_event new_state
        (decide (spa.vd.vdev_trim_state = VDEV_TRIM_SUSPENDED)) with
    | none => rw [hev] at h; cases h
    | some ev => rw [hev] at h; cases h; rfl

/-- C9 as stated fails: a worker whose first call of `vdev_trim_range` returns
`EINTR` because the leaf was detached meanwhile, with `vdev_trim_exit_wanted`
clear and the leaf writeable, moves the leaf from `VDEV_TRIM_ACTIVE` to
`VDEV_TRIM_COMPLETE` on exit, and so does a worker stopped by the removal of
the top-level vdev; no TRIM zio was submitted in either run. -/
theorem vdev_trim_thread_detached_completes :
    (vdev_trim_thread params_4m
        { calls := fun _ => { before := [trim_interference.detach], txg := 7, during := [] }
          ms_before := fun _ => []
          drain := []
          now := 900
          txg := 9 }
        (spa_started 402653184)).map
      (fun spa => (spa.vd.vdev_detached, spa.vd.vdev_trim_exit_wanted, spa.vd.vdev_writeable,
        spa.zios.length, spa.vd.vdev_trim_state)) =
      some (true, false, true, 0, VDEV_TRIM_COMPLETE) ∧
    (vdev_trim_thread params_4m
        { calls := fun _ => { before := [], txg := 7, during := [] }
          ms_before := fun _ => [trim_interference.top_removing]
          drain := []
          now := 900
          txg := 9 }
        (spa_started 402653184)).map
      (fun spa => (spa.vd.vdev_top_removing, spa.vd.vdev_trim_exit_wanted,
        spa.vd.vdev_writeable, spa.zios.length, spa.vd.vdev_trim_state)) =
      some (true, false, true, 0, VDEV_TRIM_COMPLETE) ∧
    (spa_started 402653184).vd.vdev_trim_state = VDEV_TRIM_ACTIVE := by
  decide

/-- C9, amended. Whatever ended the metaslab loop of the manual worker, its exit
path decides on `vdev_trim_exit_wanted` and on the writeable flag alone, as they
are when it takes `vdev_trim_lock` (state `spa1`): if `vdev_trim_exit_wanted`
is set or the leaf is not writeable, `vdev_trim_state` stays as it was; if
neither holds the worker moves the leaf to `VDEV_TRIM_COMPLETE`, also when the
loop ended because the leaf is detached or its top-level vdev is being
removed. -/
theorem vdev_trim_thread_exit_state (P : zfs_params) (drain : List trim_interference)
    (now txg : Nat) (spa : spa_t)
    (h : (vdev_trim_thread_exit P drain now txg spa).isSome = true) :
    ∃ spa1, trim_interfere P drain spa = some spa1 ∧
      ((spa1.vd.vdev_trim_exit_wanted = true ∨ spa1.vd.vdev_writeable = false) →
        (vdev_trim_thread_exit P drain now txg spa).map (fun s => s.vd.vdev_trim_state) =
          some spa1.vd.vdev_trim_state) ∧
      ((spa1.vd.vdev_trim_exit_wanted = false ∧ spa1.vd.vdev_writeable = true) →
        (vdev_trim_thread_exit P drain now txg spa).map (fun s => s.vd.vdev_trim_state) =
          some VDEV_TRIM_COMPLETE) := by
  unfold vdev_trim_thread_exit at h ⊢
  cases h1 : trim_interfere P drain spa with
  | none => rw [h1] at h; cases h
  | some spa1 =>
    rw [h1] at h
    refine ⟨spa1, rfl, ?_, ?_⟩
    · intro hflag
      dsimp only at h ⊢
      by_cases hin : spa1.vd.vdev_trim_inflight TRIM_TYPE_MANUAL > 0
      · rw [if_pos hin] at h; cases h
      · rw [if_neg hin] at h ⊢
        have hc : ¬(spa1.vd.vdev_trim_exit_wanted = false ∧ spa1.vd.vdev_writeable = true) := by
          rcases hflag with hf | hf <;> simp [hf]
        rw [if_neg hc] at h ⊢
        dsimp only at h ⊢
        cases h3 : txg_wait_synced P spa1 with
        | none => rw [h3] at h; cases h
        | some spa3 =>
          have hl := (txg_wait_synced_life P spa1 spa3 h3).1
          simp only [life_view, Prod.mk.injEq] at hl
          simp only [Option.map_some', Option.some.injEq]
          exact hl.1
    · intro hflag
      dsimp only at h ⊢
      by_cases hin : spa1.vd.vdev_trim_inflight TRIM_TYPE_MANUAL > 0
      · rw [if_pos hin] at h; cases h
      · rw [if_neg hin] at h ⊢
        rw [if_pos hflag] at h ⊢
        cases h2 : vdev_trim_change_state spa1 VDEV_TRIM_COMPLETE spa1.vd.vdev_trim_rate
            spa1.vd.vdev_trim_partial spa1.vd.vdev_trim_secure now txg with
        | none => rw [h2] at h; cases h
        | some spa2 =>
          rw [h2] at h
          dsimp only at h ⊢
          cases h3 : txg_wait_synced P spa2 with
          | none => rw [h3] at h; cases h
          | some spa3 =>
            have hl := (txg_wait_synced_life P spa2 spa3 h3).1
            simp only [life_view, Prod.mk.injEq] at hl
            simp only [Option.map_some', Option.some.injEq]
            rw [hl.1]
            exact vdev_trim_change_state_state _ _ _ _ _ _ _ _ h2

/-- C9, amended, on a detached leaf at the end of the loop: with
`vdev_trim_exit_wanted` clear and the leaf writeable the exit path ends in
`VDEV_TRIM_COMPLETE`. -/
theorem vdev_trim_thread_exit_state_witness :
    ∃ spa1, trim_interfere params_4m []
        (spa_of { vd_active with vdev_detached := true } zap_empty) = some spa1 ∧
      ((spa1.vd.vdev_trim_exit_wanted = true ∨ spa1.vd.vdev_writeable = false) →
        (vdev_trim_thread_exit params_4m [] 900 9
            (spa_of { vd_active with vdev_detached := true } zap_empty)).map
          (fun s => s.vd.vdev_trim_state) = some spa1.vd.vdev_trim_state) ∧
      ((spa1.vd.vdev_trim_exit_wanted = false ∧ spa1.vd.vdev_writeable = true) →
        (vdev_trim_thread_exit params_4m [] 900 9
            (spa_of { vd_active with vdev_detached := true } zap_empty)).map
          (fun s => s.vd.vdev_trim_state) = some VDEV_TRIM_COMPLETE) :=
  vdev_trim_thread_exit_state params_4m [] 900 9
    (spa_of { vd_active with vdev_detached := true } zap_empty) (by decide)

/-! ## C6: cancel is final -/

theorem cancel_live_of_life (a b : spa_t) (h : life_view a = life_view b)
    (hb : cancel_live b) : cancel_live a := by
  simp only [life_view, Prod.mk.injEq] at h
  obtain ⟨h1, _, h3, h4, h5, _, _⟩ := h
  unfold cancel_live at hb ⊢
  rw [h1, h3, h4, h5]
  exact hb

theorem vdev_trim_zap_update_sync_cancel (P : zfs_params) (guid txg : Nat)
    (spa spa1 : spa_t) (hl : cancel_live spa)
    (h : vdev_trim_zap_update_sync P guid txg spa = some spa1) :
    (guid = spa.vd.vdev_guid →
      spa1.zap.VDEV_LEAF_ZAP_TRIM_STATE = some VDEV_TRIM_CANCELED) ∧
    (spa.zap.VDEV_LEAF_ZAP_TRIM_STATE = some VDEV_TRIM_CANCELED →
      spa1.zap.VDEV_LEAF_ZAP_TRIM_STATE = some VDEV_TRIM_CANCELED) := by
  obtain ⟨h1, h2, h3, h4⟩ := hl
  unfold vdev_trim_zap_update_sync at h
  by_cases hg : guid = spa.vd.vdev_guid
  · have hc : ¬((spa.vdev_freed || guid != spa.vd.vdev_guid || spa.vd.vdev_top_removing ||
        !spa.vd.vdev_is_concrete) = true) := by
      simp [h2, h3, h4, hg]
    rw [if_neg hc] at h
    dsimp only at h
    by_cases hz : spa.vd.vdev_leaf_zap = 0
    · rw [if_pos hz] at h; cases h
    · rw [if_neg hz] at h
      cases h
      dsimp only
      have hs : ∀ (b : Bool) (x : Nat) (f : Nat → Nat),
          (if b = true then { spa.vd with vdev_trim_offset := f, vdev_trim_last_offset := x }
            else { spa.vd with vdev_trim_offset := f }).vdev_trim_state =
            VDEV_TRIM_CANCELED := by
        intro b x f
        split_ifs <;> exact h1
      exact ⟨fun _ => congrArg some (hs _ _ _), fun _ => congrArg some (hs _ _ _)⟩
  · have hc : (spa.vdev_freed || guid != spa.vd.vdev_guid || spa.vd.vdev_top_removing ||
        !spa.vd.vdev_is_concrete) = true := by
      simp [hg]
    rw [if_pos hc] at h
    cases h
    exact ⟨fun hg1 => absurd hg1 hg, fun hz => hz⟩

theorem foldlM_sync_cancel (P : zfs_params) (tasks : List sync_task_t) :
    ∀ (spa spa1 : spa_t), cancel_live spa →
      tasks.foldlM (fun s t => vdev_trim_zap_update_sync P t.st_guid t.st_txg s) spa =
        some spa1 →
      (spa.zap.VDEV_LEAF_ZAP_TRIM_STATE = some VDEV_TRIM_CANCELED ∨
        ∃ t ∈ tasks, t.st_guid = spa.vd.vdev_guid) →
      spa1.zap.VDEV_LEAF_ZAP_TRIM_STATE = some VDEV_TRIM_CANCELED := by
  induction tasks with
  | nil =>
    intro spa spa1 _ h hd
    simp only [List.foldlM_nil, Option.pure_def, Option.some.injEq] at h
    subst h
    rcases hd with hd | ⟨t, ht, _⟩
    · exact hd
    · cases ht
  | cons t rest ih =>
    intro spa spa1 hl h hd
    rw [List.foldlM_cons] at h
    cases h1 : vdev_trim_zap_update_sync P t.st_guid t.st_txg spa with
    | none => rw [h1] at h; simp at h
    | some spa2 =>
      rw [h1] at h
      have hlife := (vdev_trim_zap_update_sync_life P _ _ _ _ h1).1
      have hl2 := cancel_live_of_life spa2 spa hlife hl
      obtain ⟨c1, c2⟩ := vdev_trim_zap_update_sync_cancel P _ _ spa spa2 hl h1
      have hguid : spa2.vd.vdev_guid = spa.vd.vdev_guid := by
        simp only [life_view, Prod.mk.injEq] at hlife
        exact hlife.2.1
      apply ih spa2 spa1 hl2 h
      rcases hd with hd | ⟨t0, ht0, hg0⟩
      · exact Or.inl (c2 hd)
      · rcases List.mem_cons.mp ht0 with heq | hmem
        · subst heq
          exact Or.inl (c1 hg0)
        · exact Or.inr ⟨t0, hmem, hg0.trans hguid.symm⟩

theorem txg_wait_synced_cancel (P : zfs_params) (spa spa1 : spa_t)
    (hl : cancel_live spa) (hd : cancel_due spa)
    (h : txg_wait_synced P spa = some spa1) :
    spa1.zap.VDEV_LEAF_ZAP_TRIM_STATE = some VDEV_TRIM_CANCELED := by
  unfold txg_wait_synced at h
  apply foldlM_sync_cancel P _ { spa with sync_tasks := [] } spa1
    (cancel_live_of_life _ spa rfl hl) h
  rcases hd with hd | ⟨t, ht, hg⟩
  · exact Or.inl hd
  · exact Or.inr ⟨t, (List.perm_insertionSort _ _).mem_iff.mpr ht, hg⟩

theorem spa_sync_life (P : zfs_params) (txg : Nat) (spa spa1 : spa_t)
    (h : spa_sync P txg spa = some spa1) :
    life_view spa1 = life_view spa ∧
      spa1.sync_tasks = spa.sync_tasks.filter (fun t => !decide (t.st_txg = txg)) ∧
      spa1.events = spa.events := by
  unfold spa_sync at h
  obtain ⟨a1, a2, a3⟩ := foldlM_sync_life P _ _ _ h
  exact ⟨a1, a2, a3⟩

theorem spa_sync_cancel (P : zfs_params) (txg : Nat) (spa spa1 : spa_t)
    (hl : cancel_live spa) (hd : cancel_due spa)
    (h : spa_sync P txg spa = some spa1) : cancel_due spa1 := by
  obtain ⟨hlife, htasks, _⟩ := spa_sync_life P txg spa spa1 h
  have hguid : spa1.vd.vdev_guid = spa.vd.vdev_guid := by
    simp only [life_view, Prod.mk.injEq] at hlife
    exact hlife.2.1
  unfold spa_sync at h
  have key := foldlM_sync_cancel P _
    { spa with sync_tasks := spa.sync_tasks.filter (fun t => !decide (t.st_txg = txg)) } spa1
    (cancel_live_of_life _ spa rfl hl) h
  rcases hd with hd | ⟨t, ht, hg⟩
  · exact Or.inl (key (Or.inl hd))
  · by_cases htx : t.st_txg = txg
    · refine Or.inl (key (Or.inr ⟨t, ?_, hg⟩))
      rw [List.mem_filter]
      exact ⟨ht, by simpa using htx⟩
    · refine Or.inr ⟨t, ?_, hg.trans hguid.symm⟩
      rw [htasks, List.mem_filter]
      exact ⟨ht, by simpa using htx⟩

theorem zio_done_life (P : zfs_params) (i io_error : Nat) (spa : spa_t) :
    life_view (zio_done P i io_error spa) = life_view spa ∧
      (zio_done P i io_error spa).sync_tasks = spa.sync_tasks ∧
      (zio_done P i io_error spa).zap = spa.zap ∧
      (zio_done P i io_error spa).events = spa.events := by
  unfold zio_done
  cases spa.zios[i]? with
  | none => exact ⟨rfl, rfl, rfl, rfl⟩
  | some zio =>
    dsimp only
    by_cases hd : zio.io_done = true
    · rw [if_pos hd]; exact ⟨rfl, rfl, rfl, rfl⟩
    · rw [if_neg hd]
      cases zio.io_trim_type with
      | TRIM_TYPE_MANUAL =>
        dsimp only
        unfold vdev_trim_cb
        simp only [life_view, spa_iostats_trim_add]
        split_ifs <;> exact ⟨rfl, rfl, rfl, rfl⟩
      | TRIM_TYPE_AUTO =>
        dsimp only
        unfold vdev_autotrim_cb
        simp only [life_view, spa_iostats_trim_add]
        split_ifs <;> exact ⟨rfl, rfl, rfl, rfl⟩

theorem trim_interference_apply_cancel (P : zfs_params) (a : trim_interference)
    (spa spa1 : spa_t) (ha : a.is_admin = false) (h : a.apply P spa = some spa1) :
    life_view spa1 = life_view spa ∧ spa1.events = spa.events ∧
      (cancel_live spa → cancel_due spa → cancel_due spa1) := by
  cases a with
  | stop tgt_state now txg => simp [trim_interference.is_admin] at ha
  | top_removing => simp [trim_interference.is_admin] at ha
  | io_done i io_error =>
    simp only [trim_interference.apply, Option.some.injEq] at h
    subst h
    obtain ⟨h1, h2, h3, h4⟩ := zio_done_life P i io_error spa
    refine ⟨h1, h4, fun _ hd => ?_⟩
    have hguid : (zio_done P i io_error spa).vd.vdev_guid = spa.vd.vdev_guid := by
      simp only [life_view, Prod.mk.injEq] at h1
      exact h1.2.1
    unfold cancel_due at hd ⊢
    rw [h2, h3, hguid]
    exact hd
  | txg_sync txg =>
    obtain ⟨h1, _, h3⟩ := spa_sync_life P txg spa spa1 h
    exact ⟨h1, h3, fun hl hd => spa_sync_cancel P txg spa spa1 hl hd h⟩
  | set_writeable b =>
    simp only [trim_interference.apply, Option.some.injEq] at h
    subst h
    exact ⟨rfl, rfl, fun _ hd => hd⟩
  | detach =>
    simp only [trim_interference.apply, Option.some.injEq] at h
    subst h
    exact ⟨rfl, rfl, fun _ hd => hd⟩

theorem trim_interfere_cancel (P : zfs_params) (script : List trim_interference) :
    ∀ (spa spa1 : spa_t), (∀ a ∈ script, a.is_admin = false) →
      trim_interfere P script spa = some spa1 →
      life_view spa1 = life_view spa ∧ spa1.events = spa.events ∧
        (cancel_live spa → cancel_due spa → cancel_due spa1) := by
  induction script with
  | nil =>
    intro spa spa1 _ h
    simp only [trim_interfere, List.foldlM_nil, Option.pure_def, Option.some.injEq] at h
    subst h
    exact ⟨rfl, rfl, fun _ hd => hd⟩
  | cons a rest ih =>
    intro spa spa1 hq h
    unfold trim_interfere at h
    rw [List.foldlM_cons] at h
    cases h1 : a.apply P spa with
    | none => rw [h1] at h; simp at h
    | some spa2 =>
      rw [h1] at h
      obtain ⟨b1, b2, b3⟩ :=
        trim_interference_apply_cancel P a spa spa2 (hq a (List.mem_cons_self _ _)) h1
      obtain ⟨c1, c2, c3⟩ := ih spa2 spa1 (fun x hx => hq x (List.mem_cons_of_mem _ hx)) h
      exact ⟨c1.trans b1, c2.trans b2,
        fun hl hd => c3 (cancel_live_of_life spa2 spa b1 hl) (b3 hl hd)⟩

theorem vdev_trim_change_state_life (spa spa1 : spa_t) (new_state : vdev_trim_state_t)
    (rate part secure now txg : Nat)
    (h : vdev_trim_change_state spa new_state rate part secure now txg = some spa1) :
    (life_view spa1).2 = (life_view spa).2 ∧ spa1.zap = spa.zap ∧
      (new_state ≠ spa.vd.vdev_trim_state →
        ∃ t ∈ spa1.sync_tasks, t.st_guid = spa1.vd.vdev_guid) := by
  unfold vdev_trim_change_state at h
  by_cases hc : new_state = spa.vd.vdev_trim_state
  · rw [if_pos hc] at h; cases h; exact ⟨rfl, rfl, fun hne => absurd hc hne⟩
  · rw [if_neg hc] at h
    dsimp only at h
    cases hev : vdev_trim_state_event new_state
        (decide (spa.vd.vdev_trim_state = VDEV_TRIM_SUSPENDED)) with
    | none => rw [hev] at h; cases h
    | some ev =>
      rw [hev] at h
      cases h
      have hf := vdev_trim_change_state_vd_flags spa.vd new_state rate part secure now
      simp only [vdev_flags, Prod.mk.injEq] at hf
      obtain ⟨f1, _, f2, f3, f4, f5, _⟩ := hf
      refine ⟨?_, rfl, fun _ => ⟨⟨txg, spa.vd.vdev_guid⟩, by simp, f1.symm⟩⟩
      simp only [life_view, f1, f2, f3, f4, f5]

theorem vdev_trim_thread_exit_wanted (P : zfs_params) (drain : List trim_interference)
    (now txg : Nat) (spa spa3 : spa_t)
    (hq : ∀ a ∈ drain, a.is_admin = false)
    (he : spa.vd.vdev_trim_exit_wanted = true)
    (h : vdev_trim_thread_exit P drain now txg spa = some spa3) :
    life_view spa3 = (spa.vd.vdev_trim_state, spa.vd.vdev_guid, spa.vdev_freed,
        spa.vd.vdev_is_concrete, spa.vd.vdev_top_removing, true, false) ∧
      spa3.events = spa.events ∧ spa3.sync_tasks = [] ∧
      (cancel_live spa → cancel_due spa →
        spa3.zap.VDEV_LEAF_ZAP_TRIM_STATE = some VDEV_TRIM_CANCELED) := by
  unfold vdev_trim_thread_exit at h
  cases h1 : trim_interfere P drain spa with
  | none => rw [h1] at h; cases h
  | some spa1 =>
    rw [h1] at h
    dsimp only at h
    obtain ⟨b1, b2, b3⟩ := trim_interfere_cancel P drain spa spa1 hq h1
    have he1 : spa1.vd.vdev_trim_exit_wanted = true := by
      have := b1
      simp only [life_view, Prod.mk.injEq] at this
      rw [this.2.2.2.2.2.1]; exact he
    by_cases hin : spa1.vd.vdev_trim_inflight TRIM_TYPE_MANUAL > 0
    · rw [if_pos hin] at h; cases h
    · rw [if_neg hin] at h
      have hc : ¬(spa1.vd.vdev_trim_exit_wanted = false ∧ spa1.vd.vdev_writeable = true) := by
        simp [he1]
      rw [if_neg hc] at h
      dsimp only at h
      cases h3 : txg_wait_synced P spa1 with
      | none => rw [h3] at h; cases h
      | some s3 =>
        rw [h3] at h
        injection h with h
        subst h
        obtain ⟨c1, c2, c3⟩ := txg_wait_synced_life P spa1 s3 h3
        have hlife := c1.trans b1
        simp only [life_view, Prod.mk.injEq] at hlife
        obtain ⟨l1, l2, l3, l4, l5, l6, _⟩ := hlife
        refine ⟨?_, c3.trans b2, c2, fun hl hd => ?_⟩
        · simp only [life_view, l1, l2, l3, l4, l5, l6, he]
        · exact txg_wait_synced_cancel P spa1 s3 (cancel_live_of_life spa1 spa b1 hl)
            (b3 hl hd) h3

theorem vdev_trim_stop_wait_impl_spec (P : zfs_params) (w : trim_thread_env)
    (spa spa1 : spa_t)
    (hq : ∀ a ∈ w.drain, a.is_admin = false)
    (he : spa.vd.vdev_trim_thread = true → spa.vd.vdev_trim_exit_wanted = true)
    (h : vdev_trim_stop_wait_impl P w spa = some spa1) :
    life_view spa1 = (spa.vd.vdev_trim_state, spa.vd.vdev_guid, spa.vdev_freed,
        spa.vd.vdev_is_concrete, spa.vd.vdev_top_removing, false, false) ∧
      spa1.events = spa.events ∧
      (cancel_live spa → cancel_due spa → cancel_due spa1) := by
  unfold vdev_trim_stop_wait_impl at h
  by_cases ht : spa.vd.vdev_trim_thread = true
  · rw [if_pos ht] at h
    cases h2 : vdev_trim_thread_exit P w.drain w.now w.txg spa with
    | none => rw [h2] at h; cases h
    | some s2 =>
      rw [h2] at h
      injection h with h
      subst h
      obtain ⟨a1, a2, _, a4⟩ :=
        vdev_trim_thread_exit_wanted P w.drain w.now w.txg spa s2 hq (he ht) h2
      simp only [life_view, Prod.mk.injEq] at a1
      obtain ⟨l1, l2, l3, l4, l5, _, l7⟩ := a1
      refine ⟨?_, a2, fun hl hd => Or.inl (a4 hl hd)⟩
      simp only [life_view, l1, l2, l3, l4, l5, l7]
  · rw [if_neg ht] at h
    injection h with h
    subst h
    have ht1 : spa.vd.vdev_trim_thread = false := by simpa using ht
    refine ⟨?_, rfl, fun _ hd => hd⟩
    simp only [life_view, ht1]

theorem vdev_trim_stop_wait_spec (P : zfs_params) (w : trim_thread_env)
    (hq : ∀ a ∈ w.drain, a.is_admin = false) (l : List Nat) :
    ∀ (spa spa1 : spa_t),
      (spa.vd.vdev_trim_thread = true → spa.vd.vdev_trim_exit_wanted = true) →
      vdev_trim_stop_wait P w l spa = some spa1 →
      (life_view spa1 =
          (if spa.vd.vdev_guid ∈ l then
            (spa.vd.vdev_trim_state, spa.vd.vdev_guid, spa.vdev_freed,
              spa.vd.vdev_is_concrete, spa.vd.vdev_top_removing, false, false)
          else life_view spa)) ∧
        spa1.events = spa.events ∧
        (cancel_live spa → cancel_due spa → cancel_due spa1) := by
  induction l with
  | nil =>
    intro spa spa1 _ h
    simp only [vdev_trim_stop_wait, Option.some.injEq] at h
    subst h
    simp
  | cons g rest ih =>
    intro spa spa1 he h
    rw [vdev_trim_stop_wait] at h
    by_cases hg : g = spa.vd.vdev_guid
    · rw [if_pos hg] at h
      cases h2 : vdev_trim_stop_wait_impl P w spa with
      | none => rw [h2] at h; cases h
      | some s2 =>
        rw [h2] at h
        dsimp only at h
        obtain ⟨a1, a2, a3⟩ := vdev_trim_stop_wait_impl_spec P w spa s2 hq he h2
        have a1' := a1
        simp only [life_view, Prod.mk.injEq] at a1'
        obtain ⟨l1, l2, l3, l4, l5, l6, l7⟩ := a1'
        have he2 : s2.vd.vdev_trim_thread = true → s2.vd.vdev_trim_exit_wanted = true := by
          intro hc; rw [l7] at hc; cases hc
        obtain ⟨b1, b2, b3⟩ := ih s2 spa1 he2 h
        have hmem : spa.vd.vdev_guid ∈ g :: rest := by
          rw [← hg]; exact List.mem_cons_self _ _
        refine ⟨?_, b2.trans a2, fun hl hd => b3 ?_ (a3 hl hd)⟩
        · rw [if_pos hmem, b1]
          by_cases hm : s2.vd.vdev_guid ∈ rest
          · rw [if_pos hm, l1, l2, l3, l4, l5]
          · rw [if_neg hm]; exact a1
        · unfold cancel_live at hl ⊢
          rw [l1, l3, l4, l5]; exact hl
    · rw [if_neg hg] at h
      obtain ⟨b1, b2, b3⟩ := ih spa spa1 he h
      refine ⟨?_, b2, b3⟩
      rw [b1]
      have : (spa.vd.vdev_guid ∈ g :: rest) ↔ spa.vd.vdev_guid ∈ rest := by
        rw [List.mem_cons]
        constructor
        · rintro (h1 | h1)
          · exact absurd h1.symm hg
          · exact h1
        · exact Or.inr
      simp only [this]

theorem vdev_trim_stop_request_cancel (spa spa1 : spa_t) (now txg : Nat)
    (h : vdev_trim_stop_request spa VDEV_TRIM_CANCELED now txg = some spa1) :
    life_view spa1 = (VDEV_TRIM_CANCELED, spa.vd.vdev_guid, spa.vdev_freed,
        spa.vd.vdev_is_concrete, spa.vd.vdev_top_removing, true, spa.vd.vdev_trim_thread) ∧
      (spa.vd.vdev_trim_state ≠ VDEV_TRIM_CANCELED →
        ∃ t ∈ spa1.sync_tasks, t.st_guid = spa1.vd.vdev_guid) := by
  unfold vdev_trim_stop_request at h
  have hc : ¬(spa.vd.vdev_trim_thread = false ∧ VDEV_TRIM_CANCELED ≠ VDEV_TRIM_CANCELED) := by
    simp
  rw [if_neg hc] at h
  cases h2 : vdev_trim_change_state spa VDEV_TRIM_CANCELED 0 0 0 now txg with
  | none => rw [h2] at h; cases h
  | some s2 =>
    rw [h2] at h
    injection h with h
    subst h
    have hs := vdev_trim_change_state_state _ _ _ _ _ _ _ _ h2
    obtain ⟨a1, _, a3⟩ := vdev_trim_change_state_life _ _ _ _ _ _ _ _ h2
    simp only [life_view, Prod.mk.injEq] at a1
    obtain ⟨l2, l3, l4, l5, _, l7⟩ := a1
    refine ⟨?_, fun hne => a3 (Ne.symm hne)⟩
    simp only [life_view, hs, l2, l3, l4, l5, l7]

theorem spa_exit_wanted_eta (spa : spa_t) (b : Bool)
    (h : spa.vd.vdev_trim_exit_wanted = b) :
    { spa with vd := { spa.vd with vdev_trim_exit_wanted := b } } = spa := by
  subst h
  rfl

theorem vdev_trim_stop_wait_idle (P : zfs_params) (w : trim_thread_env) (l : List Nat) :
    ∀ (spa : spa_t), spa.vd.vdev_trim_thread = false →
      vdev_trim_stop_wait P w l spa =
        some (if spa.vd.vdev_guid ∈ l then
          { spa with vd := { spa.vd with vdev_trim_exit_wanted := false } } else spa) := by
  induction l with
  | nil => intro spa _; simp [vdev_trim_stop_wait]
  | cons g rest ih =>
    intro spa ht
    rw [vdev_trim_stop_wait]
    by_cases hg : g = spa.vd.vdev_guid
    · rw [if_pos hg]
      have hw : vdev_trim_stop_wait_impl P w spa =
          some { spa with vd := { spa.vd with vdev_trim_exit_wanted := false } } := by
        unfold vdev_trim_stop_wait_impl
        rw [if_neg (by simp [ht])]
      rw [hw]
      dsimp only
      rw [ih { spa with vd := { spa.vd with vdev_trim_exit_wanted := false } } ht]
      have hmem : spa.vd.vdev_guid ∈ g :: rest := by
        rw [← hg]; exact List.mem_cons_self _ _
      rw [if_pos hmem]
      dsimp only
      split_ifs <;> rfl
    · rw [if_neg hg, ih spa ht]
      have : (spa.vd.vdev_guid ∈ g :: rest) ↔ spa.vd.vdev_guid ∈ rest := by
        rw [List.mem_cons]
        constructor
        · rintro (h1 | h1)
          · exact absurd h1.symm hg
          · exact h1
        · exact Or.inr
      simp only [this]

/-- A second call of `vdev_trim_stop` on a cancelled leaf without worker, on
which `vdev_trim_exit_wanted` is clear. -/
theorem vdev_trim_stop_again (P : zfs_params) (w : trim_thread_env) (spa : spa_t)
    (hs : spa.vd.vdev_trim_state = VDEV_TRIM_CANCELED)
    (ht : spa.vd.vdev_trim_thread = false)
    (he : spa.vd.vdev_trim_exit_wanted = false)
    (tgt_state : vdev_trim_state_t) (vd_list : Option (List Nat)) (now txg : Nat) :
    vdev_trim_stop P w spa tgt_state vd_list now txg =
        some ({ spa with vd := { spa.vd with
            vdev_trim_exit_wanted :=
              decide (tgt_state = VDEV_TRIM_CANCELED) && vd_list.isSome } },
          if tgt_state = VDEV_TRIM_CANCELED then
            vd_list.map (fun l => l ++ [spa.vd.vdev_guid])
          else vd_list) ∧
      vdev_trim_stop_done P w spa tgt_state vd_list now txg = some spa := by
  by_cases htg : tgt_state = VDEV_TRIM_CANCELED
  · subst htg
    have hreq : vdev_trim_stop_request spa VDEV_TRIM_CANCELED now txg =
        some { spa with vd := { spa.vd with vdev_trim_exit_wanted := true } } := by
      unfold vdev_trim_stop_request vdev_trim_change_state
      rw [if_neg (by simp), if_pos hs.symm]
    have hstop : vdev_trim_stop P w spa VDEV_TRIM_CANCELED vd_list now txg =
        some ({ spa with vd := { spa.vd with vdev_trim_exit_wanted := vd_list.isSome } },
          vd_list.map (fun l => l ++ [spa.vd.vdev_guid])) := by
      unfold vdev_trim_stop
      rw [if_neg (by simp), hreq]
      cases vd_list with
      | none =>
        dsimp only
        unfold vdev_trim_stop_wait_impl
        rw [if_neg (by simp [ht])]
        rfl
      | some l => rfl
    refine ⟨by simpa using hstop, ?_⟩
    unfold vdev_trim_stop_done
    rw [hstop]
    cases vd_list with
    | none =>
      dsimp only [Option.map, Option.isSome]
      rw [spa_exit_wanted_eta spa false he]
    | some l =>
      dsimp only [Option.map, Option.isSome]
      rw [vdev_trim_stop_wait_idle P w _
        { spa with vd := { spa.vd with vdev_trim_exit_wanted := true } } ht]
      rw [if_pos (by simp)]
      exact congrArg some (spa_exit_wanted_eta spa false he)
  · have hstop : vdev_trim_stop P w spa tgt_state vd_list now txg = some (spa, vd_list) := by
      unfold vdev_trim_stop
      rw [if_pos ⟨ht, htg⟩]
    refine ⟨?_, ?_⟩
    · rw [hstop, if_neg htg]
      simp only [htg, decide_False, Bool.false_and]
      rw [spa_exit_wanted_eta spa false he]
    · unfold vdev_trim_stop_done
      rw [hstop]
      cases vd_list with
      | none => rfl
      | some l =>
        dsimp only
        rw [vdev_trim_stop_wait_idle P w _ spa ht]
        split_ifs
        · exact congrArg some (spa_exit_wanted_eta spa false he)
        · rfl

/-- C6 as stated fails: after `vdev_trim_stop(leaf, Canceled, NULL)` has
completed, a second call `vdev_trim_stop(leaf, Canceled, list)` with a list
changes no state and registers nothing, but it returns with
`vdev_trim_exit_wanted` set (it was clear) and with the leaf queued on the
list; the flag is cleared again only by `vdev_trim_stop_wait`. -/
theorem vdev_trim_stop_second_call_sets_exit_wanted :
    (vdev_trim_stop_done params_4m (env_thread (fun _ => 7) []) (spa_of vd_active zap_empty)
        VDEV_TRIM_CANCELED none 200 7).map
      (fun s => (s.vd.vdev_trim_thread, s.vd.vdev_trim_exit_wanted,
        s.zap.VDEV_LEAF_ZAP_TRIM_STATE, s.sync_tasks.length, s.events.length)) =
      some (false, false, some VDEV_TRIM_CANCELED, 0, 1) ∧
    ((vdev_trim_stop_done params_4m (env_thread (fun _ => 7) []) (spa_of vd_active zap_empty)
        VDEV_TRIM_CANCELED none 200 7).bind
      (fun s => vdev_trim_stop params_4m (env_thread (fun _ => 7) []) s
        VDEV_TRIM_CANCELED (some []) 300 8)).map
      (fun r => (r.1.vd.vdev_trim_exit_wanted, r.2, r.1.sync_tasks.length,
        r.1.events.length)) =
      some (true, some [1], 0, 1) := by
  decide

/-- C6, amended. Let no other thread call `vdev_trim_stop` or start the removal
of the top-level vdev while the caller waits for the worker. After
`vdev_trim_stop(leaf, Canceled, list)` has completed (and, when a list was
given, `vdev_trim_stop_wait` has drained it), `vdev_trim_state` is Canceled,
no worker is attached and `vdev_trim_exit_wanted` is clear; if the call changed
the state of a leaf that `spa_lookup_by_guid` finds, that is concrete and
whose top-level vdev is not being removed, the persisted State is Canceled once
the pending sync tasks have run. A second `vdev_trim_stop` with any target and
any list then changes no field but `vdev_trim_exit_wanted`, registers no sync
task and posts no event; it returns with `vdev_trim_exit_wanted` set, and the
leaf queued, exactly when the target is Canceled and a list was given, and once
that list is drained the state is the one before the second call. -/
theorem vdev_trim_stop_cancel_final (P : zfs_params) (w : trim_thread_env) (spa : spa_t)
    (vd_list : Option (List Nat)) (now txg : Nat)
    (hq : ∀ a ∈ w.drain, a.is_admin = false)
    (hrun : (vdev_trim_stop_done P w spa VDEV_TRIM_CANCELED vd_list now txg).isSome = true) :
    ∃ spa1, vdev_trim_stop_done P w spa VDEV_TRIM_CANCELED vd_list now txg = some spa1 ∧
      spa1.vd.vdev_trim_state = VDEV_TRIM_CANCELED ∧
      spa1.vd.vdev_trim_thread = false ∧
      spa1.vd.vdev_trim_exit_wanted = false ∧
      (spa.vd.vdev_trim_state ≠ VDEV_TRIM_CANCELED → spa.vdev_freed = false →
        spa.vd.vdev_is_concrete = true → spa.vd.vdev_top_removing = false →
        ∀ spa2, txg_wait_synced P spa1 = some spa2 →
          spa2.zap.VDEV_LEAF_ZAP_TRIM_STATE = some VDEV_TRIM_CANCELED) ∧
      ∀ (w2 : trim_thread_env) (tgt_state : vdev_trim_state_t)
        (vd_list2 : Option (List Nat)) (now2 txg2 : Nat),
        vdev_trim_stop P w2 spa1 tgt_state vd_list2 now2 txg2 =
            some ({ spa1 with vd := { spa1.vd with
                vdev_trim_exit_wanted :=
                  decide (tgt_state = VDEV_TRIM_CANCELED) && vd_list2.isSome } },
              if tgt_state = VDEV_TRIM_CANCELED then
                vd_list2.map (fun l => l ++ [spa1.vd.vdev_guid])
              else vd_list2) ∧
          vdev_trim_stop_done P w2 spa1 tgt_state vd_list2 now2 txg2 = some spa1 := by
  cases hdone : vdev_trim_stop_done P w spa VDEV_TRIM_CANCELED vd_list now txg with
  | none => rw [hdone] at hrun; cases hrun
  | some spa1 =>
    have key : life_view spa1 = (VDEV_TRIM_CANCELED, spa.vd.vdev_guid, spa.vdev_freed,
          spa.vd.vdev_is_concrete, spa.vd.vdev_top_removing, false, false) ∧
        (spa.vd.vdev_trim_state ≠ VDEV_TRIM_CANCELED → spa.vdev_freed = false →
          spa.vd.vdev_is_concrete = true → spa.vd.vdev_top_removing = false →
          cancel_due spa1) := by
      unfold vdev_trim_stop_done vdev_trim_stop at hdone
      rw [if_neg (by simp)] at hdone
      cases hreq : vdev_trim_stop_request spa VDEV_TRIM_CANCELED now txg with
      | none => rw [hreq] at hdone; cases vd_list <;> cases hdone
      | some sB =>
        rw [hreq] at hdone
        obtain ⟨r1, r2⟩ := vdev_trim_stop_request_cancel spa sB now txg hreq
        have r1' := r1
        simp only [life_view, Prod.mk.injEq] at r1'
        obtain ⟨l1, l2, l3, l4, l5, l6, l7⟩ := r1'
        have hpre : sB.vd.vdev_trim_thread = true → sB.vd.vdev_trim_exit_wanted = true :=
          fun _ => l6
        have hlive : spa.vdev_freed = false → spa.vd.vdev_is_concrete = true →
            spa.vd.vdev_top_removing = false → cancel_live sB := by
          intro h3 h4 h5
          exact ⟨l1, l3.trans h3, l4.trans h4, l5.trans h5⟩
        cases vd_list with
        | none =>
          dsimp only at hdone
          cases hw : vdev_trim_stop_wait_impl P w sB with
          | none => rw [hw] at hdone; cases hdone
          | some sC =>
            rw [hw] at hdone
            dsimp only at hdone
            injection hdone with hdone
            subst hdone
            obtain ⟨a1, _, a3⟩ := vdev_trim_stop_wait_impl_spec P w sB sC hq hpre hw
            refine ⟨?_, fun hne h3 h4 h5 => a3 (hlive h3 h4 h5) (Or.inr (r2 hne))⟩
            rw [a1, l1, l2, l3, l4, l5]
        | some l =>
          dsimp only at hdone
          obtain ⟨a1, _, a3⟩ := vdev_trim_stop_wait_spec P w hq _ sB spa1 hpre hdone
          rw [if_pos (by simp)] at a1
          refine ⟨?_, fun hne h3 h4 h5 => a3 (hlive h3 h4 h5) (Or.inr (r2 hne))⟩
          rw [a1, l1, l2, l3, l4, l5]
    obtain ⟨k1, k2⟩ := key
    have k1' := k1
    simp only [life_view, Prod.mk.injEq] at k1'
    obtain ⟨m1, _, m3, m4, m5, m6, m7⟩ := k1'
    refine ⟨spa1, rfl, m1, m7, m6, fun hne h3 h4 h5 spa2 hsync => ?_,
      fun w2 tgt_state vd_list2 now2 txg2 =>
        vdev_trim_stop_again P w2 spa1 m1 m7 m6 tgt_state vd_list2 now2 txg2⟩
    exact txg_wait_synced_cancel P spa1 spa2 ⟨m1, m3.trans h3, m4.trans h4, m5.trans h5⟩
      (k2 hne h3 h4 h5) hsync

/-- C6, amended, on the healthy leaf with a running worker that is cancelled
with a list: the leaf ends cancelled, without worker, and a second cancel with
a list returns with `vdev_trim_exit_wanted` set. -/
theorem vdev_trim_stop_cancel_final_witness :
    ∃ spa1, vdev_trim_stop_done params_4m (env_thread (fun _ => 7) [])
        (spa_of vd_active zap_empty) VDEV_TRIM_CANCELED (some []) 200 7 = some spa1 ∧
      spa1.vd.vdev_trim_state = VDEV_TRIM_CANCELED ∧
      spa1.vd.vdev_trim_thread = false ∧
      spa1.vd.vdev_trim_exit_wanted = false ∧
      ((spa_of vd_active zap_empty).vd.vdev_trim_state ≠ VDEV_TRIM_CANCELED →
        (spa_of vd_active zap_empty).vdev_freed = false →
        (spa_of vd_active zap_empty).vd.vdev_is_concrete = true →
        (spa_of vd_active zap_empty).vd.vdev_top_removing = false →
        ∀ spa2, txg_wait_synced params_4m spa1 = some spa2 →
          spa2.zap.VDEV_LEAF_ZAP_TRIM_STATE = some VDEV_TRIM_CANCELED) ∧
      ∀ (w2 : trim_thread_env) (tgt_state : vdev_trim_state_t)
        (vd_list2 : Option (List Nat)) (now2 txg2 : Nat),
        vdev_trim_stop params_4m w2 spa1 tgt_state vd_list2 now2 txg2 =
            some ({ spa1 with vd := { spa1.vd with
                vdev_trim_exit_wanted :=
                  decide (tgt_state = VDEV_TRIM_CANCELED) && vd_list2.isSome } },
              if tgt_state = VDEV_TRIM_CANCELED then
                vd_list2.map (fun l => l ++ [spa1.vd.vdev_guid])
              else vd_list2) ∧
          vdev_trim_stop_done params_4m w2 spa1 tgt_state vd_list2 now2 txg2 = some spa1 :=
  vdev_trim_stop_cancel_final params_4m (env_thread (fun _ => 7) [])
    (spa_of vd_active zap_empty) (some []) 200 7 (by decide) (by decide)

/-! ## The settings across a state change -/

theorem change_state_action_time_settings (vd : vdev_t) (now : Nat) :
    trim_settings (change_state_action_time vd now) = trim_settings vd := by
  unfold change_state_action_time; split_ifs <;> rfl

theorem change_state_action_time_state (vd : vdev_t) (now : Nat) :
    (change_state_action_time vd now).vdev_trim_state = vd.vdev_trim_state := by
  unfold change_state_action_time; split_ifs <;> rfl

theorem change_state_reset_settings (vd : vdev_t) :
    trim_settings (change_state_reset vd) =
      if vd.vdev_trim_state = VDEV_TRIM_COMPLETE then
        (UINT64_MAX, UINT64_MAX, UINT64_MAX, UINT64_MAX)
      else trim_settings vd := by
  unfold change_state_reset; split_ifs <;> rfl

theorem change_state_rate_settings (vd : vdev_t) (rate : Nat) :
    trim_settings (change_state_rate vd rate) =
      ((trim_settings vd).1, if rate ≠ 0 then rate else (trim_settings vd).2.1,
        (trim_settings vd).2.2.1, (trim_settings vd).2.2.2) := by
  unfold change_state_rate; split_ifs <;> rfl

theorem change_state_part_settings (vd : vdev_t) (part : Nat) :
    trim_settings (change_state_part vd part) =
      ((trim_settings vd).1, (trim_settings vd).2.1,
        if part ≠ 0 then part else (trim_settings vd).2.2.1, (trim_settings vd).2.2.2) := by
  unfold change_state_part; split_ifs <;> rfl

theorem change_state_secure_settings (vd : vdev_t) (secure : Nat) :
    trim_settings (change_state_secure vd secure) =
      ((trim_settings vd).1, (trim_settings vd).2.1, (trim_settings vd).2.2.1,
        if secure ≠ 0 then secure else (trim_settings vd).2.2.2) := by
  unfold change_state_secure; split_ifs <;> rfl

theorem vdev_trim_change_state_vd_settings (vd : vdev_t) (new_state : vdev_trim_state_t)
    (rate part secure now : Nat) :
    trim_settings (vdev_trim_change_state_vd vd new_state rate part secure now) =
      if new_state = VDEV_TRIM_ACTIVE then
        if vd.vdev_trim_state = VDEV_TRIM_COMPLETE then
          (UINT64_MAX, if rate ≠ 0 then rate else UINT64_MAX,
            if part ≠ 0 then part else UINT64_MAX,
            if secure ≠ 0 then secure else UINT64_MAX)
        else
          (vd.vdev_trim_last_offset, if rate ≠ 0 then rate else vd.vdev_trim_rate,
            if part ≠ 0 then part else vd.vdev_trim_partial,
            if secure ≠ 0 then secure else vd.vdev_trim_secure)
      else trim_settings vd := by
  have e : ∀ v : vdev_t, trim_settings { v with vdev_trim_state := new_state } =
      trim_settings v := fun _ => rfl
  unfold vdev_trim_change_state_vd
  dsimp only
  rw [e]
  by_cases hn : new_state = VDEV_TRIM_ACTIVE
  · rw [if_pos hn, if_pos hn, change_state_secure_settings, change_state_part_settings,
      change_state_rate_settings, change_state_reset_settings,
      change_state_action_time_state, change_state_action_time_settings]
    by_cases hc : vd.vdev_trim_state = VDEV_TRIM_COMPLETE
    · rw [if_pos hc, if_pos hc]
    · rw [if_neg hc, if_neg hc]; rfl
  · rw [if_neg hn, if_neg hn, change_state_action_time_settings]

theorem vdev_trim_change_state_settings (spa spa1 : spa_t) (new_state : vdev_trim_state_t)
    (rate part secure now txg : Nat)
    (h : vdev_trim_change_state spa new_state rate part secure now txg = some spa1) :
    trim_settings spa1.vd =
      if new_state = spa.vd.vdev_trim_state then trim_settings spa.vd
      else trim_settings
        (vdev_trim_change_state_vd spa.vd new_state rate part secure now) := by
  unfold vdev_trim_change_state at h
  by_cases hc : new_state = spa.vd.vdev_trim_state
  · rw [if_pos hc] at h; cases h; rw [if_pos hc]
  · rw [if_neg hc] at h
    rw [if_neg hc]
    dsimp only at h
    cases hev : vdev_trim_state_event new_state
        (decide (spa.vd.vdev_trim_state = VDEV_TRIM_SUSPENDED)) with
    | none => rw [hev] at h; cases h
    | some ev => rw [hev] at h; cases h; rfl

theorem vdev_trim_change_state_returns (spa : spa_t) (new_state : vdev_trim_state_t)
    (rate part secure now txg : Nat) (hn : new_state ≠ VDEV_TRIM_NONE) :
    ∃ spa1, vdev_trim_change_state spa new_state rate part secure now txg = some spa1 := by
  unfold vdev_trim_change_state
  by_cases hc : new_state = spa.vd.vdev_trim_state
  · rw [if_pos hc]; exact ⟨_, rfl⟩
  · rw [if_neg hc]
    cases new_state with
    | VDEV_TRIM_NONE => exact absurd rfl hn
    | VDEV_TRIM_ACTIVE => exact ⟨_, rfl⟩
    | VDEV_TRIM_CANCELED => exact ⟨_, rfl⟩
    | VDEV_TRIM_SUSPENDED => exact ⟨_, rfl⟩
    | VDEV_TRIM_COMPLETE => exact ⟨_, rfl⟩

/-! ## A sync task on a leaf in and out of its reach -/

theorem vdev_trim_zap_update_sync_skip (P : zfs_params) (guid txg : Nat) (spa : spa_t)
    (h : spa.vdev_freed = true ∨ guid ≠ spa.vd.vdev_guid ∨
      spa.vd.vdev_top_removing = true ∨ spa.vd.vdev_is_concrete = false) :
    vdev_trim_zap_update_sync P guid txg spa = some spa := by
  unfold vdev_trim_zap_update_sync
  rw [if_pos]
  rcases h with h | h | h | h <;> simp [h]

theorem vdev_trim_zap_update_sync_live (P : zfs_params) (txg : Nat) (spa : spa_t)
    (hfreed : spa.vdev_freed = false) (hrem : spa.vd.vdev_top_removing = false)
    (hconc : spa.vd.vdev_is_concrete = true) (hzap : spa.vd.vdev_leaf_zap ≠ 0) :
    ∃ spa1, vdev_trim_zap_update_sync P spa.vd.vdev_guid txg spa = some spa1 ∧
      spa1.vd.vdev_trim_offset =
        Function.update spa.vd.vdev_trim_offset (Nat.land txg P.TXG_MASK) 0 ∧
      spa1.vd.vdev_trim_last_offset =
        (if spa.vd.vdev_trim_last_offset = UINT64_MAX then 0
          else if spa.vd.vdev_trim_offset (Nat.land txg P.TXG_MASK) ≠ 0 then
            spa.vd.vdev_trim_offset (Nat.land txg P.TXG_MASK)
          else spa.vd.vdev_trim_last_offset) ∧
      spa1.zap.VDEV_LEAF_ZAP_TRIM_LAST_OFFSET =
        (if spa.vd.vdev_trim_last_offset = UINT64_MAX then some 0
          else if spa.vd.vdev_trim_offset (Nat.land txg P.TXG_MASK) ≠ 0 then
            some (spa.vd.vdev_trim_offset (Nat.land txg P.TXG_MASK))
          else spa.zap.VDEV_LEAF_ZAP_TRIM_LAST_OFFSET) := by
  unfold vdev_trim_zap_update_sync
  rw [if_neg (by simp [hfreed, hrem, hconc]), if_neg hzap]
  refine ⟨_, rfl, ?_, ?_, ?_⟩
  · simp only [apply_ite vdev_t.vdev_trim_offset, ite_self]
  · simp only [apply_ite vdev_t.vdev_trim_last_offset]
    by_cases hl : spa.vd.vdev_trim_last_offset = UINT64_MAX
    · simp [hl]
    · by_cases hv : spa.vd.vdev_trim_offset (Nat.land txg P.TXG_MASK) = 0
      · simp [hl, hv]
      · simp [hl, hv, Nat.pos_of_ne_zero hv]
  · simp only [apply_ite leaf_zap_t.VDEV_LEAF_ZAP_TRIM_LAST_OFFSET, ite_self]
    by_cases hl : spa.vd.vdev_trim_last_offset = UINT64_MAX
    · simp [hl]
    · by_cases hv : spa.vd.vdev_trim_offset (Nat.land txg P.TXG_MASK) = 0
      · simp [hl, hv]
      · simp [hl, hv, Nat.pos_of_ne_zero hv]

theorem vdev_trim_zap_update_sync_no_zap (P : zfs_params) (txg : Nat) (spa : spa_t)
    (hfreed : spa.vdev_freed = false) (hrem : spa.vd.vdev_top_removing = false)
    (hconc : spa.vd.vdev_is_concrete = true) (hzap : spa.vd.vdev_leaf_zap = 0) :
    vdev_trim_zap_update_sync P spa.vd.vdev_guid txg spa = none := by
  unfold vdev_trim_zap_update_sync
  rw [if_neg (by simp [hfreed, hrem, hconc]), if_pos hzap]

/-! ## Bytes of a range tree and the walk callback -/

theorem tree_mem_cons (x : Nat) (rs : range_seg_t) (rest : List range_seg_t) :
    tree_mem x (rs :: rest) ↔ (rs.rs_start ≤ x ∧ x < rs.rs_end) ∨ tree_mem x rest := by
  simp [tree_mem]

theorem tree_mem_nil (x : Nat) : ¬ tree_mem x [] := by
  simp [tree_mem]

theorem range_tree_add_mem : ∀ (tree : List range_seg_t) (start size : Nat)
    (t : List range_seg_t),
    (∀ rs ∈ tree, rs.rs_start ≤ rs.rs_end) →
    range_tree_add tree start size = some t →
    (∀ rs ∈ t, rs.rs_start ≤ rs.rs_end) ∧
    ∀ x, tree_mem x t ↔ tree_mem x tree ∨ (start ≤ x ∧ x < start + size) := by
  intro tree
  induction tree with
  | nil =>
    intro start size t _ h
    simp only [range_tree_add, Option.some.injEq] at h
    subst h
    simp [tree_mem]
  | cons rs rest ih =>
    intro start size t hwf h
    have hrs := hwf rs (List.mem_cons_self _ _)
    have hrest : ∀ r ∈ rest, r.rs_start ≤ r.rs_end :=
      fun r hr => hwf r (List.mem_cons_of_mem _ hr)
    rw [range_tree_add] at h
    by_cases c1 : start + size < rs.rs_start
    · rw [if_pos c1] at h
      injection h with h
      subst h
      constructor
      · intro r hr
        rcases List.mem_cons.mp hr with e | hr
        · subst e; simp
        · exact hwf r hr
      · intro x
        rw [tree_mem_cons, tree_mem_cons]
        generalize tree_mem x rest = A
        dsimp only
        tauto
    · rw [if_neg c1] at h
      by_cases c2 : start + size = rs.rs_start
      · rw [if_pos c2] at h
        injection h with h
        subst h
        constructor
        · intro r hr
          rcases List.mem_cons.mp hr with e | hr
          · subst e; dsimp only; omega
          · exact hrest r hr
        · intro x
          rw [tree_mem_cons, tree_mem_cons]
          generalize tree_mem x rest = A
          dsimp only
          constructor
          · rintro (⟨h1, h2⟩ | h3)
            · by_cases hx : x < start + size
              · exact Or.inr ⟨h1, hx⟩
              · exact Or.inl (Or.inl ⟨by omega, h2⟩)
            · exact Or.inl (Or.inr h3)
          · rintro ((⟨h1, h2⟩ | h3) | ⟨h4, h5⟩)
            · exact Or.inl ⟨by omega, h2⟩
            · exact Or.inr h3
            · exact Or.inl ⟨h4, by omega⟩
      · rw [if_neg c2] at h
        by_cases c3 : rs.rs_end < start
        · rw [if_pos c3] at h
          cases h1 : range_tree_add rest start size with
          | none => rw [h1] at h; cases h
          | some t1 =>
            rw [h1] at h
            injection h with h
            subst h
            obtain ⟨w1, m1⟩ := ih start size t1 hrest h1
            constructor
            · intro r hr
              rcases List.mem_cons.mp hr with e | hr
              · subst e; exact hrs
              · exact w1 r hr
            · intro x
              rw [tree_mem_cons, tree_mem_cons, m1 x]
              generalize tree_mem x rest = A
              tauto
        · rw [if_neg c3] at h
          by_cases c4 : rs.rs_end = start
          · rw [if_pos c4] at h
            obtain ⟨w1, m1⟩ := ih _ _ t hrest h
            refine ⟨w1, fun x => ?_⟩
            rw [m1 x, tree_mem_cons]
            generalize tree_mem x rest = A
            constructor
            · rintro (h3 | ⟨h1, h2⟩)
              · exact Or.inl (Or.inr h3)
              · by_cases hx : x < rs.rs_end
                · exact Or.inl (Or.inl ⟨h1, hx⟩)
                · exact Or.inr ⟨by omega, by omega⟩
            · rintro ((⟨h1, h2⟩ | h3) | ⟨h4, h5⟩)
              · exact Or.inr ⟨h1, by omega⟩
              · exact Or.inl h3
              · exact Or.inr ⟨by omega, by omega⟩
          · rw [if_neg c4] at h
            cases h

theorem vdev_trim_range_add_eq (vd : vdev_t) (ta : trim_args_t)
    (start size ps pe : Nat)
    (hx : vd.vdev_xlate ⟨start, u64_add start size⟩ = ⟨ps, pe⟩)
    (hle : ps ≤ pe) (hpe : pe < 18446744073709551616) :
    vdev_trim_range_add vd ta start size =
      (if (range_add_spec ta.trim_type vd.vdev_trim_last_offset ps pe).1 <
          (range_add_spec ta.trim_type vd.vdev_trim_last_offset ps pe).2 then
        (range_tree_add ta.trim_tree
          (range_add_spec ta.trim_type vd.vdev_trim_last_offset ps pe).1
          ((range_add_spec ta.trim_type vd.vdev_trim_last_offset ps pe).2 -
            (range_add_spec ta.trim_type vd.vdev_trim_last_offset ps pe).1)).map
          (fun t => { ta with trim_tree := t })
      else some ta) := by
  unfold vdev_trim_range_add
  dsimp only
  rw [hx]
  dsimp only
  cases hty : ta.trim_type with
  | TRIM_TYPE_AUTO =>
    have n1 : ¬ (TRIM_TYPE_AUTO = TRIM_TYPE_MANUAL ∧ pe ≤ vd.vdev_trim_last_offset) :=
      fun hc => by cases hc.1
    have n2 : ¬ (TRIM_TYPE_AUTO = TRIM_TYPE_MANUAL ∧ vd.vdev_trim_last_offset > ps) :=
      fun hc => by cases hc.1
    rw [if_neg n1, if_neg n2]
    simp only [range_add_spec]
    have e : u64_sub pe ps = pe - ps := by unfold u64_sub; omega
    rw [e]
    by_cases hlt : ps < pe
    · rw [if_pos hlt, if_pos hlt]
      cases range_tree_add ta.trim_tree ps (pe - ps) <;> rfl
    · rw [if_neg hlt, if_neg hlt]
  | TRIM_TYPE_MANUAL =>
    simp only [range_add_spec, true_and]
    by_cases c1 : pe ≤ vd.vdev_trim_last_offset
    · rw [if_pos c1, if_pos c1]
      rw [if_neg (lt_irrefl _)]
    · rw [if_neg c1, if_neg c1]
      dsimp only
      by_cases c2 : vd.vdev_trim_last_offset > ps
      · rw [if_pos c2]
        dsimp only
        have e : u64_sub pe vd.vdev_trim_last_offset = pe - vd.vdev_trim_last_offset := by
          unfold u64_sub; omega
        have em : max ps vd.vdev_trim_last_offset = vd.vdev_trim_last_offset :=
          max_eq_right (by omega)
        rw [e, em, if_pos (by omega), if_pos (by omega)]
        cases range_tree_add ta.trim_tree vd.vdev_trim_last_offset
          (pe - vd.vdev_trim_last_offset) <;> rfl
      · rw [if_neg c2]
        have e : u64_sub pe ps = pe - ps := by unfold u64_sub; omega
        have em : max ps vd.vdev_trim_last_offset = ps := max_eq_left (by omega)
        rw [e, em]
        by_cases hlt : ps < pe
        · rw [if_pos hlt, if_pos hlt]
          cases range_tree_add ta.trim_tree ps (pe - ps) <;> rfl
        · rw [if_neg hlt, if_neg hlt]

theorem range_add_spec_within (type : trim_type_t) (l ps pe : Nat) (hle : ps ≤ pe) :
    ps ≤ (range_add_spec type l ps pe).1 ∧ (range_add_spec type l ps pe).2 ≤ pe ∧
      ((range_add_spec type l ps pe).1 < (range_add_spec type l ps pe).2 →
        (range_add_spec type l ps pe).2 = pe) := by
  unfold range_add_spec
  cases type with
  | TRIM_TYPE_AUTO => exact ⟨le_refl _, le_refl _, fun _ => rfl⟩
  | TRIM_TYPE_MANUAL =>
    dsimp only
    split_ifs
    · exact ⟨hle, le_refl _, fun _ => rfl⟩
    · exact ⟨le_max_left _ _, le_refl _, fun _ => rfl⟩

theorem range_tree_add_append : ∀ (tree : List range_seg_t) (start size : Nat),
    (∀ rs ∈ tree, rs.rs_start ≤ rs.rs_end ∧ rs.rs_end < start) →
    range_tree_add tree start size = some (tree ++ [⟨start, start + size⟩]) := by
  intro tree
  induction tree with
  | nil => intro start size _; rfl
  | cons rs rest ih =>
    intro start size h
    obtain ⟨h1, h2⟩ := h rs (List.mem_cons_self _ _)
    rw [range_tree_add, if_neg (by omega), if_neg (by omega), if_pos h2,
      ih start size (fun r hr => h r (List.mem_cons_of_mem _ hr))]
    rfl

/-! ## The chunks of a segment lie in it, in ascending order -/

theorem seg_chunk_within (label m : Nat) (rs : range_seg_t) (c : Nat × Nat)
    (hwf : seg_wf label rs) (hm : 1 ≤ m) (hc : c ∈ seg_chunks label m rs) :
    label ≤ c.1 ∧ rs.rs_start ≤ c.1 - label ∧ c.1 - label + c.2 ≤ rs.rs_end := by
  unfold seg_chunks at hc
  rw [List.mem_map] at hc
  obtain ⟨i, hi, he⟩ := hc
  rw [List.mem_range] at hi
  have hp := seg_size_pos label rs hwf
  have hle := chunk_mul_le (seg_size rs) m i hp.1 hm hi
  obtain ⟨w1, w2⟩ := hwf
  subst he
  unfold seg_chunk
  unfold seg_size at hle ⊢
  dsimp only
  generalize i * m = x at hle ⊢
  have : min (rs.rs_end - rs.rs_start - x) m ≤ rs.rs_end - rs.rs_start - x :=
    Nat.min_le_left _ _
  omega

theorem seg_chunk_len_pos (label m : Nat) (rs : range_seg_t) (c : Nat × Nat)
    (hwf : seg_wf label rs) (hm : 1 ≤ m) (hc : c ∈ seg_chunks label m rs) : 1 ≤ c.2 := by
  unfold seg_chunks at hc
  rw [List.mem_map] at hc
  obtain ⟨i, hi, he⟩ := hc
  rw [List.mem_range] at hi
  have hp := seg_size_pos label rs hwf
  have hle := chunk_mul_le (seg_size rs) m i hp.1 hm hi
  subst he
  unfold seg_chunk
  dsimp only
  generalize i * m = x at hle ⊢
  rw [Nat.le_min]
  omega

theorem seg_chunks_ends_increasing (label m : Nat) (rs : range_seg_t)
    (hwf : seg_wf label rs) (hm : 1 ≤ m) :
    (seg_chunks label m rs).Pairwise (fun a b => a.1 + a.2 < b.1 + b.2) := by
  unfold seg_chunks
  rw [List.pairwise_map]
  have hp := seg_size_pos label rs hwf
  have h := List.pairwise_lt_range (chunk_count (seg_size rs) m)
  have h2 : (List.range (chunk_count (seg_size rs) m)).Pairwise
      (fun i j => i < j ∧ j < chunk_count (seg_size rs) m) := by
    rw [List.pairwise_iff_forall_sublist] at h ⊢
    intro a b hab
    exact ⟨h hab, List.mem_range.mp (hab.subset (by simp))⟩
  refine h2.imp ?_
  intro i j hij
  obtain ⟨hlt, hj⟩ := hij
  have hle := chunk_mul_le (seg_size rs) m j hp.1 hm hj
  have hmul : (i + 1) * m ≤ j * m := Nat.mul_le_mul_right m hlt
  rw [Nat.add_mul, Nat.one_mul] at hmul
  unfold seg_chunk
  dsimp only
  generalize i * m = x at hmul ⊢
  generalize j * m = y at hmul hle ⊢
  have a1 : min (seg_size rs - x) m ≤ m := Nat.min_le_right _ _
  have a2 : 1 ≤ min (seg_size rs - y) m := by rw [Nat.le_min]; omega
  omega

/-- The order the worker issues in: the chunks of one walk over an ascending
tree end at strictly increasing offsets. -/
theorem tree_chunks_ends_increasing (label m mn : Nat) (tree : List range_seg_t)
    (hm : 1 ≤ m) (hwf : ∀ rs ∈ tree, seg_wf label rs)
    (hasc : tree.Pairwise (fun a b => a.rs_end ≤ b.rs_start)) :
    (tree_chunks label m mn tree).Pairwise (fun a b => a.1 + a.2 < b.1 + b.2) := by
  unfold tree_chunks
  rw [List.pairwise_flatMap]
  constructor
  · intro rs hrs
    exact seg_chunks_ends_increasing label m rs (hwf rs (List.mem_of_mem_filter hrs)) hm
  · have h2 : tree.Pairwise (fun a b => a.rs_end ≤ b.rs_start ∧ seg_wf label a ∧
        seg_wf label b) := by
      rw [List.pairwise_iff_forall_sublist] at hasc ⊢
      intro a b hab
      exact ⟨hasc hab, hwf a (hab.subset (by simp)), hwf b (hab.subset (by simp))⟩
    refine (h2.filter _).imp ?_
    intro a b hab x hx y hy
    obtain ⟨h1, wa, wb⟩ := hab
    obtain ⟨x1, x2, x3⟩ := seg_chunk_within label m a x wa hm hx
    obtain ⟨y1, y2, y3⟩ := seg_chunk_within label m b y wb hm hy
    have y4 := seg_chunk_len_pos label m b y wb hm hy
    omega

/-! ## C11: the persisted last offset never goes back -/

theorem txg_open_ok_iff (P : zfs_params) (spa : spa_t) (txg : Nat) :
    txg_open_ok P spa txg = true ↔
      ∀ τ ∈ spa.sync_tasks, τ.st_txg ≤ txg ∧
        (Nat.land τ.st_txg P.TXG_MASK = Nat.land txg P.TXG_MASK → τ.st_txg = txg) := by
  unfold txg_open_ok
  rw [List.all_eq_true]
  constructor
  · intro h τ hτ
    have := h τ hτ
    simp only [Bool.and_eq_true, Bool.or_eq_true, decide_eq_true_eq] at this
    refine ⟨this.1, fun he => ?_⟩
    rcases this.2 with h1 | h1
    · exact absurd he h1
    · exact h1
  · intro h τ hτ
    obtain ⟨h1, h2⟩ := h τ hτ
    simp only [Bool.and_eq_true, Bool.or_eq_true, decide_eq_true_eq]
    refine ⟨h1, ?_⟩
    by_cases he : Nat.land τ.st_txg P.TXG_MASK = Nat.land txg P.TXG_MASK
    · exact Or.inr (h2 he)
    · exact Or.inl he

theorem slot_inv_register (M : Nat) (σ : Nat → Nat) (T : List sync_task_t)
    (guid p hi t : Nat) (h : slot_inv M σ T guid p hi)
    (hok : ∀ τ ∈ T, τ.st_txg ≤ t ∧ (Nat.land τ.st_txg M = Nat.land t M → τ.st_txg = t)) :
    slot_inv M σ (T ++ [⟨t, guid⟩]) guid p hi := by
  obtain ⟨hf, hb, hg, hd, he⟩ := h
  refine ⟨hf, fun i hi0 => ?_, fun τ hτ => ?_, fun τ1 h1 τ2 h2 hs => ?_,
    fun τ1 h1 τ2 h2 hlt n1 n2 => ?_⟩
  · obtain ⟨b1, b2, τ, hτ, b3⟩ := hb i hi0
    exact ⟨b1, b2, τ, List.mem_append_left _ hτ, b3⟩
  · rcases List.mem_append.mp hτ with h1 | h1
    · exact hg τ h1
    · simp only [List.mem_singleton] at h1; subst h1; rfl
  · rcases List.mem_append.mp h1 with a1 | a1 <;> rcases List.mem_append.mp h2 with a2 | a2
    · exact hd τ1 a1 τ2 a2 hs
    · simp only [List.mem_singleton] at a2; subst a2
      exact (hok τ1 a1).2 hs
    · simp only [List.mem_singleton] at a1; subst a1
      exact ((hok τ2 a2).2 hs.symm).symm
    · simp only [List.mem_singleton] at a1 a2; subst a1; subst a2; rfl
  · rcases List.mem_append.mp h1 with a1 | a1 <;> rcases List.mem_append.mp h2 with a2 | a2
    · exact he τ1 a1 τ2 a2 hlt n1 n2
    · simp only [List.mem_singleton] at a2; subst a2
      dsimp only at hlt n2 ⊢
      obtain ⟨_, _, τ, hτ, b3⟩ := hb _ n2
      have e : τ.st_txg = t := (hok τ hτ).2 b3
      have := he τ1 a1 τ hτ (by omega) n1 (by rw [b3]; exact n2)
      rw [b3] at this
      exact this
    · simp only [List.mem_singleton] at a1; subst a1
      dsimp only at hlt
      have := (hok τ2 a2).1
      omega
    · simp only [List.mem_singleton] at a1 a2; subst a1; subst a2
      exact absurd hlt (lt_irrefl _)

theorem slot_inv_issue (M : Nat) (σ : Nat → Nat) (T : List sync_task_t)
    (guid p hi t e : Nat) (h : slot_inv M σ T guid p hi) (hle : hi ≤ e)
    (hex : ∃ τ ∈ T, Nat.land τ.st_txg M = Nat.land t M)
    (hok : ∀ τ ∈ T, τ.st_txg ≤ t ∧ (Nat.land τ.st_txg M = Nat.land t M → τ.st_txg = t)) :
    slot_inv M (Function.update σ (Nat.land t M) e) T guid p e := by
  obtain ⟨hf, hb, hg, hd, he⟩ := h
  have hval : ∀ i, Function.update σ (Nat.land t M) e i ≠ 0 →
      Function.update σ (Nat.land t M) e i ≤ e := by
    intro i hi0
    by_cases hi1 : i = Nat.land t M
    · subst hi1; rw [Function.update_same]
    · rw [Function.update_noteq hi1] at hi0 ⊢
      have := (hb i hi0).2.1
      omega
  refine ⟨by omega, fun i hi0 => ?_, hg, hd, fun τ1 h1 τ2 h2 hlt n1 n2 => ?_⟩
  · by_cases hi1 : i = Nat.land t M
    · subst hi1
      rw [Function.update_same]
      exact ⟨by omega, le_refl _, hex⟩
    · rw [Function.update_noteq hi1] at hi0 ⊢
      obtain ⟨b1, b2, b3⟩ := hb i hi0
      exact ⟨b1, by omega, b3⟩
  · by_cases s2 : Nat.land τ2.st_txg M = Nat.land t M
    · rw [s2, Function.update_same]
      exact hval _ n1
    · by_cases s1 : Nat.land τ1.st_txg M = Nat.land t M
      · have e1 := (hok τ1 h1).2 s1
        have := (hok τ2 h2).1
        omega
      · rw [Function.update_noteq s1] at n1 ⊢
        rw [Function.update_noteq s2] at n2 ⊢
        exact he τ1 h1 τ2 h2 hlt n1 n2

theorem mem_eraseIdx_of_ne {α : Type} : ∀ (T : List α) (k : Nat) (τ u : α),
    T[k]? = some τ → u ∈ T → u ≠ τ → u ∈ T.eraseIdx k := by
  intro T
  induction T with
  | nil => intro k τ u _ hu; cases hu
  | cons a rest ih =>
    intro k τ u hk hu hne
    cases k with
    | zero =>
      simp only [List.getElem?_cons_zero, Option.some.injEq] at hk
      subst hk
      rcases List.mem_cons.mp hu with e | e
      · exact absurd e hne
      · simpa using e
    | succ k =>
      simp only [List.getElem?_cons_succ] at hk
      rw [List.eraseIdx_cons_succ]
      rcases List.mem_cons.mp hu with e | e
      · subst e; exact List.mem_cons_self _ _
      · exact List.mem_cons_of_mem _ (ih k τ u hk e hne)

theorem mem_eraseIdx_subset {α : Type} : ∀ (T : List α) (k : Nat) (u : α),
    u ∈ T.eraseIdx k → u ∈ T := by
  intro T
  induction T with
  | nil => intro k u hu; simp at hu
  | cons a rest ih =>
    intro k u hu
    cases k with
    | zero => simp only [List.eraseIdx_cons_zero] at hu; exact List.mem_cons_of_mem _ hu
    | succ k =>
      rw [List.eraseIdx_cons_succ] at hu
      rcases List.mem_cons.mp hu with e | e
      · subst e; exact List.mem_cons_self _ _
      · exact List.mem_cons_of_mem _ (ih k u e)

theorem slot_inv_erase (M : Nat) (σ : Nat → Nat) (T : List sync_task_t)
    (guid p hi k : Nat) (h : slot_inv M σ T guid p hi)
    (hz : ∀ τ, T[k]? = some τ → σ (Nat.land τ.st_txg M) = 0) :
    slot_inv M σ (T.eraseIdx k) guid p hi := by
  obtain ⟨hf, hb, hg, hd, he⟩ := h
  have sub := mem_eraseIdx_subset T k
  refine ⟨hf, fun i hi0 => ?_, fun τ hτ => hg τ (sub τ hτ),
    fun τ1 h1 τ2 h2 => hd τ1 (sub τ1 h1) τ2 (sub τ2 h2),
    fun τ1 h1 τ2 h2 => he τ1 (sub τ1 h1) τ2 (sub τ2 h2)⟩
  obtain ⟨b1, b2, τ, hτ, b3⟩ := hb i hi0
  refine ⟨b1, b2, τ, ?_, b3⟩
  cases hk : T[k]? with
  | none =>
    rw [List.eraseIdx_of_length_le]
    · exact hτ
    · exact List.getElem?_eq_none_iff.mp hk |> fun h => by omega
  | some τ0 =>
    apply mem_eraseIdx_of_ne T k τ0 τ hk hτ
    intro hc
    subst hc
    have := hz τ hk
    rw [b3] at this
    exact hi0 this

theorem slot_inv_fire (M : Nat) (σ : Nat → Nat) (T : List sync_task_t)
    (guid p hi : Nat) (τ : sync_task_t) (h : slot_inv M σ T guid p hi) (hτ : τ ∈ T)
    (hmin : ∀ u ∈ T, τ.st_txg ≤ u.st_txg) :
    (σ (Nat.land τ.st_txg M) ≠ 0 → p ≤ σ (Nat.land τ.st_txg M)) ∧
    slot_inv M (Function.update σ (Nat.land τ.st_txg M) 0) T guid
      (if σ (Nat.land τ.st_txg M) ≠ 0 then σ (Nat.land τ.st_txg M) else p) hi := by
  obtain ⟨hf, hb, hg, hd, he⟩ := h
  refine ⟨fun hv => (hb _ hv).1, ?_, fun i hi0 => ?_, hg, hd,
    fun τ1 h1 τ2 h2 hlt n1 n2 => ?_⟩
  · by_cases hv : σ (Nat.land τ.st_txg M) ≠ 0
    · rw [if_pos hv]; exact (hb _ hv).2.1
    · rw [if_neg hv]; exact hf
  · by_cases hi1 : i = Nat.land τ.st_txg M
    · subst hi1; rw [Function.update_same] at hi0; exact absurd rfl hi0
    · rw [Function.update_noteq hi1] at hi0 ⊢
      obtain ⟨b1, b2, τ', hτ', b3⟩ := hb i hi0
      refine ⟨?_, b2, τ', hτ', b3⟩
      by_cases hv : σ (Nat.land τ.st_txg M) ≠ 0
      · rw [if_pos hv]
        have hne : τ.st_txg ≠ τ'.st_txg := by
          intro hc
          rw [hc] at hi1
          exact hi1 b3.symm
        have hle := hmin τ' hτ'
        have := he τ hτ τ' hτ' (by omega) hv (by rw [b3]; exact hi0)
        rw [b3] at this
        exact this
      · rw [if_neg hv]; exact b1
  · by_cases s1 : Nat.land τ1.st_txg M = Nat.land τ.st_txg M
    · rw [s1, Function.update_same] at n1; exact absurd rfl n1
    · by_cases s2 : Nat.land τ2.st_txg M = Nat.land τ.st_txg M
      · rw [s2, Function.update_same] at n2; exact absurd rfl n2
      · rw [Function.update_noteq s1] at n1 ⊢
        rw [Function.update_noteq s2] at n2 ⊢
        exact he τ1 h1 τ2 h2 hlt n1 n2

theorem progress_inv_of_view (P : zfs_params) (a b : spa_t) (hi : Nat)
    (hv : progress_view a = progress_view b) (h : progress_inv P b hi) :
    progress_inv P a hi ∧ zap_last_offset a = zap_last_offset b := by
  unfold progress_view at hv
  simp only [Prod.mk.injEq] at hv
  obtain ⟨v1, v2, v3, v4, v5, v6, v7, v8⟩ := hv
  unfold progress_inv sync_unreachable zap_last_offset at h ⊢
  rw [v1, v2, v3, v4, v5, v6, v7, v8]
  exact ⟨h, rfl⟩

theorem vdev_trim_range_gate_progress (P : zfs_params) (ta : trim_args_t) (spa spa1 : spa_t)
    (h : vdev_trim_range_gate P ta spa = some spa1) :
    progress_view spa1 = progress_view spa := by
  unfold vdev_trim_range_gate at h
  split_ifs at h
  injection h with h
  rw [← h]
  rfl

theorem vdev_trim_range_issue_progress (P : zfs_params) (ta : trim_args_t)
    (start size txg : Nat) (spa : spa_t) :
    progress_view (vdev_trim_range_issue P ta start size txg spa).2 =
      (if ta.trim_type = TRIM_TYPE_MANUAL ∧ vdev_trim_should_stop spa.vd = false then
          Function.update spa.vd.vdev_trim_offset (Nat.land txg P.TXG_MASK)
            (u64_add start size)
        else spa.vd.vdev_trim_offset,
        if ta.trim_type = TRIM_TYPE_MANUAL ∧
            spa.vd.vdev_trim_offset (Nat.land txg P.TXG_MASK) = 0 then
          spa.sync_tasks ++ [⟨txg, spa.vd.vdev_guid⟩]
        else spa.sync_tasks,
        spa.vd.vdev_trim_last_offset, spa.zap.VDEV_LEAF_ZAP_TRIM_LAST_OFFSET,
        spa.vd.vdev_guid, spa.vdev_freed, spa.vd.vdev_top_removing,
        spa.vd.vdev_is_concrete) := by
  unfold vdev_trim_range_issue progress_view
  dsimp only
  cases h2 : vdev_trim_should_stop spa.vd <;> cases hty : ta.trim_type <;>
    by_cases h0 : spa.vd.vdev_trim_offset (Nat.land txg P.TXG_MASK) = 0 <;>
    simp [h2, h0]

theorem sync_unreachable_not (spa : spa_t) (h : ¬ sync_unreachable spa) :
    spa.vdev_freed = false ∧ spa.vd.vdev_top_removing = false ∧
      spa.vd.vdev_is_concrete = true := by
  unfold sync_unreachable at h
  cases h1 : spa.vdev_freed <;> cases h2 : spa.vd.vdev_top_removing <;>
    cases h3 : spa.vd.vdev_is_concrete <;> simp_all

theorem sync_fire_progress (P : zfs_params) (k hi : Nat) (spa spa1 : spa_t)
    (τ : sync_task_t) (hinv : progress_inv P spa hi) (hk : spa.sync_tasks[k]? = some τ)
    (hmin : ∀ u ∈ spa.sync_tasks, τ.st_txg ≤ u.st_txg)
    (h : sync_fire P k spa = some spa1) :
    progress_inv P spa1 hi ∧ zap_last_offset spa ≤ zap_last_offset spa1 := by
  unfold sync_fire at h
  rw [hk] at h
  dsimp only at h
  obtain ⟨hhi, hinv⟩ := hinv
  by_cases hu : sync_unreachable spa
  · have hs := vdev_trim_zap_update_sync_skip P τ.st_guid τ.st_txg
      { spa with sync_tasks := spa.sync_tasks.eraseIdx k }
      (by
        rcases hu with h1 | h1 | h1
        · exact Or.inl h1
        · exact Or.inr (Or.inr (Or.inl h1))
        · exact Or.inr (Or.inr (Or.inr h1)))
    rw [hs] at h
    injection h with h
    subst h
    exact ⟨⟨hhi, Or.inl hu⟩, le_refl _⟩
  · rcases hinv with hc | ⟨hl, hs⟩
    · exact absurd hc hu
    · obtain ⟨f1, f2, f3⟩ := sync_unreachable_not spa hu
      have hτ : τ ∈ spa.sync_tasks := List.getElem?_mem hk
      have hg : τ.st_guid = spa.vd.vdev_guid := hs.2.2.1 τ hτ
      rw [hg] at h
      by_cases hz : spa.vd.vdev_leaf_zap = 0
      · rw [vdev_trim_zap_update_sync_no_zap P τ.st_txg
          { spa with sync_tasks := spa.sync_tasks.eraseIdx k } f1 f2 f3 hz] at h
        cases h
      · obtain ⟨s1, e1, e2, e3, e4⟩ := vdev_trim_zap_update_sync_live P τ.st_txg
          { spa with sync_tasks := spa.sync_tasks.eraseIdx k } f1 f2 f3 hz
        have e0 : s1 = spa1 := by
          have := e1.symm.trans h
          injection this
        subst e0
        obtain ⟨l1, l2, _⟩ := vdev_trim_zap_update_sync_life P _ _ _ _ e1
        simp only [life_view, Prod.mk.injEq] at l1
        obtain ⟨_, g1, g2, g3, g4, _, _⟩ := l1
        dsimp only at e2 e3 e4 l2 g1 g2 g3 g4
        rw [if_neg hl] at e3 e4
        obtain ⟨m1, m2⟩ := slot_inv_fire _ _ _ _ _ _ τ hs hτ hmin
        have m3 := slot_inv_erase _ _ _ _ _ _ k m2
          (fun τ0 h0 => by
            rw [hk] at h0
            injection h0 with h0
            subst h0
            rw [Function.update_same])
        have hp : zap_last_offset s1 =
            (if spa.vd.vdev_trim_offset (Nat.land τ.st_txg P.TXG_MASK) ≠ 0 then
              spa.vd.vdev_trim_offset (Nat.land τ.st_txg P.TXG_MASK)
            else zap_last_offset spa) := by
          unfold zap_last_offset
          rw [e4]
          split_ifs <;> rfl
        refine ⟨⟨hhi, Or.inr ⟨?_, ?_⟩⟩, ?_⟩
        · rw [e3]
          by_cases hv : spa.vd.vdev_trim_offset (Nat.land τ.st_txg P.TXG_MASK) ≠ 0
          · rw [if_pos hv]
            have := (hs.2.1 _ hv).2.1
            omega
          · rw [if_neg hv]; exact hl
        · rw [e2, l2, g1, hp]
          exact m3
        · rw [hp]
          by_cases hv : spa.vd.vdev_trim_offset (Nat.land τ.st_txg P.TXG_MASK) ≠ 0
          · rw [if_pos hv]; exact m1 hv
          · rw [if_neg hv]

theorem slot_inv_mono (M : Nat) (σ : Nat → Nat) (T : List sync_task_t)
    (guid p hi e : Nat) (h : slot_inv M σ T guid p hi) (hle : hi ≤ e) :
    slot_inv M σ T guid p e := by
  obtain ⟨hf, hb, hg, hd, he⟩ := h
  refine ⟨by omega, fun i hi0 => ?_, hg, hd, he⟩
  obtain ⟨b1, b2, b3⟩ := hb i hi0
  exact ⟨b1, by omega, b3⟩

theorem vdev_trim_range_issue_inv (P : zfs_params) (ta : trim_args_t)
    (start size txg hi : Nat) (spa : spa_t) (hinv : progress_inv P spa hi)
    (hok : (progress_label.issue ta start size txg).ok P spa hi = true) :
    progress_inv P (vdev_trim_range_issue P ta start size txg spa).2
        ((progress_label.issue ta start size txg).hi hi) ∧
      zap_last_offset (vdev_trim_range_issue P ta start size txg spa).2 =
        zap_last_offset spa := by
  have hv := vdev_trim_range_issue_progress P ta start size txg spa
  have hzap : zap_last_offset (vdev_trim_range_issue P ta start size txg spa).2 =
      zap_last_offset spa := by
    unfold zap_last_offset
    have := congrArg (fun v => v.2.2.2.1) hv
    dsimp only [progress_view] at this
    rw [this]
  refine ⟨?_, hzap⟩
  unfold progress_inv sync_unreachable
  rw [hzap]
  unfold progress_view at hv
  simp only [Prod.mk.injEq] at hv
  obtain ⟨v1, v2, v3, _, v5, v6, v7, v8⟩ := hv
  rw [v1, v2, v3, v5, v6, v7, v8]
  obtain ⟨hhi, hinv⟩ := hinv
  have hok1 : (decide (ta.trim_type = TRIM_TYPE_AUTO) ||
      (txg_open_ok P spa txg && decide (hi ≤ start + size) &&
        decide (start + size < UINT64_MAX))) = true := hok
  have hhi1 : (progress_label.issue ta start size txg).hi hi =
      if ta.trim_type = TRIM_TYPE_MANUAL then start + size else hi := rfl
  rw [hhi1]
  by_cases hty : ta.trim_type = TRIM_TYPE_MANUAL
  swap
  · simp only [hty, false_and, if_false]
    exact ⟨hhi, hinv⟩
  · have hna : ta.trim_type ≠ TRIM_TYPE_AUTO := by rw [hty]; decide
    simp only [Bool.or_eq_true, Bool.and_eq_true, decide_eq_true_eq] at hok1
    rcases hok1 with hc | ⟨⟨hopen, hle⟩, hmax⟩
    · exact absurd hc hna
    · rw [if_pos hty]
      refine ⟨hmax, ?_⟩
      rcases hinv with hu | ⟨hl, hs⟩
      · exact Or.inl hu
      · refine Or.inr ⟨hl, ?_⟩
        have hopen' := (txg_open_ok_iff P spa txg).mp hopen
        have he : u64_add start size = start + size := by
          unfold u64_add UINT64_MAX at *
          omega
        rw [he]
        simp only [hty, true_and]
        have hT : slot_inv P.TXG_MASK spa.vd.vdev_trim_offset
            (if spa.vd.vdev_trim_offset (Nat.land txg P.TXG_MASK) = 0 then
              spa.sync_tasks ++ [⟨txg, spa.vd.vdev_guid⟩]
            else spa.sync_tasks) spa.vd.vdev_guid (zap_last_offset spa) hi := by
          split_ifs
          · exact slot_inv_register _ _ _ _ _ _ txg hs hopen'
          · exact hs
        have hopenT : ∀ τ ∈ (if spa.vd.vdev_trim_offset (Nat.land txg P.TXG_MASK) = 0 then
              spa.sync_tasks ++ [⟨txg, spa.vd.vdev_guid⟩]
            else spa.sync_tasks), τ.st_txg ≤ txg ∧
              (Nat.land τ.st_txg P.TXG_MASK = Nat.land txg P.TXG_MASK → τ.st_txg = txg) := by
          intro τ hτ
          split_ifs at hτ
          · rcases List.mem_append.mp hτ with a | a
            · exact hopen' τ a
            · simp only [List.mem_singleton] at a; subst a
              exact ⟨le_refl _, fun _ => rfl⟩
          · exact hopen' τ hτ
        have hex : ∃ τ ∈ (if spa.vd.vdev_trim_offset (Nat.land txg P.TXG_MASK) = 0 then
              spa.sync_tasks ++ [⟨txg, spa.vd.vdev_guid⟩]
            else spa.sync_tasks), Nat.land τ.st_txg P.TXG_MASK = Nat.land txg P.TXG_MASK := by
          by_cases h0 : spa.vd.vdev_trim_offset (Nat.land txg P.TXG_MASK) = 0
          · rw [if_pos h0]
            exact ⟨⟨txg, spa.vd.vdev_guid⟩, by simp, rfl⟩
          · rw [if_neg h0]
            exact (hs.2.1 _ h0).2.2
        by_cases hstop : vdev_trim_should_stop spa.vd = false
        · rw [if_pos hstop]
          exact slot_inv_issue _ _ _ _ _ _ txg _ hT hle hex hopenT
        · rw [if_neg hstop]
          exact slot_inv_mono _ _ _ _ _ _ _ hT hle

theorem change_state_action_time_offset (vd : vdev_t) (now : Nat) :
    (change_state_action_time vd now).vdev_trim_offset = vd.vdev_trim_offset := by
  unfold change_state_action_time; split_ifs <;> rfl

theorem change_state_reset_offset (vd : vdev_t) :
    (change_state_reset vd).vdev_trim_offset = vd.vdev_trim_offset := by
  unfold change_state_reset; split_ifs <;> rfl

theorem change_state_rate_offset (vd : vdev_t) (rate : Nat) :
    (change_state_rate vd rate).vdev_trim_offset = vd.vdev_trim_offset := by
  unfold change_state_rate; split_ifs <;> rfl

theorem change_state_part_offset (vd : vdev_t) (part : Nat) :
    (change_state_part vd part).vdev_trim_offset = vd.vdev_trim_offset := by
  unfold change_state_part; split_ifs <;> rfl

theorem change_state_secure_offset (vd : vdev_t) (secure : Nat) :
    (change_state_secure vd secure).vdev_trim_offset = vd.vdev_trim_offset := by
  unfold change_state_secure; split_ifs <;> rfl

theorem vdev_trim_change_state_vd_offset (vd : vdev_t) (new_state : vdev_trim_state_t)
    (rate part secure now : Nat) :
    (vdev_trim_change_state_vd vd new_state rate part secure now).vdev_trim_offset =
      vd.vdev_trim_offset := by
  unfold vdev_trim_change_state_vd
  dsimp only
  split_ifs
  · rw [change_state_secure_offset, change_state_part_offset, change_state_rate_offset,
      change_state_reset_offset, change_state_action_time_offset]
  · rw [change_state_action_time_offset]

theorem vdev_trim_change_state_progress (spa spa1 : spa_t) (new_state : vdev_trim_state_t)
    (rate part secure now txg : Nat) (hn : new_state ≠ VDEV_TRIM_ACTIVE)
    (h : vdev_trim_change_state spa new_state rate part secure now txg = some spa1) :
    progress_view spa1 = progress_view spa ∨
      progress_view spa1 =
        (spa.vd.vdev_trim_offset, spa.sync_tasks ++ [⟨txg, spa.vd.vdev_guid⟩],
          spa.vd.vdev_trim_last_offset, spa.zap.VDEV_LEAF_ZAP_TRIM_LAST_OFFSET,
          spa.vd.vdev_guid, spa.vdev_freed, spa.vd.vdev_top_removing,
          spa.vd.vdev_is_concrete) := by
  have hset := vdev_trim_change_state_settings spa spa1 new_state rate part secure now txg h
  rw [vdev_trim_change_state_vd_settings, if_neg hn, ite_self] at hset
  have hl : spa1.vd.vdev_trim_last_offset = spa.vd.vdev_trim_last_offset :=
    congrArg Prod.fst hset
  unfold vdev_trim_change_state at h
  by_cases hc : new_state = spa.vd.vdev_trim_state
  · rw [if_pos hc] at h; cases h; exact Or.inl rfl
  · rw [if_neg hc] at h
    dsimp only at h
    cases hev : vdev_trim_state_event new_state
        (decide (spa.vd.vdev_trim_state = VDEV_TRIM_SUSPENDED)) with
    | none => rw [hev] at h; cases h
    | some ev =>
      rw [hev] at h
      injection h with h
      subst h
      have hf := vdev_trim_change_state_vd_flags spa.vd new_state rate part secure now
      simp only [vdev_flags, Prod.mk.injEq] at hf
      obtain ⟨f1, _, f2, f3, _⟩ := hf
      have ho := vdev_trim_change_state_vd_offset spa.vd new_state rate part secure now
      right
      unfold progress_view
      dsimp only at hl ⊢
      rw [ho, hl, f1, f2, f3]

theorem vdev_trim_cb_offset (P : zfs_params) (zio : zio_t) (io_error : Nat) (spa : spa_t)
    (hc : ¬ (io_error = ENXIO ∧ spa.vd.vdev_writeable = false)) :
    progress_view (vdev_trim_cb P zio io_error spa) = progress_view spa := by
  unfold vdev_trim_cb
  dsimp only
  rw [if_neg hc]
  by_cases he : io_error ≠ 0
  · rw [if_pos he]; rfl
  · rw [if_neg he]; rfl

theorem vdev_autotrim_cb_progress (zio : zio_t) (io_error : Nat) (spa : spa_t) :
    progress_view (vdev_autotrim_cb zio io_error spa) = progress_view spa := by
  unfold vdev_autotrim_cb
  dsimp only
  by_cases he : io_error ≠ 0
  · rw [if_pos he]; rfl
  · rw [if_neg he]; rfl

theorem zio_done_progress (P : zfs_params) (i io_error : Nat) (spa : spa_t)
    (hr : zio_rewinds spa i io_error = false) :
    progress_view (zio_done P i io_error spa) = progress_view spa := by
  unfold zio_rewinds at hr
  unfold zio_done
  cases hz : spa.zios[i]? with
  | none => rfl
  | some zio =>
    rw [hz] at hr
    dsimp only at hr ⊢
    by_cases hd : zio.io_done = true
    · rw [if_pos hd]
    · rw [if_neg hd]
      cases hty : zio.io_trim_type with
      | TRIM_TYPE_MANUAL =>
        dsimp only
        rw [vdev_trim_cb_offset]
        · rfl
        · rintro ⟨h1, h2⟩
          dsimp only at h2
          simp [hd, hty, h1, h2] at hr
      | TRIM_TYPE_AUTO =>
        dsimp only
        rw [vdev_autotrim_cb_progress]
        rfl

theorem vdev_trim_change_state_inv (P : zfs_params) (spa spa1 : spa_t)
    (new_state : vdev_trim_state_t) (rate part secure now txg hi : Nat)
    (hn : new_state ≠ VDEV_TRIM_ACTIVE) (hopen : txg_open_ok P spa txg = true)
    (hinv : progress_inv P spa hi)
    (h : vdev_trim_change_state spa new_state rate part secure now txg = some spa1) :
    progress_inv P spa1 hi ∧ zap_last_offset spa1 = zap_last_offset spa := by
  rcases vdev_trim_change_state_progress spa spa1 new_state rate part secure now txg hn h
    with hv | hv
  · exact progress_inv_of_view P _ _ hi hv hinv
  · unfold progress_view at hv
    simp only [Prod.mk.injEq] at hv
    obtain ⟨v1, v2, v3, v4, v5, v6, v7, v8⟩ := hv
    have hz : zap_last_offset spa1 = zap_last_offset spa := by
      unfold zap_last_offset; rw [v4]
    refine ⟨?_, hz⟩
    unfold progress_inv sync_unreachable
    rw [hz, v1, v2, v3, v5, v6, v7, v8]
    refine ⟨hinv.1, ?_⟩
    rcases hinv.2 with hu | ⟨hl, hs⟩
    · exact Or.inl hu
    · exact Or.inr ⟨hl, slot_inv_register _ _ _ _ _ _ txg hs
        ((txg_open_ok_iff P spa txg).mp hopen)⟩

theorem trim_interference_apply_inv (P : zfs_params) (a : trim_interference) (hi : Nat)
    (spa spa1 : spa_t) (hinv : progress_inv P spa hi)
    (hok : (progress_label.other a).ok P spa hi = true)
    (h : a.apply P spa = some spa1) :
    progress_inv P spa1 hi ∧ zap_last_offset spa1 = zap_last_offset spa := by
  cases a with
  | io_done i io_error =>
    simp only [trim_interference.apply, Option.some.injEq] at h
    subst h
    have hr : zio_rewinds spa i io_error = false := by
      have : (!zio_rewinds spa i io_error) = true := hok
      simpa using this
    exact progress_inv_of_view P _ _ hi (zio_done_progress P i io_error spa hr) hinv
  | txg_sync txg => cases hok
  | set_writeable b =>
    simp only [trim_interference.apply, Option.some.injEq] at h
    subst h
    exact progress_inv_of_view P _ _ hi rfl hinv
  | detach =>
    simp only [trim_interference.apply, Option.some.injEq] at h
    subst h
    exact progress_inv_of_view P _ _ hi rfl hinv
  | top_removing =>
    simp only [trim_interference.apply, Option.some.injEq] at h
    subst h
    exact ⟨⟨hinv.1, Or.inl (Or.inr (Or.inl rfl))⟩, rfl⟩
  | stop tgt_state now txg =>
    have hok1 : (decide (tgt_state ≠ VDEV_TRIM_ACTIVE) && txg_open_ok P spa txg) = true := hok
    simp only [Bool.and_eq_true, decide_eq_true_eq] at hok1
    obtain ⟨hn, hopen⟩ := hok1
    simp only [trim_interference.apply] at h
    unfold vdev_trim_stop_request at h
    by_cases hc : spa.vd.vdev_trim_thread = false ∧ tgt_state ≠ VDEV_TRIM_CANCELED
    · rw [if_pos hc] at h
      injection h with h
      subst h
      exact ⟨hinv, rfl⟩
    · rw [if_neg hc] at h
      cases h2 : vdev_trim_change_state spa tgt_state 0 0 0 now txg with
      | none => rw [h2] at h; cases h
      | some spa2 =>
        rw [h2] at h
        injection h with h
        subst h
        have hv := vdev_trim_change_state_progress spa spa2 tgt_state 0 0 0 now txg hn h2
        have hv2 : progress_view { spa2 with vd := { spa2.vd with
            vdev_trim_exit_wanted := true } } = progress_view spa2 := rfl
        rcases hv with hv | hv
        · exact progress_inv_of_view P _ _ hi (hv2.trans hv) hinv
        · rw [← hv2] at hv
          unfold progress_view at hv
          simp only [Prod.mk.injEq] at hv
          obtain ⟨v1, v2, v3, v4, v5, v6, v7, v8⟩ := hv
          have hz : zap_last_offset { spa2 with vd := { spa2.vd with
              vdev_trim_exit_wanted := true } } = zap_last_offset spa := by
            unfold zap_last_offset; rw [v4]
          refine ⟨?_, hz⟩
          unfold progress_inv sync_unreachable
          rw [hz, v1, v2, v3, v5, v6, v7, v8]
          refine ⟨hinv.1, ?_⟩
          rcases hinv.2 with hu | ⟨hl, hs⟩
          · exact Or.inl hu
          · exact Or.inr ⟨hl, slot_inv_register _ _ _ _ _ _ txg hs
              ((txg_open_ok_iff P spa txg).mp hopen)⟩

theorem progress_step_inv (P : zfs_params) (a : progress_label) (hi : Nat)
    (spa spa1 : spa_t) (hinv : progress_inv P spa hi) (hok : a.ok P spa hi = true)
    (h : progress_step P spa a = some spa1) :
    progress_inv P spa1 (a.hi hi) ∧ zap_last_offset spa ≤ zap_last_offset spa1 := by
  cases a with
  | gate ta =>
    have hv := vdev_trim_range_gate_progress P ta spa spa1 h
    obtain ⟨h1, h2⟩ := progress_inv_of_view P _ _ hi hv hinv
    exact ⟨h1, le_of_eq h2.symm⟩
  | issue ta start size txg =>
    simp only [progress_step, Option.some.injEq] at h
    subst h
    obtain ⟨h1, h2⟩ := vdev_trim_range_issue_inv P ta start size txg hi spa hinv hok
    exact ⟨h1, le_of_eq h2.symm⟩
  | fire k =>
    have h' : sync_fire P k spa = some spa1 := h
    cases hk : spa.sync_tasks[k]? with
    | none => unfold sync_fire at h'; rw [hk] at h'; cases h'
    | some τ =>
      have hok1 : (match spa.sync_tasks[k]? with
          | none => true
          | some t => spa.sync_tasks.all (fun u => decide (t.st_txg ≤ u.st_txg))) = true := hok
      rw [hk] at hok1
      dsimp only at hok1
      rw [List.all_eq_true] at hok1
      exact sync_fire_progress P k hi spa spa1 τ hinv hk
        (fun u hu => by simpa using hok1 u hu) h'
  | complete now txg =>
    have hopen : txg_open_ok P spa txg = true := hok
    have h' : (if spa.vd.vdev_trim_exit_wanted = false ∧ spa.vd.vdev_writeable = true then
        vdev_trim_change_state spa VDEV_TRIM_COMPLETE spa.vd.vdev_trim_rate
          spa.vd.vdev_trim_partial spa.vd.vdev_trim_secure now txg
      else some spa) = some spa1 := h
    by_cases hc : spa.vd.vdev_trim_exit_wanted = false ∧ spa.vd.vdev_writeable = true
    · rw [if_pos hc] at h'
      obtain ⟨h1, h2⟩ := vdev_trim_change_state_inv P spa spa1 VDEV_TRIM_COMPLETE _ _ _ now
        txg hi (by decide) hopen hinv h'
      exact ⟨h1, le_of_eq h2.symm⟩
    · rw [if_neg hc] at h'
      injection h' with h'
      subst h'
      exact ⟨hinv, le_refl _⟩
  | other a =>
    have h' : a.apply P spa = some spa1 := h
    obtain ⟨h1, h2⟩ := trim_interference_apply_inv P a hi spa spa1 hinv hok h'
    exact ⟨h1, le_of_eq h2.symm⟩

theorem progress_run_inv (P : zfs_params) (trace : List progress_label) :
    ∀ (hi : Nat) (spa spa1 : spa_t), progress_inv P spa hi →
      progress_ok P trace spa hi = true → progress_run P trace spa = some spa1 →
      zap_last_offset spa ≤ zap_last_offset spa1 ∧
        ∃ hi1, progress_inv P spa1 hi1 ∧
          ∀ rest, progress_ok P (trace ++ rest) spa hi = true →
            progress_ok P rest spa1 hi1 = true := by
  induction trace with
  | nil =>
    intro hi spa spa1 hinv _ h
    simp only [progress_run, List.foldlM_nil, Option.pure_def, Option.some.injEq] at h
    subst h
    exact ⟨le_refl _, hi, hinv, fun rest hr => hr⟩
  | cons a tr ih =>
    intro hi spa spa1 hinv hok h
    unfold progress_run at h
    rw [List.foldlM_cons] at h
    cases h1 : progress_step P spa a with
    | none => rw [h1] at h; simp at h
    | some spa2 =>
      rw [h1] at h
      rw [progress_ok, h1] at hok
      simp only [Bool.and_eq_true] at hok
      obtain ⟨i1, m1⟩ := progress_step_inv P a hi spa spa2 hinv hok.1 h1
      obtain ⟨m2, hi1, i2, r2⟩ := ih (a.hi hi) spa2 spa1 i1 hok.2 h
      refine ⟨le_trans m1 m2, hi1, i2, fun rest hr => ?_⟩
      rw [List.cons_append, progress_ok, h1] at hr
      simp only [Bool.and_eq_true] at hr
      exact r2 rest hr.2

theorem progress_ok_initial (P : zfs_params) (tr1 tr2 : List progress_label) :
    ∀ (spa : spa_t) (hi : Nat), progress_ok P (tr1 ++ tr2) spa hi = true →
      progress_ok P tr1 spa hi = true := by
  induction tr1 with
  | nil => intro spa hi _; rfl
  | cons a tr ih =>
    intro spa hi h
    rw [List.cons_append, progress_ok] at h
    rw [progress_ok]
    simp only [Bool.and_eq_true] at h ⊢
    refine ⟨h.1, ?_⟩
    cases h1 : progress_step P spa a with
    | none => rfl
    | some spa1 =>
      have h2 := h.2
      rw [h1] at h2
      exact ih spa1 _ h2

theorem progress_run_append (P : zfs_params) (tr1 tr2 : List progress_label) (spa : spa_t) :
    progress_run P (tr1 ++ tr2) spa = (progress_run P tr1 spa).bind (progress_run P tr2) := by
  unfold progress_run
  rw [List.foldlM_append]
  rfl

/-- C11: in a manual run that starts with the last offset `vdev_trim_load`
read, all slots of `vdev_trim_offset` zero and no sync task pending, and whose
steps respect `progress_label.ok` (the chunks end at or after the chunk before,
the first at or after the last offset of the start, each tx gets its txg by the
contract of the txg engine, the sync tasks fire in txg order, no completion
takes the rewind branch), the persisted `LastOffset` at any point of the run is
at least the last offset of the start and at most the persisted `LastOffset`
at any later point. Every value `vdev_trim_zap_update_sync` writes is the
persisted value after a `fire` step, so the values written are non-decreasing
and the first is at least the last offset the run started from. -/
theorem vdev_trim_last_offset_monotone (P : zfs_params) (spa : spa_t)
    (tr1 tr2 : List progress_label)
    (hslots : ∀ i, spa.vd.vdev_trim_offset i = 0)
    (htasks : spa.sync_tasks = [])
    (hl : spa.vd.vdev_trim_last_offset < UINT64_MAX)
    (hp : zap_last_offset spa = spa.vd.vdev_trim_last_offset)
    (hok : progress_ok P (tr1 ++ tr2) spa spa.vd.vdev_trim_last_offset = true)
    (hrun : (progress_run P (tr1 ++ tr2) spa).isSome = true) :
    ∃ spa1 spa2, progress_run P tr1 spa = some spa1 ∧ progress_run P tr2 spa1 = some spa2 ∧
      spa.vd.vdev_trim_last_offset ≤ zap_last_offset spa1 ∧
      zap_last_offset spa1 ≤ zap_last_offset spa2 := by
  rw [progress_run_append] at hrun
  cases h1 : progress_run P tr1 spa with
  | none => rw [h1] at hrun; cases hrun
  | some spa1 =>
    rw [h1] at hrun
    cases h2 : progress_run P tr2 spa1 with
    | none =>
      have : (progress_run P tr2 spa1).isSome = true := hrun
      rw [h2] at this
      cases this
    | some spa2 =>
      have hinv0 : progress_inv P spa spa.vd.vdev_trim_last_offset := by
        refine ⟨hl, Or.inr ⟨?_, ?_, fun i hi0 => absurd (hslots i) hi0, ?_, ?_, ?_⟩⟩
        · unfold UINT64_MAX at hl ⊢; omega
        · rw [hp]
        · intro τ hτ; rw [htasks] at hτ; cases hτ
        · intro τ hτ; rw [htasks] at hτ; cases hτ
        · intro τ hτ; rw [htasks] at hτ; cases hτ
      obtain ⟨m1, hi1, i1, r1⟩ := progress_run_inv P tr1 _ spa spa1 hinv0
        (progress_ok_initial P tr1 tr2 spa _ hok) h1
      obtain ⟨m2, _, _, _⟩ := progress_run_inv P tr2 hi1 spa1 spa2 i1 (r1 tr2 hok) h2
      refine ⟨spa1, spa2, rfl, h2, ?_, m2⟩
      rw [← hp]
      exact m1

/-- C11 on a run of the healthy leaf with two txgs open at once: the sync task
of txg 7 persists the end of the first chunk, 138412032, and the one of txg 8
the end of the third, 406847488, which the sync task of the move to
`VDEV_TRIM_COMPLETE` leaves in place. -/
theorem vdev_trim_last_offset_monotone_witness :
    (∃ spa1 spa2,
      progress_run params_4m trace_two_txgs (spa_of vd_active zap_empty) = some spa1 ∧
      progress_run params_4m trace_second_sync spa1 = some spa2 ∧
      (spa_of vd_active zap_empty).vd.vdev_trim_last_offset ≤ zap_last_offset spa1 ∧
      zap_last_offset spa1 ≤ zap_last_offset spa2) ∧
    ((progress_run params_4m trace_two_txgs (spa_of vd_active zap_empty)).map zap_last_offset,
      (progress_run params_4m (trace_two_txgs ++ trace_second_sync)
        (spa_of vd_active zap_empty)).map zap_last_offset) =
      (some 138412032, some 406847488) :=
  ⟨vdev_trim_last_offset_monotone params_4m (spa_of vd_active zap_empty) trace_two_txgs
    trace_second_sync (fun _ => rfl) rfl (by decide) rfl (by decide) (by decide), by decide⟩

/-! ## C12: every chunk lies in a free segment of the metaslab -/

theorem range_tree_walk_within (vd : vdev_t) (label : Nat) (alloc : List range_seg_t)
    (hx : ∀ rs, vd.vdev_xlate rs = rs) :
    ∀ (tree : List range_seg_t) (ta : trim_args_t),
      (∀ rs ∈ tree, rs ∈ alloc) →
      tree.Pairwise (fun a b => a.rs_end < b.rs_start) →
      (∀ rs ∈ tree, seg_wf label rs) →
      (∀ r ∈ ta.trim_tree, ∀ rs ∈ tree, r.rs_end < rs.rs_start) →
      (∀ r ∈ ta.trim_tree, seg_within label alloc r) →
      ∃ ta1, range_tree_walk vd tree ta = some ta1 ∧
        ta1.trim_extent_bytes_max = ta.trim_extent_bytes_max ∧
        ta1.trim_extent_bytes_min = ta.trim_extent_bytes_min ∧
        ta1.trim_type = ta.trim_type ∧
        ∀ r ∈ ta1.trim_tree, seg_within label alloc r := by
  intro tree
  induction tree with
  | nil =>
    intro ta _ _ _ _ hin
    exact ⟨ta, rfl, rfl, rfl, rfl, hin⟩
  | cons rs rest ih =>
    intro ta hsub hpw hwf hsep hin
    have hrs := hwf rs (List.mem_cons_self _ _)
    obtain ⟨w1, w2⟩ := hrs
    rw [List.pairwise_cons] at hpw
    obtain ⟨hgap, hpw2⟩ := hpw
    have e1 : u64_add rs.rs_start (u64_sub rs.rs_end rs.rs_start) = rs.rs_end := by
      unfold u64_add u64_sub; omega
    have hxx : vd.vdev_xlate ⟨rs.rs_start, u64_add rs.rs_start
        (u64_sub rs.rs_end rs.rs_start)⟩ = ⟨rs.rs_start, rs.rs_end⟩ := by
      rw [hx, e1]
    have heq := vdev_trim_range_add_eq vd ta rs.rs_start (u64_sub rs.rs_end rs.rs_start)
      rs.rs_start rs.rs_end hxx (by omega) (by omega)
    obtain ⟨b1, b2, b3⟩ := range_add_spec_within ta.trim_type vd.vdev_trim_last_offset
      rs.rs_start rs.rs_end (by omega)
    unfold range_tree_walk
    rw [List.foldlM_cons, heq]
    generalize (range_add_spec ta.trim_type vd.vdev_trim_last_offset rs.rs_start
      rs.rs_end) = r at b1 b2 b3 ⊢
    have hrest : ∀ x ∈ rest, x ∈ alloc := fun x hx1 => hsub x (List.mem_cons_of_mem _ hx1)
    have hwf2 : ∀ x ∈ rest, seg_wf label x := fun x hx1 => hwf x (List.mem_cons_of_mem _ hx1)
    by_cases hlt : r.1 < r.2
    · rw [if_pos hlt]
      have happ := range_tree_add_append ta.trim_tree r.1 (r.2 - r.1)
        (fun x hx1 => ⟨le_of_lt (hin x hx1).1.1, by
          have := hsep x hx1 rs (List.mem_cons_self _ _)
          omega⟩)
      rw [happ]
      have e2 : r.1 + (r.2 - r.1) = r.2 := by omega
      rw [e2]
      have hb3 := b3 hlt
      obtain ⟨ta1, k1, k2, k3, k4, k5⟩ := ih { ta with trim_tree := ta.trim_tree ++ [⟨r.1, r.2⟩] }
        hrest hpw2 hwf2
        (fun x hx1 y hy => by
          rcases List.mem_append.mp hx1 with a | a
          · exact hsep x a y (List.mem_cons_of_mem _ hy)
          · simp only [List.mem_singleton] at a
            subst a
            dsimp only
            rw [hb3]
            exact hgap y hy)
        (fun x hx1 => by
          rcases List.mem_append.mp hx1 with a | a
          · exact hin x a
          · simp only [List.mem_singleton] at a
            subst a
            exact ⟨⟨hlt, by dsimp only; omega⟩, rs, hsub rs (List.mem_cons_self _ _), b1, b2⟩)
      exact ⟨ta1, k1, k2, k3, k4, k5⟩
    · rw [if_neg hlt]
      obtain ⟨ta1, k1, k2, k3, k4, k5⟩ := ih ta hrest hpw2 hwf2
        (fun x hx1 y hy => hsep x hx1 y (List.mem_cons_of_mem _ hy)) hin
      exact ⟨ta1, k1, k2, k3, k4, k5⟩

theorem vdev_trim_ranges_segs_calls (P : zfs_params) (env : Nat → trim_call_env)
    (ta : trim_args_t) (hm : 1 ≤ ta.trim_extent_bytes_max) :
    ∀ (tree : List range_seg_t) (spa spa1 : spa_t) (error : Nat),
      (∀ rs ∈ tree, seg_wf P.VDEV_LABEL_START_SIZE rs) →
      vdev_trim_ranges_segs P env ta tree spa = some (error, spa1) →
      ∃ calls, spa1.trim_calls = spa.trim_calls ++ calls ∧
        ∀ c ∈ calls, ∃ rs ∈ tree,
          c ∈ seg_chunks P.VDEV_LABEL_START_SIZE ta.trim_extent_bytes_max rs := by
  intro tree
  induction tree with
  | nil =>
    intro spa spa1 error _ h
    simp only [vdev_trim_ranges_segs, Option.some.injEq, Prod.mk.injEq] at h
    obtain ⟨_, h⟩ := h
    subst h
    exact ⟨[], by simp, fun c hc => by cases hc⟩
  | cons rs rest ih =>
    intro spa spa1 error hwf h
    rw [vdev_trim_ranges_segs] at h
    have hwf1 := hwf rs (List.mem_cons_self _ _)
    have hwf2 : ∀ r ∈ rest, seg_wf P.VDEV_LABEL_START_SIZE r :=
      fun r hr => hwf r (List.mem_cons_of_mem _ hr)
    cases h1 : vdev_trim_ranges_seg P env ta rs spa with
    | none => rw [h1] at h; cases h
    | some r =>
      obtain ⟨e1, s1⟩ := r
      rw [h1] at h
      dsimp only at h
      obtain ⟨hskip, hissue⟩ := vdev_trim_ranges_seg_spec P env ta rs spa s1 e1 hwf1 hm h1
      have hfirst : ∃ calls, s1.trim_calls = spa.trim_calls ++ calls ∧
          ∀ c ∈ calls, c ∈ seg_chunks P.VDEV_LABEL_START_SIZE ta.trim_extent_bytes_max rs := by
        cases hs : seg_skipped ta.trim_extent_bytes_min rs with
        | true =>
          obtain ⟨_, hs1⟩ := hskip hs
          subst hs1
          exact ⟨[], by simp [spa_iostats_trim_add], fun c hc => by cases hc⟩
        | false =>
          obtain ⟨_, k, _, _, _, hcalls⟩ := hissue hs
          exact ⟨_, hcalls, fun c hc => List.mem_of_mem_take hc⟩
      obtain ⟨c1, hc1, hm1⟩ := hfirst
      by_cases he : e1 ≠ 0
      · rw [if_pos he] at h
        injection h with h
        injection h with _ h
        subst h
        exact ⟨c1, hc1, fun c hc => ⟨rs, List.mem_cons_self _ _, hm1 c hc⟩⟩
      · rw [if_neg he] at h
        obtain ⟨c2, hc2, hm2⟩ := ih s1 spa1 error hwf2 h
        refine ⟨c1 ++ c2, by rw [hc2, hc1, List.append_assoc], fun c hc => ?_⟩
        rcases List.mem_append.mp hc with a | a
        · exact ⟨rs, List.mem_cons_self _ _, hm1 c a⟩
        · obtain ⟨r, hr, hcr⟩ := hm2 c a
          exact ⟨r, List.mem_cons_of_mem _ hr, hcr⟩

theorem zio_keys_set_done (zios : List zio_t) (i : Nat) (zio : zio_t)
    (hz : zios[i]? = some zio) :
    (zios.set i { zio with io_done := true }).map (fun z => (z.io_offset, z.io_orig_size)) =
      zios.map (fun z => (z.io_offset, z.io_orig_size)) := by
  induction zios generalizing i with
  | nil => rfl
  | cons z rest ih =>
    cases i with
    | zero =>
      simp only [List.getElem?_cons_zero, Option.some.injEq] at hz
      subst hz
      rfl
    | succ i =>
      simp only [List.getElem?_cons_succ] at hz
      simp only [List.set_cons_succ, List.map_cons, ih i hz]

theorem zio_keys_of_queue_view (a b : spa_t) (h : queue_view a = queue_view b) :
    zio_keys a = zio_keys b := by
  unfold queue_view at h
  simp only [Prod.mk.injEq] at h
  unfold zio_keys
  rw [h.2]

theorem zio_done_zio_keys (P : zfs_params) (i io_error : Nat) (spa : spa_t) :
    zio_keys (zio_done P i io_error spa) = zio_keys spa := by
  unfold zio_done
  cases hz : spa.zios[i]? with
  | none => rfl
  | some zio =>
    dsimp only
    by_cases hd : zio.io_done = true
    · rw [if_pos hd]
    · rw [if_neg hd]
      have hq := zio_callback_queue P zio io_error
        { spa with zios := spa.zios.set i { zio with io_done := true } }
      unfold queue_view at hq
      simp only [Prod.mk.injEq] at hq
      unfold zio_keys
      rw [hq.2]
      exact zio_keys_set_done spa.zios i zio hz

theorem trim_interference_apply_zio_keys (P : zfs_params) (a : trim_interference)
    (spa spa1 : spa_t) (h : a.apply P spa = some spa1) : zio_keys spa1 = zio_keys spa := by
  cases a with
  | io_done i io_error =>
    simp only [trim_interference.apply, Option.some.injEq] at h
    subst h
    exact zio_done_zio_keys P i io_error spa
  | txg_sync txg => exact zio_keys_of_queue_view _ _ (spa_sync_queue P txg _ _ h)
  | set_writeable b =>
    simp only [trim_interference.apply, Option.some.injEq] at h
    subst h; rfl
  | detach =>
    simp only [trim_interference.apply, Option.some.injEq] at h
    subst h; rfl
  | top_removing =>
    simp only [trim_interference.apply, Option.some.injEq] at h
    subst h; rfl
  | stop tgt_state now txg =>
    exact zio_keys_of_queue_view _ _ (vdev_trim_stop_request_queue _ _ _ _ _ h)

theorem trim_interfere_zio_keys (P : zfs_params) (script : List trim_interference) :
    ∀ (spa spa1 : spa_t), trim_interfere P script spa = some spa1 →
      zio_keys spa1 = zio_keys spa := by
  induction script with
  | nil => intro spa spa1 h; simp [trim_interfere] at h; rw [h]
  | cons a rest ih =>
    intro spa spa1 h
    unfold trim_interfere at h
    rw [List.foldlM_cons] at h
    cases h1 : a.apply P spa with
    | none => rw [h1] at h; simp at h
    | some spa2 =>
      rw [h1] at h
      rw [ih spa2 spa1 h]
      exact trim_interference_apply_zio_keys P a spa spa2 h1

theorem zio_sub_refl (spa : spa_t) : zio_sub spa spa :=
  ⟨[], [], by simp, by simp, fun z hz => by cases hz⟩

theorem zio_sub_trans (a b c : spa_t) (h1 : zio_sub a b) (h2 : zio_sub b c) : zio_sub a c := by
  obtain ⟨c1, z1, a1, a2, a3⟩ := h1
  obtain ⟨c2, z2, b1, b2, b3⟩ := h2
  refine ⟨c1 ++ c2, z1 ++ z2, by rw [b1, a1, List.append_assoc],
    by rw [b2, a2, List.append_assoc], fun z hz => ?_⟩
  rcases List.mem_append.mp hz with h | h
  · exact List.mem_append_left _ (a3 z h)
  · exact List.mem_append_right _ (b3 z h)

theorem vdev_trim_range_zio_sub (P : zfs_params) (env : Nat → trim_call_env)
    (ta : trim_args_t) (start size : Nat) (spa spa1 : spa_t) (error : Nat)
    (h : vdev_trim_range P env ta start size spa = some (error, spa1)) :
    zio_sub spa spa1 := by
  have hv := vdev_trim_range_view P env ta start size spa spa1 error h
  have hcalls : spa1.trim_calls = spa.trim_calls ++ [(start, size)] := congrArg Prod.fst hv
  unfold vdev_trim_range at h
  dsimp only at h
  cases h1 : trim_interfere P (env spa.trim_calls.length).before
      { spa with trim_calls := spa.trim_calls ++ [(start, size)] } with
  | none => rw [h1] at h; cases h
  | some s1 =>
    have v1 := trim_interfere_zio_keys P _ _ _ h1
    rw [h1] at h
    dsimp only at h
    cases h2 : vdev_trim_range_gate P ta s1 with
    | none => rw [h2] at h; cases h
    | some s2 =>
      have v2 : zio_keys s2 = zio_keys s1 := by
        unfold vdev_trim_range_gate at h2
        split_ifs at h2
        injection h2 with h2
        rw [← h2]
        rfl
      rw [h2] at h
      dsimp only at h
      cases h3 : trim_interfere P (env spa.trim_calls.length).during s2 with
      | none => rw [h3] at h; cases h
      | some s3 =>
        have v3 := trim_interfere_zio_keys P _ _ _ h3
        rw [h3] at h
        dsimp only at h
        injection h with h
        have h4 := congrArg Prod.snd h
        dsimp only at h4
        have hq := vdev_trim_range_issue_queue P ta start size (env spa.trim_calls.length).txg s3
        rw [h4] at hq
        have hk : zio_keys s3 = zio_keys spa := by rw [v3, v2, v1]; rfl
        by_cases hs : vdev_trim_should_stop s3.vd = true
        · rw [if_pos hs] at hq
          refine ⟨[(start, size)], [], hcalls, ?_, fun z hz => by cases hz⟩
          rw [List.append_nil, ← hk]
          unfold queue_view at hq
          simp only [Prod.mk.injEq] at hq
          unfold zio_keys
          rw [hq.2]
        · rw [if_neg hs] at hq
          refine ⟨[(start, size)], [(start, size)], hcalls, ?_, fun z hz => hz⟩
          rw [← hk]
          unfold queue_view at hq
          simp only [Prod.mk.injEq] at hq
          unfold zio_keys
          rw [hq.2, List.map_append]
          rfl

theorem vdev_trim_ranges_writes_zio_sub (P : zfs_params) (env : Nat → trim_call_env)
    (ta : trim_args_t) (rs_start size : Nat) :
    ∀ (n w : Nat) (spa spa1 : spa_t) (error : Nat),
      vdev_trim_ranges_writes P env ta rs_start size n w spa = some (error, spa1) →
      zio_sub spa spa1 := by
  intro n
  induction n with
  | zero =>
    intro w spa spa1 error h
    simp only [vdev_trim_ranges_writes, Option.some.injEq, Prod.mk.injEq] at h
    obtain ⟨_, h⟩ := h
    subst h
    exact zio_sub_refl spa
  | succ n ih =>
    intro w spa spa1 error h
    rw [vdev_trim_ranges_writes] at h
    cases h1 : vdev_trim_range P env ta
        (u64_add (u64_add P.VDEV_LABEL_START_SIZE rs_start)
          (u64_mul w ta.trim_extent_bytes_max))
        (min (u64_sub size (u64_mul w ta.trim_extent_bytes_max)) ta.trim_extent_bytes_max)
        spa with
    | none => rw [h1] at h; cases h
    | some r =>
      obtain ⟨e1, s1⟩ := r
      rw [h1] at h
      dsimp only at h
      have z1 := vdev_trim_range_zio_sub P env ta _ _ spa s1 e1 h1
      by_cases he : e1 ≠ 0
      · rw [if_pos he] at h
        injection h with h
        injection h with _ h
        subst h
        exact z1
      · rw [if_neg he] at h
        exact zio_sub_trans _ _ _ z1 (ih (w + 1) s1 spa1 error h)

theorem vdev_trim_ranges_segs_zio_sub (P : zfs_params) (env : Nat → trim_call_env)
    (ta : trim_args_t) :
    ∀ (tree : List range_seg_t) (spa spa1 : spa_t) (error : Nat),
      vdev_trim_ranges_segs P env ta tree spa = some (error, spa1) → zio_sub spa spa1 := by
  intro tree
  induction tree with
  | nil =>
    intro spa spa1 error h
    simp only [vdev_trim_ranges_segs, Option.some.injEq, Prod.mk.injEq] at h
    obtain ⟨_, h⟩ := h
    subst h
    exact zio_sub_refl spa
  | cons rs rest ih =>
    intro spa spa1 error h
    rw [vdev_trim_ranges_segs] at h
    cases h1 : vdev_trim_ranges_seg P env ta rs spa with
    | none => rw [h1] at h; cases h
    | some r =>
      obtain ⟨e1, s1⟩ := r
      rw [h1] at h
      dsimp only at h
      have z1 : zio_sub spa s1 := by
        unfold vdev_trim_ranges_seg at h1
        dsimp only at h1
        split_ifs at h1
        · injection h1 with h1
          injection h1 with _ h1
          subst h1
          exact ⟨[], [], by simp [spa_iostats_trim_add], by simp [zio_keys, spa_iostats_trim_add],
            fun z hz => by cases hz⟩
        · exact vdev_trim_ranges_writes_zio_sub P env ta _ _ _ _ _ _ _ h1
      by_cases he : e1 ≠ 0
      · rw [if_pos he] at h
        injection h with h
        injection h with _ h
        subst h
        exact z1
      · rw [if_neg he] at h
        exact zio_sub_trans _ _ _ z1 (ih s1 spa1 error h)

/-- C12: on a top-level leaf (`vdev_xlate` the identity) the walk of
`vdev_trim_range_add` over `ms_allocatable` returns a working tree, and every
`(offset, length)` that `vdev_trim_ranges` then passes to `vdev_trim_range`,
and with it every TRIM zio it submits, lies within one segment of
`ms_allocatable` once `VDEV_LABEL_START_SIZE` is taken off: the offset is at
least the label size, and `[offset - label, offset - label + length)` is
inside the segment. `ms_allocatable` is a range tree: its segments are
non-empty, ascending and apart, and end below `2 ^ 64` less the label size. -/
theorem vdev_trim_ranges_within_allocatable (P : zfs_params) (env : Nat → trim_call_env)
    (ta : trim_args_t) (msp : metaslab_t) (spa : spa_t)
    (hx : ∀ rs, spa.vd.vdev_xlate rs = rs)
    (hm : 1 ≤ ta.trim_extent_bytes_max)
    (ht : ta.trim_tree = [])
    (hgap : msp.ms_allocatable.Pairwise (fun a b => a.rs_end < b.rs_start))
    (hwf : ∀ rs ∈ msp.ms_allocatable, seg_wf P.VDEV_LABEL_START_SIZE rs) :
    ∃ ta1, range_tree_walk spa.vd msp.ms_allocatable ta = some ta1 ∧
      ∀ error spa1, vdev_trim_ranges P env ta1 spa = some (error, spa1) →
        ∃ calls zs, spa1.trim_calls = spa.trim_calls ++ calls ∧
          zio_keys spa1 = zio_keys spa ++ zs ∧ (∀ z ∈ zs, z ∈ calls) ∧
          ∀ c ∈ calls, ∃ rs ∈ msp.ms_allocatable,
            P.VDEV_LABEL_START_SIZE ≤ c.1 ∧
            rs.rs_start ≤ c.1 - P.VDEV_LABEL_START_SIZE ∧
            c.1 - P.VDEV_LABEL_START_SIZE + c.2 ≤ rs.rs_end := by
  obtain ⟨ta1, k1, k2, _, _, k5⟩ := range_tree_walk_within spa.vd P.VDEV_LABEL_START_SIZE
    msp.ms_allocatable hx msp.ms_allocatable ta (fun _ h => h) hgap hwf
    (fun r hr => by rw [ht] at hr; cases hr) (fun r hr => by rw [ht] at hr; cases hr)
  refine ⟨ta1, k1, fun error spa1 h => ?_⟩
  unfold vdev_trim_ranges at h
  have hm1 : 1 ≤ ta1.trim_extent_bytes_max := by rw [k2]; exact hm
  obtain ⟨calls, hc, hmem⟩ := vdev_trim_ranges_segs_calls P env ta1 hm1 ta1.trim_tree spa spa1
    error (fun r hr => (k5 r hr).1) h
  obtain ⟨c2, zs, a1, a2, a3⟩ := vdev_trim_ranges_segs_zio_sub P env ta1 _ _ _ _ h
  have hcc : c2 = calls := List.append_cancel_left (a1.symm.trans hc)
  subst hcc
  refine ⟨c2, zs, hc, a2, a3, fun c hcm => ?_⟩
  obtain ⟨r, hr, hcr⟩ := hmem c hcm
  obtain ⟨hw, rs, hrs, b1, b2⟩ := k5 r hr
  obtain ⟨d1, d2, d3⟩ := seg_chunk_within _ _ r c hw hm1 hcr
  exact ⟨rs, hrs, d1, by omega, by omega⟩

/-- C12 on the metaslab of scenario S2: the one chunk handed over is the
segment `[1 MiB, 1 MiB + 64 KiB)` moved past the label of 4 MiB. -/
theorem vdev_trim_ranges_within_allocatable_witness :
    (∃ ta1, range_tree_walk (spa_of vd_active zap_empty).vd ms_two_segments.ms_allocatable
        (ta_manual []) = some ta1 ∧
      ∀ error spa1,
        vdev_trim_ranges params_4m env_quiet ta1 (spa_of vd_active zap_empty) =
          some (error, spa1) →
        ∃ calls zs, spa1.trim_calls = (spa_of vd_active zap_empty).trim_calls ++ calls ∧
          zio_keys spa1 = zio_keys (spa_of vd_active zap_empty) ++ zs ∧
          (∀ z ∈ zs, z ∈ calls) ∧
          ∀ c ∈ calls, ∃ rs ∈ ms_two_segments.ms_allocatable,
            params_4m.VDEV_LABEL_START_SIZE ≤ c.1 ∧
            rs.rs_start ≤ c.1 - params_4m.VDEV_LABEL_START_SIZE ∧
            c.1 - params_4m.VDEV_LABEL_START_SIZE + c.2 ≤ rs.rs_end) ∧
    ((range_tree_walk vd_active ms_two_segments.ms_allocatable (ta_manual [])).bind
        (fun ta1 => vdev_trim_ranges params_4m env_quiet ta1 (spa_of vd_active zap_empty))).map
      (fun r => (r.1, r.2.trim_calls, zio_keys r.2)) =
      some (0, [(5242880, 65536)], [(5242880, 65536)]) :=
  ⟨vdev_trim_ranges_within_allocatable params_4m env_quiet (ta_manual []) ms_two_segments
    (spa_of vd_active zap_empty) (fun _ => rfl) (by decide) rfl (by decide) (by decide),
    by decide⟩

/-! ## C13: restart after import -/

theorem vdev_trim_calculate_progress_ms_some (vd : vdev_t)
    (hr : vd.vdev_top_raidz = true → vd.vdev_top_children ≠ 0) :
    ∀ (ms : List metaslab_t) (acc : Nat × Nat),
      ∃ r, vdev_trim_calculate_progress_ms vd ms acc = some r := by
  intro ms
  induction ms with
  | nil => intro acc; exact ⟨acc, by cases acc; rfl⟩
  | cons msp rest ih =>
    intro acc
    obtain ⟨est, done⟩ := acc
    rw [vdev_trim_calculate_progress_ms]
    rw [if_neg (fun hc => hr hc.1 hc.2)]
    dsimp only
    split_ifs <;> exact ih _

theorem vdev_trim_calculate_progress_some (spa : spa_t)
    (hr : spa.vd.vdev_top_raidz = true → spa.vd.vdev_top_children ≠ 0) :
    ∃ est done, vdev_trim_calculate_progress spa =
      some { spa with vd := { spa.vd with
        vdev_trim_bytes_est := est, vdev_trim_bytes_done := done } } := by
  obtain ⟨r, h⟩ := vdev_trim_calculate_progress_ms_some spa.vd hr spa.vdev_ms (0, 0)
  obtain ⟨est, done⟩ := r
  refine ⟨est, done, ?_⟩
  unfold vdev_trim_calculate_progress
  rw [h]

theorem zap_lookup_found (spa : spa_t) (key : zap_key_t) (hf : spa.zap_fault key = 0) :
    zap_lookup spa key = (0, zap_value spa.zap key) ∨
      zap_lookup spa key = (ENOENT, 0) ∧ zap_value spa.zap key = 0 := by
  unfold zap_lookup zap_value
  rw [if_neg (fun h => h hf)]
  cases key <;> dsimp only
  · cases spa.zap.VDEV_LEAF_ZAP_TRIM_LAST_OFFSET <;> simp
  · cases spa.zap.VDEV_LEAF_ZAP_TRIM_RATE <;> simp
  · cases spa.zap.VDEV_LEAF_ZAP_TRIM_PARTIAL <;> simp
  · cases spa.zap.VDEV_LEAF_ZAP_TRIM_SECURE <;> simp

theorem vdev_trim_load_key_found (spa : spa_t) (key : zap_key_t) (old : Nat)
    (hf : spa.zap_fault key = 0) :
    vdev_trim_load_key spa key old = (0, zap_value spa.zap key) := by
  unfold vdev_trim_load_key
  rcases zap_lookup_found spa key hf with h | ⟨h, h0⟩
  · rw [h]; rfl
  · rw [h, h0]; rfl

theorem vdev_trim_load_found (spa : spa_t) (hf : ∀ key, spa.zap_fault key = 0)
    (hr : spa.vd.vdev_top_raidz = true → spa.vd.vdev_top_children ≠ 0) :
    ∃ spa1, vdev_trim_load spa = some (0, spa1) ∧ load_frame spa1 = load_frame spa ∧
      trim_settings spa1.vd =
        if spa.vd.vdev_trim_state = VDEV_TRIM_ACTIVE ∨
            spa.vd.vdev_trim_state = VDEV_TRIM_SUSPENDED then
          (spa.zap.VDEV_LEAF_ZAP_TRIM_LAST_OFFSET.getD 0,
            spa.zap.VDEV_LEAF_ZAP_TRIM_RATE.getD 0,
            spa.zap.VDEV_LEAF_ZAP_TRIM_PARTIAL.getD 0,
            spa.zap.VDEV_LEAF_ZAP_TRIM_SECURE.getD 0)
        else trim_settings spa.vd := by
  unfold vdev_trim_load
  dsimp only
  by_cases hs : spa.vd.vdev_trim_state = VDEV_TRIM_ACTIVE ∨
      spa.vd.vdev_trim_state = VDEV_TRIM_SUSPENDED
  · rw [if_pos hs, if_pos hs]
    rw [vdev_trim_load_key_found spa _ _ (hf _), vdev_trim_load_key_found spa _ _ (hf _),
      vdev_trim_load_key_found spa _ _ (hf _), vdev_trim_load_key_found spa _ _ (hf _)]
    dsimp only
    rw [if_neg (fun h => h rfl), if_neg (fun h => h rfl), if_neg (fun h => h rfl)]
    dsimp only
    obtain ⟨est, done, hp⟩ := vdev_trim_calculate_progress_some
      { spa with vd := { spa.vd with
          vdev_trim_last_offset := zap_value spa.zap .LAST_OFFSET
          vdev_trim_rate := zap_value spa.zap .RATE
          vdev_trim_partial := zap_value spa.zap .PARTIAL
          vdev_trim_secure := zap_value spa.zap .SECURE } } hr
    rw [hp]
    exact ⟨_, rfl, rfl, rfl⟩
  · rw [if_neg hs, if_neg hs]
    dsimp only
    obtain ⟨est, done, hp⟩ := vdev_trim_calculate_progress_some spa hr
    rw [hp]
    exact ⟨_, rfl, rfl, rfl⟩

theorem load_frame_state (a b : spa_t) (h : load_frame a = load_frame b) :
    a.vd.vdev_trim_state = b.vd.vdev_trim_state ∧
      a.vd.vdev_trim_thread = b.vd.vdev_trim_thread := by
  unfold load_frame at h
  simp only [Prod.mk.injEq] at h
  exact ⟨h.2.2.2.1, h.2.2.2.2.2.1⟩

theorem vdev_trim_same_state (spa : spa_t) (rate part secure now txg : Nat)
    (hs : spa.vd.vdev_trim_state = VDEV_TRIM_ACTIVE) :
    vdev_trim spa rate part secure now txg =
      some { spa with vd := { spa.vd with vdev_trim_thread := true } } := by
  unfold vdev_trim vdev_trim_change_state
  rw [if_pos hs.symm]

/-- C13: for a leaf with a leaf ZAP whose lookups work and without manual
worker, `vdev_trim_restart` returns, with `vdev_trim_state` the persisted
State (`VDEV_TRIM_NONE` when the key is missing); the worker is attached if and
only if the persisted State is Active and the leaf is not offline, is writeable
and has no top-level vdev in removal; a leaf whose persisted State is Suspended
gets no worker, has state Suspended and holds the persisted last offset, rate,
partial and secure settings, 0 for a key that is missing. -/
theorem vdev_trim_restart_state_and_worker (spa : spa_t) (now txg : Nat)
    (hzap : spa.vd.vdev_leaf_zap ≠ 0) (hthread : spa.vd.vdev_trim_thread = false)
    (hf : ∀ key, spa.zap_fault key = 0)
    (hr : spa.vd.vdev_top_raidz = true → spa.vd.vdev_top_children ≠ 0) :
    ∃ spa1, vdev_trim_restart spa now txg = some spa1 ∧
      spa1.vd.vdev_trim_state = spa.zap.VDEV_LEAF_ZAP_TRIM_STATE.getD VDEV_TRIM_NONE ∧
      (spa1.vd.vdev_trim_thread = true ↔
        spa.zap.VDEV_LEAF_ZAP_TRIM_STATE = some VDEV_TRIM_ACTIVE ∧
          spa.vd.vdev_offline = false ∧ spa.vd.vdev_writeable = true ∧
          spa.vd.vdev_top_removing = false) ∧
      (spa.zap.VDEV_LEAF_ZAP_TRIM_STATE = some VDEV_TRIM_SUSPENDED →
        spa1.vd.vdev_trim_thread = false ∧
        spa1.vd.vdev_trim_state = VDEV_TRIM_SUSPENDED ∧
        trim_settings spa1.vd =
          (spa.zap.VDEV_LEAF_ZAP_TRIM_LAST_OFFSET.getD 0,
            spa.zap.VDEV_LEAF_ZAP_TRIM_RATE.getD 0,
            spa.zap.VDEV_LEAF_ZAP_TRIM_PARTIAL.getD 0,
            spa.zap.VDEV_LEAF_ZAP_TRIM_SECURE.getD 0)) := by
  have hact : spa.zap.VDEV_LEAF_ZAP_TRIM_STATE.getD VDEV_TRIM_NONE = VDEV_TRIM_ACTIVE ↔
      spa.zap.VDEV_LEAF_ZAP_TRIM_STATE = some VDEV_TRIM_ACTIVE := by
    cases spa.zap.VDEV_LEAF_ZAP_TRIM_STATE <;> simp
  have hsus : spa.zap.VDEV_LEAF_ZAP_TRIM_STATE.getD VDEV_TRIM_NONE = VDEV_TRIM_SUSPENDED ↔
      spa.zap.VDEV_LEAF_ZAP_TRIM_STATE = some VDEV_TRIM_SUSPENDED := by
    cases spa.zap.VDEV_LEAF_ZAP_TRIM_STATE <;> simp
  unfold vdev_trim_restart
  rw [if_pos hzap]
  dsimp only
  generalize hS : spa.zap.VDEV_LEAF_ZAP_TRIM_STATE.getD VDEV_TRIM_NONE = S at hact hsus
  obtain ⟨spa2, hload, hframe, hset⟩ := vdev_trim_load_found
    { spa with vd := { spa.vd with
        vdev_trim_state := S
        vdev_trim_action_time := spa.zap.VDEV_LEAF_ZAP_TRIM_ACTION_TIME.getD 0 } } hf hr
  obtain ⟨hfs, hft⟩ := load_frame_state _ _ hframe
  dsimp only at hfs hft hset
  by_cases c1 : S = VDEV_TRIM_SUSPENDED ∨ spa.vd.vdev_offline = true
  · rw [if_pos c1, hload]
    dsimp only
    rw [if_neg (fun h => h rfl)]
    refine ⟨spa2, rfl, hfs, ?_, fun hsusp => ?_⟩
    · rw [hft, hthread]
      constructor
      · intro h; cases h
      · rintro ⟨h1, h2, _, _⟩
        rcases c1 with c | c
        · rw [hact.mpr h1] at c; cases c
        · rw [h2] at c; cases c
    · have hS2 := hsus.mpr hsusp
      refine ⟨by rw [hft, hthread], by rw [hfs, hS2], ?_⟩
      rw [hset, if_pos (Or.inr hS2)]
  · rw [if_neg c1]
    have c1a : S ≠ VDEV_TRIM_SUSPENDED := fun h => c1 (Or.inl h)
    have c1b : spa.vd.vdev_offline = false := by
      cases hb : spa.vd.vdev_offline
      · rfl
      · exact absurd (Or.inr hb) c1
    by_cases c2 : S = VDEV_TRIM_ACTIVE ∧ spa.vd.vdev_writeable = true ∧
        spa.vd.vdev_top_removing = false ∧ spa.vd.vdev_trim_thread = false
    · rw [if_pos c2, hload]
      dsimp only
      rw [if_neg (fun h => h rfl), vdev_trim_same_state _ _ _ _ _ _ (by rw [hfs]; exact c2.1)]
      refine ⟨_, rfl, hfs, ?_, fun hsusp => absurd (hsus.mpr hsusp) c1a⟩
      constructor
      · intro _
        exact ⟨hact.mp c2.1, c1b, c2.2.1, c2.2.2.1⟩
      · intro _; rfl
    · rw [if_neg c2]
      refine ⟨_, rfl, rfl, ?_, fun hsusp => absurd (hsus.mpr hsusp) c1a⟩
      dsimp only
      rw [hthread]
      constructor
      · intro h; cases h
      · rintro ⟨h1, _, h3, h4⟩
        exact absurd ⟨hact.mpr h1, h3, h4, hthread⟩ c2

/-- C13 on the leaf an import finds with a suspended run in its ZAP, and, by
evaluation, on the same leaf with an active run. -/
theorem vdev_trim_restart_state_and_worker_witness :
    (∃ spa1, vdev_trim_restart (spa_imported VDEV_TRIM_SUSPENDED) 1000 10 = some spa1 ∧
      spa1.vd.vdev_trim_state =
        (spa_imported VDEV_TRIM_SUSPENDED).zap.VDEV_LEAF_ZAP_TRIM_STATE.getD VDEV_TRIM_NONE ∧
      (spa1.vd.vdev_trim_thread = true ↔
        (spa_imported VDEV_TRIM_SUSPENDED).zap.VDEV_LEAF_ZAP_TRIM_STATE =
            some VDEV_TRIM_ACTIVE ∧
          (spa_imported VDEV_TRIM_SUSPENDED).vd.vdev_offline = false ∧
          (spa_imported VDEV_TRIM_SUSPENDED).vd.vdev_writeable = true ∧
          (spa_imported VDEV_TRIM_SUSPENDED).vd.vdev_top_removing = false) ∧
      ((spa_imported VDEV_TRIM_SUSPENDED).zap.VDEV_LEAF_ZAP_TRIM_STATE =
          some VDEV_TRIM_SUSPENDED →
        spa1.vd.vdev_trim_thread = false ∧
        spa1.vd.vdev_trim_state = VDEV_TRIM_SUSPENDED ∧
        trim_settings spa1.vd =
          ((spa_imported VDEV_TRIM_SUSPENDED).zap.VDEV_LEAF_ZAP_TRIM_LAST_OFFSET.getD 0,
            (spa_imported VDEV_TRIM_SUSPENDED).zap.VDEV_LEAF_ZAP_TRIM_RATE.getD 0,
            (spa_imported VDEV_TRIM_SUSPENDED).zap.VDEV_LEAF_ZAP_TRIM_PARTIAL.getD 0,
            (spa_imported VDEV_TRIM_SUSPENDED).zap.VDEV_LEAF_ZAP_TRIM_SECURE.getD 0))) ∧
    (vdev_trim_restart (spa_imported VDEV_TRIM_SUSPENDED) 1000 10).map
        (fun s => (s.vd.vdev_trim_thread, s.vd.vdev_trim_last_offset, s.vd.vdev_trim_rate,
          s.sync_tasks.length)) =
      some (false, 1077936128, 1048576, 0) ∧
    (vdev_trim_restart (spa_imported VDEV_TRIM_ACTIVE) 1000 10).map
        (fun s => (s.vd.vdev_trim_thread, s.vd.vdev_trim_last_offset, s.vd.vdev_trim_rate,
          s.sync_tasks.length)) =
      some (true, 1077936128, 1048576, 0) :=
  ⟨vdev_trim_restart_state_and_worker (spa_imported VDEV_TRIM_SUSPENDED) 1000 10
    (by decide) rfl (fun _ => rfl) (fun h => Bool.noConfusion h), by decide, by decide⟩

/-! ## C14: a stop request without a worker -/

/-- C14: with no manual worker attached and a target state other than
`VDEV_TRIM_CANCELED`, `vdev_trim_stop` returns the state it was given, with
every field of the leaf, the pending sync tasks and the events as they were,
and the list of the caller as it was. -/
theorem vdev_trim_stop_without_worker (P : zfs_params) (w : trim_thread_env) (spa : spa_t)
    (tgt_state : vdev_trim_state_t) (vd_list : Option (List Nat)) (now txg : Nat)
    (hthread : spa.vd.vdev_trim_thread = false) (htgt : tgt_state ≠ VDEV_TRIM_CANCELED) :
    vdev_trim_stop P w spa tgt_state vd_list now txg = some (spa, vd_list) := by
  unfold vdev_trim_stop
  rw [if_pos ⟨hthread, htgt⟩]

/-- C14 on the completed leaf, asked to suspend with a list. -/
theorem vdev_trim_stop_without_worker_witness :
    (spa_of vd_complete zap_complete).vd.vdev_trim_thread = false ∧
      VDEV_TRIM_SUSPENDED ≠ VDEV_TRIM_CANCELED ∧
      vdev_trim_stop params_4m (env_thread (fun _ => 7) []) (spa_of vd_complete zap_complete)
        VDEV_TRIM_SUSPENDED (some [5]) 1000 10 =
        some (spa_of vd_complete zap_complete, some [5]) :=
  ⟨rfl, by decide,
    vdev_trim_stop_without_worker params_4m (env_thread (fun _ => 7) [])
      (spa_of vd_complete zap_complete) VDEV_TRIM_SUSPENDED (some [5]) 1000 10 rfl
      (by decide)⟩

/-! ## C15: the cursor of `smb_is_mountpoint_active` -/

theorem smb_is_mountpoint_active_loop_spec (m : String) (L : List smb_share_t) :
    ((smb_is_mountpoint_active_loop m L).1 = true ↔ ∃ s ∈ L, s.path = m) ∧
    (smb_is_mountpoint_active_loop m L).2 = L.dropWhile (fun s => decide (s.path ≠ m)) := by
  induction L with
  | nil => simp [smb_is_mountpoint_active_loop]
  | cons s rest ih =>
    unfold smb_is_mountpoint_active_loop
    by_cases h : m = s.path
    · rw [if_pos h]
      simp [List.dropWhile_cons, h]
    · rw [if_neg h]
      have h1 : s.path ≠ m := fun hc => h hc.symm
      rw [ih.2]
      constructor
      · rw [ih.1]
        simp [h1]
      · simp [List.dropWhile_cons, h1]

/-- C15: after `smb_retrieve_shares` has installed the list `L`,
`smb_is_mountpoint_active(m)` returns true if and only if a share of `L` has
the path `m`, and on return the global `smb_shares` is what is left of `L`
from the first share with path `m` on: `NULL` when no share has that path, and
a shorter list than `L` whenever the first share of `L` has another path. -/
theorem smb_is_mountpoint_active_loses_head (L smb_shares : List smb_share_t) (m : String) :
    ((smb_is_mountpoint_active (some L) m smb_shares).1 = true ↔ ∃ s ∈ L, s.path = m) ∧
    (smb_is_mountpoint_active (some L) m smb_shares).2 =
      L.dropWhile (fun s => decide (s.path ≠ m)) ∧
    ((∀ s ∈ L, s.path ≠ m) → (smb_is_mountpoint_active (some L) m smb_shares).2 = []) ∧
    (∀ s rest, L = s :: rest → s.path ≠ m →
      (smb_is_mountpoint_active (some L) m smb_shares).2.length < L.length) := by
  have hs := smb_is_mountpoint_active_loop_spec m L
  have e : smb_is_mountpoint_active (some L) m smb_shares =
      smb_is_mountpoint_active_loop m L := rfl
  rw [e]
  refine ⟨hs.1, hs.2, fun hall => ?_, fun s rest hL hne => ?_⟩
  · rw [hs.2, List.dropWhile_eq_nil_iff]
    intro s hsL
    simpa using hall s hsL
  · rw [hs.2, hL, List.dropWhile_cons, if_pos (by simpa using hne)]
    exact Nat.lt_succ_of_le (List.Sublist.length_le (List.dropWhile_sublist _))

/-- C15 on a list of three shares and the path of the second: the call
returns true and leaves the global at the second share. -/
theorem smb_is_mountpoint_active_loses_head_witness :
    (smb_is_mountpoint_active (some shares_three) "/Volumes/b" []).2.length <
        shares_three.length ∧
      smb_is_mountpoint_active (some shares_three) "/Volumes/b" [] =
        (true, [⟨"b", "/Volumes/b", 1, 0⟩, ⟨"c", "/Volumes/c", 0, 1⟩]) :=
  ⟨(smb_is_mountpoint_active_loses_head shares_three [] "/Volumes/b").2.2.2
    ⟨"a", "/Volumes/a", 1, 0⟩ [⟨"b", "/Volumes/b", 1, 0⟩, ⟨"c", "/Volumes/c", 0, 1⟩] rfl
    (by decide), by decide⟩

/-! ## C16: the offset a sync task persists -/

/-- C16: a sync task that fires for `txg` on a leaf that resolves by its guid,
is concrete, has a leaf ZAP and whose top-level vdev is not being removed zeroes
the slot of the txg. With `v` the value the slot had and `l` the in-memory
`vdev_trim_last_offset`: if `l` is `UINT64_MAX` the in-memory and the persisted
last offset become 0, whatever `v` is; else if `v` is not 0 both become `v`;
else neither changes. -/
theorem vdev_trim_zap_update_sync_last_offset (P : zfs_params) (txg : Nat) (spa : spa_t)
    (hfreed : spa.vdev_freed = false) (hrem : spa.vd.vdev_top_removing = false)
    (hconc : spa.vd.vdev_is_concrete = true) (hzap : spa.vd.vdev_leaf_zap ≠ 0) :
    ∃ spa1, vdev_trim_zap_update_sync P spa.vd.vdev_guid txg spa = some spa1 ∧
      spa1.vd.vdev_trim_offset =
        Function.update spa.vd.vdev_trim_offset (Nat.land txg P.TXG_MASK) 0 ∧
      (spa.vd.vdev_trim_last_offset = UINT64_MAX →
        spa1.vd.vdev_trim_last_offset = 0 ∧
        spa1.zap.VDEV_LEAF_ZAP_TRIM_LAST_OFFSET = some 0) ∧
      (spa.vd.vdev_trim_last_offset ≠ UINT64_MAX →
        spa.vd.vdev_trim_offset (Nat.land txg P.TXG_MASK) ≠ 0 →
        spa1.vd.vdev_trim_last_offset = spa.vd.vdev_trim_offset (Nat.land txg P.TXG_MASK) ∧
        spa1.zap.VDEV_LEAF_ZAP_TRIM_LAST_OFFSET =
          some (spa.vd.vdev_trim_offset (Nat.land txg P.TXG_MASK))) ∧
      (spa.vd.vdev_trim_last_offset ≠ UINT64_MAX →
        spa.vd.vdev_trim_offset (Nat.land txg P.TXG_MASK) = 0 →
        spa1.vd.vdev_trim_last_offset = spa.vd.vdev_trim_last_offset ∧
        spa1.zap.VDEV_LEAF_ZAP_TRIM_LAST_OFFSET = spa.zap.VDEV_LEAF_ZAP_TRIM_LAST_OFFSET) := by
  obtain ⟨spa1, h, h1, h2, h3⟩ := vdev_trim_zap_update_sync_live P txg spa hfreed hrem hconc hzap
  refine ⟨spa1, h, h1, fun hl => ?_, fun hl hv => ?_, fun hl hv => ?_⟩
  · rw [h2, h3, if_pos hl, if_pos hl]
    exact ⟨rfl, rfl⟩
  · rw [h2, h3, if_neg hl, if_neg hl, if_pos hv, if_pos hv]
    exact ⟨rfl, rfl⟩
  · rw [h2, h3, if_neg hl, if_neg hl, if_neg (not_not.mpr hv), if_neg (not_not.mpr hv)]
    exact ⟨rfl, rfl⟩

/-- C16 on the healthy leaf after its first chunk: the sync task of txg 7
persists the end of the chunk, and the sync task of txg 8, whose slot is empty,
leaves the key as it is. -/
theorem vdev_trim_zap_update_sync_last_offset_witness :
    (∃ spa1, vdev_trim_zap_update_sync params_4m spa_first_chunk.vd.vdev_guid 7
        spa_first_chunk = some spa1 ∧
      spa1.vd.vdev_trim_offset =
        Function.update spa_first_chunk.vd.vdev_trim_offset
          (Nat.land 7 params_4m.TXG_MASK) 0 ∧
      (spa_first_chunk.vd.vdev_trim_last_offset = UINT64_MAX →
        spa1.vd.vdev_trim_last_offset = 0 ∧
        spa1.zap.VDEV_LEAF_ZAP_TRIM_LAST_OFFSET = some 0) ∧
      (spa_first_chunk.vd.vdev_trim_last_offset ≠ UINT64_MAX →
        spa_first_chunk.vd.vdev_trim_offset (Nat.land 7 params_4m.TXG_MASK) ≠ 0 →
        spa1.vd.vdev_trim_last_offset =
          spa_first_chunk.vd.vdev_trim_offset (Nat.land 7 params_4m.TXG_MASK) ∧
        spa1.zap.VDEV_LEAF_ZAP_TRIM_LAST_OFFSET =
          some (spa_first_chunk.vd.vdev_trim_offset (Nat.land 7 params_4m.TXG_MASK))) ∧
      (spa_first_chunk.vd.vdev_trim_last_offset ≠ UINT64_MAX →
        spa_first_chunk.vd.vdev_trim_offset (Nat.land 7 params_4m.TXG_MASK) = 0 →
        spa1.vd.vdev_trim_last_offset = spa_first_chunk.vd.vdev_trim_last_offset ∧
        spa1.zap.VDEV_LEAF_ZAP_TRIM_LAST_OFFSET =
          spa_first_chunk.zap.VDEV_LEAF_ZAP_TRIM_LAST_OFFSET)) ∧
    ((vdev_trim_zap_update_sync params_4m 1 7 spa_first_chunk).map
        (fun s => (s.vd.vdev_trim_offset 3, s.vd.vdev_trim_last_offset,
          s.zap.VDEV_LEAF_ZAP_TRIM_LAST_OFFSET)),
      (vdev_trim_zap_update_sync params_4m 1 8 spa_first_chunk).map
        (fun s => (s.vd.vdev_trim_offset 3, s.vd.vdev_trim_last_offset,
          s.zap.VDEV_LEAF_ZAP_TRIM_LAST_OFFSET))) =
      (some (0, 138412032, some 138412032), some (138412032, 0, none)) :=
  ⟨vdev_trim_zap_update_sync_last_offset params_4m 7 spa_first_chunk rfl rfl rfl (by decide),
    by decide⟩

/-! ## C17: the completion callback of a manual TRIM -/

/-- C17: when the zio ended with `ENXIO` and the leaf is not writeable,
`vdev_trim_cb` sets the slot `vdev_trim_offset[io_txg & TXG_MASK]` to the
minimum of its value and `io_offset` and changes neither `vs_trim_errors` nor
`vdev_trim_bytes_done`; in every other case it leaves all slots as they were,
adds `io_orig_size` to `vdev_trim_bytes_done` and adds 1 to `vs_trim_errors`
exactly when `io_error` is not 0; so a slot differs afterwards only in the
first case. In both cases the manual inflight counter goes down by exactly 1
and the autotrim counter stays. The counters are taken within their `uint64_t`
range, and the manual inflight counter above 0 as the callback asserts it. -/
theorem vdev_trim_cb_rewind_or_account (P : zfs_params) (zio : zio_t) (io_error : Nat)
    (spa : spa_t)
    (hin : 0 < spa.vd.vdev_trim_inflight TRIM_TYPE_MANUAL)
    (hin2 : spa.vd.vdev_trim_inflight TRIM_TYPE_MANUAL < 18446744073709551616)
    (hdone : spa.vd.vdev_trim_bytes_done + zio.io_orig_size < 18446744073709551616)
    (herr : spa.vd.vs_trim_errors + 1 < 18446744073709551616) :
    (io_error = ENXIO ∧ spa.vd.vdev_writeable = false →
      (vdev_trim_cb P zio io_error spa).vd.vdev_trim_offset =
        Function.update spa.vd.vdev_trim_offset (Nat.land zio.io_txg P.TXG_MASK)
          (min (spa.vd.vdev_trim_offset (Nat.land zio.io_txg P.TXG_MASK)) zio.io_offset) ∧
      (vdev_trim_cb P zio io_error spa).vd.vs_trim_errors = spa.vd.vs_trim_errors ∧
      (vdev_trim_cb P zio io_error spa).vd.vdev_trim_bytes_done =
        spa.vd.vdev_trim_bytes_done) ∧
    (¬ (io_error = ENXIO ∧ spa.vd.vdev_writeable = false) →
      (vdev_trim_cb P zio io_error spa).vd.vdev_trim_offset = spa.vd.vdev_trim_offset ∧
      (vdev_trim_cb P zio io_error spa).vd.vdev_trim_bytes_done =
        spa.vd.vdev_trim_bytes_done + zio.io_orig_size ∧
      (vdev_trim_cb P zio io_error spa).vd.vs_trim_errors =
        spa.vd.vs_trim_errors + (if io_error ≠ 0 then 1 else 0)) ∧
    ((vdev_trim_cb P zio io_error spa).vd.vdev_trim_offset ≠ spa.vd.vdev_trim_offset →
      io_error = ENXIO ∧ spa.vd.vdev_writeable = false) ∧
    (vdev_trim_cb P zio io_error spa).vd.vdev_trim_inflight TRIM_TYPE_MANUAL + 1 =
      spa.vd.vdev_trim_inflight TRIM_TYPE_MANUAL ∧
    (vdev_trim_cb P zio io_error spa).vd.vdev_trim_inflight TRIM_TYPE_AUTO =
      spa.vd.vdev_trim_inflight TRIM_TYPE_AUTO := by
  have e1 : u64_sub (spa.vd.vdev_trim_inflight TRIM_TYPE_MANUAL) 1 + 1 =
      spa.vd.vdev_trim_inflight TRIM_TYPE_MANUAL := by unfold u64_sub; omega
  have e2 : u64_add spa.vd.vdev_trim_bytes_done zio.io_orig_size =
      spa.vd.vdev_trim_bytes_done + zio.io_orig_size := by unfold u64_add; omega
  have e3 : u64_add spa.vd.vs_trim_errors 1 = spa.vd.vs_trim_errors + 1 := by
    unfold u64_add; omega
  have hnot : ¬ (io_error = ENXIO ∧ spa.vd.vdev_writeable = false) →
      (vdev_trim_cb P zio io_error spa).vd.vdev_trim_offset = spa.vd.vdev_trim_offset := by
    intro hc
    unfold vdev_trim_cb
    dsimp only
    rw [if_neg hc]
    by_cases he : io_error ≠ 0
    · rw [if_pos he]; rfl
    · rw [if_neg he]; rfl
  refine ⟨fun hc => ?_, fun hc => ⟨hnot hc, ?_, ?_⟩, fun hne => ?_, ?_, ?_⟩
  · unfold vdev_trim_cb
    dsimp only
    rw [if_pos hc]
    exact ⟨rfl, rfl, rfl⟩
  · unfold vdev_trim_cb
    dsimp only
    rw [if_neg hc]
    by_cases he : io_error ≠ 0
    · rw [if_pos he]; exact e2
    · rw [if_neg he]; exact e2
  · unfold vdev_trim_cb
    dsimp only
    rw [if_neg hc]
    by_cases he : io_error ≠ 0
    · rw [if_pos he, if_pos he]; exact e3
    · rw [if_neg he, if_neg he]; rfl
  · by_contra hc
    exact hne (hnot hc)
  · have hq := vdev_trim_cb_queue P zio io_error spa
    unfold queue_view at hq
    simp only [Prod.mk.injEq] at hq
    rw [hq.1, Function.update_same]
    exact e1
  · have hq := vdev_trim_cb_queue P zio io_error spa
    unfold queue_view at hq
    simp only [Prod.mk.injEq] at hq
    rw [hq.1, Function.update_noteq (by decide)]

/-- C17 on the first chunk of the healthy leaf, which ends with `EIO` (5) while
the leaf is writeable; by evaluation, on the same chunk ending with `ENXIO`
on the leaf made unwriteable, which takes the slot back to the offset of the
chunk. -/
theorem vdev_trim_cb_rewind_or_account_witness :
    ((5 = ENXIO ∧ spa_first_chunk.vd.vdev_writeable = false →
        (vdev_trim_cb params_4m zio_first 5 spa_first_chunk).vd.vdev_trim_offset =
          Function.update spa_first_chunk.vd.vdev_trim_offset
            (Nat.land zio_first.io_txg params_4m.TXG_MASK)
            (min (spa_first_chunk.vd.vdev_trim_offset
              (Nat.land zio_first.io_txg params_4m.TXG_MASK)) zio_first.io_offset) ∧
        (vdev_trim_cb params_4m zio_first 5 spa_first_chunk).vd.vs_trim_errors =
          spa_first_chunk.vd.vs_trim_errors ∧
        (vdev_trim_cb params_4m zio_first 5 spa_first_chunk).vd.vdev_trim_bytes_done =
          spa_first_chunk.vd.vdev_trim_bytes_done) ∧
      (¬ (5 = ENXIO ∧ spa_first_chunk.vd.vdev_writeable = false) →
        (vdev_trim_cb params_4m zio_first 5 spa_first_chunk).vd.vdev_trim_offset =
          spa_first_chunk.vd.vdev_trim_offset ∧
        (vdev_trim_cb params_4m zio_first 5 spa_first_chunk).vd.vdev_trim_bytes_done =
          spa_first_chunk.vd.vdev_trim_bytes_done + zio_first.io_orig_size ∧
        (vdev_trim_cb params_4m zio_first 5 spa_first_chunk).vd.vs_trim_errors =
          spa_first_chunk.vd.vs_trim_errors + (if 5 ≠ 0 then 1 else 0)) ∧
      ((vdev_trim_cb params_4m zio_first 5 spa_first_chunk).vd.vdev_trim_offset ≠
          spa_first_chunk.vd.vdev_trim_offset →
        5 = ENXIO ∧ spa_first_chunk.vd.vdev_writeable = false) ∧
      (vdev_trim_cb params_4m zio_first 5 spa_first_chunk).vd.vdev_trim_inflight
          TRIM_TYPE_MANUAL + 1 =
        spa_first_chunk.vd.vdev_trim_inflight TRIM_TYPE_MANUAL ∧
      (vdev_trim_cb params_4m zio_first 5 spa_first_chunk).vd.vdev_trim_inflight
          TRIM_TYPE_AUTO =
        spa_first_chunk.vd.vdev_trim_inflight TRIM_TYPE_AUTO) ∧
    ((fun s : spa_t => (s.vd.vdev_trim_offset 3, s.vd.vdev_trim_bytes_done,
          s.vd.vs_trim_errors, s.vd.vdev_trim_inflight TRIM_TYPE_MANUAL))
        (vdev_trim_cb params_4m zio_first 5 spa_first_chunk),
      (fun s : spa_t => (s.vd.vdev_trim_offset 3, s.vd.vdev_trim_bytes_done,
          s.vd.vs_trim_errors, s.vd.vdev_trim_inflight TRIM_TYPE_MANUAL))
        (vdev_trim_cb params_4m zio_first 6
          { spa_first_chunk with vd := { spa_first_chunk.vd with
              vdev_writeable := false } })) =
      ((138412032, 134217728, 1, 0), (4194304, 0, 0, 0)) :=
  ⟨vdev_trim_cb_rewind_or_account params_4m zio_first 5 spa_first_chunk
    (by decide) (by decide) (by decide) (by decide), by decide⟩

/-! ## C18: the settings a state change keeps -/

/-- C18 as stated fails: on a leaf whose state is `VDEV_TRIM_ACTIVE`, which is
not `VDEV_TRIM_COMPLETE`, `vdev_trim_change_state(leaf, Active, 1048576, 1, 1)`
returns at the test `new_state == vd->vdev_trim_state`: the rate, the partial
and the secure setting stay 0, no sync task is registered and no event is
posted. -/
theorem vdev_trim_change_state_active_keeps_rate :
    (spa_of vd_active zap_empty).vd.vdev_trim_state ≠ VDEV_TRIM_COMPLETE ∧
      (vdev_trim_change_state (spa_of vd_active zap_empty)
          VDEV_TRIM_ACTIVE 1048576 1 1 200 7).map
        (fun spa => (trim_settings spa.vd, spa.sync_tasks.length, spa.events.length)) =
      some ((0, 0, 0, 0), 0, 0) := by
  decide

/-- C18, amended: for a leaf whose state is neither `VDEV_TRIM_COMPLETE` nor
`VDEV_TRIM_ACTIVE`, `vdev_trim_change_state(leaf, Active, rate, partial,
secure)` returns with the rate equal to `rate` if `rate` is not 0 and unchanged
otherwise, likewise the partial and the secure setting, and with the last
offset unchanged; a call whose new state is the state of the leaf changes
nothing at all; and for every new state other than Active the call leaves the
four settings unchanged whatever arguments are passed, and it returns unless
the new state is `VDEV_TRIM_NONE`. -/
theorem vdev_trim_change_state_settings_frame (spa : spa_t) (new_state : vdev_trim_state_t)
    (rate part secure now txg : Nat) :
    (new_state = VDEV_TRIM_ACTIVE → spa.vd.vdev_trim_state ≠ VDEV_TRIM_COMPLETE →
      spa.vd.vdev_trim_state ≠ VDEV_TRIM_ACTIVE →
      ∃ spa1, vdev_trim_change_state spa new_state rate part secure now txg = some spa1 ∧
        spa1.vd.vdev_trim_rate = (if rate ≠ 0 then rate else spa.vd.vdev_trim_rate) ∧
        spa1.vd.vdev_trim_partial = (if part ≠ 0 then part else spa.vd.vdev_trim_partial) ∧
        spa1.vd.vdev_trim_secure = (if secure ≠ 0 then secure else spa.vd.vdev_trim_secure) ∧
        spa1.vd.vdev_trim_last_offset = spa.vd.vdev_trim_last_offset) ∧
    (new_state = spa.vd.vdev_trim_state →
      vdev_trim_change_state spa new_state rate part secure now txg = some spa) ∧
    (new_state ≠ VDEV_TRIM_ACTIVE →
      (new_state ≠ VDEV_TRIM_NONE →
        ∃ spa1, vdev_trim_change_state spa new_state rate part secure now txg = some spa1) ∧
      ∀ spa1, vdev_trim_change_state spa new_state rate part secure now txg = some spa1 →
        spa1.vd.vdev_trim_rate = spa.vd.vdev_trim_rate ∧
        spa1.vd.vdev_trim_partial = spa.vd.vdev_trim_partial ∧
        spa1.vd.vdev_trim_secure = spa.vd.vdev_trim_secure ∧
        spa1.vd.vdev_trim_last_offset = spa.vd.vdev_trim_last_offset) := by
  refine ⟨fun hn hc ha => ?_, fun he => ?_, fun hn => ⟨fun h0 => ?_, fun spa1 h => ?_⟩⟩
  · obtain ⟨spa1, h⟩ := vdev_trim_change_state_returns spa new_state rate part secure now txg
      (by rw [hn]; decide)
    have hs := vdev_trim_change_state_settings spa spa1 new_state rate part secure now txg h
    rw [if_neg (by rw [hn]; exact fun hx => ha hx.symm),
      vdev_trim_change_state_vd_settings, if_pos hn, if_neg hc] at hs
    unfold trim_settings at hs
    simp only [Prod.mk.injEq] at hs
    exact ⟨spa1, h, hs.2.1, hs.2.2.1, hs.2.2.2, hs.1⟩
  · unfold vdev_trim_change_state
    rw [if_pos he]
  · exact vdev_trim_change_state_returns spa new_state rate part secure now txg h0
  · have hs := vdev_trim_change_state_settings spa spa1 new_state rate part secure now txg h
    rw [vdev_trim_change_state_vd_settings, if_neg hn, ite_self] at hs
    unfold trim_settings at hs
    simp only [Prod.mk.injEq] at hs
    exact ⟨hs.2.1, hs.2.2.1, hs.2.2.2, hs.1⟩

/-- C18, amended, on the suspended leaf: activation with a new rate stores the
rate and leaves the partial and secure settings and the last offset alone. -/
theorem vdev_trim_change_state_settings_frame_witness :
    ∃ spa1, vdev_trim_change_state spa_suspended VDEV_TRIM_ACTIVE 2097152 0 0 1000 10 =
        some spa1 ∧
      spa1.vd.vdev_trim_rate = (if 2097152 ≠ 0 then 2097152 else spa_suspended.vd.vdev_trim_rate) ∧
      spa1.vd.vdev_trim_partial = (if 0 ≠ 0 then 0 else spa_suspended.vd.vdev_trim_partial) ∧
      spa1.vd.vdev_trim_secure = (if 0 ≠ 0 then 0 else spa_suspended.vd.vdev_trim_secure) ∧
      spa1.vd.vdev_trim_last_offset = spa_suspended.vd.vdev_trim_last_offset :=
  (vdev_trim_change_state_settings_frame spa_suspended VDEV_TRIM_ACTIVE 2097152 0 0 1000 10).1
    rfl (by decide) (by decide)

/-! ## C19: what the walk callback inserts -/

/-- C19: for a translated range `[ps, pe)` with `ps ≤ pe` and a leaf with
last offset `l`, `vdev_trim_range_add` calls `range_tree_add` exactly when the
range of `range_add_spec` is not empty, and then with that range: `[max ps l,
pe)` for a manual job with `l < pe`, nothing for a manual job with `pe ≤ l`,
and `[ps, pe)` for an autotrim job, which ignores `l`. The bytes of the working
tree afterwards are the bytes before and the bytes of that range; the range
lies in `[ps, pe)`, and an empty range leaves the job as it was. -/
theorem vdev_trim_range_add_inserts (vd : vdev_t) (ta : trim_args_t)
    (start size ps pe : Nat)
    (hx : vd.vdev_xlate ⟨start, u64_add start size⟩ = ⟨ps, pe⟩)
    (hle : ps ≤ pe) (hpe : pe < 18446744073709551616)
    (hwf : ∀ rs ∈ ta.trim_tree, rs.rs_start ≤ rs.rs_end) :
    (ps ≤ (range_add_spec ta.trim_type vd.vdev_trim_last_offset ps pe).1 ∧
      (range_add_spec ta.trim_type vd.vdev_trim_last_offset ps pe).2 ≤ pe) ∧
    vdev_trim_range_add vd ta start size =
      (if (range_add_spec ta.trim_type vd.vdev_trim_last_offset ps pe).1 <
          (range_add_spec ta.trim_type vd.vdev_trim_last_offset ps pe).2 then
        (range_tree_add ta.trim_tree
          (range_add_spec ta.trim_type vd.vdev_trim_last_offset ps pe).1
          ((range_add_spec ta.trim_type vd.vdev_trim_last_offset ps pe).2 -
            (range_add_spec ta.trim_type vd.vdev_trim_last_offset ps pe).1)).map
          (fun t => { ta with trim_tree := t })
      else some ta) ∧
    ∀ ta1, vdev_trim_range_add vd ta start size = some ta1 →
      ∀ x, tree_mem x ta1.trim_tree ↔ tree_mem x ta.trim_tree ∨
        ((range_add_spec ta.trim_type vd.vdev_trim_last_offset ps pe).1 ≤ x ∧
          x < (range_add_spec ta.trim_type vd.vdev_trim_last_offset ps pe).2) := by
  have heq := vdev_trim_range_add_eq vd ta start size ps pe hx hle hpe
  have hb := range_add_spec_within ta.trim_type vd.vdev_trim_last_offset ps pe hle
  refine ⟨⟨hb.1, hb.2.1⟩, heq, fun ta1 h x => ?_⟩
  rw [heq] at h
  generalize (range_add_spec ta.trim_type vd.vdev_trim_last_offset ps pe) = r at h ⊢
  by_cases hlt : r.1 < r.2
  · rw [if_pos hlt] at h
    cases h1 : range_tree_add ta.trim_tree r.1 (r.2 - r.1) with
    | none => rw [h1] at h; cases h
    | some t =>
      rw [h1] at h
      injection h with h
      subst h
      have := (range_tree_add_mem _ _ _ t hwf h1).2 x
      rw [this]
      have e : r.1 + (r.2 - r.1) = r.2 := by omega
      rw [e]
  · rw [if_neg hlt] at h
    injection h with h
    subst h
    constructor
    · exact fun h => Or.inl h
    · rintro (h | ⟨h1, h2⟩)
      · exact h
      · omega

/-- C19 on a manual job of a leaf with last offset 1000 and the range
`[500, 1500)`: the tree gets `[1000, 1500)`. -/
theorem vdev_trim_range_add_inserts_witness :
    ((500 ≤ (range_add_spec (ta_manual []).trim_type 1000 500 1500).1 ∧
        (range_add_spec (ta_manual []).trim_type 1000 500 1500).2 ≤ 1500) ∧
      vdev_trim_range_add { vd_active with vdev_trim_last_offset := 1000 } (ta_manual [])
          500 1000 =
        (if (range_add_spec (ta_manual []).trim_type 1000 500 1500).1 <
            (range_add_spec (ta_manual []).trim_type 1000 500 1500).2 then
          (range_tree_add (ta_manual []).trim_tree
            (range_add_spec (ta_manual []).trim_type 1000 500 1500).1
            ((range_add_spec (ta_manual []).trim_type 1000 500 1500).2 -
              (range_add_spec (ta_manual []).trim_type 1000 500 1500).1)).map
            (fun t => { ta_manual [] with trim_tree := t })
        else some (ta_manual [])) ∧
      ∀ ta1, vdev_trim_range_add { vd_active with vdev_trim_last_offset := 1000 }
          (ta_manual []) 500 1000 = some ta1 →
        ∀ x, tree_mem x ta1.trim_tree ↔ tree_mem x (ta_manual []).trim_tree ∨
          ((range_add_spec (ta_manual []).trim_type 1000 500 1500).1 ≤ x ∧
            x < (range_add_spec (ta_manual []).trim_type 1000 500 1500).2)) ∧
    (vdev_trim_range_add { vd_active with vdev_trim_last_offset := 1000 } (ta_manual [])
        500 1000).map (fun t => t.trim_tree) = some [⟨1000, 1500⟩] :=
  ⟨vdev_trim_range_add_inserts { vd_active with vdev_trim_last_offset := 1000 }
    (ta_manual []) 500 1000 500 1500 rfl (by decide) (by decide)
    (fun _ h => by cases h), by decide⟩

/-! ## C20: a sync task whose leaf is out of reach -/

/-- C20: when the guid of the sync task no longer resolves to the leaf, or the
top-level vdev of the leaf is being removed, or the leaf is not concrete,
`vdev_trim_zap_update_sync` returns the state it was given: no field of the
leaf, the slot of the txg and the last offset included, and no key of the leaf
ZAP is written. -/
theorem vdev_trim_zap_update_sync_unresolved (P : zfs_params) (guid txg : Nat) (spa : spa_t)
    (h : spa.vdev_freed = true ∨ guid ≠ spa.vd.vdev_guid ∨
      spa.vd.vdev_top_removing = true ∨ spa.vd.vdev_is_concrete = false) :
    vdev_trim_zap_update_sync P guid txg spa = some spa :=
  vdev_trim_zap_update_sync_skip P guid txg spa h

/-- C20 on the healthy leaf after its first chunk, freed before the sync task
of txg 7 fires. -/
theorem vdev_trim_zap_update_sync_unresolved_witness :
    (({ spa_first_chunk with vdev_freed := true } : spa_t).vdev_freed = true ∨
        1 ≠ ({ spa_first_chunk with vdev_freed := true } : spa_t).vd.vdev_guid ∨
        ({ spa_first_chunk with vdev_freed := true } : spa_t).vd.vdev_top_removing = true ∨
        ({ spa_first_chunk with vdev_freed := true } : spa_t).vd.vdev_is_concrete = false) ∧
      vdev_trim_zap_update_sync params_4m 1 7 { spa_first_chunk with vdev_freed := true } =
        some { spa_first_chunk with vdev_freed := true } :=
  ⟨Or.inl rfl,
    vdev_trim_zap_update_sync_unresolved params_4m 1 7
      { spa_first_chunk with vdev_freed := true } (Or.inl rfl)⟩

/-! ## C21: a call of `vdev_trim_range` stops or issues -/

theorem vdev_trim_range_gate_inflight (P : zfs_params) (ta : trim_args_t) (spa spa2 : spa_t)
    (h : vdev_trim_range_gate P ta spa = some spa2) :
    spa2.vd.vdev_trim_inflight = Function.update spa.vd.vdev_trim_inflight ta.trim_type
        (u64_add (spa.vd.vdev_trim_inflight ta.trim_type) 1) ∧
      spa2.zios = spa.zios ∧ spa2.vd.vdev_trim_offset = spa.vd.vdev_trim_offset := by
  unfold vdev_trim_range_gate at h
  split_ifs at h
  cases h
  exact ⟨rfl, rfl, rfl⟩

theorem vdev_trim_range_issue_stop (P : zfs_params) (ta : trim_args_t) (start size txg : Nat)
    (spa : spa_t) (hs : vdev_trim_should_stop spa.vd = true) :
    (vdev_trim_range_issue P ta start size txg spa).1 = EINTR ∧
      (vdev_trim_range_issue P ta start size txg spa).2.zios = spa.zios ∧
      (vdev_trim_range_issue P ta start size txg spa).2.vd.vdev_trim_offset =
        spa.vd.vdev_trim_offset ∧
      (vdev_trim_range_issue P ta start size txg spa).2.vd.vdev_trim_inflight =
        Function.update spa.vd.vdev_trim_inflight ta.trim_type
          (u64_sub (spa.vd.vdev_trim_inflight ta.trim_type) 1) := by
  unfold vdev_trim_range_issue
  by_cases h0 : ta.trim_type = TRIM_TYPE_MANUAL ∧
      spa.vd.vdev_trim_offset (Nat.land txg P.TXG_MASK) = 0
  · simp only [if_pos h0, hs, if_true]
    refine ⟨?_, ?_, ?_, ?_⟩ <;> trivial
  · simp only [if_neg h0, hs, if_true]
    refine ⟨?_, ?_, ?_, ?_⟩ <;> trivial

theorem vdev_trim_range_issue_go (P : zfs_params) (ta : trim_args_t) (start size txg : Nat)
    (spa : spa_t) (hs : vdev_trim_should_stop spa.vd = false) :
    (vdev_trim_range_issue P ta start size txg spa).1 = 0 ∧
      (vdev_trim_range_issue P ta start size txg spa).2.zios = spa.zios ++
        [{ io_offset := start, io_orig_size := size, io_txg := txg,
           io_trim_type := ta.trim_type, io_trim_flags := ta.trim_flags,
           io_done := false }] ∧
      (vdev_trim_range_issue P ta start size txg spa).2.vd.vdev_trim_offset =
        (if ta.trim_type = TRIM_TYPE_MANUAL then
          Function.update spa.vd.vdev_trim_offset (Nat.land txg P.TXG_MASK)
            (u64_add start size)
        else spa.vd.vdev_trim_offset) ∧
      (vdev_trim_range_issue P ta start size txg spa).2.vd.vdev_trim_inflight =
        spa.vd.vdev_trim_inflight := by
  unfold vdev_trim_range_issue
  by_cases h0 : ta.trim_type = TRIM_TYPE_MANUAL ∧
      spa.vd.vdev_trim_offset (Nat.land txg P.TXG_MASK) = 0
  · simp only [if_pos h0, hs, if_pos h0.1]
    refine ⟨?_, ?_, ?_, ?_⟩ <;> trivial
  · by_cases h1 : ta.trim_type = TRIM_TYPE_MANUAL
    · simp only [if_neg h0, hs, if_pos h1]
      refine ⟨?_, ?_, ?_, ?_⟩ <;> trivial
    · simp only [if_neg h0, hs, if_neg h1]
      refine ⟨?_, ?_, ?_, ?_⟩ <;> trivial

/-- C21: take a call of `vdev_trim_range` that, after the steps `before` of the
other threads, passes the queue gate in the state `spa1`, where it raises
`vdev_trim_inflight[type]`, and that makes its check of `vdev_trim_should_stop`
(exit wanted, or not writeable, or detached, or top-level vdev in removal) in
the state `spa3`. The call returns. If the check holds it returns `EINTR`,
submits no zio and writes no slot of `vdev_trim_offset`, and its decrement
undoes its increment: when no other thread moved the counters in between, both
are what they were at the gate. If the check does not hold it returns 0,
submits exactly the zio `(start, size)` of its type, flags and txg, leaves
`vdev_trim_inflight[type]` one higher, and writes `start + size` (as a
`uint64_t`) to the slot `txg & TXG_MASK` for a manual job and no slot for an
autotrim job. -/
theorem vdev_trim_range_stops_or_issues (P : zfs_params) (env : Nat → trim_call_env)
    (ta : trim_args_t) (start size : Nat) (spa spa1 spa2 spa3 : spa_t)
    (h1 : trim_interfere P (env spa.trim_calls.length).before
      { spa with trim_calls := spa.trim_calls ++ [(start, size)] } = some spa1)
    (h2 : vdev_trim_range_gate P ta spa1 = some spa2)
    (h3 : trim_interfere P (env spa.trim_calls.length).during spa2 = some spa3) :
    ∃ error spa4, vdev_trim_range P env ta start size spa = some (error, spa4) ∧
      (vdev_trim_should_stop spa3.vd = true ↔
        (spa3.vd.vdev_trim_exit_wanted = true ∨ spa3.vd.vdev_writeable = false ∨
          spa3.vd.vdev_detached = true ∨ spa3.vd.vdev_top_removing = true)) ∧
      (vdev_trim_should_stop spa3.vd = true →
        error = EINTR ∧ spa4.zios = spa3.zios ∧
        spa4.vd.vdev_trim_offset = spa3.vd.vdev_trim_offset ∧
        (spa3.vd.vdev_trim_inflight = spa2.vd.vdev_trim_inflight →
          spa1.vd.vdev_trim_inflight ta.trim_type < UINT64_MAX →
          spa4.vd.vdev_trim_inflight = spa1.vd.vdev_trim_inflight)) ∧
      (vdev_trim_should_stop spa3.vd = false →
        error = 0 ∧
        spa4.zios = spa3.zios ++
          [{ io_offset := start, io_orig_size := size,
             io_txg := (env spa.trim_calls.length).txg,
             io_trim_type := ta.trim_type, io_trim_flags := ta.trim_flags,
             io_done := false }] ∧
        (ta.trim_type = TRIM_TYPE_MANUAL →
          spa4.vd.vdev_trim_offset =
            Function.update spa3.vd.vdev_trim_offset
              (Nat.land (env spa.trim_calls.length).txg P.TXG_MASK)
              ((start + size) % 18446744073709551616)) ∧
        (ta.trim_type = TRIM_TYPE_AUTO →
          spa4.vd.vdev_trim_offset = spa3.vd.vdev_trim_offset) ∧
        (spa3.vd.vdev_trim_inflight = spa2.vd.vdev_trim_inflight →
          spa1.vd.vdev_trim_inflight ta.trim_type < UINT64_MAX →
          spa4.vd.vdev_trim_inflight =
            Function.update spa1.vd.vdev_trim_inflight ta.trim_type
              (spa1.vd.vdev_trim_inflight ta.trim_type + 1))) := by
  have hcall : vdev_trim_range P env ta start size spa =
      some (vdev_trim_range_issue P ta start size (env spa.trim_calls.length).txg spa3) := by
    unfold vdev_trim_range
    dsimp only
    rw [h1]
    dsimp only
    rw [h2]
    dsimp only
    rw [h3]
  obtain ⟨g1, _, _⟩ := vdev_trim_range_gate_inflight P ta spa1 spa2 h2
  have hinc : spa1.vd.vdev_trim_inflight ta.trim_type < UINT64_MAX →
      u64_add (spa1.vd.vdev_trim_inflight ta.trim_type) 1 =
        spa1.vd.vdev_trim_inflight ta.trim_type + 1 := by
    intro hlt
    unfold UINT64_MAX at hlt
    unfold u64_add
    omega
  have hstop := vdev_trim_range_issue_stop P ta start size (env spa.trim_calls.length).txg spa3
  have hgo := vdev_trim_range_issue_go P ta start size (env spa.trim_calls.length).txg spa3
  generalize vdev_trim_range_issue P ta start size (env spa.trim_calls.length).txg spa3 = r
    at hcall hstop hgo
  obtain ⟨error, spa4⟩ := r
  dsimp only at hstop hgo
  refine ⟨error, spa4, hcall, ?_, ?_, ?_⟩
  · unfold vdev_trim_should_stop
    cases spa3.vd.vdev_trim_exit_wanted <;> cases spa3.vd.vdev_writeable <;>
      cases spa3.vd.vdev_detached <;> cases spa3.vd.vdev_top_removing <;> simp
  · intro hs
    obtain ⟨e1, e2, e3, e4⟩ := hstop hs
    refine ⟨e1, e2, e3, fun hq hlt => ?_⟩
    rw [e4, hq, g1, hinc hlt]
    funext t
    by_cases ht : t = ta.trim_type
    · subst ht
      simp only [Function.update_same]
      unfold UINT64_MAX at hlt
      unfold u64_sub
      omega
    · simp only [Function.update_noteq ht]
  · intro hs
    obtain ⟨e1, e2, e3, e4⟩ := hgo hs
    refine ⟨e1, e2, fun hm => ?_, fun ha => ?_, fun hq hlt => ?_⟩
    · rw [e3, if_pos hm]; rfl
    · rw [e3, if_neg (by rw [ha]; exact fun hc => by cases hc)]
    · rw [e4, hq, g1, hinc hlt]

/-- C21 on the first chunk of the healthy leaf, which goes out in txg 7: the
call returns 0 and leaves the leaf with the zio in flight; and, by evaluation,
the same call for a leaf that is not writeable returns `EINTR`, with no zio,
both counters 0 and the slot of txg 7 untouched. -/
theorem vdev_trim_range_stops_or_issues_witness :
    (trim_interfere params_4m (env_quiet (spa_of vd_active zap_empty).trim_calls.length).before
        { spa_of vd_active zap_empty with
          trim_calls := (spa_of vd_active zap_empty).trim_calls ++ [(4194304, 134217728)] } =
        some { spa_of vd_active zap_empty with trim_calls := [(4194304, 134217728)] } ∧
      vdev_trim_range_gate params_4m (ta_manual [])
          { spa_of vd_active zap_empty with trim_calls := [(4194304, 134217728)] } =
        some { spa_of
            { vd_active with
              vdev_trim_inflight := Function.update (fun _ => 0) TRIM_TYPE_MANUAL 1 }
            zap_empty with
          trim_calls := [(4194304, 134217728)] } ∧
      trim_interfere params_4m (env_quiet (spa_of vd_active zap_empty).trim_calls.length).during
          { spa_of
              { vd_active with
                vdev_trim_inflight := Function.update (fun _ => 0) TRIM_TYPE_MANUAL 1 }
              zap_empty with
            trim_calls := [(4194304, 134217728)] } =
        some { spa_of
            { vd_active with
              vdev_trim_inflight := Function.update (fun _ => 0) TRIM_TYPE_MANUAL 1 }
            zap_empty with
          trim_calls := [(4194304, 134217728)] }) ∧
    (∃ error spa4, vdev_trim_range params_4m env_quiet (ta_manual []) 4194304 134217728
        (spa_of vd_active zap_empty) = some (error, spa4) ∧ error = 0 ∧
      spa4.zios = [zio_first]) ∧
    vdev_trim_range params_4m env_quiet (ta_manual []) 4194304 134217728
        (spa_of vd_active zap_empty) =
      some (0, { spa_first_chunk with trim_calls := [(4194304, 134217728)] }) ∧
    (vdev_trim_range params_4m env_quiet (ta_manual []) 4194304 134217728
      (spa_of { vd_active with vdev_writeable := false } zap_empty)).map
      (fun r => (r.1, r.2.zios, r.2.vd.vdev_trim_inflight TRIM_TYPE_MANUAL,
        r.2.vd.vdev_trim_inflight TRIM_TYPE_AUTO, r.2.vd.vdev_trim_offset 3)) =
    some (EINTR, [], 0, 0, 0) :=
  ⟨⟨rfl, rfl, rfl⟩,
    (by
      obtain ⟨error, spa4, hc, _, _, hgo⟩ :=
        vdev_trim_range_stops_or_issues params_4m env_quiet (ta_manual []) 4194304 134217728
          (spa_of vd_active zap_empty)
          { spa_of vd_active zap_empty with trim_calls := [(4194304, 134217728)] }
          { spa_of
              { vd_active with
                vdev_trim_inflight := Function.update (fun _ => 0) TRIM_TYPE_MANUAL 1 }
              zap_empty with
            trim_calls := [(4194304, 134217728)] }
          { spa_of
              { vd_active with
                vdev_trim_inflight := Function.update (fun _ => 0) TRIM_TYPE_MANUAL 1 }
              zap_empty with
            trim_calls := [(4194304, 134217728)] }
          rfl rfl rfl
      exact ⟨error, spa4, hc, (hgo rfl).1, (hgo rfl).2.1⟩),
    rfl, (by decide)⟩

/-! ## The events of the autotrim worker -/

theorem ranges_ok_append (a b : List autotrim_event_t) :
    ranges_ok (a ++ b) = (ranges_ok a || ranges_ok b) := by
  unfold ranges_ok
  rw [List.any_append]

theorem autotrim_visits_append (a b : List autotrim_event_t) :
    autotrim_visits (a ++ b) = autotrim_visits a ++ autotrim_visits b := by
  unfold autotrim_visits
  rw [List.filterMap_append]

theorem vdev_autotrim_thread_issue_events (P : zfs_params) (env : autotrim_env) (i : Nat) :
    ∀ (l : List (autotrim_vdev_t × Option trim_args_t)) (c : Nat) (issued_trim : Bool)
      (r : Bool × List autotrim_vdev_t × List autotrim_event_t),
      vdev_autotrim_thread_issue P env i c l issued_trim = some r →
      (∀ e ∈ r.2.2, ∃ c1 error chunks, e = autotrim_event_t.ranges c1 error chunks) ∧
        r.1 = (issued_trim || ranges_ok r.2.2) := by
  intro l
  induction l with
  | nil =>
    intro c issued_trim r h
    rw [vdev_autotrim_thread_issue] at h
    cases h
    exact ⟨fun e he => (by cases he), (by simp [ranges_ok])⟩
  | cons hd rest ih =>
    intro c issued_trim r h
    obtain ⟨cvd, tree⟩ := hd
    unfold vdev_autotrim_thread_issue at h
    dsimp only at h
    cases tree with
    | none =>
      dsimp only at h
      cases h1 : vdev_autotrim_thread_issue P env i (c + 1) rest issued_trim with
      | none => rw [h1] at h; cases h
      | some r1 =>
        obtain ⟨a, kids, evs⟩ := r1
        rw [h1] at h
        cases h
        exact ih (c + 1) issued_trim (a, kids, evs) h1
    | some ta =>
      dsimp only at h
      split_ifs at h with hth
      · cases h1 : vdev_autotrim_thread_issue P env i (c + 1) rest issued_trim with
        | none => rw [h1] at h; cases h
        | some r1 =>
          obtain ⟨a, kids, evs⟩ := r1
          rw [h1] at h
          cases h
          exact ih (c + 1) issued_trim (a, kids, evs) h1
      · cases h2 : vdev_trim_ranges P (env.calls c) ta (env.child_at i c cvd).spa with
        | none => rw [h2] at h; cases h
        | some r2 =>
          obtain ⟨error, spa1⟩ := r2
          rw [h2] at h
          dsimp only at h
          by_cases he : error ≠ 0
          · rw [if_pos he] at h
            cases h
            refine ⟨fun e hm => ?_, ?_⟩
            · simp only [List.mem_singleton] at hm
              exact ⟨_, _, _, hm⟩
            · simp [ranges_ok, autotrim_event_t.returned_zero, he]
          · rw [if_neg he] at h
            cases h1 : vdev_autotrim_thread_issue P env i (c + 1) rest true with
            | none => rw [h1] at h; cases h
            | some r1 =>
              obtain ⟨a, kids, evs⟩ := r1
              rw [h1] at h
              cases h
              obtain ⟨i1, i2⟩ := ih (c + 1) true (a, kids, evs) h1
              refine ⟨fun e hm => ?_, ?_⟩
              · rcases List.mem_cons.mp hm with hm | hm
                · exact ⟨_, _, _, hm⟩
                · exact i1 e hm
              · have he0 : error = 0 := not_not.mp he
                dsimp only at i2 ⊢
                rw [i2]
                simp [ranges_ok, autotrim_event_t.returned_zero, he0]

theorem autotrim_set_tap_frame (tvd : autotrim_top_t) (l : List autotrim_vdev_t) :
    (tvd.set_tap l).vdev_ms = tvd.vdev_ms ∧ (tvd.set_tap l).events = tvd.events := by
  unfold autotrim_top_t.set_tap
  split_ifs <;> exact ⟨rfl, rfl⟩

theorem vdev_autotrim_thread_ms_events (P : zfs_params) (env : autotrim_env) (i : Nat)
    (issued_trim : Bool) (tvd : autotrim_top_t) (r : Bool × autotrim_top_t)
    (h : vdev_autotrim_thread_ms P env i issued_trim tvd = some r) :
    r.2.vdev_ms.length = tvd.vdev_ms.length ∧
      ((r.1 = issued_trim ∧ r.2.events = tvd.events ++ [autotrim_event_t.skipped i]) ∨
        ∃ evs, (∀ e ∈ evs, ∃ c error chunks, e = autotrim_event_t.ranges c error chunks) ∧
          r.1 = (issued_trim || ranges_ok evs) ∧
          r.2.events = tvd.events ++ evs ++ [autotrim_event_t.enabled i r.1]) := by
  unfold vdev_autotrim_thread_ms at h
  cases hm : tvd.vdev_ms[i]? with
  | none => rw [hm] at h; cases h
  | some msp =>
    rw [hm] at h
    dsimp only at h
    by_cases c1 : (metaslab_disable msp).ms_sm = false ∨ (metaslab_disable msp).ms_trim = []
    · rw [if_pos c1] at h
      cases h
      exact ⟨List.length_set _ _ _, Or.inl ⟨rfl, rfl⟩⟩
    · rw [if_neg c1] at h
      by_cases c2 : (metaslab_disable msp).ms_disabled > 1
      · rw [if_pos c2] at h
        cases h
        exact ⟨List.length_set _ _ _, Or.inl ⟨rfl, rfl⟩⟩
      · rw [if_neg c2] at h
        cases ht : tvd.tap.mapM (vdev_autotrim_thread_tree P (metaslab_disable msp).ms_trim) with
        | none => rw [ht] at h; cases h
        | some trees =>
          rw [ht] at h
          dsimp only at h
          cases hi : vdev_autotrim_thread_issue P env i 0 (tvd.tap.zip trees) issued_trim with
          | none => rw [hi] at h; cases h
          | some r1 =>
            obtain ⟨issued1, kids, evs⟩ := r1
            rw [hi] at h
            dsimp only at h
            split_ifs at h
            cases h
            obtain ⟨i1, i2⟩ := vdev_autotrim_thread_issue_events P env i _ _ _ _ hi
            exact ⟨List.length_set _ _ _, Or.inr ⟨evs, i1, i2, rfl⟩⟩

theorem mem_stride_from (t n i j : Nat) :
    j ∈ stride_from t n i ↔ j < n ∧ i ≤ j ∧ j % t = i % t := by
  unfold stride_from
  simp [List.mem_filter, List.mem_range]

theorem stride_from_sorted (t n i : Nat) : List.Sorted (· < ·) (stride_from t n i) :=
  List.Sorted.filter _ (List.sorted_lt_range n)

theorem stride_from_done (t n i : Nat) (h : ¬ i < n) : stride_from t n i = [] := by
  apply List.eq_nil_iff_forall_not_mem.mpr
  intro j hj
  rw [mem_stride_from] at hj
  omega

theorem stride_step (t i j : Nat) (h1 : 1 ≤ t) :
    (i ≤ j ∧ j % t = i % t) ↔ (j = i ∨ (i + t ≤ j ∧ j % t = (i + t) % t)) := by
  rw [Nat.add_mod_right]
  constructor
  · rintro ⟨hle, hmod⟩
    by_cases hji : j = i
    · exact Or.inl hji
    · refine Or.inr ⟨?_, hmod⟩
      have hd : t ∣ j - i := (Nat.modEq_iff_dvd' hle).mp hmod.symm
      have hpos : 0 < j - i := by omega
      have := Nat.le_of_dvd hpos hd
      omega
  · rintro (h | ⟨hle, hmod⟩)
    · subst h; exact ⟨Nat.le_refl _, rfl⟩
    · exact ⟨by omega, hmod⟩

theorem stride_from_cons (t n i : Nat) (h1 : 1 ≤ t) (h : i < n) :
    stride_from t n i = i :: stride_from t n (i + t) := by
  have hs : List.Sorted (· < ·) (i :: stride_from t n (i + t)) := by
    rw [List.sorted_cons]
    refine ⟨fun b hb => ?_, stride_from_sorted _ _ _⟩
    rw [mem_stride_from] at hb
    omega
  refine List.eq_of_perm_of_sorted ?_ (stride_from_sorted _ _ _) hs
  rw [List.perm_ext_iff_of_nodup (stride_from_sorted _ _ _).nodup hs.nodup]
  intro j
  rw [List.mem_cons, mem_stride_from, mem_stride_from]
  have := stride_step t i j h1
  constructor
  · rintro ⟨a, b, c⟩
    rcases this.mp ⟨b, c⟩ with e | ⟨e1, e2⟩
    · exact Or.inl e
    · exact Or.inr ⟨a, e1, e2⟩
  · rintro (e | ⟨a, e1, e2⟩)
    · subst e
      exact ⟨h, Nat.le_refl _, rfl⟩
    · obtain ⟨b, c⟩ := this.mpr (Or.inr ⟨e1, e2⟩)
      exact ⟨a, b, c⟩

theorem stride_from_start (t n p : Nat) :
    stride_from t n (p % t) = pass_indices_spec n t p := by
  unfold stride_from pass_indices_spec
  apply List.filter_congr
  intro j _
  rw [Nat.mod_mod]
  by_cases hj : j % t = p % t
  · have : p % t ≤ j := by rw [← hj]; exact Nat.mod_le _ _
    simp [hj, this]
  · simp [hj]

theorem pass_indices_spec_cycle (n t p0 : Nat) (h1 : 1 ≤ t) :
    List.Perm ((List.range t).flatMap (fun k => pass_indices_spec n t (p0 + k)))
      (List.range n) := by
  rw [List.perm_ext_iff_of_nodup ?_ (List.nodup_range n)]
  · intro j
    rw [List.mem_flatMap, List.mem_range]
    constructor
    · rintro ⟨k, _, hk⟩
      unfold pass_indices_spec at hk
      rw [List.mem_filter, List.mem_range] at hk
      exact hk.1
    · intro hj
      refine ⟨(j + (t - p0 % t)) % t, List.mem_range.mpr (Nat.mod_lt _ h1), ?_⟩
      unfold pass_indices_spec
      rw [List.mem_filter, List.mem_range]
      refine ⟨hj, ?_⟩
      rw [decide_eq_true_eq]
      have hp : p0 % t < t := Nat.mod_lt _ h1
      calc j % t = (j + t) % t := (Nat.add_mod_right _ _).symm
        _ = (p0 % t + (j + (t - p0 % t))) % t := by congr 1; omega
        _ = (p0 + (j + (t - p0 % t)) % t) % t := by
          rw [Nat.add_mod (p0 % t), Nat.mod_mod,
            Nat.add_mod p0 ((j + (t - p0 % t)) % t), Nat.mod_mod]
  · rw [List.nodup_flatMap]
    refine ⟨fun k _ => List.Nodup.filter _ (List.nodup_range n), ?_⟩
    refine List.Pairwise.imp_of_mem ?_ (List.nodup_range t)
    intro a b ha hb hab
    rw [Function.onFun, List.disjoint_left]
    intro j hja hjb
    unfold pass_indices_spec at hja hjb
    rw [List.mem_filter, decide_eq_true_eq] at hja hjb
    rw [List.mem_range] at ha hb
    have e : (p0 + a) % t = (p0 + b) % t := hja.2.symm.trans hjb.2
    have e2 : a % t = b % t := Nat.ModEq.add_left_cancel' p0 e
    rw [Nat.mod_eq_of_lt ha, Nat.mod_eq_of_lt hb] at e2
    exact hab e2

theorem flags_follow_nil (ok : Bool) : flags_follow ok [] := by
  intro pre i flag post h
  cases pre <;> cases h

theorem flags_follow_append (ok : Bool) (a b : List autotrim_event_t)
    (ha : flags_follow ok a) (hb : flags_follow (ok || ranges_ok a) b) :
    flags_follow ok (a ++ b) := by
  intro pre i flag post h
  rcases List.append_eq_append_iff.mp h with ⟨a1, h1, h2⟩ | ⟨c1, h1, h2⟩
  · rw [hb a1 i flag post h2, h1, ranges_ok_append, Bool.or_assoc]
  · cases c1 with
    | nil =>
      rw [List.append_nil] at h1
      rw [List.nil_append] at h2
      rw [hb [] i flag post h2.symm, h1]
      simp [ranges_ok]
    | cons e c2 =>
      rw [List.cons_append] at h2
      injection h2 with h3 h4
      subst h3
      exact ha pre i flag c2 h1

theorem ranges_events_view (evs : List autotrim_event_t)
    (h : ∀ e ∈ evs, ∃ c error chunks, e = autotrim_event_t.ranges c error chunks) :
    autotrim_visits evs = [] ∧ (∀ ok, flags_follow ok evs) ∧
      autotrim_event_t.delay ∉ evs := by
  refine ⟨?_, fun ok pre i flag post he => ?_, fun hd => ?_⟩
  · unfold autotrim_visits
    rw [List.filterMap_eq_nil_iff]
    intro e he
    obtain ⟨c, error, chunks, rfl⟩ := h e he
    rfl
  · have hm : autotrim_event_t.enabled i flag ∈ evs := by
      rw [he]; exact List.mem_append_right _ (List.mem_cons_self _ _)
    obtain ⟨c, error, chunks, hc⟩ := h _ hm
    cases hc
  · obtain ⟨c, error, chunks, hc⟩ := h _ hd
    cases hc

theorem vdev_autotrim_thread_ms_summary (P : zfs_params) (env : autotrim_env) (i : Nat)
    (issued_trim : Bool) (tvd : autotrim_top_t) (r : Bool × autotrim_top_t)
    (h : vdev_autotrim_thread_ms P env i issued_trim tvd = some r) :
    r.2.vdev_ms.length = tvd.vdev_ms.length ∧
      ∃ evs, r.2.events = tvd.events ++ evs ∧ autotrim_visits evs = [i] ∧
        flags_follow issued_trim evs ∧ r.1 = (issued_trim || ranges_ok evs) ∧
        autotrim_event_t.delay ∉ evs := by
  obtain ⟨hl, hcase⟩ := vdev_autotrim_thread_ms_events P env i issued_trim tvd r h
  refine ⟨hl, ?_⟩
  rcases hcase with ⟨h1, h2⟩ | ⟨evs, h1, h2, h3⟩
  · refine ⟨[autotrim_event_t.skipped i], h2, rfl, ?_, ?_, ?_⟩
    · intro pre j flag post he
      cases pre with
      | nil => cases he
      | cons x pre1 =>
        injection he with _ he2
        cases pre1 <;> cases he2
    · rw [h1]; simp [ranges_ok, autotrim_event_t.returned_zero]
    · intro hd
      cases List.mem_singleton.mp hd
  · obtain ⟨v1, v2, v3⟩ := ranges_events_view evs h1
    refine ⟨evs ++ [autotrim_event_t.enabled i r.1], by rw [h3, List.append_assoc], ?_, ?_, ?_, ?_⟩
    · rw [autotrim_visits_append, v1]; rfl
    · apply flags_follow_append _ _ _ (v2 _)
      intro pre j flag post he
      cases pre with
      | nil =>
        injection he with he1 _
        injection he1 with _ he3
        rw [← he3, h2]
        simp [ranges_ok]
      | cons x pre1 =>
        injection he with _ he2
        cases pre1 <;> cases he2
    · rw [ranges_ok_append, h2]
      simp [ranges_ok, autotrim_event_t.returned_zero]
    · intro hd
      rcases List.mem_append.mp hd with hd | hd
      · exact v3 hd
      · cases List.mem_singleton.mp hd

theorem vdev_autotrim_thread_ms_loop_visits (P : zfs_params) (env : autotrim_env)
    (T : Int) (t : Nat) (ht : int_to_u64 T = t) (h1 : 1 ≤ t) :
    ∀ (fuel i : Nat) (issued_trim : Bool) (tvd : autotrim_top_t),
      tvd.vdev_ms.length + t ≤ 18446744073709551616 →
      tvd.vdev_ms.length - i + 1 ≤ fuel →
      (∀ r, vdev_autotrim_thread_ms_loop P env T fuel i issued_trim tvd = some r →
        r.2.vdev_ms.length = tvd.vdev_ms.length ∧
        ∃ evs, r.2.events = tvd.events ++ evs ∧
          autotrim_visits evs = stride_from t tvd.vdev_ms.length i) ∧
      (vdev_autotrim_thread_ms_loop P env T fuel i issued_trim tvd = none →
        ∃ j b s, j ∈ stride_from t tvd.vdev_ms.length i ∧
          vdev_autotrim_thread_ms P env j b s = none) := by
  intro fuel
  induction fuel with
  | zero =>
    intro i issued_trim tvd _ hf
    omega
  | succ f ih =>
    intro i issued_trim tvd hn hf
    rw [vdev_autotrim_thread_ms_loop]
    by_cases hi : i < tvd.vdev_ms.length
    · rw [if_neg (not_not.mpr hi)]
      have hmem : i ∈ stride_from t tvd.vdev_ms.length i := by
        rw [mem_stride_from]; exact ⟨hi, Nat.le_refl _, rfl⟩
      cases hb : vdev_autotrim_thread_ms P env i issued_trim tvd with
      | none =>
        dsimp only
        exact ⟨fun r hr => (by cases hr), fun _ => ⟨i, issued_trim, tvd, hmem, hb⟩⟩
      | some r1 =>
        obtain ⟨issued1, tvd1⟩ := r1
        dsimp only
        obtain ⟨hl, evs1, e1, e2, _⟩ :=
          vdev_autotrim_thread_ms_summary P env i issued_trim tvd _ hb
        dsimp only at hl e1
        have hstep : u64_add i (int_to_u64 T) = i + t := by
          rw [ht]
          unfold u64_add
          exact Nat.mod_eq_of_lt (by omega)
        rw [hstep]
        obtain ⟨ihA, ihB⟩ := ih (i + t) issued1 tvd1 (by rw [hl]; exact hn)
          (by rw [hl]; omega)
        rw [hl] at ihA ihB
        refine ⟨fun r hr => ?_, fun hnone => ?_⟩
        · obtain ⟨a1, evs2, a2, a3⟩ := ihA r hr
          refine ⟨a1, evs1 ++ evs2, by rw [a2, e1, List.append_assoc], ?_⟩
          rw [autotrim_visits_append, e2, a3, stride_from_cons t _ i h1 hi]
          rfl
        · obtain ⟨j, b, s, hj, hjb⟩ := ihB hnone
          refine ⟨j, b, s, ?_, hjb⟩
          rw [stride_from_cons t _ i h1 hi]
          exact List.mem_cons_of_mem _ hj
    · rw [if_pos hi]
      refine ⟨fun r hr => ?_, fun hnone => (by cases hnone)⟩
      cases hr
      refine ⟨rfl, [], by simp, ?_⟩
      rw [stride_from_done t _ i hi]
      rfl

theorem txgs_per_trim_pos (batch : Int) : 1 ≤ (max batch 1).toNat := by
  have : (1 : Int) ≤ max batch 1 := le_max_right _ _
  omega

theorem int_to_u64_stride (batch : Int) (hb : batch < 2147483648) :
    int_to_u64 (max batch 1) = (max batch 1).toNat := by
  have h1 : (1 : Int) ≤ max batch 1 := le_max_right _ _
  have h2 : max batch 1 < 2147483648 := max_lt hb (by decide)
  unfold int_to_u64
  generalize max batch 1 = T at h1 h2
  omega

theorem int_to_u64_start (batch p : Int) (hb : batch < 2147483648) (hp : 0 ≤ p) :
    int_to_u64 (Int.tmod p (max batch 1)) = p.toNat % (max batch 1).toNat := by
  have h1 : (1 : Int) ≤ max batch 1 := le_max_right _ _
  have h2 : max batch 1 < 2147483648 := max_lt hb (by decide)
  generalize max batch 1 = T at h1 h2
  rw [Int.tmod_eq_emod hp (by omega)]
  obtain ⟨pn, rfl⟩ := Int.eq_ofNat_of_zero_le hp
  obtain ⟨tn, rfl⟩ := Int.eq_ofNat_of_zero_le (show (0 : Int) ≤ T by omega)
  have hlt : pn % tn < tn := Nat.mod_lt _ (by omega)
  unfold int_to_u64
  rw [Int.ofNat_mod_ofNat]
  simp only [Int.toNat_ofNat]
  omega

theorem vdev_autotrim_thread_pass_summary (P : zfs_params) (env : autotrim_env) (p : Int)
    (tvd : autotrim_top_t) (hp : 0 ≤ p) (hb : P.zfs_trim_txg_batch < 2147483648)
    (hn : tvd.vdev_ms.length < 9223372036854775808) :
    (∀ r, vdev_autotrim_thread_pass P env p tvd = some r →
      r.1 = int_inc p ∧ r.2.vdev_ms.length = tvd.vdev_ms.length ∧
      ∃ evs, r.2.events = tvd.events ++ evs ∧
        autotrim_visits evs =
          pass_indices_spec tvd.vdev_ms.length (max P.zfs_trim_txg_batch 1).toNat p.toNat) ∧
    (vdev_autotrim_thread_pass P env p tvd = none →
      ∃ j b s,
        j ∈ pass_indices_spec tvd.vdev_ms.length (max P.zfs_trim_txg_batch 1).toNat p.toNat ∧
        vdev_autotrim_thread_ms P env j b s = none) := by
  have h1 := txgs_per_trim_pos P.zfs_trim_txg_batch
  have h2 : (max P.zfs_trim_txg_batch 1).toNat < 2147483648 := by
    have : max P.zfs_trim_txg_batch 1 < 2147483648 := max_lt hb (by decide)
    omega
  obtain ⟨hA, hB⟩ := vdev_autotrim_thread_ms_loop_visits P env (max P.zfs_trim_txg_batch 1)
    (max P.zfs_trim_txg_batch 1).toNat (int_to_u64_stride _ hb) h1
    (tvd.vdev_ms.length + 1) (p.toNat % (max P.zfs_trim_txg_batch 1).toNat) false tvd
    (by omega) (by omega)
  rw [stride_from_start] at hA hB
  unfold vdev_autotrim_thread_pass
  dsimp only
  rw [int_to_u64_start _ _ hb hp]
  cases hl : vdev_autotrim_thread_ms_loop P env (max P.zfs_trim_txg_batch 1)
      (tvd.vdev_ms.length + 1) (p.toNat % (max P.zfs_trim_txg_batch 1).toNat) false tvd with
  | none =>
    dsimp only
    exact ⟨fun r hr => (by cases hr), fun _ => hB hl⟩
  | some r1 =>
    obtain ⟨issued, tvd1⟩ := r1
    dsimp only
    refine ⟨fun r hr => ?_, fun hnone => (by cases hnone)⟩
    obtain ⟨a1, evs, a2, a3⟩ := hA _ hl
    dsimp only at a1 a2
    cases hr
    dsimp only
    cases issued with
    | false =>
      rw [if_pos rfl]
      refine ⟨rfl, a1, evs ++ [autotrim_event_t.delay], by rw [a2, List.append_assoc], ?_⟩
      rw [autotrim_visits_append, a3]
      simp [autotrim_visits, autotrim_event_t.visit]
    | true =>
      rw [if_neg (by decide)]
      exact ⟨rfl, a1, evs, a2, a3⟩

theorem vdev_autotrim_thread_ms_loop_flags (P : zfs_params) (env : autotrim_env) (T : Int) :
    ∀ (fuel i : Nat) (issued_trim : Bool) (tvd : autotrim_top_t) (r : Bool × autotrim_top_t),
      vdev_autotrim_thread_ms_loop P env T fuel i issued_trim tvd = some r →
      ∃ evs, r.2.events = tvd.events ++ evs ∧ flags_follow issued_trim evs ∧
        r.1 = (issued_trim || ranges_ok evs) ∧ autotrim_event_t.delay ∉ evs := by
  intro fuel
  induction fuel with
  | zero =>
    intro i issued_trim tvd r h
    rw [vdev_autotrim_thread_ms_loop] at h
    cases h
  | succ f ih =>
    intro i issued_trim tvd r h
    rw [vdev_autotrim_thread_ms_loop] at h
    by_cases hi : i < tvd.vdev_ms.length
    · rw [if_neg (not_not.mpr hi)] at h
      cases hb : vdev_autotrim_thread_ms P env i issued_trim tvd with
      | none => rw [hb] at h; cases h
      | some r1 =>
        obtain ⟨issued1, tvd1⟩ := r1
        rw [hb] at h
        dsimp only at h
        obtain ⟨_, evs1, e1, _, e3, e4, e5⟩ :=
          vdev_autotrim_thread_ms_summary P env i issued_trim tvd _ hb
        dsimp only at e1 e4
        obtain ⟨evs2, a2, a4, a5, a6⟩ := ih _ _ _ _ h
        refine ⟨evs1 ++ evs2, by rw [a2, e1, List.append_assoc], ?_, ?_, ?_⟩
        · apply flags_follow_append _ _ _ e3
          rw [← e4]; exact a4
        · rw [a5, e4, ranges_ok_append, Bool.or_assoc]
        · intro hd
          rcases List.mem_append.mp hd with hd | hd
          · exact e5 hd
          · exact a6 hd
    · rw [if_pos hi] at h
      cases h
      exact ⟨[], by simp, flags_follow_nil _, by simp [ranges_ok], by simp⟩

theorem vdev_autotrim_thread_pass_flags (P : zfs_params) (env : autotrim_env) (shift : Int)
    (tvd : autotrim_top_t) (r : Int × autotrim_top_t)
    (h : vdev_autotrim_thread_pass P env shift tvd = some r) :
    ∃ evs, r.2.events = tvd.events ++ evs ∧ flags_follow false evs ∧
      (autotrim_event_t.delay ∈ evs ↔ ranges_ok evs = false) := by
  unfold vdev_autotrim_thread_pass at h
  dsimp only at h
  cases hl : vdev_autotrim_thread_ms_loop P env (max P.zfs_trim_txg_batch 1)
      (tvd.vdev_ms.length + 1) (int_to_u64 (Int.tmod shift (max P.zfs_trim_txg_batch 1)))
      false tvd with
  | none => rw [hl] at h; cases h
  | some r1 =>
    obtain ⟨issued, tvd1⟩ := r1
    rw [hl] at h
    dsimp only at h
    obtain ⟨evs, a2, a4, a5, a6⟩ := vdev_autotrim_thread_ms_loop_flags P env _ _ _ _ _ _ hl
    dsimp only at a2 a5
    cases h
    dsimp only
    cases issued with
    | false =>
      rw [if_pos rfl]
      have hok : ranges_ok evs = false := by
        rw [Bool.false_or] at a5; exact a5.symm
      refine ⟨evs ++ [autotrim_event_t.delay], by rw [a2, List.append_assoc], ?_, ?_⟩
      · apply flags_follow_append _ _ _ a4
        intro pre i flag post he
        cases pre with
        | nil => cases he
        | cons x pre1 =>
          injection he with _ he2
          cases pre1 <;> cases he2
      · rw [ranges_ok_append, hok]
        simp [ranges_ok, autotrim_event_t.returned_zero]
    | true =>
      rw [if_neg (by decide)]
      have hok : ranges_ok evs = true := by
        rw [Bool.false_or] at a5; exact a5.symm
      refine ⟨evs, a2, a4, ?_⟩
      rw [hok]
      simp [a6]

theorem vdev_trim_ranges_segs_all_skipped (P : zfs_params) (env : Nat → trim_call_env)
    (ta : trim_args_t) :
    ∀ (tree : List range_seg_t) (spa : spa_t),
      (∀ rs ∈ tree, ta.trim_extent_bytes_min ≠ 0 ∧
        u64_sub rs.rs_end rs.rs_start < ta.trim_extent_bytes_min) →
      ∃ spa1, vdev_trim_ranges_segs P env ta tree spa = some (0, spa1) ∧
        spa1.trim_calls = spa.trim_calls ∧ spa1.zios = spa.zios := by
  intro tree
  induction tree with
  | nil =>
    intro spa _
    exact ⟨spa, rfl, rfl, rfl⟩
  | cons rs rest ih =>
    intro spa h
    rw [vdev_trim_ranges_segs]
    unfold vdev_trim_ranges_seg
    dsimp only
    rw [if_pos (h rs (List.mem_cons_self _ _))]
    dsimp only
    rw [if_neg (fun hc => hc rfl)]
    obtain ⟨spa1, e1, e2, e3⟩ := ih
      (spa_iostats_trim_add spa ta.trim_type 0 0 1 (u64_sub rs.rs_end rs.rs_start) 0 0)
      (fun r hr => h r (List.mem_cons_of_mem _ hr))
    exact ⟨spa1, e1, e2, e3⟩

/-! ## C22: the flag `issued_trim` -/

/-- C22, the code at the two failing inputs. On a top-level leaf with one
metaslab whose only recently freed segment has 4096 bytes, below the minimum of
32 KiB, a pass hands no chunk to `vdev_trim_range` and submits no zio, yet it
passes `B_TRUE` to `metaslab_enable` and does not wait. On the same leaf with a
freed segment of 256 MiB, when the leaf stops being writeable during the second
call of `vdev_trim_range`, two chunks were handed over and one zio was
submitted, yet the pass passes `B_FALSE` and waits. The flag follows the return
value of `vdev_trim_ranges`, not the TRIM commands issued, which is what the
comment above `delay(hz)` and the name of the flag say it records. -/
theorem vdev_autotrim_thread_flag_is_not_chunks :
    (vdev_autotrim_thread_pass params_4m env_auto 0 (tvd_leaf [ms_freed [⟨0, 4096⟩]])).map
        (fun r => (r.2.events, r.2.vdev_self.spa.trim_calls, r.2.vdev_self.spa.zios)) =
      some ([autotrim_event_t.ranges 0 0 0, autotrim_event_t.enabled 0 true], [], []) ∧
    chunk_handed [autotrim_event_t.ranges 0 0 0] = false ∧
    (vdev_autotrim_thread_pass params_4m env_auto_fault 0
        (tvd_leaf [ms_freed [⟨0, 268435456⟩]])).map
        (fun r => (r.2.events, r.2.vdev_self.spa.trim_calls,
          r.2.vdev_self.spa.zios.length)) =
      some ([autotrim_event_t.ranges 0 EINTR 2, autotrim_event_t.enabled 0 false,
          autotrim_event_t.delay],
        [(4194304, 134217728), (138412032, 134217728)], 1) ∧
    chunk_handed [autotrim_event_t.ranges 0 EINTR 2] = true := by
  refine ⟨?_, ?_, ?_, ?_⟩ <;> decide

/-! ## C23: the metaslabs of a pass -/

theorem vdev_autotrim_thread_ms_loop_fold (P : zfs_params) (env : autotrim_env)
    (T : Int) (t : Nat) (ht : int_to_u64 T = t) (h1 : 1 ≤ t) :
    ∀ (fuel i : Nat) (issued_trim : Bool) (tvd : autotrim_top_t),
      tvd.vdev_ms.length + t ≤ 18446744073709551616 →
      tvd.vdev_ms.length - i + 1 ≤ fuel →
      vdev_autotrim_thread_ms_loop P env T fuel i issued_trim tvd =
        (stride_from t tvd.vdev_ms.length i).foldlM
          (fun st j => vdev_autotrim_thread_ms P env j st.1 st.2) (issued_trim, tvd) := by
  intro fuel
  induction fuel with
  | zero =>
    intro i issued_trim tvd _ hf
    omega
  | succ f ih =>
    intro i issued_trim tvd hn hf
    rw [vdev_autotrim_thread_ms_loop]
    by_cases hi : i < tvd.vdev_ms.length
    · rw [if_neg (not_not.mpr hi), stride_from_cons t _ i h1 hi, List.foldlM_cons]
      cases hb : vdev_autotrim_thread_ms P env i issued_trim tvd with
      | none => rfl
      | some r1 =>
        obtain ⟨issued1, tvd1⟩ := r1
        dsimp only
        obtain ⟨hl, _⟩ := vdev_autotrim_thread_ms_summary P env i issued_trim tvd _ hb
        dsimp only at hl
        have hstep : u64_add i (int_to_u64 T) = i + t := by
          rw [ht]
          unfold u64_add
          exact Nat.mod_eq_of_lt (by omega)
        rw [hstep, ih (i + t) issued1 tvd1 (by rw [hl]; exact hn) (by rw [hl]; omega), hl]
        rfl
    · rw [if_pos hi, stride_from_done t _ i hi]
      rfl

theorem vdev_autotrim_thread_pass_fold (P : zfs_params) (env : autotrim_env) (p : Int)
    (tvd : autotrim_top_t) (hp : 0 ≤ p) (hb : P.zfs_trim_txg_batch < 2147483648)
    (hn : tvd.vdev_ms.length < 9223372036854775808) :
    vdev_autotrim_thread_ms_loop P env (max P.zfs_trim_txg_batch 1) (tvd.vdev_ms.length + 1)
        (int_to_u64 (Int.tmod p (max P.zfs_trim_txg_batch 1))) false tvd =
      (pass_indices_spec tvd.vdev_ms.length (max P.zfs_trim_txg_batch 1).toNat p.toNat).foldlM
        (fun st j => vdev_autotrim_thread_ms P env j st.1 st.2) (false, tvd) := by
  have h1 := txgs_per_trim_pos P.zfs_trim_txg_batch
  have h2 : (max P.zfs_trim_txg_batch 1).toNat < 2147483648 := by
    have : max P.zfs_trim_txg_batch 1 < 2147483648 := max_lt hb (by decide)
    omega
  rw [int_to_u64_start _ _ hb hp,
    vdev_autotrim_thread_ms_loop_fold P env (max P.zfs_trim_txg_batch 1)
      (max P.zfs_trim_txg_batch 1).toNat (int_to_u64_stride _ hb) h1
      (tvd.vdev_ms.length + 1) (p.toNat % (max P.zfs_trim_txg_batch 1).toNat) false tvd
      (by omega) (by omega), stride_from_start]

/-- The loop body on a metaslab without a space map or without recently freed
segments re-enables the metaslab and goes on. -/
theorem vdev_autotrim_thread_ms_idle (P : zfs_params) (env : autotrim_env) (i : Nat)
    (issued_trim : Bool) (tvd : autotrim_top_t)
    (hidle : ∀ msp ∈ tvd.vdev_ms, msp.ms_sm = false ∨ msp.ms_trim = [])
    (hi : i < tvd.vdev_ms.length) :
    ∃ tvd1, vdev_autotrim_thread_ms P env i issued_trim tvd = some (issued_trim, tvd1) ∧
      tvd1.vdev_ms.length = tvd.vdev_ms.length ∧
      (∀ msp ∈ tvd1.vdev_ms, msp.ms_sm = false ∨ msp.ms_trim = []) := by
  unfold vdev_autotrim_thread_ms
  rw [List.getElem?_eq_getElem hi]
  dsimp only
  have hm := hidle _ (List.getElem_mem hi)
  have hc : (metaslab_disable tvd.vdev_ms[i]).ms_sm = false ∨
      (metaslab_disable tvd.vdev_ms[i]).ms_trim = [] := hm
  rw [if_pos hc]
  refine ⟨_, rfl, List.length_set _ _ _, fun msp hmsp => ?_⟩
  dsimp only at hmsp
  rcases List.mem_or_eq_of_mem_set hmsp with h | h
  · exact hidle msp h
  · rw [h]; exact hm

theorem vdev_autotrim_thread_fold_idle (P : zfs_params) (env : autotrim_env) :
    ∀ (l : List Nat) (issued_trim : Bool) (tvd : autotrim_top_t),
      (∀ msp ∈ tvd.vdev_ms, msp.ms_sm = false ∨ msp.ms_trim = []) →
      (∀ j ∈ l, j < tvd.vdev_ms.length) →
      ∃ tvd1, l.foldlM (fun st j => vdev_autotrim_thread_ms P env j st.1 st.2)
          (issued_trim, tvd) = some (issued_trim, tvd1) := by
  intro l
  induction l with
  | nil => intro b tvd _ _; exact ⟨tvd, rfl⟩
  | cons j rest ih =>
    intro b tvd hidle hl
    obtain ⟨tvd1, e1, e2, e3⟩ := vdev_autotrim_thread_ms_idle P env j b tvd hidle
      (hl j (List.mem_cons_self _ _))
    rw [List.foldlM_cons, e1]
    exact ih b tvd1 e3 (fun k hk => by rw [e2]; exact hl k (List.mem_cons_of_mem _ hk))

/-- C23. For a value of `zfs_trim_txg_batch` that is an `int`, a counter
`shift = p ≥ 0` and fewer than `2 ^ 63` metaslabs, with
`T = max(zfs_trim_txg_batch, 1)`: `T` is positive, so the modulus is never zero.
The pass is the loop body run for the metaslabs `i < n` with `i mod T = p mod T`,
each once and in increasing order, followed by the `delay(hz)` when the flag is
still false and by `shift++`: the loop ends after the last of these metaslabs,
and the pass returns whenever the loop bodies return, with exactly these
metaslabs re-enabled. On a vdev all of whose metaslabs have no space map or no
recently freed segment every loop body returns, so the pass returns. The
metaslabs of `T` passes in a row are each metaslab below `n` exactly once. -/
theorem vdev_autotrim_thread_pass_visits (P : zfs_params) (env : autotrim_env) (p : Int)
    (tvd : autotrim_top_t) (hp : 0 ≤ p) (hb : P.zfs_trim_txg_batch < 2147483648)
    (hn : tvd.vdev_ms.length < 9223372036854775808) :
    0 < max P.zfs_trim_txg_batch 1 ∧
    vdev_autotrim_thread_pass P env p tvd =
      ((pass_indices_spec tvd.vdev_ms.length (max P.zfs_trim_txg_batch 1).toNat
          p.toNat).foldlM
        (fun st j => vdev_autotrim_thread_ms P env j st.1 st.2) (false, tvd)).map
        (fun r => (int_inc p,
          if r.1 = false then
            { r.2 with events := r.2.events ++ [autotrim_event_t.delay] }
          else r.2)) ∧
    (∀ evs, (vdev_autotrim_thread_pass P env p tvd).map (fun r => r.2.events) =
        some (tvd.events ++ evs) →
      autotrim_visits evs =
        pass_indices_spec tvd.vdev_ms.length (max P.zfs_trim_txg_batch 1).toNat p.toNat) ∧
    ((∀ msp ∈ tvd.vdev_ms, msp.ms_sm = false ∨ msp.ms_trim = []) →
      ∃ r evs, vdev_autotrim_thread_pass P env p tvd = some r ∧
        r.2.events = tvd.events ++ evs ∧
        autotrim_visits evs =
          pass_indices_spec tvd.vdev_ms.length (max P.zfs_trim_txg_batch 1).toNat p.toNat) ∧
    List.Sorted (· < ·)
      (pass_indices_spec tvd.vdev_ms.length (max P.zfs_trim_txg_batch 1).toNat p.toNat) ∧
    (∀ j, j ∈ pass_indices_spec tvd.vdev_ms.length (max P.zfs_trim_txg_batch 1).toNat
        p.toNat ↔
      j < tvd.vdev_ms.length ∧
        j % (max P.zfs_trim_txg_batch 1).toNat = p.toNat % (max P.zfs_trim_txg_batch 1).toNat) ∧
    (∀ p0 : Nat, List.Perm
      ((List.range (max P.zfs_trim_txg_batch 1).toNat).flatMap
        (fun k => pass_indices_spec tvd.vdev_ms.length (max P.zfs_trim_txg_batch 1).toNat
          (p0 + k)))
      (List.range tvd.vdev_ms.length)) := by
  obtain ⟨hA, _⟩ := vdev_autotrim_thread_pass_summary P env p tvd hp hb hn
  have hfold := vdev_autotrim_thread_pass_fold P env p tvd hp hb hn
  have hmem : ∀ j, j ∈ pass_indices_spec tvd.vdev_ms.length
      (max P.zfs_trim_txg_batch 1).toNat p.toNat ↔
      j < tvd.vdev_ms.length ∧
        j % (max P.zfs_trim_txg_batch 1).toNat =
          p.toNat % (max P.zfs_trim_txg_batch 1).toNat := by
    intro j
    unfold pass_indices_spec
    simp [List.mem_filter, List.mem_range]
  have heq : vdev_autotrim_thread_pass P env p tvd =
      ((pass_indices_spec tvd.vdev_ms.length (max P.zfs_trim_txg_batch 1).toNat
          p.toNat).foldlM
        (fun st j => vdev_autotrim_thread_ms P env j st.1 st.2) (false, tvd)).map
        (fun r => (int_inc p,
          if r.1 = false then
            { r.2 with events := r.2.events ++ [autotrim_event_t.delay] }
          else r.2)) := by
    unfold vdev_autotrim_thread_pass
    dsimp only
    rw [hfold]
    cases (pass_indices_spec tvd.vdev_ms.length (max P.zfs_trim_txg_batch 1).toNat
          p.toNat).foldlM
        (fun st j => vdev_autotrim_thread_ms P env j st.1 st.2) (false, tvd) with
    | none => rfl
    | some r => rfl
  refine ⟨lt_of_lt_of_le (by decide) (le_max_right _ _), heq, fun evs h => ?_,
    fun hidle => ?_, List.Sorted.filter _ (List.sorted_lt_range _), hmem,
    fun p0 => pass_indices_spec_cycle _ _ p0 (txgs_per_trim_pos _)⟩
  · cases hpass : vdev_autotrim_thread_pass P env p tvd with
    | none => rw [hpass] at h; cases h
    | some r =>
      rw [hpass] at h
      obtain ⟨_, _, evs1, e1, e2⟩ := hA r hpass
      have := Option.some.inj h
      dsimp only at this
      rw [e1] at this
      rw [← List.append_cancel_left this]
      exact e2
  · obtain ⟨tvd1, e1⟩ := vdev_autotrim_thread_fold_idle P env
      (pass_indices_spec tvd.vdev_ms.length (max P.zfs_trim_txg_batch 1).toNat p.toNat)
      false tvd hidle (fun j hj => ((hmem j).mp hj).1)
    rw [e1] at heq
    obtain ⟨_, _, evs1, a1, a2⟩ := hA _ heq
    exact ⟨_, evs1, heq, a1, a2⟩

/-- C23 on a leaf with five idle metaslabs, `zfs_trim_txg_batch = 2` and
`shift = 3`: the pass returns and has visited the metaslabs 1 and 3; and, by
evaluation, with `zfs_trim_txg_batch = -5` a pass visits every metaslab. -/
theorem vdev_autotrim_thread_pass_visits_witness :
    ((0 : Int) ≤ 3 ∧
      ({ params_4m with zfs_trim_txg_batch := 2 } : zfs_params).zfs_trim_txg_batch <
        2147483648 ∧
      (tvd_leaf [ms_freed [], ms_freed [], ms_freed [], ms_freed [], ms_freed []]).vdev_ms.length <
        9223372036854775808) ∧
    (vdev_autotrim_thread_pass { params_4m with zfs_trim_txg_batch := 2 } env_auto 3
        (tvd_leaf [ms_freed [], ms_freed [], ms_freed [], ms_freed [], ms_freed []])).map
        (fun r => (r.1, autotrim_visits r.2.events)) = some (4, [1, 3]) ∧
    (vdev_autotrim_thread_pass { params_4m with zfs_trim_txg_batch := -5 } env_auto 3
        (tvd_leaf [ms_freed [], ms_freed [], ms_freed []])).map
        (fun r => (r.1, autotrim_visits r.2.events)) = some (4, [0, 1, 2]) ∧
    pass_indices_spec 5 2 3 = [1, 3] ∧
    (∃ r evs, vdev_autotrim_thread_pass { params_4m with zfs_trim_txg_batch := 2 } env_auto 3
        (tvd_leaf [ms_freed [], ms_freed [], ms_freed [], ms_freed [], ms_freed []]) =
          some r ∧
      r.2.events =
        (tvd_leaf [ms_freed [], ms_freed [], ms_freed [], ms_freed [], ms_freed []]).events ++
          evs ∧
      autotrim_visits evs = pass_indices_spec 5 2 3) ∧
    List.Perm ((List.range 2).flatMap (fun k => pass_indices_spec 5 2 (3 + k)))
      (List.range 5) :=
  ⟨⟨by decide, by decide, by decide⟩, by decide, by decide, by decide,
    (vdev_autotrim_thread_pass_visits { params_4m with zfs_trim_txg_batch := 2 } env_auto 3
      (tvd_leaf [ms_freed [], ms_freed [], ms_freed [], ms_freed [], ms_freed []])
      (by decide) (by decide) (by decide)).2.2.2.1 (by decide),
    (vdev_autotrim_thread_pass_visits { params_4m with zfs_trim_txg_batch := 2 } env_auto 3
      (tvd_leaf [ms_freed [], ms_freed [], ms_freed [], ms_freed [], ms_freed []])
      (by decide) (by decide) (by decide)).2.2.2.2.2.2 3⟩

/-! ## C24: the lookups of `vdev_trim_load` -/

theorem vdev_trim_load_eq (spa : spa_t) :
    vdev_trim_load spa =
      match vdev_trim_calculate_progress { spa with vd := (vdev_trim_load_keys spa).2 } with
      | none => none
      | some spa1 => some ((vdev_trim_load_keys spa).1, spa1) := rfl

theorem vdev_trim_load_key_ok (spa : spa_t) (key : zap_key_t) (old : Nat)
    (h : zap_lookup_ok spa key) :
    vdev_trim_load_key spa key old = (0, zap_found spa key) := by
  unfold zap_found
  by_cases hf : spa.zap_fault key = 0
  · rw [if_pos hf]
    exact vdev_trim_load_key_found spa key old hf
  · rw [if_neg hf]
    unfold zap_lookup_ok at h
    unfold vdev_trim_load_key
    have hl : zap_lookup spa key = (spa.zap_fault key, 0) := by
      unfold zap_lookup
      rw [if_pos hf]
    rw [hl] at h ⊢
    dsimp only at h ⊢
    rcases h with h | h
    · exact absurd h hf
    · rw [if_neg hf, if_pos h]

theorem vdev_trim_load_key_err (spa : spa_t) (key : zap_key_t) (old : Nat)
    (h : ¬ zap_lookup_ok spa key) :
    vdev_trim_load_key spa key old = ((zap_lookup spa key).1, old) ∧
      (zap_lookup spa key).1 ≠ 0 := by
  unfold zap_lookup_ok at h
  unfold vdev_trim_load_key
  dsimp only
  have h0 : (zap_lookup spa key).1 ≠ 0 := fun hc => h (Or.inl hc)
  have h1 : (zap_lookup spa key).1 ≠ ENOENT := fun hc => h (Or.inr hc)
  rw [if_neg h0, if_neg h1]
  exact ⟨rfl, h0⟩

theorem vdev_trim_load_key_congr (spa spa1 : spa_t) (key : zap_key_t) (old : Nat)
    (h : zap_lookup spa1 key = zap_lookup spa key) :
    vdev_trim_load_key spa1 key old = vdev_trim_load_key spa key old := by
  unfold vdev_trim_load_key
  rw [h]

theorem vdev_trim_load_keys_frame (spa : spa_t) :
    (vdev_trim_load_keys spa).2 =
      { spa.vd with
        vdev_trim_last_offset := trim_setting (vdev_trim_load_keys spa).2 .LAST_OFFSET
        vdev_trim_rate := trim_setting (vdev_trim_load_keys spa).2 .RATE
        vdev_trim_partial := trim_setting (vdev_trim_load_keys spa).2 .PARTIAL
        vdev_trim_secure := trim_setting (vdev_trim_load_keys spa).2 .SECURE } := by
  unfold vdev_trim_load_keys
  dsimp only
  split_ifs <;> rfl

theorem vdev_trim_load_keys_idle (spa : spa_t)
    (hs : ¬ (spa.vd.vdev_trim_state = VDEV_TRIM_ACTIVE ∨
      spa.vd.vdev_trim_state = VDEV_TRIM_SUSPENDED)) :
    vdev_trim_load_keys spa = (0, spa.vd) := by
  unfold vdev_trim_load_keys
  dsimp only
  rw [if_neg hs]

theorem vdev_trim_load_keys_ok (spa : spa_t)
    (hs : spa.vd.vdev_trim_state = VDEV_TRIM_ACTIVE ∨
      spa.vd.vdev_trim_state = VDEV_TRIM_SUSPENDED)
    (hok : ∀ key, zap_lookup_ok spa key) :
    (vdev_trim_load_keys spa).1 = 0 ∧
      ∀ key, trim_setting (vdev_trim_load_keys spa).2 key = zap_found spa key := by
  unfold vdev_trim_load_keys
  dsimp only
  rw [if_pos hs]
  rw [vdev_trim_load_key_ok spa _ _ (hok _), vdev_trim_load_key_ok spa _ _ (hok _),
    vdev_trim_load_key_ok spa _ _ (hok _), vdev_trim_load_key_ok spa _ _ (hok _)]
  dsimp only
  rw [if_neg (fun h => h rfl), if_neg (fun h => h rfl), if_neg (fun h => h rfl)]
  refine ⟨rfl, fun key => ?_⟩
  cases key <;> rfl

theorem vdev_trim_load_keys_err (spa : spa_t)
    (hs : spa.vd.vdev_trim_state = VDEV_TRIM_ACTIVE ∨
      spa.vd.vdev_trim_state = VDEV_TRIM_SUSPENDED)
    (key : zap_key_t) (hbad : ¬ zap_lookup_ok spa key)
    (hok : ∀ j : zap_key_t, j.order < key.order → zap_lookup_ok spa j) :
    (vdev_trim_load_keys spa).1 = (zap_lookup spa key).1 ∧
      (∀ j : zap_key_t, j.order < key.order →
        trim_setting (vdev_trim_load_keys spa).2 j = zap_found spa j) ∧
      (∀ j : zap_key_t, key.order ≤ j.order →
        trim_setting (vdev_trim_load_keys spa).2 j = trim_setting spa.vd j) := by
  unfold vdev_trim_load_keys
  dsimp only
  rw [if_pos hs]
  cases key
  · obtain ⟨e, ne⟩ := vdev_trim_load_key_err spa .LAST_OFFSET spa.vd.vdev_trim_last_offset hbad
    rw [e]
    dsimp only
    rw [if_pos ne]
    refine ⟨rfl, fun j hj => ?_, fun j _ => ?_⟩
    · cases j <;> simp [zap_key_t.order] at hj
    · cases j <;> rfl
  · obtain ⟨e, ne⟩ := vdev_trim_load_key_err spa .RATE spa.vd.vdev_trim_rate hbad
    rw [vdev_trim_load_key_ok spa .LAST_OFFSET _ (hok _ (by decide))]
    dsimp only
    rw [if_neg (fun h => h rfl), e]
    dsimp only
    rw [if_pos ne]
    refine ⟨rfl, fun j hj => ?_, fun j hj => ?_⟩
    · cases j <;> first | rfl | simp [zap_key_t.order] at hj
    · cases j <;> first | rfl | simp [zap_key_t.order] at hj
  · obtain ⟨e, ne⟩ := vdev_trim_load_key_err spa .PARTIAL spa.vd.vdev_trim_partial hbad
    rw [vdev_trim_load_key_ok spa .LAST_OFFSET _ (hok _ (by decide)),
      vdev_trim_load_key_ok spa .RATE _ (hok _ (by decide))]
    dsimp only
    rw [if_neg (fun h => h rfl), if_neg (fun h => h rfl), e]
    dsimp only
    rw [if_pos ne]
    refine ⟨rfl, fun j hj => ?_, fun j hj => ?_⟩
    · cases j <;> first | rfl | simp [zap_key_t.order] at hj
    · cases j <;> first | rfl | simp [zap_key_t.order] at hj
  · obtain ⟨e, ne⟩ := vdev_trim_load_key_err spa .SECURE spa.vd.vdev_trim_secure hbad
    rw [vdev_trim_load_key_ok spa .LAST_OFFSET _ (hok _ (by decide)),
      vdev_trim_load_key_ok spa .RATE _ (hok _ (by decide)),
      vdev_trim_load_key_ok spa .PARTIAL _ (hok _ (by decide))]
    dsimp only
    rw [if_neg (fun h => h rfl), if_neg (fun h => h rfl), if_neg (fun h => h rfl), e]
    refine ⟨rfl, fun j hj => ?_, fun j hj => ?_⟩
    · cases j <;> first | rfl | simp [zap_key_t.order] at hj
    · cases j <;> first | rfl | simp [zap_key_t.order] at hj

theorem vdev_trim_load_keys_congr (spa spa1 : spa_t) (hvd : spa1.vd = spa.vd)
    (key : zap_key_t) (hbad : ¬ zap_lookup_ok spa key)
    (hz : ∀ j : zap_key_t, j.order ≤ key.order → zap_lookup spa1 j = zap_lookup spa j) :
    vdev_trim_load_keys spa1 = vdev_trim_load_keys spa := by
  unfold vdev_trim_load_keys
  dsimp only
  rw [hvd]
  by_cases hs : spa.vd.vdev_trim_state = VDEV_TRIM_ACTIVE ∨
      spa.vd.vdev_trim_state = VDEV_TRIM_SUSPENDED
  · rw [if_pos hs, if_pos hs]
    cases key
    · obtain ⟨e, ne⟩ := vdev_trim_load_key_err spa .LAST_OFFSET spa.vd.vdev_trim_last_offset hbad
      rw [vdev_trim_load_key_congr spa spa1 .LAST_OFFSET _ (hz _ (by decide)), e]
      dsimp only
      rw [if_pos ne, if_pos ne]
    · obtain ⟨e, ne⟩ := vdev_trim_load_key_err spa .RATE spa.vd.vdev_trim_rate hbad
      rw [vdev_trim_load_key_congr spa spa1 .LAST_OFFSET _ (hz _ (by decide)),
        vdev_trim_load_key_congr spa spa1 .RATE _ (hz _ (by decide)), e]
      dsimp only
      rw [if_pos ne, if_pos ne]
    · obtain ⟨e, ne⟩ := vdev_trim_load_key_err spa .PARTIAL spa.vd.vdev_trim_partial hbad
      rw [vdev_trim_load_key_congr spa spa1 .LAST_OFFSET _ (hz _ (by decide)),
        vdev_trim_load_key_congr spa spa1 .RATE _ (hz _ (by decide)),
        vdev_trim_load_key_congr spa spa1 .PARTIAL _ (hz _ (by decide)), e]
      dsimp only
      rw [if_pos ne, if_pos ne]
    · rw [vdev_trim_load_key_congr spa spa1 .LAST_OFFSET _ (hz _ (by decide)),
        vdev_trim_load_key_congr spa spa1 .RATE _ (hz _ (by decide)),
        vdev_trim_load_key_congr spa spa1 .PARTIAL _ (hz _ (by decide)),
        vdev_trim_load_key_congr spa spa1 .SECURE _ (hz _ (by decide))]
  · rw [if_neg hs, if_neg hs]

theorem vdev_trim_calculate_progress_segs_sums (vd : vdev_t) (est done : Nat) :
    ∀ (segs : List range_seg_t) (acc : Nat × Nat),
      vdev_trim_calculate_progress_segs
          { vd with vdev_trim_bytes_est := est, vdev_trim_bytes_done := done } segs acc =
        vdev_trim_calculate_progress_segs vd segs acc := by
  intro segs
  induction segs with
  | nil => intro acc; rfl
  | cons rs rest ih =>
    intro acc
    obtain ⟨e, d⟩ := acc
    rw [vdev_trim_calculate_progress_segs, vdev_trim_calculate_progress_segs]
    exact ih _

theorem vdev_trim_calculate_progress_ms_sums (vd : vdev_t) (est done : Nat) :
    ∀ (ms : List metaslab_t) (acc : Nat × Nat),
      vdev_trim_calculate_progress_ms
          { vd with vdev_trim_bytes_est := est, vdev_trim_bytes_done := done } ms acc =
        vdev_trim_calculate_progress_ms vd ms acc := by
  intro ms
  induction ms with
  | nil => intro acc; rfl
  | cons msp rest ih =>
    intro acc
    obtain ⟨e, d⟩ := acc
    rw [vdev_trim_calculate_progress_ms, vdev_trim_calculate_progress_ms]
    dsimp only
    rw [vdev_trim_calculate_progress_segs_sums]
    simp only [ih]

theorem vdev_trim_calculate_progress_fix (spa spa1 : spa_t)
    (h : vdev_trim_calculate_progress spa = some spa1) :
    vdev_trim_calculate_progress_ms spa1.vd spa1.vdev_ms (0, 0) =
        some (spa1.vd.vdev_trim_bytes_est, spa1.vd.vdev_trim_bytes_done) ∧
      spa1.vdev_ms = spa.vdev_ms ∧ load_frame spa1 = load_frame spa ∧
      (∀ key, trim_setting spa1.vd key = trim_setting spa.vd key) := by
  unfold vdev_trim_calculate_progress at h
  cases hp : vdev_trim_calculate_progress_ms spa.vd spa.vdev_ms (0, 0) with
  | none => rw [hp] at h; cases h
  | some r =>
    obtain ⟨est, done⟩ := r
    rw [hp] at h
    cases h
    refine ⟨?_, rfl, rfl, fun key => by cases key <;> rfl⟩
    dsimp only
    rw [vdev_trim_calculate_progress_ms_sums, hp]

theorem vdev_trim_load_keys_flags (spa : spa_t) :
    (vdev_trim_load_keys spa).2.vdev_top_raidz = spa.vd.vdev_top_raidz ∧
      (vdev_trim_load_keys spa).2.vdev_top_children = spa.vd.vdev_top_children ∧
      load_frame { spa with vd := (vdev_trim_load_keys spa).2 } = load_frame spa := by
  have hV := vdev_trim_load_keys_frame spa
  have a1 := congrArg vdev_t.vdev_top_raidz hV
  have a2 := congrArg vdev_t.vdev_top_children hV
  have a3 := congrArg vdev_t.vdev_trim_state hV
  have a4 := congrArg vdev_t.vdev_trim_action_time hV
  have a5 := congrArg vdev_t.vdev_trim_thread hV
  have a6 := congrArg vdev_t.vdev_offline hV
  have a7 := congrArg vdev_t.vdev_writeable hV
  have a8 := congrArg vdev_t.vdev_top_removing hV
  dsimp only at a1 a2 a3 a4 a5 a6 a7 a8
  refine ⟨a1, a2, ?_⟩
  unfold load_frame
  dsimp only
  rw [a3, a4, a5, a6, a7, a8]

/-- C24: for a leaf whose top-level vdev, when it is a raidz, has children,
`vdev_trim_load` returns, and the sums `vdev_trim_bytes_est` and
`vdev_trim_bytes_done` it leaves are those `vdev_trim_calculate_progress`
computes for the leaf as it then is. For a leaf in state Active or Suspended:
when all four lookups end with success or `ENOENT` it returns 0 and every field
holds the stored value, 0 for a key that is missing; when the lookup of `key`
is the first to end with another error, that error is returned, the fields of
the keys before it are loaded, the fields of the later keys are what they
were, and the result does not depend on what the ZAP holds for the later keys.
For a leaf in any other state it returns 0 and the four fields are what they
were. -/
theorem vdev_trim_load_keys_and_errors (spa : spa_t)
    (hr : spa.vd.vdev_top_raidz = true → spa.vd.vdev_top_children ≠ 0) :
    ∃ err spa1, vdev_trim_load spa = some (err, spa1) ∧
      load_frame spa1 = load_frame spa ∧
      vdev_trim_calculate_progress_ms spa1.vd spa.vdev_ms (0, 0) =
        some (spa1.vd.vdev_trim_bytes_est, spa1.vd.vdev_trim_bytes_done) ∧
      ((spa.vd.vdev_trim_state = VDEV_TRIM_ACTIVE ∨
          spa.vd.vdev_trim_state = VDEV_TRIM_SUSPENDED) →
        ((∀ key, zap_lookup_ok spa key) →
          err = 0 ∧ ∀ key, trim_setting spa1.vd key = zap_found spa key) ∧
        (∀ key : zap_key_t, ¬ zap_lookup_ok spa key →
          (∀ j : zap_key_t, j.order < key.order → zap_lookup_ok spa j) →
          err = (zap_lookup spa key).1 ∧ err ≠ 0 ∧ err ≠ ENOENT ∧
          (∀ j : zap_key_t, j.order < key.order →
            trim_setting spa1.vd j = zap_found spa j) ∧
          (∀ j : zap_key_t, key.order < j.order →
            trim_setting spa1.vd j = trim_setting spa.vd j) ∧
          (∀ spa2 : spa_t, spa2.vd = spa.vd → spa2.vdev_ms = spa.vdev_ms →
            (∀ j : zap_key_t, j.order ≤ key.order → zap_lookup spa2 j = zap_lookup spa j) →
            (vdev_trim_load spa2).map (fun r => (r.1, trim_settings r.2.vd,
                r.2.vd.vdev_trim_bytes_est, r.2.vd.vdev_trim_bytes_done)) =
              some (err, trim_settings spa1.vd, spa1.vd.vdev_trim_bytes_est,
                spa1.vd.vdev_trim_bytes_done)))) ∧
      (¬ (spa.vd.vdev_trim_state = VDEV_TRIM_ACTIVE ∨
          spa.vd.vdev_trim_state = VDEV_TRIM_SUSPENDED) →
        err = 0 ∧ ∀ key, trim_setting spa1.vd key = trim_setting spa.vd key) := by
  obtain ⟨f1, f2, f3⟩ := vdev_trim_load_keys_flags spa
  have hrV : (vdev_trim_load_keys spa).2.vdev_top_raidz = true →
      (vdev_trim_load_keys spa).2.vdev_top_children ≠ 0 := by
    rw [f1, f2]; exact hr
  obtain ⟨r, hp⟩ := vdev_trim_calculate_progress_ms_some (vdev_trim_load_keys spa).2 hrV
    spa.vdev_ms (0, 0)
  obtain ⟨est, done⟩ := r
  have hc : vdev_trim_calculate_progress { spa with vd := (vdev_trim_load_keys spa).2 } =
      some { spa with vd := { (vdev_trim_load_keys spa).2 with
        vdev_trim_bytes_est := est, vdev_trim_bytes_done := done } } := by
    unfold vdev_trim_calculate_progress
    dsimp only
    rw [hp]
  obtain ⟨g1, _, g3, g4⟩ := vdev_trim_calculate_progress_fix _ _ hc
  refine ⟨(vdev_trim_load_keys spa).1, _, ?_, g3.trans f3, g1, fun hs => ⟨fun hok => ?_,
    fun key hbad hok => ?_⟩, fun hs => ?_⟩
  · rw [vdev_trim_load_eq, hc]
  · obtain ⟨e1, e2⟩ := vdev_trim_load_keys_ok spa hs hok
    exact ⟨e1, fun key => (g4 key).trans (e2 key)⟩
  · obtain ⟨e1, e2, e3⟩ := vdev_trim_load_keys_err spa hs key hbad hok
    have hne := vdev_trim_load_key_err spa key 0 hbad
    refine ⟨e1, ?_, ?_, fun j hj => (g4 j).trans (e2 j hj),
      fun j hj => (g4 j).trans (e3 j (Nat.le_of_lt hj)), fun spa2 hvd hms hz => ?_⟩
    · rw [e1]; exact hne.2
    · rw [e1]; exact fun hc2 => hbad (Or.inr hc2)
    · have hk := vdev_trim_load_keys_congr spa spa2 hvd key hbad hz
      rw [vdev_trim_load_eq, hk]
      unfold vdev_trim_calculate_progress
      dsimp only
      rw [hms, hp]
      rfl
  · rw [vdev_trim_load_keys_idle spa hs]
    refine ⟨rfl, fun key => ?_⟩
    have := g4 key
    rw [vdev_trim_load_keys_idle spa hs] at this
    exact this

/-- C24 on a leaf in state Active whose lookup of the third key fails with
`EIO`: the error is returned, the last offset and the rate (missing, so 0) are
loaded, and partial and secure keep the values they had in memory. -/
theorem vdev_trim_load_keys_and_errors_witness :
    (spa_lookup_fault.vd.vdev_top_raidz = true → spa_lookup_fault.vd.vdev_top_children ≠ 0) ∧
    (∃ err spa1, vdev_trim_load spa_lookup_fault = some (err, spa1) ∧
      load_frame spa1 = load_frame spa_lookup_fault ∧
      vdev_trim_calculate_progress_ms spa1.vd spa_lookup_fault.vdev_ms (0, 0) =
        some (spa1.vd.vdev_trim_bytes_est, spa1.vd.vdev_trim_bytes_done) ∧
      ((spa_lookup_fault.vd.vdev_trim_state = VDEV_TRIM_ACTIVE ∨
          spa_lookup_fault.vd.vdev_trim_state = VDEV_TRIM_SUSPENDED) →
        ((∀ key, zap_lookup_ok spa_lookup_fault key) →
          err = 0 ∧ ∀ key, trim_setting spa1.vd key = zap_found spa_lookup_fault key) ∧
        (∀ key : zap_key_t, ¬ zap_lookup_ok spa_lookup_fault key →
          (∀ j : zap_key_t, j.order < key.order → zap_lookup_ok spa_lookup_fault j) →
          err = (zap_lookup spa_lookup_fault key).1 ∧ err ≠ 0 ∧ err ≠ ENOENT ∧
          (∀ j : zap_key_t, j.order < key.order →
            trim_setting spa1.vd j = zap_found spa_lookup_fault j) ∧
          (∀ j : zap_key_t, key.order < j.order →
            trim_setting spa1.vd j = trim_setting spa_lookup_fault.vd j) ∧
          (∀ spa2 : spa_t, spa2.vd = spa_lookup_fault.vd →
            spa2.vdev_ms = spa_lookup_fault.vdev_ms →
            (∀ j : zap_key_t, j.order ≤ key.order →
              zap_lookup spa2 j = zap_lookup spa_lookup_fault j) →
            (vdev_trim_load spa2).map (fun r => (r.1, trim_settings r.2.vd,
                r.2.vd.vdev_trim_bytes_est, r.2.vd.vdev_trim_bytes_done)) =
              some (err, trim_settings spa1.vd, spa1.vd.vdev_trim_bytes_est,
                spa1.vd.vdev_trim_bytes_done)))) ∧
      (¬ (spa_lookup_fault.vd.vdev_trim_state = VDEV_TRIM_ACTIVE ∨
          spa_lookup_fault.vd.vdev_trim_state = VDEV_TRIM_SUSPENDED) →
        err = 0 ∧ ∀ key, trim_setting spa1.vd key = trim_setting spa_lookup_fault.vd key)) ∧
    (vdev_trim_load spa_lookup_fault).map (fun r => (r.1, trim_settings r.2.vd)) =
      some (5, 1077936128, 0, 7, 9) :=
  ⟨(fun h => by cases h),
    vdev_trim_load_keys_and_errors spa_lookup_fault (fun h => by cases h), (by decide)⟩

/-! ## C25: done is at most est -/

theorem vdev_trim_calculate_progress_segs_cons (vd : vdev_t) (rs : range_seg_t)
    (rest : List range_seg_t) (acc : Nat × Nat) :
    vdev_trim_calculate_progress_segs vd (rs :: rest) acc =
      vdev_trim_calculate_progress_segs vd rest
        (vdev_trim_calculate_progress_segs vd [rs] acc) := by
  obtain ⟨est, done⟩ := acc
  rfl

theorem vdev_trim_calculate_progress_segs_one (vd : vdev_t) (rs : range_seg_t)
    (est done : Nat) (hle : done ≤ est)
    (hx : (vd.vdev_xlate ⟨rs.rs_start, rs.rs_end⟩).rs_end < 18446744073709551616)
    (hfit : progress_segs_fit vd [rs] (est, done) = true) :
    (vdev_trim_calculate_progress_segs vd [rs] (est, done)).2 ≤
      (vdev_trim_calculate_progress_segs vd [rs] (est, done)).1 := by
  unfold progress_segs_fit at hfit
  simp only [Bool.and_eq_true] at hfit
  obtain ⟨⟨h1, h2⟩, _⟩ := hfit
  unfold vdev_trim_calculate_progress_segs vdev_trim_calculate_progress_segs
  dsimp only
  generalize vd.vdev_xlate ⟨rs.rs_start, rs.rs_end⟩ = p at *
  unfold u64_fits at h1 h2
  by_cases c1 : vd.vdev_trim_last_offset ≥ p.rs_end
  · rw [if_pos c1] at h2 ⊢
    simp only [decide_eq_true_eq] at h1 h2
    unfold u64_add
    rw [Nat.mod_eq_of_lt h1, Nat.mod_eq_of_lt h2]
    omega
  · rw [if_neg c1] at h2 ⊢
    by_cases c2 : vd.vdev_trim_last_offset > p.rs_start ∧ vd.vdev_trim_last_offset ≤ p.rs_end
    · rw [if_pos c2] at h2 ⊢
      simp only [decide_eq_true_eq] at h1 h2
      unfold u64_add
      rw [Nat.mod_eq_of_lt h1, Nat.mod_eq_of_lt h2]
      unfold u64_sub
      omega
    · rw [if_neg c2]
      simp only [decide_eq_true_eq] at h1
      unfold u64_add
      rw [Nat.mod_eq_of_lt h1]
      omega

theorem vdev_trim_calculate_progress_segs_le (vd : vdev_t) :
    ∀ (segs : List range_seg_t) (est done : Nat), done ≤ est →
      (∀ rs ∈ segs, (vd.vdev_xlate ⟨rs.rs_start, rs.rs_end⟩).rs_end < 18446744073709551616) →
      progress_segs_fit vd segs (est, done) = true →
      (vdev_trim_calculate_progress_segs vd segs (est, done)).2 ≤
        (vdev_trim_calculate_progress_segs vd segs (est, done)).1 := by
  intro segs
  induction segs with
  | nil => intro est done hle _ _; exact hle
  | cons rs rest ih =>
    intro est done hle hx hfit
    have hone : progress_segs_fit vd [rs] (est, done) = true := by
      unfold progress_segs_fit at hfit ⊢
      simp only [Bool.and_eq_true] at hfit ⊢
      exact ⟨hfit.1, rfl⟩
    have hrest : progress_segs_fit vd rest
        (vdev_trim_calculate_progress_segs vd [rs] (est, done)) = true := by
      unfold progress_segs_fit at hfit
      simp only [Bool.and_eq_true] at hfit
      exact hfit.2
    have h1 := vdev_trim_calculate_progress_segs_one vd rs est done hle
      (hx rs (List.mem_cons_self _ _)) hone
    rw [vdev_trim_calculate_progress_segs_cons]
    generalize vdev_trim_calculate_progress_segs vd [rs] (est, done) = acc at h1 hrest
    obtain ⟨e1, d1⟩ := acc
    exact ih e1 d1 h1 (fun r hr => hx r (List.mem_cons_of_mem _ hr)) hrest

theorem vdev_trim_calculate_progress_ms_le (vd : vdev_t) :
    ∀ (ms : List metaslab_t) (est done : Nat) (r : Nat × Nat), done ≤ est →
      (∀ msp ∈ ms, ∀ rs ∈ msp.ms_allocatable,
        (vd.vdev_xlate ⟨rs.rs_start, rs.rs_end⟩).rs_end < 18446744073709551616) →
      progress_ms_fit vd ms (est, done) = true →
      vdev_trim_calculate_progress_ms vd ms (est, done) = some r → r.2 ≤ r.1 := by
  intro ms
  induction ms with
  | nil =>
    intro est done r hle _ _ h
    rw [vdev_trim_calculate_progress_ms] at h
    cases h
    exact hle
  | cons msp rest ih =>
    intro est done r hle hx hfit h
    rw [vdev_trim_calculate_progress_ms] at h
    rw [progress_ms_fit] at hfit
    have hxr : ∀ m ∈ rest, ∀ rs ∈ m.ms_allocatable,
        (vd.vdev_xlate ⟨rs.rs_start, rs.rs_end⟩).rs_end < 18446744073709551616 :=
      fun m hm => hx m (List.mem_cons_of_mem _ hm)
    by_cases c0 : vd.vdev_top_raidz = true ∧ vd.vdev_top_children = 0
    · rw [if_pos c0] at h; cases h
    · rw [if_neg c0] at h
      dsimp only at h hfit
      generalize (if vd.vdev_top_raidz = true then
        u64_sub msp.ms_size msp.ms_allocated_space / vd.vdev_top_children
        else u64_sub msp.ms_size msp.ms_allocated_space) = ms_free at h hfit
      generalize vd.vdev_xlate ⟨msp.ms_start, u64_add msp.ms_start msp.ms_size⟩ = p at h hfit
      by_cases c1 : vd.vdev_trim_last_offset ≤ p.rs_start
      · rw [if_pos c1] at h hfit
        simp only [Bool.and_eq_true] at hfit
        obtain ⟨f1, f2⟩ := hfit
        refine ih _ _ r ?_ hxr f2 h
        unfold u64_fits at f1
        simp only [decide_eq_true_eq] at f1
        unfold u64_add
        rw [Nat.mod_eq_of_lt f1]
        omega
      · rw [if_neg c1] at h hfit
        by_cases c2 : vd.vdev_trim_last_offset > p.rs_end
        · rw [if_pos c2] at h hfit
          simp only [Bool.and_eq_true] at hfit
          obtain ⟨⟨f1, f1'⟩, f2⟩ := hfit
          refine ih _ _ r ?_ hxr f2 h
          unfold u64_fits at f1 f1'
          simp only [decide_eq_true_eq] at f1 f1'
          unfold u64_add
          rw [Nat.mod_eq_of_lt f1, Nat.mod_eq_of_lt f1']
          omega
        · rw [if_neg c2] at h hfit
          simp only [Bool.and_eq_true] at hfit
          obtain ⟨f1, f2⟩ := hfit
          have hs := vdev_trim_calculate_progress_segs_le vd msp.ms_allocatable est done hle
            (hx msp (List.mem_cons_self _ _)) f1
          generalize vdev_trim_calculate_progress_segs vd msp.ms_allocatable (est, done) = acc
            at h hs f2
          obtain ⟨e1, d1⟩ := acc
          exact ih e1 d1 r hs hxr f2 h

theorem vdev_trim_calculate_progress_ms_zero (vd : vdev_t)
    (h0 : vd.vdev_trim_last_offset = 0) :
    ∀ (ms : List metaslab_t) (est done : Nat) (r : Nat × Nat),
      vdev_trim_calculate_progress_ms vd ms (est, done) = some r → r.2 = done := by
  intro ms
  induction ms with
  | nil =>
    intro est done r h
    rw [vdev_trim_calculate_progress_ms] at h
    cases h
    rfl
  | cons msp rest ih =>
    intro est done r h
    rw [vdev_trim_calculate_progress_ms] at h
    by_cases c0 : vd.vdev_top_raidz = true ∧ vd.vdev_top_children = 0
    · rw [if_pos c0] at h; cases h
    · rw [if_neg c0] at h
      dsimp only at h
      rw [if_pos (by rw [h0]; exact Nat.zero_le _)] at h
      exact ih _ _ r h

/-- C25: for a leaf whose top-level vdev, when it is a raidz, has children,
`vdev_trim_calculate_progress` returns; when no addition it makes overflows and
the physical segments end below `2 ^ 64`, it ends with `vdev_trim_bytes_done`
at most `vdev_trim_bytes_est`; and with a last offset of 0 it ends with
`vdev_trim_bytes_done = 0`. -/
theorem vdev_trim_calculate_progress_done_le_est (spa : spa_t)
    (hr : spa.vd.vdev_top_raidz = true → spa.vd.vdev_top_children ≠ 0) :
    ∃ spa1, vdev_trim_calculate_progress spa = some spa1 ∧
      (progress_ms_fit spa.vd spa.vdev_ms (0, 0) = true →
        (∀ msp ∈ spa.vdev_ms, ∀ rs ∈ msp.ms_allocatable,
          (spa.vd.vdev_xlate ⟨rs.rs_start, rs.rs_end⟩).rs_end < 18446744073709551616) →
        spa1.vd.vdev_trim_bytes_done ≤ spa1.vd.vdev_trim_bytes_est) ∧
      (spa.vd.vdev_trim_last_offset = 0 → spa1.vd.vdev_trim_bytes_done = 0) := by
  obtain ⟨r, h⟩ := vdev_trim_calculate_progress_ms_some spa.vd hr spa.vdev_ms (0, 0)
  obtain ⟨est, done⟩ := r
  refine ⟨{ spa with vd := { spa.vd with
      vdev_trim_bytes_est := est, vdev_trim_bytes_done := done } }, ?_, ?_, ?_⟩
  · unfold vdev_trim_calculate_progress
    rw [h]
  · intro hfit hx
    exact vdev_trim_calculate_progress_ms_le spa.vd spa.vdev_ms 0 0 (est, done)
      (Nat.le_refl 0) hx hfit h
  · intro h0
    exact vdev_trim_calculate_progress_ms_zero spa.vd h0 spa.vdev_ms 0 0 (est, done) h

/-- C25 on a leaf that is at offset 20000 of a metaslab with the free segments
`[0, 16 KiB)` and `[1 MiB, 1 MiB + 64 KiB)`: 16384 of 81920 bytes are done. -/
theorem vdev_trim_calculate_progress_done_le_est_witness :
    (spa_midway.vd.vdev_top_raidz = true → spa_midway.vd.vdev_top_children ≠ 0) ∧
    (∃ spa1, vdev_trim_calculate_progress spa_midway = some spa1 ∧
      (progress_ms_fit spa_midway.vd spa_midway.vdev_ms (0, 0) = true →
        (∀ msp ∈ spa_midway.vdev_ms, ∀ rs ∈ msp.ms_allocatable,
          (spa_midway.vd.vdev_xlate ⟨rs.rs_start, rs.rs_end⟩).rs_end <
            18446744073709551616) →
        spa1.vd.vdev_trim_bytes_done ≤ spa1.vd.vdev_trim_bytes_est) ∧
      (spa_midway.vd.vdev_trim_last_offset = 0 → spa1.vd.vdev_trim_bytes_done = 0)) ∧
    progress_ms_fit spa_midway.vd spa_midway.vdev_ms (0, 0) = true ∧
    (∀ msp ∈ spa_midway.vdev_ms, ∀ rs ∈ msp.ms_allocatable,
      (spa_midway.vd.vdev_xlate ⟨rs.rs_start, rs.rs_end⟩).rs_end < 18446744073709551616) ∧
    (vdev_trim_calculate_progress spa_midway).map
        (fun s => (s.vd.vdev_trim_bytes_est, s.vd.vdev_trim_bytes_done)) =
      some (81920, 16384) :=
  ⟨(fun h => by cases h),
    vdev_trim_calculate_progress_done_le_est spa_midway (fun h => by cases h),
    (by decide), (by decide), (by decide)⟩

end VdevTrim
